import Mathlib

set_option autoImplicit false

/-!
# MiniSQL storage engine: buffer pool, B+ tree and index iterator

A shallow embedding of `buffer/lru_replacer.cpp`, `buffer/buffer_pool_manager.cpp`,
`page/b_plus_tree_leaf_page.cpp`, `page/b_plus_tree_internal_page.cpp`,
`index/b_plus_tree.cpp` and `index/index_iterator.cpp`.

Conventions of the embedding.

* A C++ `Page *` (and every node pointer obtained from `page->GetData()`) is the index of a
  frame in `pages_`; a null pointer is `none`.
* Every operation returns `Option`: `none` stands for a run that leaves the defined behaviour
  of the program (a null or out-of-range dereference, a failed `ASSERT`, a thrown
  `runtime_error`) or that exhausts the fuel given to a loop.
* `int` fields are `Int`; in the buffer pool and the tree all values met are far below
  `2^31`. The page id arithmetic of the disk manager is computed in `int32_t`, `uint32_t`
  and `size_t` as in the source (`toInt32`, `toUInt32`, `toSizeT`).
* The three loops of `buffer_pool_manager.cpp` that call `page_table_.erase(it)` and then
  step the iterator (`it++`) leave the defined behaviour of the program whenever an entry is
  erased. `FetchPageStrict`, `NewPageStrict` and `DeletePageStrict` have no result there.
  `FetchPage`, `NewPage` and `DeletePage`, which the tree is built on, read these loops as
  the removal of the entries they are written to erase; they agree with the strict functions
  wherever those have a result. `runStrict` and `TableHeap.InsertTuple` are built on the
  strict functions.
* The tree is the instantiation `BPlusTree<int, int, BasicComparator<int>>` of the source.
-/

namespace MiniSql

/-! ## Common constants -/

/-- The constant `INVALID_PAGE_ID`. -/
def INVALID_PAGE_ID : Int := -1

/-- The constant `INVALID_FRAME_ID`. -/
def INVALID_FRAME_ID : Int := -1

/-- The constant `INDEX_ROOTS_PAGE_ID`: page id 1 holds the index roots -/
def INDEX_ROOTS_PAGE_ID : Int := 1

/-! ## Page contents -/

/-- The enumeration `IndexPageType`; an all-zero page reads as `INVALID_INDEX_PAGE`. -/
inductive IndexPageType where
  | INVALID_INDEX_PAGE
  | LEAF_PAGE
  | INTERNAL_PAGE
deriving DecidableEq, Repr

/-- The bytes of a page read as a B+ tree page: the common header, the leaf's
`next_page_id_` and the pair array `array_`. Entries of `array_` at and beyond `size_`
keep whatever was written there last, as in the source. -/
structure PageData where
  page_type_ : IndexPageType
  size_ : Int
  max_size_ : Int
  parent_page_id_ : Int
  page_id_ : Int
  next_page_id_ : Int
  array_ : List (Int × Int)
deriving DecidableEq, Repr

/-- A page of zero bytes (`Page::ResetMemory`, or a page never written to the file). -/
def PageData.zero : PageData :=
  { page_type_ := IndexPageType.INVALID_INDEX_PAGE, size_ := 0, max_size_ := 0,
    parent_page_id_ := 0, page_id_ := 0, next_page_id_ := 0, array_ := [] }

/-- Reads `array_[i]`; memory never written is zero. -/
def arrGet (a : List (Int × Int)) (i : Int) : Int × Int :=
  a.getD i.toNat (0, 0)

/-- Writes `array_[i] = v`. -/
def arrSet (a : List (Int × Int)) (i : Int) (v : Int × Int) : List (Int × Int) :=
  if i.toNat < a.length then a.set i.toNat v
  else a ++ List.replicate (i.toNat - a.length) (0, 0) ++ [v]

/-! ## LRU replacer (`buffer/lru_replacer.cpp`) -/

/-- The class `LRUReplacer`. -/
structure LRUReplacer where
  lru_list_ : List Int
  max_num_pages : Nat
deriving DecidableEq, Repr

/-- `LRUReplacer::Victim`: the frame written through `frame_id`, if any. -/
def LRUReplacer.Victim (r : LRUReplacer) : Option Int × LRUReplacer :=
  match r.lru_list_ with
  | [] => (none, r)
  | f :: rest => (some f, { r with lru_list_ := rest })

/-- `LRUReplacer::Pin`. `atEnd` is `it == lru_list_.end()`. -/
def LRUReplacer.Pin (r : LRUReplacer) (frame_id : Int) : LRUReplacer :=
  let atEnd := !(r.lru_list_.contains frame_id)
  if r.lru_list_.length != 0 && !(atEnd && r.lru_list_.getLast? != some frame_id) then
    { r with lru_list_ := r.lru_list_.erase frame_id }
  else r

/-- `LRUReplacer::Unpin`. -/
def LRUReplacer.Unpin (r : LRUReplacer) (frame_id : Int) : LRUReplacer :=
  let atEnd := !(r.lru_list_.contains frame_id)
  if r.lru_list_.length == 0 then
    { r with lru_list_ := r.lru_list_ ++ [frame_id] }
  else if atEnd && r.lru_list_.getLast? != some frame_id then
    let l := if r.lru_list_.length == r.max_num_pages then r.lru_list_.tail else r.lru_list_
    { r with lru_list_ := l ++ [frame_id] }
  else
    { r with lru_list_ := r.lru_list_.erase frame_id ++ [frame_id] }

/-- `LRUReplacer::Size`. -/
def LRUReplacer.Size (r : LRUReplacer) : Nat := r.lru_list_.length

/-! ## Disk manager, as the buffer pool uses it -/

/-- The disk manager seen from the buffer pool: one allocation bit per logical page id and
the pages written so far (newest first). Page ids stay below the capacity of the first
extent, where `DiskManager::AllocatePage` returns the offset found by
`BitmapPage::AllocatePage`, the lowest clear bit. -/
structure DiskManager where
  bits : List Bool
  file : List (Int × PageData)
deriving DecidableEq, Repr

/-- Index of the first clear bit (the length of the list if every bit is set). -/
def firstClear : List Bool → Nat
  | [] => 0
  | b :: bs => if b then firstClear bs + 1 else 0

/-- Sets bit `i`, growing the bit array with clear bits as needed. -/
def setBit : List Bool → Nat → Bool → List Bool
  | [], 0, v => [v]
  | [], i + 1, v => false :: setBit [] i v
  | _ :: bs, 0, v => v :: bs
  | b :: bs, i + 1, v => b :: setBit bs i v

/-- `DiskManager::AllocatePage`. -/
def DiskManager.AllocatePage (d : DiskManager) : Int × DiskManager :=
  let i := firstClear d.bits
  ((i : Int), { d with bits := setBit d.bits i true })

/-- `DiskManager::DeAllocatePage`. -/
def DiskManager.DeAllocatePage (d : DiskManager) (logical_page_id : Int) : DiskManager :=
  if logical_page_id.toNat < d.bits.length then
    { d with bits := setBit d.bits logical_page_id.toNat false }
  else d

/-- `DiskManager::WritePage`; the `ASSERT` rejects a negative id. -/
def DiskManager.WritePage (d : DiskManager) (logical_page_id : Int) (data : PageData) :
    Option DiskManager :=
  if logical_page_id < 0 then none
  else some { d with file := (logical_page_id, data) :: d.file }

/-- `DiskManager::ReadPage`; a page never written reads as zero bytes. -/
def DiskManager.ReadPage (d : DiskManager) (logical_page_id : Int) : Option PageData :=
  if logical_page_id < 0 then none
  else some ((d.file.lookup logical_page_id).getD PageData.zero)

/-! ## Buffer pool manager (`buffer/buffer_pool_manager.cpp`) -/

/-- The class `Page`: one frame of the pool. -/
structure Page where
  page_id_ : Int
  pin_count_ : Int
  is_dirty_ : Bool
  data_ : PageData
deriving DecidableEq, Repr

/-- A frame as built by the constructor of `Page`. -/
def Page.fresh : Page :=
  { page_id_ := INVALID_PAGE_ID, pin_count_ := 0, is_dirty_ := false, data_ := PageData.zero }

/-- The class `BufferPoolManager`; `page_table_` is the `unordered_map` as an association
list with at most one entry per key. -/
structure BufferPoolManager where
  pool_size_ : Nat
  pages_ : List Page
  page_table_ : List (Int × Int)
  free_list_ : List Int
  replacer_ : LRUReplacer
  disk_manager_ : DiskManager
deriving DecidableEq, Repr

/-- The constructor `BufferPoolManager::BufferPoolManager`. -/
def BufferPoolManager.create (pool_size : Nat) (disk_manager : DiskManager) :
    BufferPoolManager :=
  { pool_size_ := pool_size,
    pages_ := List.replicate pool_size Page.fresh,
    page_table_ := [],
    free_list_ := (List.range pool_size).map (fun i => (i : Int)),
    replacer_ := { lru_list_ := [], max_num_pages := pool_size },
    disk_manager_ := disk_manager }

/-- The scan `for (i = 0; i < pool_size_; i++) if (pages_[i].page_id_ == page_id) break;`:
index of the first frame holding `page_id`, `none` if the scan runs off the array. -/
def findPage : List Page → Int → Option Nat
  | [], _ => none
  | p :: ps, page_id =>
    if p.page_id_ = page_id then some 0 else (findPage ps page_id).map (· + 1)

/-- Applies `g` to frame `i`. -/
def modifyPage : List Page → Nat → (Page → Page) → List Page
  | [], _, _ => []
  | p :: ps, 0, g => g p :: ps
  | p :: ps, i + 1, g => p :: modifyPage ps i g

/-- The loop `for (auto &temp : page_table_) if (temp.second == frame_id) ...`: first key
mapped to `frame_id`. -/
def tableKeyOf : List (Int × Int) → Int → Option Int
  | [], _ => none
  | (k, v) :: rest, frame_id => if v = frame_id then some k else tableKeyOf rest frame_id

/-- `page_table_.emplace(page_id, frame_id)`: nothing happens when the key is present. -/
def tableEmplace (t : List (Int × Int)) (page_id frame_id : Int) : List (Int × Int) :=
  match t.lookup page_id with
  | some _ => t
  | none => t ++ [(page_id, frame_id)]

/-- Steps 2 to 4 of `FetchPage` once the frame `result` and `frame_id` are chosen. -/
def BufferPoolManager.installFetched (b : BufferPoolManager) (page_id frame_id : Int)
    (result : Option Nat) : Option (Option Nat × BufferPoolManager) := do
  let i ← result
  let old ← b.pages_[i]?
  let disk ← if old.is_dirty_ then b.disk_manager_.WritePage old.page_id_ old.data_
             else some b.disk_manager_
  let data ← disk.ReadPage page_id
  some (some i,
    { b with
      pages_ := modifyPage b.pages_ i (fun _ =>
        { page_id_ := page_id, pin_count_ := 1, is_dirty_ := false, data_ := data }),
      page_table_ := tableEmplace b.page_table_ page_id frame_id,
      disk_manager_ := disk })

/-- `BufferPoolManager::FetchPage`, the loop that erases the entry of the evicted page read as
the removal of that entry (see `FetchPageStrict`). -/
def BufferPoolManager.FetchPage (b : BufferPoolManager) (page_id : Int) :
    Option (Option Nat × BufferPoolManager) :=
  match b.page_table_.lookup page_id with
  | some frame_id =>
    match findPage b.pages_ page_id with
    | none => none
    | some i =>
      some (some i,
        { b with
          pages_ := modifyPage b.pages_ i (fun p => { p with pin_count_ := p.pin_count_ + 1 }),
          replacer_ := b.replacer_.Pin frame_id })
  | none =>
    match b.free_list_ with
    | frame_id :: rest =>
      BufferPoolManager.installFetched { b with free_list_ := rest } page_id frame_id
        (findPage b.pages_ INVALID_PAGE_ID)
    | [] =>
      match b.replacer_.Victim with
      | (none, _) => some (none, b)
      | (some frame_id, rep) =>
        let old := (tableKeyOf b.page_table_ frame_id).getD INVALID_PAGE_ID
        BufferPoolManager.installFetched
          { b with replacer_ := rep,
                   page_table_ := b.page_table_.filter (fun e => e.1 != old) }
          page_id frame_id (findPage b.pages_ old)

/-- The scan of `NewPage` for the frame whose page-table entry is `frame_id`; `none` also
when an id met on the way has no entry (`find` returns `end()`). -/
def findByFrame (table : List (Int × Int)) : List Page → Int → Option Nat
  | [], _ => none
  | p :: ps, frame_id =>
    match table.lookup p.page_id_ with
    | none => none
    | some f => if f = frame_id then some 0 else (findByFrame table ps frame_id).map (· + 1)

/-- The tail of `NewPage` from `page_id = disk_manager_->AllocatePage()` on. -/
def BufferPoolManager.installNew (b : BufferPoolManager) (frame_id : Int)
    (result : Option Nat) : Option ((Option Nat × Int) × BufferPoolManager) := do
  let (page_id, disk0) := b.disk_manager_.AllocatePage
  let i ← result
  let old ← b.pages_[i]?
  let disk ← if old.is_dirty_ then disk0.WritePage old.page_id_ old.data_ else some disk0
  some ((some i, page_id),
    { b with
      pages_ := modifyPage b.pages_ i (fun _ =>
        { page_id_ := page_id, pin_count_ := 1, is_dirty_ := false, data_ := PageData.zero }),
      page_table_ := tableEmplace b.page_table_ page_id frame_id,
      disk_manager_ := disk })

/-- `BufferPoolManager::NewPage`: the returned page and the value left in `page_id`
(`keep` when the call returns before assigning it); the loop that erases the entries of the
victim frame is read as the removal of these entries (see `NewPageStrict`). -/
def BufferPoolManager.NewPage (b : BufferPoolManager) (keep : Int) :
    Option ((Option Nat × Int) × BufferPoolManager) :=
  match b.free_list_ with
  | frame_id :: rest =>
    BufferPoolManager.installNew { b with free_list_ := rest } frame_id
      (findPage b.pages_ INVALID_PAGE_ID)
  | [] =>
    match b.replacer_.Victim with
    | (none, _) => some ((none, keep), b)
    | (some frame_id, rep) =>
      BufferPoolManager.installNew
        { b with replacer_ := rep,
                 page_table_ := b.page_table_.filter (fun e => e.2 != frame_id) }
        frame_id (findByFrame b.page_table_ b.pages_ frame_id)

/-- `BufferPoolManager::DeletePage`, the loop that erases the entries of the frame read as the
removal of these entries (see `DeletePageStrict`). -/
def BufferPoolManager.DeletePage (b : BufferPoolManager) (page_id : Int) :
    Option (Bool × BufferPoolManager) :=
  match b.page_table_.lookup page_id with
  | none => some (true, b)
  | some frame_id =>
    match findPage b.pages_ page_id with
    | none => none
    | some i =>
      match b.pages_[i]? with
      | none => none
      | some p =>
        if p.pin_count_ != 0 then some (false, b)
        else
          some (true,
            { b with
              page_table_ := b.page_table_.filter (fun e => e.2 != frame_id),
              pages_ := modifyPage b.pages_ i (fun q =>
                { q with page_id_ := INVALID_PAGE_ID, is_dirty_ := false }),
              free_list_ := b.free_list_ ++ [frame_id],
              replacer_ := b.replacer_.Pin frame_id,
              disk_manager_ := b.disk_manager_.DeAllocatePage page_id })

/-- `BufferPoolManager::UnpinPage`. -/
def BufferPoolManager.UnpinPage (b : BufferPoolManager) (page_id : Int) (is_dirty : Bool) :
    Option (Bool × BufferPoolManager) :=
  match b.page_table_.lookup page_id with
  | none => some (false, b)
  | some frame_id =>
    match findPage b.pages_ page_id with
    | none => none
    | some i =>
      match b.pages_[i]? with
      | none => none
      | some p =>
        if p.pin_count_ > 0 then
          let rep := if p.pin_count_ - 1 = 0 then b.replacer_.Unpin frame_id else b.replacer_
          some (true,
            { b with
              pages_ := modifyPage b.pages_ i (fun q =>
                { q with pin_count_ := q.pin_count_ - 1,
                         is_dirty_ := if is_dirty then true else q.is_dirty_ }),
              replacer_ := rep })
        else some (false, b)

/-- `BufferPoolManager::FlushPage`. -/
def BufferPoolManager.FlushPage (b : BufferPoolManager) (page_id : Int) :
    Option (Bool × BufferPoolManager) :=
  if page_id = INVALID_PAGE_ID then some (false, b)
  else
    match b.page_table_.lookup page_id with
    | none => some (false, b)
    | some _ =>
      match findPage b.pages_ page_id with
      | none => none
      | some i =>
        match b.pages_[i]? with
        | none => none
        | some p =>
          match b.disk_manager_.WritePage page_id p.data_ with
          | none => none
          | some disk => some (true, { b with disk_manager_ := disk })

/-! ### The erase loops as C++ defines them -/

/-- The loop `for (auto it = page_table_.begin(); it != page_table_.end(); it++)
if (cond(*it)) page_table_.erase(it);`. `erase(it)` invalidates `it`, so the `it++` that
follows an erase leaves the defined behaviour of the program: the loop has a result only when
it erases nothing, and then the table is as before. -/
def eraseLoop (cond : Int × Int → Bool) : List (Int × Int) → Option (List (Int × Int))
  | [] => some []
  | e :: rest => if cond e then none else (eraseLoop cond rest).map (fun r => e :: r)

/-- `BufferPoolManager::FetchPage` with the erase loop as C++ defines it. -/
def BufferPoolManager.FetchPageStrict (b : BufferPoolManager) (page_id : Int) :
    Option (Option Nat × BufferPoolManager) :=
  match b.page_table_.lookup page_id with
  | some frame_id =>
    match findPage b.pages_ page_id with
    | none => none
    | some i =>
      some (some i,
        { b with
          pages_ := modifyPage b.pages_ i (fun p => { p with pin_count_ := p.pin_count_ + 1 }),
          replacer_ := b.replacer_.Pin frame_id })
  | none =>
    match b.free_list_ with
    | frame_id :: rest =>
      BufferPoolManager.installFetched { b with free_list_ := rest } page_id frame_id
        (findPage b.pages_ INVALID_PAGE_ID)
    | [] =>
      match b.replacer_.Victim with
      | (none, _) => some (none, b)
      | (some frame_id, rep) =>
        let old := (tableKeyOf b.page_table_ frame_id).getD INVALID_PAGE_ID
        match eraseLoop (fun e => e.1 == old) b.page_table_ with
        | none => none
        | some table =>
          BufferPoolManager.installFetched { b with replacer_ := rep, page_table_ := table }
            page_id frame_id (findPage b.pages_ old)

/-- `BufferPoolManager::NewPage` with the erase loop as C++ defines it. -/
def BufferPoolManager.NewPageStrict (b : BufferPoolManager) (keep : Int) :
    Option ((Option Nat × Int) × BufferPoolManager) :=
  match b.free_list_ with
  | frame_id :: rest =>
    BufferPoolManager.installNew { b with free_list_ := rest } frame_id
      (findPage b.pages_ INVALID_PAGE_ID)
  | [] =>
    match b.replacer_.Victim with
    | (none, _) => some ((none, keep), b)
    | (some frame_id, rep) =>
      match eraseLoop (fun e => e.2 == frame_id) b.page_table_ with
      | none => none
      | some table =>
        BufferPoolManager.installNew { b with replacer_ := rep, page_table_ := table }
          frame_id (findByFrame b.page_table_ b.pages_ frame_id)

/-- `BufferPoolManager::DeletePage` with the erase loop as C++ defines it. -/
def BufferPoolManager.DeletePageStrict (b : BufferPoolManager) (page_id : Int) :
    Option (Bool × BufferPoolManager) :=
  match b.page_table_.lookup page_id with
  | none => some (true, b)
  | some frame_id =>
    match findPage b.pages_ page_id with
    | none => none
    | some i =>
      match b.pages_[i]? with
      | none => none
      | some p =>
        if p.pin_count_ != 0 then some (false, b)
        else
          match eraseLoop (fun e => e.2 == frame_id) b.page_table_ with
          | none => none
          | some table =>
            some (true,
              { b with
                page_table_ := table,
                pages_ := modifyPage b.pages_ i (fun q =>
                  { q with page_id_ := INVALID_PAGE_ID, is_dirty_ := false }),
                free_list_ := b.free_list_ ++ [frame_id],
                replacer_ := b.replacer_.Pin frame_id,
                disk_manager_ := b.disk_manager_.DeAllocatePage page_id })

/-- `BufferPoolManager::CheckAllUnpinned`. -/
def BufferPoolManager.CheckAllUnpinned (b : BufferPoolManager) : Bool :=
  b.pages_.all (fun p => p.pin_count_ == 0)

/-- The contents of frame `f` read as a B+ tree page. -/
def BufferPoolManager.node (b : BufferPoolManager) (f : Nat) : PageData :=
  ((b.pages_[f]?).getD Page.fresh).data_

/-- Applies `g` to the contents of frame `f` (a write through a node pointer). -/
def BufferPoolManager.setNode (b : BufferPoolManager) (f : Nat) (g : PageData → PageData) :
    BufferPoolManager :=
  { b with pages_ := modifyPage b.pages_ f (fun p => { p with data_ := g p.data_ }) }

/-- `Page::GetPageId` of frame `f`. -/
def BufferPoolManager.framePageId (b : BufferPoolManager) (f : Nat) : Int :=
  ((b.pages_[f]?).getD Page.fresh).page_id_

/-! ## B+ tree pages: header helpers -/

/-- `BasicComparator<int>`: negative, zero or positive as `a` is below, equal to or above
`b`. The comparator header is not part of the sources at hand. -/
def comparator (a b : Int) : Int :=
  if a < b then -1 else if a > b then 1 else 0

/-- Integer division of C++ (`int / int`, truncating). -/
def cdiv (a b : Int) : Int := Int.tdiv a b

/-- `BPlusTreePage::IsLeafPage`. -/
def PageData.IsLeafPage (p : PageData) : Bool :=
  p.page_type_ == IndexPageType.LEAF_PAGE

/-- `BPlusTreePage::IsRootPage`. The header class is not part of the sources at hand; a
page header carries no field but `parent_page_id_` that can tell a root. -/
def PageData.IsRootPage (p : PageData) : Bool :=
  p.parent_page_id_ == INVALID_PAGE_ID

/-- Modelled from the spec: `BPlusTreePage::GetMinSize` is not part of the sources at hand;
the spec gives leaf min = ceil(max_size/2) and internal min = ceil(max_size/2)+1. -/
def PageData.GetMinSize (p : PageData) : Int :=
  if p.IsLeafPage then cdiv (p.max_size_ + 1) 2 else cdiv (p.max_size_ + 1) 2 + 1

/-- `BPlusTreePage::IncreaseSize`. -/
def PageData.IncreaseSize (p : PageData) (amount : Int) : PageData :=
  { p with size_ := p.size_ + amount }

/-- The loop `for (i = hi; i >= lo; i--) array_[i + 1] = array_[i];`, `n` steps at most. -/
def shiftRight (lo : Int) : Nat → Int → List (Int × Int) → List (Int × Int)
  | 0, _, a => a
  | n + 1, i, a =>
    if i >= lo then shiftRight lo n (i - 1) (arrSet a (i + 1) (arrGet a i)) else a

/-- The loop `for (i = lo; i < size - 1; i++) array_[i] = array_[i + 1];`. -/
def shiftLeft (size : Int) : Nat → Int → List (Int × Int) → List (Int × Int)
  | 0, _, a => a
  | n + 1, i, a =>
    if i < size - 1 then shiftLeft size n (i + 1) (arrSet a i (arrGet a (i + 1))) else a

/-- The loop `for (i = 0; i < n; i++) dst[d + i] = src[s + i];` between two pages. -/
def copyN (src : List (Int × Int)) : Nat → Int → Int → List (Int × Int) → List (Int × Int)
  | 0, _, _, dst => dst
  | n + 1, s, d, dst => copyN src n (s + 1) (d + 1) (arrSet dst d (arrGet src s))

/-! ## Leaf page (`page/b_plus_tree_leaf_page.cpp`) -/

/-- `BPlusTreeLeafPage::Init`. -/
def LeafPage.Init (p : PageData) (page_id parent_id max_size : Int) : PageData :=
  { p with parent_page_id_ := parent_id, page_id_ := page_id,
           page_type_ := IndexPageType.LEAF_PAGE, next_page_id_ := INVALID_PAGE_ID,
           max_size_ := max_size, size_ := 0 }

/-- The loop of `BPlusTreeLeafPage::KeyIndex`. -/
def keyIndexLoop (a : List (Int × Int)) (key size : Int) : Nat → Int → Int
  | 0, i => i
  | n + 1, i =>
    if i < size then
      if comparator (arrGet a i).1 key >= 0 then i else keyIndexLoop a key size n (i + 1)
    else i

/-- `BPlusTreeLeafPage::KeyIndex`. -/
def LeafPage.KeyIndex (p : PageData) (key : Int) : Int :=
  keyIndexLoop p.array_ key p.size_ p.size_.toNat 0

/-- `KeyAt` of both page classes. -/
def PageData.KeyAt (p : PageData) (index : Int) : Int := (arrGet p.array_ index).1

/-- `BPlusTreeInternalPage::ValueAt`. -/
def PageData.ValueAt (p : PageData) (index : Int) : Int := (arrGet p.array_ index).2

/-- `BPlusTreeLeafPage::GetItem`. -/
def LeafPage.GetItem (p : PageData) (index : Int) : Int × Int := arrGet p.array_ index

/-- `BPlusTreeInternalPage::SetKeyAt`. -/
def PageData.SetKeyAt (p : PageData) (index key : Int) : PageData :=
  { p with array_ := arrSet p.array_ index (key, (arrGet p.array_ index).2) }

/-- `BPlusTreeInternalPage::SetValueAt`. -/
def PageData.SetValueAt (p : PageData) (index value : Int) : PageData :=
  { p with array_ := arrSet p.array_ index ((arrGet p.array_ index).1, value) }

/-- The search loop of `BPlusTreeLeafPage::Insert`; `none` is the `assert(0)`. -/
def leafInsertLoop (a : List (Int × Int)) (key : Int) : Nat → Int → Int → Option Int
  | 0, _, _ => none
  | n + 1, low, high =>
    if low < high && low + 1 != high then
      let mid := low + cdiv (high - low) 2
      if comparator key (arrGet a mid).1 < 0 then leafInsertLoop a key n low mid
      else if comparator key (arrGet a mid).1 > 0 then leafInsertLoop a key n mid high
      else none
    else some high

/-- `BPlusTreeLeafPage::Insert`: the page afterwards (the returned size is its `size_`). -/
def LeafPage.Insert (p : PageData) (key value : Int) : Option PageData :=
  if p.size_ = 0 ∨ comparator key (p.KeyAt (p.size_ - 1)) > 0 then
    some ({ p with array_ := arrSet p.array_ p.size_ (key, value) }.IncreaseSize 1)
  else if comparator key (arrGet p.array_ 0).1 < 0 then
    let a := shiftRight 0 p.size_.toNat (p.size_ - 1) p.array_
    some ({ p with array_ := arrSet a 0 (key, value) }.IncreaseSize 1)
  else
    match leafInsertLoop p.array_ key (p.size_.toNat + 1) 0 (p.size_ - 1) with
    | none => none
    | some high =>
      let a := shiftRight high p.size_.toNat (p.size_ - 1) p.array_
      some ({ p with array_ := arrSet a high (key, value) }.IncreaseSize 1)

/-- `BPlusTreeLeafPage::CopyNFrom`, reading `size` items of `src` from index `start`. -/
def LeafPage.CopyNFrom (p : PageData) (src : List (Int × Int)) (start size : Int) : PageData :=
  { p with array_ := copyN src size.toNat start p.size_ p.array_ }.IncreaseSize size

/-- `BPlusTreeLeafPage::MoveHalfTo(recipient, buffer_pool_manager)`: the donor and the
recipient afterwards. -/
def LeafPage.MoveHalfTo (p recipient : PageData) : PageData × PageData :=
  let half := cdiv p.size_ 2
  (p.IncreaseSize (-1 * half), LeafPage.CopyNFrom recipient p.array_ (p.size_ - half) half)

/-- The search loop shared by `Lookup` and `RemoveAndDeleteRecord` of the leaf page: the
index of the hit, if any. The outer `none` is a loop out of fuel. -/
def leafSearchLoop (a : List (Int × Int)) (key : Int) : Nat → Int → Int → Option (Option Int)
  | 0, _, _ => none
  | n + 1, low, high =>
    if low <= high then
      let mid := low + cdiv (high - low) 2
      if comparator key (arrGet a mid).1 > 0 then leafSearchLoop a key n (mid + 1) high
      else if comparator key (arrGet a mid).1 < 0 then leafSearchLoop a key n low (mid - 1)
      else some (some mid)
    else some none

/-- `BPlusTreeLeafPage::Lookup`: the value stored through `value` on a hit. -/
def LeafPage.Lookup (p : PageData) (key : Int) : Option (Option Int) :=
  if p.size_ = 0 ∨ comparator key (p.KeyAt 0) < 0 ∨
      comparator key (p.KeyAt (p.size_ - 1)) > 0 then some none
  else
    match leafSearchLoop p.array_ key (p.size_.toNat + 1) 0 (p.size_ - 1) with
    | none => none
    | some none => some none
    | some (some mid) => some (some (arrGet p.array_ mid).2)

/-- `BPlusTreeLeafPage::RemoveAndDeleteRecord`: the page afterwards (the returned size is
its `size_`). -/
def LeafPage.RemoveAndDeleteRecord (p : PageData) (key : Int) : Option PageData :=
  if p.size_ = 0 ∨ comparator key (p.KeyAt 0) < 0 ∨
      comparator key (p.KeyAt (p.size_ - 1)) > 0 then some p
  else
    match leafSearchLoop p.array_ key (p.size_.toNat + 1) 0 (p.size_ - 1) with
    | none => none
    | some none => some p
    | some (some mid) =>
      some ({ p with array_ := shiftLeft p.size_ p.size_.toNat mid p.array_ }.IncreaseSize (-1))

/-- `BPlusTreeLeafPage::CopyLastFrom`. -/
def LeafPage.CopyLastFrom (p : PageData) (item : Int × Int) : PageData :=
  { p with array_ := arrSet p.array_ p.size_ item }.IncreaseSize 1

/-! ## Internal page (`page/b_plus_tree_internal_page.cpp`), the part without the pool -/

/-- `BPlusTreeInternalPage::Init`. -/
def InternalPage.Init (p : PageData) (page_id parent_id max_size : Int) : PageData :=
  { p with page_type_ := IndexPageType.INTERNAL_PAGE, page_id_ := page_id,
           parent_page_id_ := parent_id, size_ := 1, max_size_ := max_size }

/-- The loop of `BPlusTreeInternalPage::ValueIndex`. -/
def valueIndexLoop (a : List (Int × Int)) (value size : Int) : Nat → Int → Int
  | 0, i => i
  | n + 1, i =>
    if i < size then
      if (arrGet a i).2 = value then i else valueIndexLoop a value size n (i + 1)
    else i

/-- `BPlusTreeInternalPage::ValueIndex`. -/
def InternalPage.ValueIndex (p : PageData) (value : Int) : Int :=
  valueIndexLoop p.array_ value p.size_ p.size_.toNat 0

/-- The search loop of `BPlusTreeInternalPage::Lookup`: the child returned; `none` is a loop
out of fuel. -/
def internalLookupLoop (a : List (Int × Int)) (key : Int) : Nat → Int → Int → Option Int
  | 0, _, _ => none
  | n + 1, low, high =>
    if low < high && low + 1 != high then
      let mid := low + cdiv (high - low) 2
      if comparator key (arrGet a mid).1 < 0 then internalLookupLoop a key n low mid
      else if comparator key (arrGet a mid).1 > 0 then internalLookupLoop a key n mid high
      else some (arrGet a mid).2
    else some (arrGet a low).2

/-- `BPlusTreeInternalPage::Lookup`. -/
def InternalPage.Lookup (p : PageData) (key : Int) : Option Int :=
  if comparator key (arrGet p.array_ 1).1 < 0 then some (arrGet p.array_ 0).2
  else if comparator key (arrGet p.array_ (p.size_ - 1)).1 >= 0 then
    some (arrGet p.array_ (p.size_ - 1)).2
  else internalLookupLoop p.array_ key (p.size_.toNat + 1) 1 (p.size_ - 1)

/-- `BPlusTreeInternalPage::PopulateNewRoot`. -/
def InternalPage.PopulateNewRoot (p : PageData) (old_value new_key new_value : Int) :
    PageData :=
  let a := arrSet p.array_ 0 ((arrGet p.array_ 0).1, old_value)
  { p with array_ := arrSet a 1 (new_key, new_value) }.IncreaseSize 1

/-- The loop of `BPlusTreeInternalPage::InsertNodeAfter`. -/
def insertNodeAfterLoop (old_value new_key new_value : Int) : Nat → Int → PageData → PageData
  | 0, _, p => p
  | n + 1, i, p =>
    if i >= 0 then
      if (arrGet p.array_ i).2 = old_value then
        { p with array_ := arrSet p.array_ (i + 1) (new_key, new_value) }.IncreaseSize 1
      else
        insertNodeAfterLoop old_value new_key new_value n (i - 1)
          { p with array_ := arrSet p.array_ (i + 1) (arrGet p.array_ i) }
    else p

/-- `BPlusTreeInternalPage::InsertNodeAfter`: the page afterwards. -/
def InternalPage.InsertNodeAfter (p : PageData) (old_value new_key new_value : Int) :
    PageData :=
  insertNodeAfterLoop old_value new_key new_value p.size_.toNat (p.size_ - 1) p

/-- `BPlusTreeInternalPage::Remove`. -/
def InternalPage.Remove (p : PageData) (index : Int) : PageData :=
  { p with array_ := shiftLeft p.size_ p.size_.toNat index p.array_ }.IncreaseSize (-1)

/-! ## Page operations that go through the buffer pool -/

/-- `FetchPage` followed by a dereference of the returned pointer. -/
def BufferPoolManager.fetchNode (b : BufferPoolManager) (page_id : Int) :
    Option (Nat × BufferPoolManager) :=
  match b.FetchPage page_id with
  | some (some f, b1) => some (f, b1)
  | _ => none

/-- The second loop of `CopyHalfFrom` / `CopyNFrom` of the internal page: each moved child is
fetched, given `self` as parent and unpinned dirty. `items` is the array of frame `src`
from index `start`. -/
def adoptLoop (self src : Nat) (start : Int) :
    Nat → Int → BufferPoolManager → Option BufferPoolManager
  | 0, _, b => some b
  | n + 1, i, b => do
    let (c, b1) ← b.fetchNode (arrGet (b.node src).array_ (start + i)).2
    let b2 := b1.setNode c (fun d => { d with parent_page_id_ := (b1.node self).page_id_ })
    let (_, b3) ← b2.UnpinPage (b2.node c).page_id_ true
    adoptLoop self src start n (i + 1) b3

/-- `BPlusTreeInternalPage::CopyHalfFrom` on frame `self`. -/
def InternalPage.CopyHalfFrom (b : BufferPoolManager) (self src : Nat) (start size : Int) :
    Option BufferPoolManager :=
  let b1 := b.setNode self (fun d =>
    { d with array_ := copyN (b.node src).array_ size.toNat start (d.size_ - 1) d.array_ }.IncreaseSize
      size)
  adoptLoop self src start size.toNat 0 b1

/-- `BPlusTreeInternalPage::CopyNFrom` on frame `self`. -/
def InternalPage.CopyNFrom (b : BufferPoolManager) (self src : Nat) (start size : Int) :
    Option BufferPoolManager :=
  let b1 := b.setNode self (fun d =>
    { d with array_ := copyN (b.node src).array_ size.toNat start d.size_ d.array_ }.IncreaseSize
      size)
  adoptLoop self src start size.toNat 0 b1

/-- `BPlusTreeInternalPage::MoveHalfTo` on frame `self`. -/
def InternalPage.MoveHalfTo (b : BufferPoolManager) (self recipient : Nat) :
    Option BufferPoolManager := do
  let half := cdiv ((b.node self).size_ + 1) 2
  let b1 ← InternalPage.CopyHalfFrom b recipient self ((b.node self).size_ - half) half
  let b2 := b1.setNode recipient (fun d => d.IncreaseSize (-1))
  some (b2.setNode self (fun d => d.IncreaseSize (-1 * half)))

/-- `BPlusTreeInternalPage::MoveAllTo` on frame `self`. -/
def InternalPage.MoveAllTo (b : BufferPoolManager) (self recipient : Nat) (middle_key : Int) :
    Option BufferPoolManager := do
  let (parent, b1) ← b.fetchNode (b.node self).parent_page_id_
  let b2 := b1.setNode self (fun d => d.SetKeyAt 0 middle_key)
  let (_, b3) ← b2.UnpinPage (b2.node parent).page_id_ true
  InternalPage.CopyNFrom b3 recipient self 0 (b3.node self).size_

/-- `BPlusTreeInternalPage::CopyLastFrom` on frame `self`. -/
def InternalPage.CopyLastFrom (b : BufferPoolManager) (self : Nat) (pair : Int × Int) :
    Option BufferPoolManager := do
  let b1 := b.setNode self (fun d =>
    { d with array_ := arrSet d.array_ d.size_ pair }.IncreaseSize 1)
  let (child, b2) ← b1.fetchNode pair.2
  let b3 := b2.setNode child (fun d => { d with parent_page_id_ := (b2.node self).page_id_ })
  let (_, b4) ← b3.UnpinPage (b3.node child).page_id_ true
  some b4

/-- `BPlusTreeInternalPage::MoveFirstToEndOf` on frame `self`. -/
def InternalPage.MoveFirstToEndOf (b : BufferPoolManager) (self recipient : Nat) :
    Option BufferPoolManager := do
  let temp : Int × Int := ((arrGet (b.node self).array_ 0).1, (b.node self).ValueAt 0)
  let (parent, b1) ← b.fetchNode (b.node self).parent_page_id_
  let b2 := b1.setNode parent (fun d =>
    d.SetKeyAt (InternalPage.ValueIndex d (b1.node self).page_id_)
      (arrGet (b1.node self).array_ 1).1)
  let (_, b3) ← b2.UnpinPage (b2.node parent).page_id_ true
  let b4 ← InternalPage.CopyLastFrom b3 recipient temp
  let b5 := b4.setNode self (fun d => d.SetValueAt 0 (arrGet d.array_ 1).2)
  some (b5.setNode self (fun d => InternalPage.Remove d 1))

/-- `BPlusTreeInternalPage::CopyFirstFrom` on frame `self`. -/
def InternalPage.CopyFirstFrom (b : BufferPoolManager) (self : Nat) (pair : Int × Int) :
    Option BufferPoolManager := do
  let (parent, b1) ← b.fetchNode (b.node self).parent_page_id_
  let index := InternalPage.ValueIndex (b1.node parent) (b1.node self).page_id_
  let b2 := b1.setNode self (fun d =>
    { d with array_ := shiftRight 0 d.size_.toNat (d.size_ - 1) d.array_ })
  let b3 := b2.setNode parent (fun d => d.SetKeyAt index pair.1)
  let b4 := b3.setNode self (fun d => { d with array_ := arrSet d.array_ 0 pair }.IncreaseSize 1)
  let (_, b5) ← b4.UnpinPage (b4.node parent).page_id_ true
  some b5

/-- `BPlusTreeInternalPage::MoveLastToFrontOf` on frame `self`. -/
def InternalPage.MoveLastToFrontOf (b : BufferPoolManager) (self recipient : Nat)
    (middle_key : Int) : Option BufferPoolManager := do
  let last := arrGet (b.node self).array_ ((b.node self).size_ - 1)
  let temp : Int × Int := (middle_key, last.2)
  let child_id := temp.2
  let b1 ← InternalPage.CopyFirstFrom b recipient temp
  let (child, b2) ← b1.fetchNode child_id
  let b3 := b2.setNode child (fun d =>
    { d with parent_page_id_ := (b2.node recipient).page_id_ })
  let (_, b4) ← b3.UnpinPage (b3.node child).page_id_ true
  some (b4.setNode self (fun d => d.IncreaseSize (-1)))

/-- `BPlusTreeLeafPage::MoveAllTo(recipient, middle_key, buffer_pool_manager)`. -/
def LeafPage.MoveAllTo (b : BufferPoolManager) (self recipient : Nat) : BufferPoolManager :=
  let b1 := b.setNode recipient (fun d =>
    LeafPage.CopyNFrom d (b.node self).array_ 0 (b.node self).size_)
  b1.setNode recipient (fun d => { d with next_page_id_ := (b1.node self).next_page_id_ })

/-- `BPlusTreeLeafPage::MoveFirstToEndOf(recipient, middle_key, buffer_pool_manager)`. -/
def LeafPage.MoveFirstToEndOf (b : BufferPoolManager) (self recipient : Nat) :
    Option BufferPoolManager := do
  let (parent, b1) ← b.fetchNode (b.node self).parent_page_id_
  let b2 := b1.setNode parent (fun d =>
    d.SetKeyAt (InternalPage.ValueIndex d (b1.node self).page_id_)
      (arrGet (b1.node self).array_ 1).1)
  let (_, b3) ← b2.UnpinPage (b2.node self).parent_page_id_ true
  let b4 := b3.setNode recipient (fun d => LeafPage.CopyLastFrom d (arrGet (b3.node self).array_ 0))
  some (b4.setNode self (fun d =>
    { d with array_ := shiftLeft d.size_ d.size_.toNat 0 d.array_ }.IncreaseSize (-1)))

/-- `BPlusTreeLeafPage::CopyFirstFrom(item, middle_key, bufferPoolManager_)`. -/
def LeafPage.CopyFirstFrom (b : BufferPoolManager) (self : Nat) (item : Int × Int) :
    Option BufferPoolManager := do
  let b1 := b.setNode self (fun d =>
    { d with array_ := arrSet (shiftRight 0 d.size_.toNat (d.size_ - 1) d.array_) 0 item }.IncreaseSize
      1)
  let (parent, b2) ← b1.fetchNode (b1.node self).parent_page_id_
  let index := InternalPage.ValueIndex (b2.node parent) (b2.node self).page_id_
  let b3 := b2.setNode parent (fun d => d.SetKeyAt index item.1)
  let (_, b4) ← b3.UnpinPage (b3.node self).parent_page_id_ true
  some b4

/-- `BPlusTreeLeafPage::MoveLastToFrontOf(recipient, middle_key, buffer_pool_manager)`. -/
def LeafPage.MoveLastToFrontOf (b : BufferPoolManager) (self recipient : Nat) :
    Option BufferPoolManager := do
  let b1 ← LeafPage.CopyFirstFrom b recipient
    (arrGet (b.node self).array_ ((b.node self).size_ - 1))
  some (b1.setNode self (fun d => d.IncreaseSize (-1)))

/-! ## B+ tree (`index/b_plus_tree.cpp`) -/

/-- The class `BPlusTree`. -/
structure BPlusTree where
  index_id_ : Int
  buffer_pool_manager_ : BufferPoolManager
  leaf_max_size_ : Int
  internal_max_size_ : Int
  root_page_id_ : Int
deriving DecidableEq, Repr

/-- The constructor `BPlusTree::BPlusTree`. -/
def BPlusTree.create (index_id : Int) (buffer_pool_manager : BufferPoolManager)
    (leaf_max_size internal_max_size : Int) : BPlusTree :=
  { index_id_ := index_id, buffer_pool_manager_ := buffer_pool_manager,
    leaf_max_size_ := leaf_max_size, internal_max_size_ := internal_max_size,
    root_page_id_ := INVALID_PAGE_ID }

/-- `BPlusTree::IsEmpty`. -/
def BPlusTree.IsEmpty (t : BPlusTree) : Bool := t.root_page_id_ == INVALID_PAGE_ID

/-- `BPlusTree::Check`. -/
def BPlusTree.Check (t : BPlusTree) : Bool := t.buffer_pool_manager_.CheckAllUnpinned

/-- The loop `while (page_id < 2) { temp.push_back(page_id); page = NewPage(page_id); }`
that follows a `NewPage` in the tree: the last page, its id and the ids set aside. -/
def skipReservedLoop :
    Nat → Option Nat → Int → List Int → BufferPoolManager →
      Option ((Option Nat × Int × List Int) × BufferPoolManager)
  | 0, _, _, _, _ => none
  | n + 1, page, page_id, temp, b =>
    if page_id < 2 then
      match b.NewPage page_id with
      | none => none
      | some ((page1, page_id1), b1) => skipReservedLoop n page1 page_id1 (temp ++ [page_id]) b1
    else some ((page, page_id, temp), b)

/-- The loop `while (temp.size() != 0) { UnpinPage(temp.back(), false);
DeletePage(temp.back()); temp.pop_back(); }`, on the reversed list. -/
def releaseReserved : List Int → BufferPoolManager → Option BufferPoolManager
  | [], b => some b
  | id :: rest, b => do
    let (_, b1) ← b.UnpinPage id false
    let (_, b2) ← b1.DeletePage id
    releaseReserved rest b2

/-- The allocation idiom of the tree: `NewPage`, skip the ids below 2, release them, then
use the page (a null page ends the run: it is dereferenced or `runtime_error` is thrown).
Returns the frame and the id of the new page. -/
def newTreePage (fuel : Nat) (b : BufferPoolManager) (keep : Int) :
    Option ((Nat × Int) × BufferPoolManager) := do
  let ((page0, id0), b1) ← b.NewPage keep
  let ((page, page_id, temp), b2) ← skipReservedLoop fuel page0 id0 [] b1
  let b3 ← releaseReserved temp.reverse b2
  let f ← page
  some ((f, page_id), b3)

/-- `BPlusTree::UpdateRootPageId`. The record kept on the index-roots page
(`IndexRootsPage::Insert` / `Update`, not part of the sources at hand) is not read by any
tree operation and is left out. -/
def BPlusTree.UpdateRootPageId (t : BPlusTree) (_insert_record : Bool) : Option BPlusTree := do
  let (page, b1) ← t.buffer_pool_manager_.fetchNode INDEX_ROOTS_PAGE_ID
  let (_, b2) ← b1.UnpinPage (b1.framePageId page) true
  let (_, b3) ← b2.UnpinPage INDEX_ROOTS_PAGE_ID true
  some { t with buffer_pool_manager_ := b3 }

/-- The descent loop of `BPlusTree::FindLeafPage`; `page` is the frame of `node`. -/
def findLeafLoop (key : Int) (leftMost : Bool) :
    Nat → Nat → BufferPoolManager → Option (Option Nat × BufferPoolManager)
  | 0, _, _ => none
  | n + 1, page, b =>
    if (b.node page).IsLeafPage then do
      let (_, b1) ← b.UnpinPage (b.node page).page_id_ false
      b1.FetchPage (b.node page).page_id_
    else do
      let child_id ← if leftMost then some ((b.node page).ValueAt 0)
                     else InternalPage.Lookup (b.node page) key
      let (child, b1) ← b.fetchNode child_id
      let (_, b2) ← b1.UnpinPage (b1.framePageId page) false
      findLeafLoop key leftMost n child b2

/-- `BPlusTree::FindLeafPage`. -/
def BPlusTree.FindLeafPage (t : BPlusTree) (fuel : Nat) (key : Int) (leftMost : Bool) :
    Option (Option Nat × BPlusTree) :=
  if t.IsEmpty then some (none, t)
  else do
    let (page, b1) ← t.buffer_pool_manager_.fetchNode t.root_page_id_
    let (leaf, b2) ← findLeafLoop key leftMost fuel page b1
    some (leaf, { t with buffer_pool_manager_ := b2 })

/-- `BPlusTree::GetValue`: the return value and the values appended to `result`. The source
calls `leaf_page->GetData()` before it tests the pointer, so a null `leaf_page` (an empty
tree) has no result. -/
def BPlusTree.GetValue (t : BPlusTree) (fuel : Nat) (key : Int) :
    Option ((Bool × List Int) × BPlusTree) := do
  let (leaf_page, t1) ← t.FindLeafPage fuel key false
  match leaf_page with
  | none => none
  | some leaf =>
    let b := t1.buffer_pool_manager_
    let found ← LeafPage.Lookup (b.node leaf) key
    let page_id := (b.node leaf).page_id_
    let (_, b1) ← b.FetchPage page_id
    let (_, b2) ← b1.UnpinPage page_id false
    let (_, b3) ← b2.UnpinPage page_id false
    match found with
    | some v => some ((true, [v]), { t1 with buffer_pool_manager_ := b3 })
    | none => some ((false, []), { t1 with buffer_pool_manager_ := b3 })

/-- `BPlusTree::StartNewTree`. -/
def BPlusTree.StartNewTree (t : BPlusTree) (fuel : Nat) (key value : Int) :
    Option BPlusTree := do
  let ((root, root_id), b1) ← newTreePage fuel t.buffer_pool_manager_ t.root_page_id_
  let t1 ← BPlusTree.UpdateRootPageId
    { t with buffer_pool_manager_ := b1, root_page_id_ := root_id } true
  let b2 := t1.buffer_pool_manager_.setNode root (fun d =>
    LeafPage.Init d t1.root_page_id_ INVALID_PAGE_ID t1.leaf_max_size_)
  let d ← LeafPage.Insert (b2.node root) key value
  let b3 := b2.setNode root (fun _ => d)
  let (_, b4) ← b3.UnpinPage (b3.node root).page_id_ true
  some { t1 with buffer_pool_manager_ := b4 }

/-- `BPlusTree::Split<N>`; `leafT` tells whether `N` is the leaf page class. Returns the
frame of the new node. -/
def BPlusTree.Split (t : BPlusTree) (fuel : Nat) (leafT : Bool) (node : Nat) :
    Option (Nat × BPlusTree) := do
  let ((new_node, page_id), b1) ← newTreePage fuel t.buffer_pool_manager_ 0
  let max_size := if (b1.node node).IsLeafPage then t.leaf_max_size_ else t.internal_max_size_
  let parent_id := (b1.node node).parent_page_id_
  let b2 := b1.setNode new_node (fun d =>
    if leafT then LeafPage.Init d page_id parent_id max_size
    else InternalPage.Init d page_id parent_id max_size)
  let b3 ← if leafT then
      (let r := LeafPage.MoveHalfTo (b2.node node) (b2.node new_node)
       some ((b2.setNode new_node (fun _ => r.2)).setNode node (fun _ => r.1)))
    else InternalPage.MoveHalfTo b2 node new_node
  let (_, b4) ← b3.UnpinPage page_id false
  some (new_node, { t with buffer_pool_manager_ := b4 })

/-- The first loop of the full-parent branch of `InsertIntoParent`: the entries of the
parent after the first, with the new pair put after `old_id`, written into `temp`. -/
def buildTempLoop (father : PageData) (old_id key new_id : Int) :
    Nat → Int → Int → PageData → PageData
  | 0, _, _, temp => temp
  | n + 1, i, j, temp =>
    if i < father.size_ then
      let hit := father.ValueAt i = old_id
      let temp1 := if hit then (temp.SetKeyAt j key).SetValueAt j new_id else temp
      let j1 := if hit then j + 1 else j
      let temp2 := if i < father.size_ - 1 then
          (temp1.SetKeyAt j1 (father.KeyAt (i + 1))).SetValueAt j1 (father.ValueAt (i + 1))
        else temp1
      buildTempLoop father old_id key new_id n (i + 1) (j1 + 1) temp2
    else temp

/-- `BPlusTree::InsertIntoParent`; `old_node` and `new_node` are frames. -/
def BPlusTree.InsertIntoParent (t : BPlusTree) :
    Nat → Nat → Int → Nat → Option BPlusTree
  | 0, _, _, _ => none
  | fuel + 1, old_node, key, new_node =>
    let b := t.buffer_pool_manager_
    if (b.node old_node).IsRootPage then do
      let ((new_root, root_id), b1) ← newTreePage (fuel + 1) b t.root_page_id_
      let b2 := b1.setNode new_root (fun d =>
        InternalPage.Init d root_id INVALID_PAGE_ID t.internal_max_size_)
      let b3 := b2.setNode new_root (fun d =>
        InternalPage.PopulateNewRoot d (b2.node old_node).page_id_ key (b2.node new_node).page_id_)
      let b4 := b3.setNode old_node (fun d => { d with parent_page_id_ := root_id })
      let b5 := b4.setNode new_node (fun d => { d with parent_page_id_ := root_id })
      let t1 ← BPlusTree.UpdateRootPageId
        { t with buffer_pool_manager_ := b5, root_page_id_ := root_id } false
      let (_, b6) ← t1.buffer_pool_manager_.UnpinPage
        (t1.buffer_pool_manager_.node new_node).page_id_ true
      let (_, b7) ← b6.UnpinPage (b6.node new_root).page_id_ true
      some { t1 with buffer_pool_manager_ := b7 }
    else do
      let (father, b1) ← b.fetchNode (b.node old_node).parent_page_id_
      if t.internal_max_size_ > (b1.node father).size_ then do
        let b2 := b1.setNode father (fun d =>
          InternalPage.InsertNodeAfter d (b1.node old_node).page_id_ key
            (b1.node new_node).page_id_)
        let b3 := b2.setNode new_node (fun d =>
          { d with parent_page_id_ := (b2.node father).page_id_ })
        let (_, b4) ← b3.UnpinPage (b3.node new_node).page_id_ true
        let (_, b5) ← b4.UnpinPage (b4.node father).page_id_ true
        some { t with buffer_pool_manager_ := b5 }
      else do
        let ((temp, page_id), b2) ← newTreePage (fuel + 1) b1 0
        let b3 := b2.setNode temp (fun d =>
          { InternalPage.Init d page_id INVALID_PAGE_ID t.internal_max_size_ with
            size_ := (b2.node father).size_ })
        let b4 := b3.setNode temp (fun d =>
          buildTempLoop (b3.node father) (b3.node old_node).page_id_ key
            (b3.node new_node).page_id_ (b3.node father).size_.toNat 0 0 d)
        let (temp2, t1) ← BPlusTree.Split { t with buffer_pool_manager_ := b4 } (fuel + 1)
          false temp
        let b5 := t1.buffer_pool_manager_
        let b6 := b5.setNode father (fun d => { d with size_ := (b5.node temp).size_ + 1 })
        let b7 := b6.setNode father (fun d =>
          { d with array_ := copyN (b6.node temp).array_ (b6.node temp).size_.toNat 0 1 d.array_ })
        let c := comparator key ((b7.node temp2).KeyAt 0)
        let b8 :=
          if c < 0 then
            b7.setNode new_node (fun d => { d with parent_page_id_ := (b7.node father).page_id_ })
          else if c = 0 then
            b7.setNode new_node (fun d => { d with parent_page_id_ := (b7.node temp2).page_id_ })
          else
            (b7.setNode new_node (fun d =>
              { d with parent_page_id_ := (b7.node temp2).page_id_ })).setNode old_node
              (fun d => { d with parent_page_id_ := (b7.node temp2).page_id_ })
        let (_, b9) ← b8.UnpinPage (b8.node new_node).page_id_ true
        let (_, b10) ← b9.UnpinPage (b9.node temp).page_id_ false
        let (_, b11) ← b10.DeletePage (b10.node temp).page_id_
        let t2 ← BPlusTree.InsertIntoParent { t1 with buffer_pool_manager_ := b11 } fuel father
          ((b11.node temp2).KeyAt 0) temp2
        let b12 := t2.buffer_pool_manager_
        let (_, b13) ← b12.UnpinPage (b12.node father).page_id_ true
        some { t2 with buffer_pool_manager_ := b13 }

/-- `BPlusTree::InsertIntoLeaf`. -/
def BPlusTree.InsertIntoLeaf (t : BPlusTree) (fuel : Nat) (key value : Int) :
    Option (Bool × BPlusTree) := do
  let (page, t1) ← t.FindLeafPage fuel key false
  match page with
  | none => some (false, t1)
  | some leaf =>
    let b := t1.buffer_pool_manager_
    let found ← LeafPage.Lookup (b.node leaf) key
    match found with
    | some _ =>
      let (_, b1) ← b.UnpinPage (b.node leaf).page_id_ true
      some (false, { t1 with buffer_pool_manager_ := b1 })
    | none =>
      let t2 ←
        if (b.node leaf).size_ < t1.leaf_max_size_ then do
          let d ← LeafPage.Insert (b.node leaf) key value
          some { t1 with buffer_pool_manager_ := b.setNode leaf (fun _ => d) }
        else do
          let (new_leaf, t3) ← BPlusTree.Split t1 fuel true leaf
          let b1 := t3.buffer_pool_manager_
          let b2 ←
            if comparator key ((b1.node new_leaf).KeyAt 0) < 0 then do
              let d ← LeafPage.Insert (b1.node leaf) key value
              some (b1.setNode leaf (fun _ => d))
            else do
              let d ← LeafPage.Insert (b1.node new_leaf) key value
              some (b1.setNode new_leaf (fun _ => d))
          let b3 :=
            if comparator ((b2.node leaf).KeyAt 0) ((b2.node new_leaf).KeyAt 0) < 0 then
              let b21 := b2.setNode new_leaf (fun d =>
                { d with next_page_id_ := (b2.node leaf).next_page_id_ })
              b21.setNode leaf (fun d => { d with next_page_id_ := (b21.node new_leaf).page_id_ })
            else
              b2.setNode new_leaf (fun d => { d with next_page_id_ := (b2.node leaf).page_id_ })
          BPlusTree.InsertIntoParent { t3 with buffer_pool_manager_ := b3 } fuel leaf
            ((b3.node new_leaf).KeyAt 0) new_leaf
      let b4 := t2.buffer_pool_manager_
      let (_, b5) ← b4.UnpinPage (b4.node leaf).page_id_ true
      some (true, { t2 with buffer_pool_manager_ := b5 })

/-- `BPlusTree::Insert`. -/
def BPlusTree.Insert (t : BPlusTree) (fuel : Nat) (key value : Int) :
    Option (Bool × BPlusTree) :=
  if t.IsEmpty then
    match t.StartNewTree fuel key value with
    | none => none
    | some t1 => some (true, t1)
  else t.InsertIntoLeaf fuel key value

/-- `BPlusTree::AdjustRoot`; `old_root_node` is a frame. -/
def BPlusTree.AdjustRoot (t : BPlusTree) (old_root_node : Nat) : Option (Bool × BPlusTree) :=
  let b := t.buffer_pool_manager_
  if (b.node old_root_node).IsLeafPage then
    if (b.node old_root_node).size_ = 0 then do
      let t1 ← BPlusTree.UpdateRootPageId { t with root_page_id_ := INVALID_PAGE_ID } false
      some (true, t1)
    else some (false, t)
  else if (b.node old_root_node).size_ = 1 then do
    let t1 ← BPlusTree.UpdateRootPageId
      { t with root_page_id_ := (b.node old_root_node).ValueAt 0 } false
    let b1 := t1.buffer_pool_manager_.setNode old_root_node (fun d =>
      { d with parent_page_id_ := INVALID_PAGE_ID })
    let (_, b2) ← b1.UnpinPage t1.root_page_id_ true
    some (true, { t1 with buffer_pool_manager_ := b2 })
  else some (false, t)

/-- `BPlusTree::Redistribute<N>`; `leafT` tells whether `N` is the leaf page class. -/
def BPlusTree.Redistribute (t : BPlusTree) (leafT : Bool) (neighbor_node node : Nat)
    (index : Int) : Option BPlusTree := do
  let b := t.buffer_pool_manager_
  if index = 0 then
    let (parent, b1) ← b.fetchNode (b.node node).parent_page_id_
    let b2 ← if leafT then LeafPage.MoveFirstToEndOf b1 neighbor_node node
             else InternalPage.MoveFirstToEndOf b1 neighbor_node node
    let (_, b3) ← b2.UnpinPage (b2.node parent).page_id_ false
    some { t with buffer_pool_manager_ := b3 }
  else
    let key := (b.node neighbor_node).KeyAt ((b.node neighbor_node).size_ - 1)
    let b1 ← if leafT then LeafPage.MoveLastToFrontOf b neighbor_node node
             else InternalPage.MoveLastToFrontOf b neighbor_node node key
    some { t with buffer_pool_manager_ := b1 }

mutual

/-- `BPlusTree::CoalesceOrRedistribute<N>`; `leafT` tells whether `N` is the leaf page class,
`node` is a frame. -/
def BPlusTree.CoalesceOrRedistribute (t : BPlusTree) :
    Nat → Bool → Nat → Option (Bool × BPlusTree)
  | 0, _, _ => none
  | fuel + 1, leafT, node =>
    let b := t.buffer_pool_manager_
    if (b.node node).IsRootPage then t.AdjustRoot node
    else do
      let (parent, b1) ← b.fetchNode (b.node node).parent_page_id_
      let index := InternalPage.ValueIndex (b1.node parent) (b1.node node).page_id_
      let b2 := b1.setNode parent (fun d => d.SetKeyAt index ((b1.node node).KeyAt 0))
      let (_, b3) ← b2.UnpinPage (b2.node parent).page_id_ true
      let enough :=
        if (b3.node node).IsLeafPage then
          decide ((b3.node node).size_ >= (b3.node node).GetMinSize)
        else decide ((b3.node node).size_ > (b3.node node).GetMinSize)
      if enough then some (false, { t with buffer_pool_manager_ := b3 })
      else do
        let sibling_page_id :=
          if index = 0 then (b3.node parent).ValueAt (index + 1)
          else (b3.node parent).ValueAt (index - 1)
        let (sibling, b4) ← b3.fetchNode sibling_page_id
        if (b4.node sibling).size_ + (b4.node node).size_ > (b4.node node).max_size_ then do
          let (_, b5) ← b4.UnpinPage (b4.node node).parent_page_id_ true
          let t1 ← BPlusTree.Redistribute { t with buffer_pool_manager_ := b5 } leafT sibling
            node index
          some (false, t1)
        else if index = 0 then do
          let (_, t1) ← BPlusTree.Coalesce { t with buffer_pool_manager_ := b4 } fuel leafT
            node sibling parent (1 + index)
          let b5 := t1.buffer_pool_manager_
          let (_, b6) ← b5.UnpinPage (b5.node parent).page_id_ true
          some (false, { t1 with buffer_pool_manager_ := b6 })
        else do
          let (_, t1) ← BPlusTree.Coalesce { t with buffer_pool_manager_ := b4 } fuel leafT
            sibling node parent index
          let b5 := t1.buffer_pool_manager_
          let (_, b6) ← b5.UnpinPage (b5.node parent).page_id_ true
          some (true, { t1 with buffer_pool_manager_ := b6 })

/-- `BPlusTree::Coalesce<N>`; `neighbor_node`, `node` and `parent` are frames. -/
def BPlusTree.Coalesce (t : BPlusTree) :
    Nat → Bool → Nat → Nat → Nat → Int → Option (Bool × BPlusTree)
  | 0, _, _, _, _, _ => none
  | fuel + 1, leafT, neighbor_node, node, parent, index => do
    let b := t.buffer_pool_manager_
    let middle_key := (b.node parent).KeyAt index
    let b1 ← if leafT then some (LeafPage.MoveAllTo b node neighbor_node)
             else InternalPage.MoveAllTo b node neighbor_node middle_key
    let b2 := b1.setNode parent (fun d => InternalPage.Remove d index)
    let (_, b3) ← b2.UnpinPage (b2.node node).page_id_ true
    let (_, b4) ← b3.DeletePage (b3.node node).page_id_
    BPlusTree.CoalesceOrRedistribute { t with buffer_pool_manager_ := b4 } fuel false parent

end

/-- `BPlusTree::Remove`; `page->GetData()` on a null `page` has no result. -/
def BPlusTree.Remove (t : BPlusTree) (fuel : Nat) (key : Int) : Option BPlusTree :=
  if t.IsEmpty then some t
  else do
    let (page, t1) ← t.FindLeafPage fuel key false
    match page with
    | none => none
    | some leaf =>
      let b := t1.buffer_pool_manager_
      let size := (b.node leaf).size_
      let d ← LeafPage.RemoveAndDeleteRecord (b.node leaf) key
      let t2 := { t1 with buffer_pool_manager_ := b.setNode leaf (fun _ => d) }
      if d.size_ ≠ size then do
        let (_, t3) ← BPlusTree.CoalesceOrRedistribute t2 fuel true leaf
        some t3
      else some t2

/-! ## Index iterator (`index/index_iterator.cpp`) -/

/-- The class `IndexIterator`: the leaf pointer (a frame) and the index; the buffer pool it
points to is the one of the tree. -/
structure IndexIterator where
  leaf : Option Nat
  index : Int
deriving DecidableEq, Repr

/-- `IndexIterator::operator*`; `none` is the failed `assert` (or a null leaf). -/
def IndexIterator.deref (it : IndexIterator) (b : BufferPoolManager) : Option (Int × Int) :=
  match it.leaf with
  | none => none
  | some leaf =>
    if it.index = (b.node leaf).size_ ∧ (b.node leaf).next_page_id_ = INVALID_PAGE_ID then none
    else some (LeafPage.GetItem (b.node leaf) it.index)

/-- `IndexIterator::operator++`. -/
def IndexIterator.next (it : IndexIterator) (b : BufferPoolManager) :
    Option (IndexIterator × BufferPoolManager) :=
  match it.leaf with
  | none => none
  | some leaf =>
    let index := it.index + 1
    if index = (b.node leaf).size_ ∧ (b.node leaf).next_page_id_ ≠ INVALID_PAGE_ID then do
      let next_page_id := (b.node leaf).next_page_id_
      let (page, b1) ← b.FetchPage next_page_id
      let (_, b2) ← b1.UnpinPage (b1.node leaf).page_id_ false
      let next_leaf ← page
      some ({ leaf := some next_leaf, index := 0 }, b2)
    else some ({ leaf := some leaf, index := index }, b)

/-- `IndexIterator::operator==`. -/
def IndexIterator.eq (it itr : IndexIterator) (b : BufferPoolManager) : Option Bool :=
  match it.leaf, itr.leaf with
  | some l1, some l2 =>
    some (decide ((b.node l2).page_id_ = (b.node l1).page_id_ ∧ it.index = itr.index))
  | _, _ => none

/-- `BPlusTree::Begin()`; `page->GetData()` on a null `page` (an empty tree) has no
result. -/
def BPlusTree.Begin (t : BPlusTree) (fuel : Nat) : Option (IndexIterator × BPlusTree) := do
  let (page, t1) ← t.FindLeafPage fuel 0 true
  match page with
  | none => none
  | some leaf => some ({ leaf := some leaf, index := 0 }, t1)

/-- `BPlusTree::Begin(const KeyType &)`; `page->GetData()` on a null `page` (an empty tree)
has no result. -/
def BPlusTree.BeginAt (t : BPlusTree) (fuel : Nat) (key : Int) :
    Option (IndexIterator × BPlusTree) := do
  let (page, t1) ← t.FindLeafPage fuel key false
  match page with
  | none => none
  | some leaf =>
    some ({ leaf := some leaf,
            index := LeafPage.KeyIndex (t1.buffer_pool_manager_.node leaf) key }, t1)

/-- The descent loop of `BPlusTree::End`: the frame of the leaf reached and `index`. -/
def endLoop : Nat → Nat → Int → BufferPoolManager → Option ((Nat × Int) × BufferPoolManager)
  | 0, _, _, _ => none
  | n + 1, node, index, b =>
    if (b.node node).IsLeafPage then some ((node, index), b)
    else do
      let index1 := (b.node node).size_ - 1
      let child_id := (b.node node).ValueAt index1
      let (child, b1) ← b.fetchNode child_id
      endLoop n child index1 b1

/-- `BPlusTree::End`. -/
def BPlusTree.End (t : BPlusTree) (fuel : Nat) : Option (IndexIterator × BPlusTree) := do
  let (page, b1) ← t.buffer_pool_manager_.fetchNode t.root_page_id_
  let ((node, index), b2) ← endLoop fuel page 0 b1
  let (leaf, b3) ← b2.FetchPage (b2.node node).page_id_
  some ({ leaf := leaf, index := index }, { t with buffer_pool_manager_ := b3 })

/-- The client loop `for (it = Begin(); it != End(); ++it) visit(*it)`: the entries visited,
`n` steps at most (`none` when the end is not reached by then or `*it` fails). -/
def scanLoop (end_ : IndexIterator) :
    Nat → IndexIterator → BufferPoolManager → Option (List (Int × Int))
  | 0, _, _ => none
  | n + 1, it, b => do
    let same ← it.eq end_ b
    if same then some []
    else
      let item ← it.deref b
      let (it1, b1) ← it.next b
      let rest ← scanLoop end_ n it1 b1
      some (item :: rest)

/-- The ordered scan of a tree: `Begin()`, `End()` and the loop between them. -/
def BPlusTree.scan (t : BPlusTree) (fuel : Nat) : Option (List (Int × Int)) := do
  let (first, t1) ← t.Begin fuel
  let (last, t2) ← t1.End fuel
  scanLoop last fuel first t2.buffer_pool_manager_

/-! ## Running a tree on a storage engine -/

/-- Modelled from the spec: the storage engine (`DBStorageEngine`, not part of the sources at
hand) reserves page id 0 for the meta page and page id 1 for the index-roots page; a tree
is created on a pool in which both pages are allocated, resident and unpinned. -/
def engineInit (pool_size : Nat) : Option BufferPoolManager := do
  let b0 := BufferPoolManager.create pool_size { bits := [], file := [] }
  let ((_, id0), b1) ← b0.NewPage INVALID_PAGE_ID
  let ((_, id1), b2) ← b1.NewPage INVALID_PAGE_ID
  let (_, b3) ← b2.UnpinPage id0 false
  let (_, b4) ← b3.UnpinPage id1 false
  some b4

/-- A call of the public interface of the tree. -/
inductive Op where
  | insert (key value : Int)
  | remove (key : Int)
deriving DecidableEq, Repr

/-- Runs one call. -/
def BPlusTree.step (fuel : Nat) (t : BPlusTree) : Op → Option BPlusTree
  | Op.insert k v => (t.Insert fuel k v).map (·.2)
  | Op.remove k => t.Remove fuel k

/-- Runs a sequence of calls, left to right. -/
def BPlusTree.run (fuel : Nat) : BPlusTree → List Op → Option BPlusTree
  | t, [] => some t
  | t, op :: ops =>
    match t.step fuel op with
    | none => none
    | some t1 => BPlusTree.run fuel t1 ops

/-- An empty tree on a fresh engine with `pool_size` frames. -/
def newTree (pool_size : Nat) (leaf_max_size internal_max_size : Int) : Option BPlusTree :=
  (engineInit pool_size).map (fun b => BPlusTree.create 0 b leaf_max_size internal_max_size)

/-- A fresh tree after a sequence of calls. -/
def treeAfter (pool_size : Nat) (leaf_max_size internal_max_size : Int) (fuel : Nat)
    (ops : List Op) : Option BPlusTree :=
  (newTree pool_size leaf_max_size internal_max_size).bind (fun t => BPlusTree.run fuel t ops)

/-! ## Reading a tree off the buffer pool (vocabulary of the statements) -/

/-- The frame `FetchPage` returns for a resident page: the page is in the page table and
`frameOf` is the first frame that carries its id. -/
def BufferPoolManager.frameOf (b : BufferPoolManager) (page_id : Int) : Option Nat :=
  match b.page_table_.lookup page_id with
  | none => none
  | some _ => findPage b.pages_ page_id

/-- The contents of a resident page. -/
def BufferPoolManager.pageData (b : BufferPoolManager) (page_id : Int) : Option PageData :=
  (b.frameOf page_id).map b.node

/-- The entries of a page: the first `size_` pairs of `array_`. -/
def PageData.entries (p : PageData) : List (Int × Int) :=
  (List.range p.size_.toNat).map (fun i => arrGet p.array_ (i : Int))

/-- The ids of the pages reachable from `page_id` through child pointers, `n` levels deep. -/
def reachable (b : BufferPoolManager) : Nat → Int → List Int
  | 0, _ => []
  | n + 1, page_id =>
    match b.pageData page_id with
    | none => [page_id]
    | some d =>
      if d.IsLeafPage then [page_id]
      else page_id :: (d.entries.map (fun e => reachable b n e.2)).foldr (· ++ ·) []

/-- The parent pointer of each child listed in internal page `d` names `d`. -/
def childrenPointBack (b : BufferPoolManager) (d : PageData) : Bool :=
  d.entries.all (fun e =>
    match b.pageData e.2 with
    | none => false
    | some c => c.parent_page_id_ == d.page_id_)

/-- Every internal page reachable from the root is named as parent by each of its children
(`depth` bounds the height looked at). -/
def BPlusTree.parentPointersAccurate (t : BPlusTree) (depth : Nat) : Bool :=
  t.IsEmpty ||
  (reachable t.buffer_pool_manager_ depth t.root_page_id_).all (fun page_id =>
    match t.buffer_pool_manager_.pageData page_id with
    | none => false
    | some d => d.IsLeafPage || childrenPointBack t.buffer_pool_manager_ d)

/-- The leftmost leaf: follow child 0 from `page_id`. -/
def leftmostLeaf (b : BufferPoolManager) : Nat → Int → Option Int
  | 0, _ => none
  | n + 1, page_id =>
    match b.pageData page_id with
    | none => none
    | some d => if d.IsLeafPage then some page_id else leftmostLeaf b n (d.ValueAt 0)

/-- The keys met when following `next_page_id_` from leaf `page_id` up to `INVALID_PAGE_ID`,
leaf by leaf (`none` if the chain leaves the pool or is longer than `n` leaves). -/
def chainFrom (b : BufferPoolManager) : Nat → Int → Option (List (List Int))
  | 0, _ => none
  | n + 1, page_id =>
    if page_id = INVALID_PAGE_ID then some []
    else
      match b.pageData page_id with
      | none => none
      | some d => (chainFrom b n d.next_page_id_).map (fun r => d.entries.map (·.1) :: r)

/-- The keys of the leaf chain of a tree, leaf by leaf from the leftmost leaf. -/
def BPlusTree.leafChain (t : BPlusTree) (depth : Nat) : Option (List (List Int)) :=
  if t.IsEmpty then some []
  else (leftmostLeaf t.buffer_pool_manager_ depth t.root_page_id_).bind
    (chainFrom t.buffer_pool_manager_ depth)

/-- Two pools hold the same pages in the same frames with the same contents and the same
page table; pin counts, dirty flags, the replacer, the free list and the disk may differ. -/
def SameData (b b' : BufferPoolManager) : Prop :=
  b.page_table_ = b'.page_table_ ∧
  b.pages_.map (fun p => (p.page_id_, p.data_)) = b'.pages_.map (fun p => (p.page_id_, p.data_))

/-- Insert the keys 10, 20, 30, 40 (each key `k` with value `100 + k`). -/
def insert10to40 : List Op :=
  [Op.insert 10 110, Op.insert 20 120, Op.insert 30 130, Op.insert 40 140]

/-- Insert 10, 20, 30, 40, then remove 30 and 40: the root collapses onto the left leaf. -/
def splitThenMerge : List Op :=
  insert10to40 ++ [Op.remove 30, Op.remove 40]

end MiniSql

namespace MiniSql

/-! ## Resident pages: invariants of the pool when no page is evicted -/

/-- Number of frames that hold no page. -/
def countInvalid (ps : List Page) : Nat :=
  (ps.filter (fun p => p.page_id_ == INVALID_PAGE_ID)).length

/-- Allocation bit `i` of the disk manager. -/
def getBit : List Bool → Nat → Bool
  | [], _ => false
  | b :: _, 0 => b
  | _ :: bs, i + 1 => getBit bs i

/-- What `SameData` compares, and the dirty flag of the frames that hold no page. -/
def Page.core (p : Page) : Int × PageData × Bool :=
  (p.page_id_, p.data_, p.page_id_ == INVALID_PAGE_ID && p.is_dirty_)

/-- The part of a frame the invariants of the pool look at: the page id, and the dirty
flag if the frame holds no page. -/
def Page.tag (p : Page) : Int × Bool :=
  (p.page_id_, p.page_id_ == INVALID_PAGE_ID && p.is_dirty_)

/-- Two pools that differ in pin counts, in dirty flags of resident pages and in the
replacer only. -/
def PoolEq (b b' : BufferPoolManager) : Prop :=
  b.page_table_ = b'.page_table_ ∧ b.pages_.map Page.core = b'.pages_.map Page.core ∧
  b.free_list_ = b'.free_list_ ∧ b.disk_manager_ = b'.disk_manager_

/-- Consistency of page table, frames, free list and allocation bits. -/
structure PoolOK (b : BufferPoolManager) : Prop where
  noInvalidKey : b.page_table_.lookup INVALID_PAGE_ID = none
  keysNodup : (b.page_table_.map Prod.fst).Nodup
  labels : (b.page_table_.map Prod.snd ++ b.free_list_).Nodup
  carried : ∀ (i : Nat) (pg : Page), b.pages_[i]? = some pg → pg.page_id_ ≠ INVALID_PAGE_ID →
    (b.page_table_.lookup pg.page_id_).isSome
  uniq : ∀ (i j : Nat) (pg pg' : Page), b.pages_[i]? = some pg → b.pages_[j]? = some pg' →
    pg.page_id_ = pg'.page_id_ → pg.page_id_ ≠ INVALID_PAGE_ID → i = j
  resident : ∀ p : Int, (b.page_table_.lookup p).isSome → (findPage b.pages_ p).isSome
  bits : ∀ p : Int, (b.page_table_.lookup p).isSome →
    0 ≤ p ∧ getBit b.disk_manager_.bits p.toNat = true
  reserved : getBit b.disk_manager_.bits 0 = true ∧ getBit b.disk_manager_.bits 1 = true
  free : b.free_list_.length = countInvalid b.pages_
  cleanFree : ∀ (i : Nat) (pg : Page), b.pages_[i]? = some pg → pg.page_id_ = INVALID_PAGE_ID →
    pg.is_dirty_ = false

/-- Frame `f` holds the resident page `p`. -/
def BufferPoolManager.Holds (b : BufferPoolManager) (f : Nat) (p : Int) : Prop :=
  b.frameOf p = some f

end MiniSql



namespace MiniSql

end MiniSql


namespace MiniSql

/-- The keys of `a` at the indices from `lo` up to `hi` (excluded) ascend strictly. -/
def SortedKeys (a : List (Int × Int)) (lo hi : Int) : Prop :=
  ∀ i j : Int, lo ≤ i → i < j → j < hi → (arrGet a i).1 < (arrGet a j).1

/-- No key of `a` at an index from `lo` up to `hi` (excluded) is `key`. -/
def KeyAbsent (a : List (Int × Int)) (lo hi key : Int) : Prop :=
  ∀ j : Int, lo ≤ j → j < hi → (arrGet a j).1 ≠ key

end MiniSql

namespace MiniSql

/-- The entries `e` with `x` put in at index `pos`: the entries from `pos` on move up. -/
def insAt (e : Int → Int × Int) (pos : Int) (x : Int × Int) : Int → Int × Int :=
  fun j => if j < pos then e j else if j = pos then x else e (j - 1)

end MiniSql

namespace MiniSql

/-- The header of a page: everything but the pair array. -/
def PageData.hdr (d : PageData) : IndexPageType × Int × Int × Int × Int × Int :=
  (d.page_type_, d.size_, d.max_size_, d.parent_page_id_, d.page_id_, d.next_page_id_)

end MiniSql

namespace MiniSql

/-- What `DeletePage p` does in a consistent pool: page `p` may be gone; every other page
stays where it was, and the contents of every frame stay. -/
structure DeletePageSpec (b b' : BufferPoolManager) (p : Int) : Prop where
  keep : ∀ (f' : Nat) (q : Int), q ≠ p → b.Holds f' q → b'.Holds f' q
  node : ∀ f' : Nat, b'.node f' = b.node f'
  ok : PoolOK b'
  free : b.free_list_.length ≤ b'.free_list_.length
  length : b'.pages_.length = b.pages_.length

end MiniSql

namespace MiniSql

/-! ## The shape of a tree of resident pages

The tree is described page by page. For every page of the tree the description `Shape`
names its parent, the keys it is responsible for (from `lo`, included, to `hi`, excluded;
`none` is no bound) and its height above the leaves. -/

/-- The pair `(k, v)` is an entry of the page with contents `d`. -/
def Entry (d : PageData) (k v : Int) : Prop :=
  ∃ j : Int, 0 ≤ j ∧ j < d.size_ ∧ arrGet d.array_ j = (k, v)

/-- The pages of a tree with, for each, the parent, the key range and the height. -/
structure Shape where
  S : Int → Prop
  par : Int → Int
  lo : Int → Option Int
  hi : Int → Option Int
  ht : Int → Nat

/-- The bound `lo` is at most `k`. -/
def loLe (lo : Option Int) (k : Int) : Prop := ∀ x : Int, lo = some x → x ≤ k

/-- The bound `lo` is below `k`. -/
def loLt (lo : Option Int) (k : Int) : Prop := ∀ x : Int, lo = some x → x < k

/-- The key `k` is below the bound `hi`. -/
def ltHi (k : Int) (hi : Option Int) : Prop := ∀ x : Int, hi = some x → k < x

/-- The entries of a leaf with contents `d`: between one and `lm` pairs, the keys ascending
between the bounds `lo` and `hi`. -/
structure LeafKeys (lo hi : Option Int) (lm : Int) (d : PageData) : Prop where
  size_pos : 1 ≤ d.size_
  size_le : d.size_ ≤ lm
  sorted : SortedKeys d.array_ 0 d.size_
  lower : ∀ j : Int, 0 ≤ j → j < d.size_ → loLe lo (arrGet d.array_ j).1
  upper : ∀ j : Int, 0 ≤ j → j < d.size_ → ltHi (arrGet d.array_ j).1 hi

/-- A leaf `q` with contents `d` fits the shape: its keys are in its range and its
`next_page_id_` names the leaf whose range starts where the range of `q` ends. -/
structure LeafOK (G : Shape) (lm : Int) (q : Int) (d : PageData) : Prop where
  keys : LeafKeys (G.lo q) (G.hi q) lm d
  last : G.hi q = none → d.next_page_id_ = INVALID_PAGE_ID
  next : ∀ x : Int, G.hi q = some x →
    G.S d.next_page_id_ ∧ G.ht d.next_page_id_ = 0 ∧ G.lo d.next_page_id_ = some x

/-- The `n` entries `e` of an internal page `q` fit the shape: the keys from index 1 on
ascend inside the range of `q`, and child `i` is a page of the tree one level down whose
range runs from key `i` to key `i + 1`. -/
structure KidsOK (G : Shape) (q : Int) (n : Int) (e : Int → Int × Int) : Prop where
  size_ge : 2 ≤ n
  sorted : ∀ i j : Int, 1 ≤ i → i < j → j < n → (e i).1 < (e j).1
  lower : ∀ i : Int, 1 ≤ i → i < n → loLt (G.lo q) (e i).1
  upper : ∀ i : Int, 1 ≤ i → i < n → ltHi (e i).1 (G.hi q)
  kid : ∀ i : Int, 0 ≤ i → i < n →
    G.S (e i).2 ∧ G.par (e i).2 = q ∧ G.ht (e i).2 + 1 = G.ht q ∧
    G.lo (e i).2 = (if i = 0 then G.lo q else some (e i).1) ∧
    G.hi (e i).2 = (if i = n - 1 then G.hi q else some (e (i + 1)).1)

/-- A page `q` with contents `d` fits the shape. -/
structure NodeOK (G : Shape) (lm im : Int) (q : Int) (d : PageData) : Prop where
  pid : d.page_id_ = q
  leafT : d.IsLeafPage = true ↔ G.ht q = 0
  leaf : G.ht q = 0 → LeafOK G lm q d
  inner : G.ht q ≠ 0 → d.size_ ≤ im ∧ KidsOK G q d.size_ (arrGet d.array_)

/-- The parent `q` of a page `po` that has been split, before the new page `pn` and its
first key `K` are entered: its entries with `(K, pn)` put in after `po` fit the shape. -/
structure PendOK (G : Shape) (im : Int) (q : Int) (d : PageData) (po K pn : Int) : Prop where
  pid : d.page_id_ = q
  notLeaf : d.IsLeafPage = false
  htpos : G.ht q ≠ 0
  size_le : d.size_ ≤ im
  idx : ∃ i0 : Int, 0 ≤ i0 ∧ i0 < d.size_ ∧ (arrGet d.array_ i0).2 = po ∧
    KidsOK G q (d.size_ + 1) (insAt (arrGet d.array_) (i0 + 1) (K, pn))

/-- The pool `b` holds a tree of shape `G` with root `root` whose leaves hold the pairs `M`.
With `pend = some (po, K, pn)` page `po` has been split and `pn` is not yet entered in the
parent of `po`. -/
structure TreeInv (b : BufferPoolManager) (G : Shape) (root lm im : Int)
    (pend : Option (Int × Int × Int)) (M : Int → Int → Prop) : Prop where
  pool : PoolOK b
  rootsPage : ∃ f, b.Holds f INDEX_ROOTS_PAGE_ID
  rootIn : G.S root
  rootPar : G.par root = INVALID_PAGE_ID
  rootLo : G.lo root = none
  rootHi : (∀ K pn : Int, pend ≠ some (root, K, pn)) → G.hi root = none
  htLe : ∀ q : Int, G.S q → G.ht q ≤ G.ht root
  res : ∀ q : Int, G.S q → ∃ f, b.Holds f q
  node : ∀ (q : Int) (f : Nat), G.S q → b.Holds f q →
    (∀ po K pn : Int, pend = some (po, K, pn) → q ≠ G.par po) → NodeOK G lm im q (b.node f)
  pnode : ∀ (q : Int) (f : Nat) (po K pn : Int), pend = some (po, K, pn) → G.S q →
    q = G.par po → b.Holds f q → PendOK G im q (b.node f) po K pn
  ptr : ∀ (q : Int) (f : Nat), G.S q → b.Holds f q → (∀ po K : Int, pend ≠ some (po, K, q)) →
    (b.node f).parent_page_id_ = G.par q
  up : ∀ q : Int, G.S q → q ≠ root → (∀ po K : Int, pend ≠ some (po, K, q)) →
    G.S (G.par q) ∧ G.ht (G.par q) = G.ht q + 1 ∧ ∀ f : Nat, b.Holds f (G.par q) →
      ∃ i : Int, 0 ≤ i ∧ i < (b.node f).size_ ∧ (arrGet (b.node f).array_ i).2 = q
  contents : ∀ k v : Int, M k v ↔ ∃ (l : Int) (f : Nat), G.S l ∧ G.ht l = 0 ∧
    b.Holds f l ∧ Entry (b.node f) k v
  pendIn : ∀ po K pn : Int, pend = some (po, K, pn) →
    G.S po ∧ G.S pn ∧ po ≠ pn ∧ pn ≠ root ∧ G.hi po = some K ∧ G.lo pn = some K ∧
    G.ht pn = G.ht po ∧ G.par pn = G.par po ∧ (po = root → G.hi pn = none)

/-- The shape after page `po` has been split at key `K`: the new page `pn` takes the keys
from `K` on and the children `moved`. -/
def Shape.split (G : Shape) (po K pn : Int) (moved : List Int) : Shape :=
  { S := fun c => G.S c ∨ c = pn,
    par := fun c => if c = pn then G.par po else if c ∈ moved then pn else G.par c,
    lo := fun c => if c = pn then some K else G.lo c,
    hi := fun c => if c = pn then G.hi po else if c = po then some K else G.hi c,
    ht := fun c => if c = pn then G.ht po else G.ht c }

/-- The shape after a new root `r` has been put above the old root `po` and its new
sibling `pn`. -/
def Shape.newRoot (G : Shape) (r po pn : Int) : Shape :=
  { S := fun c => G.S c ∨ c = r,
    par := fun c => if c = r then INVALID_PAGE_ID else if c = po ∨ c = pn then r else G.par c,
    lo := fun c => if c = r then none else G.lo c,
    hi := fun c => if c = r then none else G.hi c,
    ht := fun c => if c = r then G.ht po + 1 else G.ht c }

/-- The shape `G'` says of page `q`, of its children and of the leaves what `G` says. -/
structure Shape.Agree (G G' : Shape) (q : Int) : Prop where
  self : G'.lo q = G.lo q ∧ G'.hi q = G.hi q ∧ G'.ht q = G.ht q
  kids : ∀ c : Int, G.S c → G.par c = q →
    G'.S c ∧ G'.par c = q ∧ G'.ht c = G.ht c ∧ G'.lo c = G.lo c ∧ G'.hi c = G.hi c
  nxt : ∀ c : Int, G.S c → G.ht c = 0 → G'.S c ∧ G'.ht c = 0 ∧ G'.lo c = G.lo c

/-- The contents `d'` are `d` but for the parent pointer. -/
def PageData.sameTree (d d' : PageData) : Prop :=
  d'.page_type_ = d.page_type_ ∧ d'.size_ = d.size_ ∧ d'.page_id_ = d.page_id_ ∧
  d'.next_page_id_ = d.next_page_id_ ∧ d'.array_ = d.array_

/-- The key `k` is in the range of page `q`. -/
def Shape.inRange (G : Shape) (q k : Int) : Prop := loLe (G.lo q) k ∧ ltHi k (G.hi q)

end MiniSql















namespace MiniSql

end MiniSql


namespace MiniSql

end MiniSql



namespace MiniSql

end MiniSql

namespace MiniSql

end MiniSql

namespace MiniSql

end MiniSql

namespace MiniSql

/-- The calls that insert the pairs `kvs`, in order. -/
def insertOps (kvs : List (Int × Int)) : List Op :=
  kvs.map (fun e => Op.insert e.1 e.2)

/-- The entries of `l` ascend in key order. -/
def KeyOrdered (l : List (Int × Int)) : Prop := l.Pairwise (fun a b => a.1 < b.1)

end MiniSql

namespace MiniSql

/-- The iterator `it` stands at the entry `(k, v)` of a leaf of the tree of shape `G`. -/
def AtEntry (b : BufferPoolManager) (G : Shape) (it : IndexIterator) (k v : Int) : Prop :=
  ∃ (fl : Nat) (l : Int), it.leaf = some fl ∧ G.S l ∧ G.ht l = 0 ∧ b.Holds fl l ∧
    0 ≤ it.index ∧ it.index < (b.node fl).size_ ∧
    arrGet (b.node fl).array_ it.index = (k, v)

end MiniSql

namespace MiniSql

end MiniSql

namespace MiniSql

/-! ## Bitmap page (`page/bitmap_page.cpp`, `include/page/bitmap_page.h`) -/

/-- `MAX_CHARS = PageSize - 2 * sizeof(uint32_t)`, the number of bytes of the bit array. The
class is instantiated for page sizes from 9 on, where the subtraction does not wrap. -/
def MAX_CHARS (PageSize : Nat) : Nat := PageSize - 8

/-- `BitmapPage::GetMaxSupportedSize`. -/
def GetMaxSupportedSize (PageSize : Nat) : Nat := 8 * MAX_CHARS PageSize

/-- The class `BitmapPage<PageSize>`: two counters and the array `bytes` of `MAX_CHARS`
bytes (`unsigned char`, values below 256). -/
structure BitmapPage where
  page_allocated_ : Nat
  next_free_page_ : Nat
  bytes : List Nat
deriving DecidableEq, Repr

/-- `setByteIndex`: `mask = 0x80 >> index; byte |= mask` on `uint8_t`. -/
def setByteIndex (byte index : Nat) : Nat := (byte ||| (0x80 >>> index) % 256) % 256

/-- `unsetByteIndex`: `mask = 0x80 >> index; mask = ~mask; byte &= mask` on `uint8_t`. -/
def unsetByteIndex (byte index : Nat) : Nat := byte &&& (255 - (0x80 >>> index) % 256)

/-- `isByteIndexSet`: setting the bit changes nothing. -/
def isByteIndexSet (byte index : Nat) : Bool := setByteIndex byte index == byte

/-- `convertByteIndex`. -/
def convertByteIndex (byte index : Nat) : Nat :=
  if isByteIndexSet byte index then unsetByteIndex byte index else setByteIndex byte index

/-- `BitmapPage::IsPageFreeLow`; `none` is a read outside the array `bytes`. -/
def BitmapPage.IsPageFreeLow (p : BitmapPage) (byte_index bit_index : Nat) : Option Bool :=
  match p.bytes[byte_index]? with
  | none => none
  | some targetByte => some (!isByteIndexSet targetByte (bit_index % 256))

/-- `BitmapPage::IsPageFree`. -/
def BitmapPage.IsPageFree (PageSize : Nat) (p : BitmapPage) (page_offset : Nat) : Option Bool :=
  let maxSize := GetMaxSupportedSize PageSize
  let byteIndex := page_offset / 8
  let bitIndex := page_offset % 8
  if byteIndex >= maxSize then some false
  else p.IsPageFreeLow byteIndex bitIndex

/-- The loop `for (int i = 0; i < 8; ++i)` of `AllocatePage` from `i` on: the first free bit
of byte `byteIndex`, if any. The outer `none` is a loop out of fuel or a read outside the
array. -/
def allocBitLoop (p : BitmapPage) (byteIndex : Nat) : Nat → Nat → Option (Option Nat)
  | 0, _ => none
  | n + 1, i =>
    if i < 8 then
      match p.IsPageFreeLow byteIndex i with
      | none => none
      | some true => some (some i)
      | some false => allocBitLoop p byteIndex n (i + 1)
    else some none

/-- The loop `for (size_t byteIndex = 0; byteIndex < MAX_CHARS; byteIndex++)` of
`AllocatePage` from `byteIndex` on: the offset written to `page_offset` (`none` when the
call returns false) and the page. -/
def allocByteLoop (PageSize : Nat) (p : BitmapPage) :
    Nat → Nat → Option (Option Nat × BitmapPage)
  | 0, _ => none
  | n + 1, byteIndex =>
    if byteIndex < MAX_CHARS PageSize then
      match p.bytes[byteIndex]? with
      | none => none
      | some b =>
        if b ≠ 0xFF then
          match allocBitLoop p byteIndex 9 0 with
          | none => none
          | some (some i) =>
            some (some (byteIndex * 8 + i),
              { p with bytes := p.bytes.set byteIndex (setByteIndex b i) })
          | some none => allocByteLoop PageSize p n (byteIndex + 1)
        else allocByteLoop PageSize p n (byteIndex + 1)
    else some (none, p)

/-- `BitmapPage::AllocatePage`: `some offset` when the call returns true. -/
def BitmapPage.AllocatePage (PageSize : Nat) (p : BitmapPage) : Option (Option Nat × BitmapPage) :=
  allocByteLoop PageSize p (MAX_CHARS PageSize + 1) 0

/-- `BitmapPage::DeAllocatePage`; `none` is an access outside the array `bytes`. -/
def BitmapPage.DeAllocatePage (PageSize : Nat) (p : BitmapPage) (page_offset : Nat) :
    Option (Bool × BitmapPage) :=
  match p.IsPageFree PageSize page_offset with
  | none => none
  | some true => some (false, p)
  | some false =>
    let byteIndex := page_offset / 8
    let bitIndex := page_offset % 8
    match p.bytes[byteIndex]? with
    | none => none
    | some b => some (true, { p with bytes := p.bytes.set byteIndex (unsetByteIndex b bitIndex) })

/-- A bitmap page of `PageSize` bytes: the array has `MAX_CHARS` bytes. -/
def BitmapPage.WF (PageSize : Nat) (p : BitmapPage) : Prop :=
  p.bytes.length = MAX_CHARS PageSize ∧ ∀ b ∈ p.bytes, b < 256

/-- A bitmap page with every bit clear. -/
def BitmapPage.allFree (PageSize : Nat) : BitmapPage :=
  { page_allocated_ := 0, next_free_page_ := 0, bytes := List.replicate (MAX_CHARS PageSize) 0 }

/-- The offsets returned by `n` calls of `AllocatePage` one after the other (`none` for a
call that returns false) and the page left. -/
def BitmapPage.allocateN (PageSize : Nat) :
    Nat → BitmapPage → Option (List (Option Nat) × BitmapPage)
  | 0, p => some ([], p)
  | n + 1, p =>
    match p.AllocatePage PageSize with
    | none => none
    | some (r, p1) =>
      match BitmapPage.allocateN PageSize n p1 with
      | none => none
      | some (rs, p2) => some (r :: rs, p2)

end MiniSql


namespace MiniSql

/-! ## Disk manager (`storage/disk_manager.cpp`)

Page ids are `page_id_t`, that is `int32_t`; `BITMAP_SIZE` is a `size_t`. Where the source
mixes the two, the `int` is converted to `size_t`, the arithmetic is done modulo `2 ^ 64`,
and the result is converted back to 32 bits. -/

/-- The conversion of an `int32_t` to `uint32_t`. -/
def toUInt32 (x : Int) : Nat := (x % 2 ^ 32).toNat

/-- The conversion of an unsigned value to `int32_t` (`int(len)`, a word read as `int32_t`,
`(page_id_t)(...)` of a `size_t`): the low 32 bits, read as a signed number. -/
def toInt32 (w : Nat) : Int :=
  if w % 2 ^ 32 < 2 ^ 31 then ((w % 2 ^ 32 : Nat) : Int) else ((w % 2 ^ 32 : Nat) : Int) - 2 ^ 32

/-- The conversion of an `int` to `size_t` (64 bits). -/
def toSizeT (x : Int) : Nat := (x % 2 ^ 64).toNat

/-- Modelled from the spec: `BITMAP_SIZE`, the number of data pages of an extent (its
declaration is in a header that is not at hand): `8 * (PAGE_SIZE - 8)`, the number of bits of
a bitmap page, a `size_t` as `BitmapPage::GetMaxSupportedSize()` returns it. -/
def BITMAP_SIZE (PAGE_SIZE : Nat) : Nat := GetMaxSupportedSize PAGE_SIZE

/-- `DiskManager::MapPageId`: quotient, remainder and sum are computed in `size_t` and
converted to `page_id_t`. -/
def DiskManager.MapPageId (BITMAP_SIZE : Int) (logical_page_id : Int) : Int :=
  let N := toInt32 (toSizeT logical_page_id / BITMAP_SIZE.toNat)
  let n := toInt32 (toSizeT logical_page_id % BITMAP_SIZE.toNat)
  toInt32 ((2 + toSizeT N * (BITMAP_SIZE.toNat + 1) + toSizeT n) % 2 ^ 64)

/-- `DiskManager::getExtIndexFromPhyPageId`: `physical_page_id - 1` is converted to `size_t`
for the division, the quotient to the `uint` returned. -/
def DiskManager.getExtIndexFromPhyPageId (BITMAP_SIZE : Int) (physical_page_id : Int) : Int :=
  ((toSizeT (physical_page_id - 1) / (BITMAP_SIZE.toNat + 1) % 2 ^ 32 : Nat) : Int)

/-- `DiskManager::getBitmapPhyIdFromExtIndex`: computed in `size_t` from the `uint`
`extIndex` and converted to `page_id_t`. -/
def DiskManager.getBitmapPhyIdFromExtIndex (BITMAP_SIZE : Int) (extIndex : Int) : Int :=
  toInt32 ((extIndex.toNat * (BITMAP_SIZE.toNat + 1) + 1) % 2 ^ 64)

/-- `DiskManager::getOffsetFromPhyId`: remainder and difference are computed in `size_t` and
converted to the `uint` returned. -/
def DiskManager.getOffsetFromPhyId (BITMAP_SIZE : Int) (physical_page_id : Int) : Int :=
  (((toSizeT (physical_page_id - 1) % (BITMAP_SIZE.toNat + 1) + (2 ^ 64 - 1)) % 2 ^ 64
    % 2 ^ 32 : Nat) : Int)

/-- The class `DiskFileMetaPage`; the counters are `uint32_t`, `extent_used_page_` is the
array that follows them in the meta page (zero where nothing was written). -/
structure DiskFileMetaPage where
  num_allocated_pages_ : Nat
  num_extents_ : Nat
  extent_used_page_ : List Nat
deriving DecidableEq, Repr

/-- `MAX_VALID_PAGE_ID` of `disk_file_meta_page.h`. -/
def MAX_VALID_PAGE_ID (PAGE_SIZE : Nat) : Nat := (PAGE_SIZE - 8) / 4 * GetMaxSupportedSize PAGE_SIZE

/-- The number of entries of `extent_used_page_` that lie in the meta page, a page of
`PAGE_SIZE` bytes that starts with the two `uint32_t` counters: the factor
`(PAGE_SIZE - 8) / 4` of `MAX_VALID_PAGE_ID`. An access to an entry beyond them has no
result in this embedding. -/
def extentCapacity (PAGE_SIZE : Nat) : Nat := (PAGE_SIZE - 8) / 4

/-- Entry `i` of `extent_used_page_`. -/
def DiskFileMetaPage.used (m : DiskFileMetaPage) (i : Nat) : Nat := m.extent_used_page_.getD i 0

/-- Writes entry `i` of `extent_used_page_`. -/
def DiskFileMetaPage.setUsed (m : DiskFileMetaPage) (i v : Nat) : DiskFileMetaPage :=
  { m with extent_used_page_ :=
      if i < m.extent_used_page_.length then m.extent_used_page_.set i v
      else m.extent_used_page_ ++ List.replicate (i - m.extent_used_page_.length) 0 ++ [v] }

/-- The disk manager with its meta page and the bitmap pages of the database file:
`bitmaps` lists the physical pages written (`WritePhysicalPage`, whose offset is a `size_t`)
by `AllocatePage` and `DeAllocatePage`, newest first. (The buffer pool above works on the summary `DiskManager`.) -/
structure ExtentDisk where
  meta_data_ : DiskFileMetaPage
  bitmaps : List (Int × BitmapPage)
deriving DecidableEq, Repr

/-- The disk manager of an empty database file: the constructor reads the meta page, which
is all zero. -/
def ExtentDisk.empty : ExtentDisk :=
  { meta_data_ := { num_allocated_pages_ := 0, num_extents_ := 0, extent_used_page_ := [] },
    bitmaps := [] }

/-- `DiskManager::GetFileSize`, an `int`: the file ends with the last of the pages written,
and its size is converted from `off_t` to `int`. -/
def ExtentDisk.GetFileSize (PAGE_SIZE : Nat) (d : ExtentDisk) : Int :=
  toInt32 ((d.bitmaps.foldr (fun e m => max (e.1.toNat + 1) m) 0) * PAGE_SIZE)

/-- `DiskManager::ReadPhysicalPage` into a `BitmapPage<PAGE_SIZE>`. Modelled from the spec:
`PAGE_SIZE` is an `int` constant (its declaration is in a header that is not at hand), so
`int offset = physical_page_id * PAGE_SIZE` is a product of two `int`s, which leaves the
defined behaviour of the program when it is beyond `INT_MAX`: no result. (A negative offset,
at which `seekp` fails, has no result in this embedding either.) At or beyond the end of the
file, and where nothing was written, the page reads as zero bytes. -/
def ExtentDisk.ReadPhysicalPage (PAGE_SIZE : Nat) (d : ExtentDisk) (physical_page_id : Int) :
    Option BitmapPage :=
  let offset := physical_page_id * (PAGE_SIZE : Int)
  if offset < 0 ∨ 2 ^ 31 ≤ offset then none
  else if offset ≥ d.GetFileSize PAGE_SIZE then some (BitmapPage.allFree PAGE_SIZE)
  else some ((d.bitmaps.lookup physical_page_id).getD (BitmapPage.allFree PAGE_SIZE))

/-- The loop `for (size_t extIndex = 0; extIndex <= ExtNums; extIndex++)` of
`DiskManager::AllocatePage` from `extIndex` on. -/
def allocExtentLoop (PAGE_SIZE : Nat) (d : ExtentDisk) (ExtNums : Nat) :
    Nat → Nat → Option (Int × ExtentDisk)
  | 0, _ => none
  | n + 1, extIndex =>
    if extIndex ≤ ExtNums then
      if extentCapacity PAGE_SIZE ≤ extIndex then none
      else if d.meta_data_.used extIndex ≠ BITMAP_SIZE PAGE_SIZE then
        let bitmapPhyId := DiskManager.getBitmapPhyIdFromExtIndex (BITMAP_SIZE PAGE_SIZE) extIndex
        match (d.ReadPhysicalPage PAGE_SIZE bitmapPhyId).bind
            (fun page => page.AllocatePage PAGE_SIZE) with
        | none => none
        | some (none, _) => allocExtentLoop PAGE_SIZE d ExtNums n (extIndex + 1)
        | some (some offset, bitmapPage) =>
          let m := d.meta_data_
          let m1 := { m with num_allocated_pages_ := (m.num_allocated_pages_ + 1) % 2 ^ 32,
                             num_extents_ := extIndex + 1 }
          let m2 := m1.setUsed extIndex ((m1.used extIndex + 1) % 2 ^ 32)
          some (toInt32 (offset + BITMAP_SIZE PAGE_SIZE * extIndex),
            { meta_data_ := m2, bitmaps := (bitmapPhyId, bitmapPage) :: d.bitmaps })
      else allocExtentLoop PAGE_SIZE d ExtNums n (extIndex + 1)
    else some (INVALID_PAGE_ID, d)

/-- `DiskManager::AllocatePage`. -/
def ExtentDisk.AllocatePage (PAGE_SIZE : Nat) (d : ExtentDisk) : Option (Int × ExtentDisk) :=
  allocExtentLoop PAGE_SIZE d d.meta_data_.num_extents_ (d.meta_data_.num_extents_ + 2) 0

/-- `DiskManager::DeAllocatePage`. -/
def ExtentDisk.DeAllocatePage (PAGE_SIZE : Nat) (d : ExtentDisk) (logical_page_id : Int) :
    Option ExtentDisk :=
  let phyPageId := DiskManager.MapPageId (BITMAP_SIZE PAGE_SIZE) logical_page_id
  let extIndex := (DiskManager.getExtIndexFromPhyPageId (BITMAP_SIZE PAGE_SIZE) phyPageId).toNat
  let bitmapPhyId := DiskManager.getBitmapPhyIdFromExtIndex (BITMAP_SIZE PAGE_SIZE) extIndex
  let offset := (DiskManager.getOffsetFromPhyId (BITMAP_SIZE PAGE_SIZE) phyPageId).toNat
  match (d.ReadPhysicalPage PAGE_SIZE bitmapPhyId).bind
      (fun page => page.DeAllocatePage PAGE_SIZE offset) with
  | none => none
  | some (_, bitmapPage) =>
    let m := d.meta_data_
    let m1 := { m with num_allocated_pages_ := (m.num_allocated_pages_ + (2 ^ 32 - 1)) % 2 ^ 32 }
    if extentCapacity PAGE_SIZE ≤ extIndex then none
    else
      let m2 := m1.setUsed extIndex ((m1.used extIndex + (2 ^ 32 - 1)) % 2 ^ 32)
      some { meta_data_ := m2, bitmaps := (bitmapPhyId, bitmapPage) :: d.bitmaps }

/-- `DiskManager::IsPageFree`. -/
def ExtentDisk.IsPageFree (PAGE_SIZE : Nat) (d : ExtentDisk) (logical_page_id : Int) :
    Option Bool :=
  let physicalPageId := DiskManager.MapPageId (BITMAP_SIZE PAGE_SIZE) logical_page_id
  let bitMapPageIndex :=
    (DiskManager.getExtIndexFromPhyPageId (BITMAP_SIZE PAGE_SIZE) physicalPageId).toNat
  let pageOffset := (DiskManager.getOffsetFromPhyId (BITMAP_SIZE PAGE_SIZE) physicalPageId).toNat
  let bitmapPhyId :=
    DiskManager.getBitmapPhyIdFromExtIndex (BITMAP_SIZE PAGE_SIZE) bitMapPageIndex
  (d.ReadPhysicalPage PAGE_SIZE bitmapPhyId).bind
    (fun page => page.IsPageFree PAGE_SIZE pageOffset)

/-- A call of the allocation interface of the disk manager. -/
inductive DiskOp where
  | allocate
  | deallocate (logical_page_id : Int)
deriving DecidableEq, Repr

/-- Runs a sequence of calls; the list holds the ids returned by `AllocatePage` and not yet
deallocated (`INVALID_PAGE_ID`, returned when no page is found, is not an id). -/
def ExtentDisk.run (PAGE_SIZE : Nat) :
    ExtentDisk → List Int → List DiskOp → Option (ExtentDisk × List Int)
  | d, ids, [] => some (d, ids)
  | d, ids, DiskOp.allocate :: ops =>
    match d.AllocatePage PAGE_SIZE with
    | none => none
    | some (id, d1) =>
      ExtentDisk.run PAGE_SIZE d1 (if id = INVALID_PAGE_ID then ids else ids ++ [id]) ops
  | d, ids, DiskOp.deallocate id :: ops =>
    match d.DeAllocatePage PAGE_SIZE id with
    | none => none
    | some d1 => ExtentDisk.run PAGE_SIZE d1 (ids.filter (fun x => x != id)) ops

/-- Every `DeAllocatePage` of the sequence is applied to an id that is allocated at the
time. -/
def ExtentDisk.deallocatesAllocated (PAGE_SIZE : Nat) :
    ExtentDisk → List Int → List DiskOp → Bool
  | _, _, [] => true
  | d, ids, DiskOp.allocate :: ops =>
    match d.AllocatePage PAGE_SIZE with
    | none => true
    | some (id, d1) =>
      ExtentDisk.deallocatesAllocated PAGE_SIZE d1
        (if id = INVALID_PAGE_ID then ids else ids ++ [id]) ops
  | d, ids, DiskOp.deallocate id :: ops =>
    ids.contains id &&
    match d.DeAllocatePage PAGE_SIZE id with
    | none => true
    | some d1 =>
      ExtentDisk.deallocatesAllocated PAGE_SIZE d1 (ids.filter (fun x => x != id)) ops

end MiniSql


namespace MiniSql

/-! ## The buffer pool under sequences of calls

`step` and `run` make the calls with the loops that erase from `page_table_` read as
removing every entry that matches; `stepStrict` and `runStrict` make them as C++ defines
them, with no result once such a loop erases an entry. -/

/-- The page table holds `page_id`. -/
def BufferPoolManager.resident (b : BufferPoolManager) (page_id : Int) : Bool :=
  (b.page_table_.lookup page_id).isSome

/-- The frame of a resident page, found as the operations find it. -/
def BufferPoolManager.pageOf (b : BufferPoolManager) (page_id : Int) : Option Page :=
  match b.frameOf page_id with
  | none => none
  | some i => b.pages_[i]?

/-- The page is resident with pin count 0. -/
def BufferPoolManager.isZero (b : BufferPoolManager) (page_id : Int) : Bool :=
  match b.pageOf page_id with
  | none => false
  | some pg => pg.pin_count_ == 0

/-- A call of the buffer pool manager. -/
inductive PoolOp where
  | NewPage
  | FetchPage (page_id : Int)
  | UnpinPage (page_id : Int) (is_dirty : Bool)
  | DeletePage (page_id : Int)
  | FlushPage (page_id : Int)
deriving DecidableEq, Repr

/-- The history of a run that the claims speak of and the pool does not store as such:
`unpinned` lists the resident pages with pin count 0, the one whose pin count dropped to 0
least recently first; `dirtied` lists the resident pages that were unpinned with
`is_dirty = true` since they were loaded or created. -/
structure PoolGhost where
  unpinned : List Int
  dirtied : List Int
deriving DecidableEq, Repr

/-- One call, with the history kept up: a successful `UnpinPage` that brings the pin count
to 0 puts the page last in `unpinned`, and with `is_dirty = true` it enters the page in
`dirtied`; a page leaves `unpinned` when it is no longer resident with pin count 0, and
`dirtied` when it is no longer resident; a page just loaded or created is not in
`dirtied`. -/
def BufferPoolManager.step (b : BufferPoolManager) (g : PoolGhost) :
    PoolOp → Option (BufferPoolManager × PoolGhost)
  | PoolOp.NewPage =>
    match b.NewPage INVALID_PAGE_ID with
    | none => none
    | some ((none, _), b1) => some (b1, g)
    | some ((some _, page_id), b1) =>
      some (b1, { unpinned := g.unpinned.filter b1.isZero,
                  dirtied := g.dirtied.filter (fun q => b1.resident q && q != page_id) })
  | PoolOp.FetchPage page_id =>
    match b.FetchPage page_id with
    | none => none
    | some (none, b1) => some (b1, g)
    | some (some _, b1) =>
      some (b1, { unpinned := g.unpinned.filter b1.isZero,
                  dirtied := if b.resident page_id then g.dirtied
                    else g.dirtied.filter (fun q => b1.resident q && q != page_id) })
  | PoolOp.UnpinPage page_id is_dirty =>
    match b.UnpinPage page_id is_dirty with
    | none => none
    | some (false, b1) => some (b1, g)
    | some (true, b1) =>
      some (b1, { unpinned := g.unpinned ++ (if b1.isZero page_id then [page_id] else []),
                  dirtied := if is_dirty then page_id :: g.dirtied else g.dirtied })
  | PoolOp.DeletePage page_id =>
    match b.DeletePage page_id with
    | none => none
    | some (_, b1) =>
      some (b1, { unpinned := g.unpinned.filter b1.isZero,
                  dirtied := g.dirtied.filter b1.resident })
  | PoolOp.FlushPage page_id =>
    match b.FlushPage page_id with
    | none => none
    | some (_, b1) => some (b1, g)

/-- The page id of the call is valid: `FetchPage` asks for a page that is allocated on
disk. -/
def BufferPoolManager.validOp (b : BufferPoolManager) : PoolOp → Bool
  | PoolOp.FetchPage page_id =>
    decide (0 ≤ page_id) && getBit b.disk_manager_.bits page_id.toNat
  | _ => true

/-- Runs a sequence of calls. -/
def BufferPoolManager.run :
    BufferPoolManager → PoolGhost → List PoolOp → Option (BufferPoolManager × PoolGhost)
  | b, g, [] => some (b, g)
  | b, g, op :: ops =>
    match b.step g op with
    | none => none
    | some (b1, g1) => BufferPoolManager.run b1 g1 ops

/-- Every call of the sequence has a valid page id at the time it is made. -/
def BufferPoolManager.validOps : BufferPoolManager → PoolGhost → List PoolOp → Bool
  | _, _, [] => true
  | b, g, op :: ops =>
    b.validOp op &&
    match b.step g op with
    | none => true
    | some (b1, g1) => BufferPoolManager.validOps b1 g1 ops

/-- One call as C++ defines it (`FetchPageStrict`, `NewPageStrict`, `DeletePageStrict`), with
the history kept up as in `step`. -/
def BufferPoolManager.stepStrict (b : BufferPoolManager) (g : PoolGhost) :
    PoolOp → Option (BufferPoolManager × PoolGhost)
  | PoolOp.NewPage =>
    match b.NewPageStrict INVALID_PAGE_ID with
    | none => none
    | some ((none, _), b1) => some (b1, g)
    | some ((some _, page_id), b1) =>
      some (b1, { unpinned := g.unpinned.filter b1.isZero,
                  dirtied := g.dirtied.filter (fun q => b1.resident q && q != page_id) })
  | PoolOp.FetchPage page_id =>
    match b.FetchPageStrict page_id with
    | none => none
    | some (none, b1) => some (b1, g)
    | some (some _, b1) =>
      some (b1, { unpinned := g.unpinned.filter b1.isZero,
                  dirtied := if b.resident page_id then g.dirtied
                    else g.dirtied.filter (fun q => b1.resident q && q != page_id) })
  | PoolOp.UnpinPage page_id is_dirty =>
    match b.UnpinPage page_id is_dirty with
    | none => none
    | some (false, b1) => some (b1, g)
    | some (true, b1) =>
      some (b1, { unpinned := g.unpinned ++ (if b1.isZero page_id then [page_id] else []),
                  dirtied := if is_dirty then page_id :: g.dirtied else g.dirtied })
  | PoolOp.DeletePage page_id =>
    match b.DeletePageStrict page_id with
    | none => none
    | some (_, b1) =>
      some (b1, { unpinned := g.unpinned.filter b1.isZero,
                  dirtied := g.dirtied.filter b1.resident })
  | PoolOp.FlushPage page_id =>
    match b.FlushPage page_id with
    | none => none
    | some (_, b1) => some (b1, g)

/-- Runs a sequence of calls as C++ defines them. -/
def BufferPoolManager.runStrict :
    BufferPoolManager → PoolGhost → List PoolOp → Option (BufferPoolManager × PoolGhost)
  | b, g, [] => some (b, g)
  | b, g, op :: ops =>
    match b.stepStrict g op with
    | none => none
    | some (b1, g1) => BufferPoolManager.runStrict b1 g1 ops

/-- Every call of the sequence, run as C++ defines it, has a valid page id at the time it is
made. -/
def BufferPoolManager.validOpsStrict : BufferPoolManager → PoolGhost → List PoolOp → Bool
  | _, _, [] => true
  | b, g, op :: ops =>
    b.validOp op &&
    match b.stepStrict g op with
    | none => true
    | some (b1, g1) => BufferPoolManager.validOpsStrict b1 g1 ops

/-- The history of a fresh pool. -/
def PoolGhost.empty : PoolGhost := { unpinned := [], dirtied := [] }

end MiniSql

namespace MiniSql

/-- Consistency of page table, frames, free list and allocation bits of a pool. -/
structure PoolCore (b : BufferPoolManager) : Prop where
  size : b.pages_.length = b.pool_size_
  keysNodup : (b.page_table_.map Prod.fst).Nodup
  labels : List.Perm (b.free_list_ ++ b.page_table_.map Prod.snd)
    ((List.range b.pool_size_).map (fun (i : Nat) => (i : Int)))
  carried : ∀ (i : Nat) (pg : Page), b.pages_[i]? = some pg → pg.page_id_ ≠ INVALID_PAGE_ID →
    (b.page_table_.lookup pg.page_id_).isSome
  uniq : ∀ (i j : Nat) (pg pg' : Page), b.pages_[i]? = some pg → b.pages_[j]? = some pg' →
    pg.page_id_ = pg'.page_id_ → pg.page_id_ ≠ INVALID_PAGE_ID → i = j
  resident : ∀ p : Int, (b.page_table_.lookup p).isSome → (findPage b.pages_ p).isSome
  bits : ∀ p : Int, (b.page_table_.lookup p).isSome →
    0 ≤ p ∧ getBit b.disk_manager_.bits p.toNat = true
  free : b.free_list_.length = countInvalid b.pages_
  cleanFree : ∀ (i : Nat) (pg : Page), b.pages_[i]? = some pg → pg.page_id_ = INVALID_PAGE_ID →
    pg.is_dirty_ = false
  pins : ∀ (i : Nat) (pg : Page), b.pages_[i]? = some pg → 0 ≤ pg.pin_count_

/-- The pool agrees with the history of the run: the replacer lists the frame ids of the
pages of `unpinned` in their order, `unpinned` holds the resident pages with pin count 0,
and the dirty flag of a resident page is set exactly when the page is in `dirtied`. -/
structure PoolInv (b : BufferPoolManager) (g : PoolGhost) : Prop where
  core : PoolCore b
  maxPages : b.replacer_.max_num_pages = b.pool_size_
  lru : b.replacer_.lru_list_ =
    g.unpinned.map (fun q => (b.page_table_.lookup q).getD INVALID_FRAME_ID)
  unpinnedNodup : g.unpinned.Nodup
  unpinnedMem : ∀ q : Int, q ∈ g.unpinned ↔ b.isZero q = true
  dirtiedMem : ∀ (q : Int) (pg : Page), b.pageOf q = some pg →
    (pg.is_dirty_ = true ↔ q ∈ g.dirtied)
  dirtiedRes : ∀ q : Int, q ∈ g.dirtied → b.resident q = true

/-- The pool after the page of frame `i`, with page table entry `frame_id`, has left it as
in `DeletePage`. -/
def BufferPoolManager.dropPage (b : BufferPoolManager) (i : Nat) (frame_id : Int)
    (disk : DiskManager) : BufferPoolManager :=
  { b with
    page_table_ := b.page_table_.filter (fun e => e.2 != frame_id),
    pages_ := modifyPage b.pages_ i (fun q =>
      { q with page_id_ := INVALID_PAGE_ID, is_dirty_ := false }),
    free_list_ := b.free_list_ ++ [frame_id],
    replacer_ := b.replacer_.Pin frame_id,
    disk_manager_ := disk }

/-- The pool after `page_id` was put into frame `i` under the first frame id of the free
list, as in `FetchPage` and `NewPage`. -/
def BufferPoolManager.installPage (b : BufferPoolManager) (i : Nat) (page_id frame_id : Int)
    (data : PageData) (disk : DiskManager) : BufferPoolManager :=
  { b with
    pages_ := modifyPage b.pages_ i (fun _ =>
      { page_id_ := page_id, pin_count_ := 1, is_dirty_ := false, data_ := data }),
    page_table_ := b.page_table_ ++ [(page_id, frame_id)],
    free_list_ := b.free_list_.tail,
    disk_manager_ := disk }

end MiniSql





namespace MiniSql

/-- The disk after the frame `pg` was given to another page: its bytes are written under
its page id if its dirty flag is set, and nothing is written otherwise. -/
def DiskManager.afterWriteBack (d : DiskManager) (pg : Page) : DiskManager :=
  if pg.is_dirty_ then { d with file := (pg.page_id_, pg.data_) :: d.file } else d

end MiniSql


namespace MiniSql

/-- The pool of the example of the eviction order: three frames; `NewPage` three times
(pages 0, 1, 2), each page unpinned once, then `FetchPage(0)`. -/
def evictionExample : List PoolOp :=
  [PoolOp.NewPage, PoolOp.NewPage, PoolOp.NewPage, PoolOp.UnpinPage 0 false,
   PoolOp.UnpinPage 1 false, PoolOp.UnpinPage 2 false, PoolOp.FetchPage 0]

/-- A run that leaves page 0 with pin count 0 after one `UnpinPage` with `is_dirty = true`
followed by a `FetchPage` and an `UnpinPage` with `is_dirty = false`. -/
def dirtyExample : List PoolOp :=
  [PoolOp.NewPage, PoolOp.UnpinPage 0 true, PoolOp.FetchPage 0, PoolOp.UnpinPage 0 false]

/-- A run over all five calls in which no page is evicted and no resident page is deleted. -/
def definedExample : List PoolOp :=
  [PoolOp.NewPage, PoolOp.NewPage, PoolOp.UnpinPage 0 true, PoolOp.FetchPage 0,
   PoolOp.FlushPage 0, PoolOp.DeletePage 0, PoolOp.DeletePage 7, PoolOp.UnpinPage 0 false,
   PoolOp.UnpinPage 1 false]

/-- A disk manager with no page allocated and an empty file. -/
def DiskManager.blank : DiskManager := { bits := [], file := [] }

end MiniSql


namespace MiniSql

/-! ## Call sequences on the disk manager -/

/-- Allocate `n` pages. -/
def allocateTimes (n : Nat) : List DiskOp := List.replicate n DiskOp.allocate

/-- The state of the disk manager of an empty database file after a sequence of calls. -/
def diskAfter (PAGE_SIZE : Nat) (ops : List DiskOp) : Option ExtentDisk :=
  (ExtentDisk.run PAGE_SIZE ExtentDisk.empty [] ops).map (·.1)

end MiniSql

namespace MiniSql

/-! ## Call sequences on the replacer -/

/-- The constructor `LRUReplacer::LRUReplacer(num_pages)`: an empty list. -/
def LRUReplacer.create (num_pages : Nat) : LRUReplacer :=
  { lru_list_ := [], max_num_pages := num_pages }

/-- A call of the interface of the replacer. -/
inductive ReplacerOp where
  | Pin (frame_id : Int)
  | Unpin (frame_id : Int)
  | Victim
deriving DecidableEq, Repr

/-- Runs one call; the first component is the frame `Victim` writes through `frame_id` when
it returns true, `none` when it returns false (and for `Pin` and `Unpin`, which return
nothing). -/
def LRUReplacer.call (r : LRUReplacer) : ReplacerOp → Option Int × LRUReplacer
  | ReplacerOp.Pin f => (none, r.Pin f)
  | ReplacerOp.Unpin f => (none, r.Unpin f)
  | ReplacerOp.Victim => r.Victim

/-- Runs a sequence of calls, left to right. -/
def LRUReplacer.run : LRUReplacer → List ReplacerOp → LRUReplacer
  | r, [] => r
  | r, op :: ops => LRUReplacer.run (r.call op).2 ops

/-- A call as it took place: the call and what `Victim` returned. -/
abbrev ReplacerEvent := ReplacerOp × Option Int

/-- Runs a sequence of calls and records them; the record lists the calls newest first. -/
def LRUReplacer.trace :
    LRUReplacer → List ReplacerEvent → List ReplacerOp → LRUReplacer × List ReplacerEvent
  | r, h, [] => (r, h)
  | r, h, op :: ops => LRUReplacer.trace (r.call op).2 ((op, (r.call op).1) :: h) ops

/-- The frame ids passed to `Pin` and `Unpin` in a sequence of calls. -/
def framesUsed : List ReplacerOp → List Int
  | [] => []
  | ReplacerOp.Pin f :: ops => f :: framesUsed ops
  | ReplacerOp.Unpin f :: ops => f :: framesUsed ops
  | ReplacerOp.Victim :: ops => framesUsed ops

/-- The frame a recorded call operated on: the argument of `Pin` and `Unpin`, the frame
returned by `Victim`. -/
def ReplacerEvent.frame : ReplacerEvent → Option Int
  | (ReplacerOp.Pin f, _) => some f
  | (ReplacerOp.Unpin f, _) => some f
  | (ReplacerOp.Victim, res) => res

/-- The recorded call is an `Unpin`. -/
def ReplacerEvent.isUnpin : ReplacerEvent → Bool
  | (ReplacerOp.Unpin _, _) => true
  | _ => false

/-- The most recent operation on frame `f` in a record (newest first): its time, counted as
the number of calls before it, and whether it is an `Unpin`; `none` if no call operated on
`f`. -/
def lastTouch : List ReplacerEvent → Int → Option (Nat × Bool)
  | [], _ => none
  | e :: h, f => if e.frame = some f then some (h.length, e.isUnpin) else lastTouch h f

/-- The most recent operation on `f` is an `Unpin`, and that `Unpin` is call number `t`. -/
def unpinnedAt (h : List ReplacerEvent) (f : Int) (t : Nat) : Prop :=
  lastTouch h f = some (t, true)

/-- The list of the replacer against the record of the calls made on it: the list holds,
each once, the frames whose most recent operation is an `Unpin`, in the order of these
`Unpin` calls, oldest first; `S` is a set of frame ids the list stays in. -/
structure ReplInv (S : List Int) (r : LRUReplacer) (h : List ReplacerEvent) : Prop where
  nodup : r.lru_list_.Nodup
  mem : ∀ f, f ∈ r.lru_list_ ↔ ∃ t, unpinnedAt h f t
  sorted : r.lru_list_.Pairwise (fun f g => ∀ t s, unpinnedAt h f t → unpinnedAt h g s → t < s)
  time : ∀ f t b, lastTouch h f = some (t, b) → t < h.length
  sub : ∀ f ∈ r.lru_list_, f ∈ S

/-- A sequence of calls on two frames. -/
def replacerExample : List ReplacerOp :=
  [ReplacerOp.Unpin 1, ReplacerOp.Unpin 2, ReplacerOp.Unpin 1, ReplacerOp.Victim,
   ReplacerOp.Pin 1, ReplacerOp.Unpin 2, ReplacerOp.Unpin 1, ReplacerOp.Unpin 2]

end MiniSql


namespace MiniSql

/-! ## Catalog manager (`catalog/catalog.cpp`) -/

/-- Modelled from the spec: the error codes `dberr_t` (declared in a header that is not at
hand): the values the sources use. -/
inductive dberr_t where
  | DB_SUCCESS
  | DB_FAILED
  | DB_TABLE_ALREADY_EXIST
  | DB_TABLE_NOT_EXIST
  | DB_INDEX_ALREADY_EXIST
  | DB_INDEX_NOT_FOUND
  | DB_COLUMN_NAME_NOT_EXIST
deriving DecidableEq, Repr

/-- `std::unordered_map::count` on a map held as a list of pairs with distinct keys. -/
def mapCount {K V : Type} [BEq K] (m : List (K × V)) (k : K) : Nat :=
  if (m.lookup k).isSome then 1 else 0

/-- `std::unordered_map::operator[]`: the mapped value and the map, in which a key that was
absent is entered with the value-initialised `dflt`. -/
def mapIndex {K V : Type} [BEq K] (m : List (K × V)) (k : K) (dflt : V) : V × List (K × V) :=
  match m.lookup k with
  | some v => (v, m)
  | none => (dflt, m ++ [(k, dflt)])

/-- The members of the class `CatalogManager` that `GetTable` works on: `table_names_` maps a
table name to its table id, `tables_` a table id to a `TableInfo *` (`none` is `nullptr`).
`TableInfo` is whatever the pointers name. -/
structure CatalogManager (TableInfo : Type) where
  table_names_ : List (String × Nat)
  tables_ : List (Nat × Option TableInfo)

/-- `CatalogManager::GetTable(const string &table_name, TableInfo *&table_info)`: the value
returned, `table_info` after the call, and the catalog. -/
def CatalogManager.GetTable {TableInfo : Type} (c : CatalogManager TableInfo)
    (table_name : String) (table_info : Option TableInfo) :
    dberr_t × Option TableInfo × CatalogManager TableInfo :=
  if mapCount c.table_names_ table_name > 0 then (dberr_t.DB_TABLE_NOT_EXIST, table_info, c)
  else
    let r1 := mapIndex c.table_names_ table_name 0
    let r2 := mapIndex c.tables_ r1.1 none
    (dberr_t.DB_SUCCESS, r2.1, { table_names_ := r1.2, tables_ := r2.2 })

/-- `CatalogManager::GetTable(const table_id_t table_id, TableInfo *&table_info)`, the
overload that takes the table id. -/
def CatalogManager.GetTableById {TableInfo : Type} (c : CatalogManager TableInfo)
    (table_id : Nat) (table_info : Option TableInfo) : dberr_t × Option TableInfo :=
  match c.tables_.lookup table_id with
  | none => (dberr_t.DB_TABLE_NOT_EXIST, table_info)
  | some item => (dberr_t.DB_SUCCESS, item)

/-- A catalog in which table "t" is registered, as `CreateTable` leaves the two maps:
`table_names_["t"] = 0` and `tables_[0]` the `TableInfo` of the table (here the number 7
stands for it). -/
def catalogWithTable : CatalogManager Nat :=
  { table_names_ := [("t", 0)], tables_ := [(0, some 7)] }

end MiniSql

namespace MiniSql

/-! ## Catalog meta data (`CatalogMeta` in `catalog/catalog.cpp`)

The buffer is read and written four bytes at a time, at offsets that are multiples of four:
it is held as the list of its 32-bit words. -/

/-- The class `CatalogMeta`: the maps from table id and from index id (`uint32_t`) to the
page id (`int32_t`) of the meta data page, each held as a list of pairs with distinct keys
in the order of iteration. -/
structure CatalogMeta where
  table_meta_pages_ : List (Nat × Int)
  index_meta_pages_ : List (Nat × Int)
deriving DecidableEq, Repr

/-- The count written by `SerializeTo`: `uint32_t len = size()`, then `len--` for every
entry whose page id is `INVALID_PAGE_ID`. -/
def serializedCount (m : List (Nat × Int)) : Nat :=
  m.foldl (fun len it => if it.2 = INVALID_PAGE_ID then (len + (2 ^ 32 - 1)) % 2 ^ 32 else len)
    (m.length % 2 ^ 32)

/-- The words written by the loop of `SerializeTo` over a map: id and page id of every entry
with `pageId >= 0`. -/
def serializedEntries : List (Nat × Int) → List Nat
  | [] => []
  | item :: m =>
    if item.2 ≥ 0 then item.1 :: toUInt32 item.2 :: serializedEntries m else serializedEntries m

/-- `CatalogMeta::SerializeTo`: the words written from `buf` on; `MAGIC` is
`CATALOG_METADATA_MAGIC_NUM`. -/
def CatalogMeta.SerializeTo (MAGIC : Nat) (c : CatalogMeta) : List Nat :=
  [MAGIC, serializedCount c.table_meta_pages_] ++ serializedEntries c.table_meta_pages_ ++
    ([serializedCount c.index_meta_pages_] ++ serializedEntries c.index_meta_pages_)

/-- `map[k] = v` on a `std::map`. -/
def mapAssign (m : List (Nat × Int)) (k : Nat) (v : Int) : List (Nat × Int) :=
  if (m.lookup k).isSome then m.map (fun e => if e.1 = k then (k, v) else e) else m ++ [(k, v)]

/-- `map.emplace(k, v)` on a `std::map`: nothing is done when the key is there. -/
def mapEmplace (m : List (Nat × Int)) (k : Nat) (v : Int) : List (Nat × Int) :=
  if (m.lookup k).isSome then m else m ++ [(k, v)]

/-- The loop `for (int i = 0; i < int(len); i++)` of `DeserializeFrom` with `n` rounds to
go: the map and the rest of the buffer; `none` is a read beyond the buffer. -/
def readEntries : Nat → List Nat → List (Nat × Int) → Option (List (Nat × Int) × List Nat)
  | 0, p, m => some (m, p)
  | n + 1, tableId :: pageId :: p, m => readEntries n p (mapAssign m tableId (toInt32 pageId))
  | _ + 1, _, _ => none

/-- `CatalogMeta::DeserializeFrom`; `none` is a read beyond the buffer. -/
def CatalogMeta.DeserializeFrom (buf : List Nat) : Option CatalogMeta :=
  match buf with
  | _ :: len :: p =>
    match readEntries (toInt32 len).toNat p [] with
    | none => none
    | some (tables, p1) =>
      match p1 with
      | len2 :: p2 =>
        match readEntries (toInt32 len2).toNat p2 [] with
        | none => none
        | some (indexes, _) =>
          some { table_meta_pages_ := mapEmplace tables len INVALID_PAGE_ID,
                 index_meta_pages_ := mapEmplace indexes len2 INVALID_PAGE_ID }
      | [] => none
  | _ => none

/-- The entries of a map with page id at least 0. -/
def liveEntries (m : List (Nat × Int)) : List (Nat × Int) := m.filter (fun e => decide (0 ≤ e.2))

/-- The words of a list of entries: id, then page id. -/
def entryWords : List (Nat × Int) → List Nat
  | [] => []
  | e :: es => e.1 :: e.2.toNat :: entryWords es

/-- A map of `CatalogMeta`: the keys are distinct, the page ids are `int32_t` values, and
the map has fewer than `2 ^ 31` entries. -/
structure MetaMapOK (m : List (Nat × Int)) : Prop where
  keys : (m.map Prod.fst).Nodup
  ids : ∀ e ∈ m, e.2 < 2 ^ 31
  size : m.length < 2 ^ 31

/-- A catalog meta with three tables, one of them dropped, and one index. -/
def catalogMetaExample : CatalogMeta :=
  { table_meta_pages_ := [(0, 5), (1, INVALID_PAGE_ID), (2, 9), (3, INVALID_PAGE_ID)],
    index_meta_pages_ := [(0, 7), (1, INVALID_PAGE_ID)] }

end MiniSql

namespace MiniSql

/-! ## Table heap (`storage/table_heap.cpp`, `storage/table_iterator.cpp`) -/

/-- The class `RowId`: page id and slot number. -/
structure RowId where
  page_id_ : Int
  slot_num_ : Nat
deriving DecidableEq, Repr

/-- Modelled from the spec: the value of `RowId rowId;`, the `RowId` built by the default
constructor (the class is declared in `common/rowid.h`, which is not at hand): it names no
page, as the `RowId` of `End()` does: invalid page id, slot 0. -/
def RowId.create : RowId := { page_id_ := INVALID_PAGE_ID, slot_num_ := 0 }

/-- The functions of the class `TablePage` that the table heap calls on a page
(`page/table_page.cpp` is not at hand: they are parameters of the embedding).
`GetFirstTupleRid` and `GetNextTupleRid` give the value returned and the `RowId` left in the
argument they write to. -/
structure TablePageOps where
  GetFirstTupleRid : PageData → RowId → Bool × RowId
  GetNextTupleRid : PageData → RowId → RowId → Bool × RowId
  GetNextPageId : PageData → Int
  GetTuple : PageData → RowId → Bool

/-- The class `TableHeap`. -/
structure TableHeap where
  buffer_pool_manager_ : BufferPoolManager
  first_page_id_ : Int
deriving DecidableEq, Repr

/-- `TableHeap::GetTuple`, as far as the value returned and the pool go (the fields of the
row are left out). -/
def TableHeap.GetTuple (ops : TablePageOps) (h : TableHeap) (rowId : RowId) :
    Option (Bool × TableHeap) := do
  let (page, b1) ← h.buffer_pool_manager_.FetchPage rowId.page_id_
  match page with
  | none => some (false, { h with buffer_pool_manager_ := b1 })
  | some f =>
    let res := ops.GetTuple (b1.node f) rowId
    let (_, b2) ← b1.UnpinPage rowId.page_id_ false
    some (res, { h with buffer_pool_manager_ := b2 })

/-- The constructor `TableIterator(tableHeap, rowId, transaction)`: the iterator is the
`RowId` of its row, next to the heap it points to. -/
def TableIterator.create (ops : TablePageOps) (h : TableHeap) (rowId : RowId) :
    Option (RowId × TableHeap) :=
  if rowId.page_id_ ≠ INVALID_PAGE_ID then
    (h.GetTuple ops rowId).map (fun r => (rowId, r.2))
  else some (rowId, h)

/-- The loop `while (pageId != INVALID_PAGE_ID)` of `TableHeap::Begin`: `rowId` and the pool
when the loop is left. A call through the null pointer that `FetchPage` returns has no
result. -/
def beginLoop (ops : TablePageOps) :
    Nat → BufferPoolManager → RowId → Int → Option (RowId × BufferPoolManager)
  | 0, _, _, _ => none
  | n + 1, b, rowId, pageId =>
    if pageId ≠ INVALID_PAGE_ID then do
      let (page, b1) ← b.fetchNode rowId.page_id_
      let found := ops.GetFirstTupleRid (b1.node page) rowId
      let (_, b2) ← b1.UnpinPage pageId false
      if found.1 then some (found.2, b2)
      else beginLoop ops n b2 found.2 (ops.GetNextPageId (b2.node page))
    else some (rowId, b)

/-- `TableHeap::Begin`. -/
def TableHeap.Begin (ops : TablePageOps) (h : TableHeap) (fuel : Nat) :
    Option (RowId × TableHeap) := do
  let (rowId, b) ← beginLoop ops fuel h.buffer_pool_manager_ RowId.create h.first_page_id_
  TableIterator.create ops { h with buffer_pool_manager_ := b } rowId

/-- `TableHeap::End`: the `RowId` of the iterator. -/
def TableHeap.End : RowId := { page_id_ := INVALID_PAGE_ID, slot_num_ := 0 }

/-- A table heap of one page on a fresh engine with 10 frames: the page is allocated by
`NewPage` (it gets page id 2) and unpinned. -/
def heapOfOnePage : Option TableHeap := do
  let b ← engineInit 10
  let ((_, page_id), b1) ← b.NewPage INVALID_PAGE_ID
  let (_, b2) ← b1.UnpinPage page_id true
  some { buffer_pool_manager_ := b2, first_page_id_ := page_id }

end MiniSql


namespace MiniSql

/-- The pairs `(10, 110), (20, 120), (30, 130), (40, 140)`. -/
def pairs10to40 : List (Int × Int) := [(10, 110), (20, 120), (30, 130), (40, 140)]

end MiniSql



namespace MiniSql

/-! ## Example pages -/

/-- A leaf page that holds the given entries (page id 2, no parent, no next leaf,
max size 10). -/
def leafOfEntries (l : List (Int × Int)) : PageData :=
  { page_type_ := IndexPageType.LEAF_PAGE, size_ := l.length, max_size_ := 10,
    parent_page_id_ := INVALID_PAGE_ID, page_id_ := 2, next_page_id_ := INVALID_PAGE_ID,
    array_ := l }

/-- An internal page that holds the given entries (page id 4, no parent, max size 10); the
key of the first entry is not used. -/
def internalOfEntries (l : List (Int × Int)) : PageData :=
  { page_type_ := IndexPageType.INTERNAL_PAGE, size_ := l.length, max_size_ := 10,
    parent_page_id_ := INVALID_PAGE_ID, page_id_ := 4, next_page_id_ := 0,
    array_ := l }

/-- The leaf [10, 30]. -/
def leaf1030 : PageData := leafOfEntries [(10, 1), (30, 3)]

/-- The leaf [10, 20, 30]. -/
def leaf102030 : PageData := leafOfEntries [(10, 1), (20, 2), (30, 3)]

/-- The internal page with the keys 20 and 40 and the children 7, 8 and 9. -/
def internal2040 : PageData := internalOfEntries [(0, 7), (20, 8), (40, 9)]

end MiniSql

namespace MiniSql

/-- The pairs `(10, 110), (20, 120), (30, 130), (40, 140), (15, 115)`. -/
def pairs10to40then15 : List (Int × Int) := pairs10to40 ++ [(15, 115)]

/-- An empty tree on a pool of three fresh frames. -/
def emptyTree : BPlusTree :=
  BPlusTree.create 0 (BufferPoolManager.create 3 { bits := [], file := [] }) 3 3

end MiniSql

namespace MiniSql

/-! ## `TableHeap::InsertTuple` (`storage/table_heap.cpp`) -/

/-- The functions of the class `TablePage` that `TableHeap::InsertTuple` calls on a page
(`page/table_page.cpp` is not at hand: they are parameters of the embedding). `InsertTuple`
gives the value returned and the contents of the page afterwards; `GetTablePageId` is given
the whole page object. -/
structure TablePageWrites where
  InsertTuple : PageData → Bool × PageData
  GetNextPageId : PageData → Int
  SetNextPageId : PageData → Int → PageData
  Init : PageData → Int → Int → PageData
  GetTablePageId : Page → Int

/-- A call that `TableHeap::InsertTuple` makes, as entered in the record of a run: a
`FetchPage` or `NewPage` that returned a page (with the page id asked for, or assigned), a
`TablePage::InsertTuple` or `SetNextPageId` on the page `curPage` points to (with the page
id, `Page::GetPageId`, of that page object), or an `UnpinPage` (with its arguments). -/
inductive HeapCall where
  | FetchPage (page_id : Int)
  | NewPage (page_id : Int)
  | InsertTuple (page_id : Int) (stored : Bool)
  | SetNextPageId (page_id : Int)
  | UnpinPage (page_id : Int) (is_dirty : Bool)
deriving DecidableEq, Repr

/-- The page object of frame `f`. -/
def BufferPoolManager.pageAt (b : BufferPoolManager) (f : Nat) : Page :=
  (b.pages_[f]?).getD Page.fresh

/-- The loop `while (!curPage->InsertTuple(...))` of `TableHeap::InsertTuple` with the record
of its calls. The result is `some curPage` when the loop is left because the page took the
row, and `none` when the function returns false from inside the loop (`NewPage` gave no
page). A call through the null pointer that `FetchPage` returns has no result. `FetchPage`
and `NewPage` are the functions with the erase loops as C++ defines them. The latch calls
are left out. -/
def insertTupleLoop (ops : TablePageWrites) :
    Nat → Nat → BufferPoolManager → List HeapCall →
      Option (Option Nat × List HeapCall × BufferPoolManager)
  | 0, _, _, _ => none
  | n + 1, curPage, b, log =>
    let r := ops.InsertTuple (b.node curPage)
    let b0 := b.setNode curPage (fun _ => r.2)
    let log0 := log ++ [HeapCall.InsertTuple (b.framePageId curPage) r.1]
    if r.1 then some (some curPage, log0, b0)
    else
      let nextPageId := ops.GetNextPageId (b0.node curPage)
      if nextPageId ≠ INVALID_PAGE_ID then do
        let id := ops.GetTablePageId (b0.pageAt curPage)
        let (_, b1) ← b0.UnpinPage id false
        let (page, b2) ← b1.FetchPageStrict nextPageId
        let next ← page
        insertTupleLoop ops n next b2
          (log0 ++ [HeapCall.UnpinPage id false, HeapCall.FetchPage nextPageId])
      else do
        let ((page, nextPageId1), b1) ← b0.NewPageStrict nextPageId
        match page with
        | none =>
          let id := ops.GetTablePageId (b1.pageAt curPage)
          let (_, b2) ← b1.UnpinPage id false
          some (none, log0 ++ [HeapCall.UnpinPage id false], b2)
        | some newPage =>
          let b2 := b1.setNode curPage (fun d => ops.SetNextPageId d nextPageId1)
          let b3 := b2.setNode newPage (fun d =>
            ops.Init d nextPageId1 (ops.GetTablePageId (b2.pageAt curPage)))
          let id := ops.GetTablePageId (b3.pageAt curPage)
          let (_, b4) ← b3.UnpinPage id true
          insertTupleLoop ops n newPage b4
            (log0 ++ [HeapCall.NewPage nextPageId1,
              HeapCall.SetNextPageId (b1.framePageId curPage), HeapCall.UnpinPage id true])

/-- `TableHeap::InsertTuple`: the value returned, the record of the calls and the heap
afterwards. `serializedSize` is `row.GetSerializedSize(nullptr)`. -/
def TableHeap.InsertTuple (ops : TablePageWrites) (PAGE_SIZE : Nat) (h : TableHeap)
    (fuel : Nat) (serializedSize : Nat) : Option (Bool × List HeapCall × TableHeap) :=
  if serializedSize + 32 > PAGE_SIZE then some (false, [], h)
  else do
    let (page, b1) ← h.buffer_pool_manager_.FetchPageStrict h.first_page_id_
    match page with
    | none => some (false, [], { h with buffer_pool_manager_ := b1 })
    | some curPage =>
      let (cur, log, b2) ← insertTupleLoop ops fuel curPage b1
        [HeapCall.FetchPage h.first_page_id_]
      match cur with
      | none => some (false, log, { h with buffer_pool_manager_ := b2 })
      | some curPage1 =>
        let id := ops.GetTablePageId (b2.pageAt curPage1)
        let (_, b3) ← b2.UnpinPage id true
        some (true, log ++ [HeapCall.UnpinPage id true],
          { h with buffer_pool_manager_ := b3 })

/-- The frames of the pool `b` set against the pool `b0` that a call of
`TableHeap::InsertTuple` started from, `log` being the record of the calls so far and
`extra f` the number of pins the call holds on frame `f`: a frame that held a page still
holds it; a pin count is the one of `b0` (0 for a frame that has taken a page in) plus the
pins held; a dirty flag of `b0` is still set; a dirty flag that is set was set in `b0` or the
page of the frame was unpinned with `is_dirty = true`; and every page unpinned with
`is_dirty = true` is in a frame with the dirty flag set. -/
structure FramesSince (b0 b : BufferPoolManager) (log : List HeapCall) (extra : Nat → Int) :
    Prop where
  pid : ∀ f : Nat, (b0.pageAt f).page_id_ ≠ INVALID_PAGE_ID →
    (b.pageAt f).page_id_ = (b0.pageAt f).page_id_
  pin : ∀ f : Nat, (b.pageAt f).pin_count_ =
    (if (b0.pageAt f).page_id_ = INVALID_PAGE_ID ∧ (b.pageAt f).page_id_ ≠ INVALID_PAGE_ID
      then 0 else (b0.pageAt f).pin_count_) + extra f
  held : ∀ f : Nat, extra f ≠ 0 → (b.pageAt f).page_id_ ≠ INVALID_PAGE_ID
  keep : ∀ f : Nat, (b0.pageAt f).is_dirty_ = true → (b.pageAt f).is_dirty_ = true
  set : ∀ f : Nat, (b.pageAt f).is_dirty_ = true →
    (b0.pageAt f).is_dirty_ = true ∨ HeapCall.UnpinPage (b.pageAt f).page_id_ true ∈ log
  marked : ∀ p : Int, HeapCall.UnpinPage p true ∈ log →
    ∃ f : Nat, (b.pageAt f).page_id_ = p ∧ (b.pageAt f).is_dirty_ = true

/-- Marks the page `p` as modified in the list of the pinned pages. -/
def markModified (p : Int) (held : List (Int × Bool)) : List (Int × Bool) :=
  held.map (fun e => if e.1 = p then (e.1, true) else e)

/-- Follows the words of the claim: reads a record of calls with the list of the pages
that are pinned and not yet unpinned, each with the mark whether the run has modified it
(tuple inserted, or next-page pointer set). A `FetchPage` or `NewPage` enters its page
unmarked; an `UnpinPage(p, d)` takes the page `p` out, and it is an error (`none`) when `p`
is not in the list or when `d` is not the mark of `p`. -/
def pinLedger : List (Int × Bool) → List HeapCall → Option (List (Int × Bool))
  | held, [] => some held
  | held, HeapCall.FetchPage p :: rest => pinLedger (held ++ [(p, false)]) rest
  | held, HeapCall.NewPage p :: rest => pinLedger (held ++ [(p, false)]) rest
  | held, HeapCall.InsertTuple p stored :: rest =>
    pinLedger (if stored then markModified p held else held) rest
  | held, HeapCall.SetNextPageId p :: rest => pinLedger (markModified p held) rest
  | held, HeapCall.UnpinPage p d :: rest =>
    if (p, d) ∈ held then pinLedger (held.erase (p, d)) rest else none

/-- Table pages for the examples: the page record is read as a table page whose `size_` counts
the rows, with room for two rows, and whose `next_page_id_` is the link (0 in a page of zero
bytes stands for no next page until `Init` has run). -/
def twoRowPages : TablePageWrites :=
  { InsertTuple := fun d => if d.size_ < 2 then (true, { d with size_ := d.size_ + 1 }) else (false, d),
    GetNextPageId := fun d => d.next_page_id_,
    SetNextPageId := fun d n => { d with next_page_id_ := n },
    Init := fun d id prev =>
      { d with page_id_ := id, parent_page_id_ := prev, next_page_id_ := INVALID_PAGE_ID,
               size_ := 0 },
    GetTablePageId := fun pg => pg.page_id_ }

/-- The calls that set up the pool of the example heaps: the engine's pages 0 and 1 are
created and unpinned, then page 2 is created and unpinned, with `is_dirty = false`. -/
def heapSetup : List PoolOp :=
  [PoolOp.NewPage, PoolOp.NewPage, PoolOp.UnpinPage 0 false, PoolOp.UnpinPage 1 false,
   PoolOp.NewPage, PoolOp.UnpinPage 2 false]

/-- As `heapSetup`, but the pages 0 and 1 stay pinned. -/
def heapSetupPinned : List PoolOp :=
  [PoolOp.NewPage, PoolOp.NewPage, PoolOp.NewPage, PoolOp.UnpinPage 2 false]

/-- A table heap whose first page is page 2 (in frame 2), set up by `Init` and holding
`rows` rows, on the pool reached by the calls `setup` from a fresh pool of `pool_size`
frames. -/
def exampleHeap (pool_size : Nat) (setup : List PoolOp) (rows : Int) : Option TableHeap :=
  ((BufferPoolManager.create pool_size DiskManager.blank).runStrict PoolGhost.empty setup).map
    (fun r =>
      { buffer_pool_manager_ := r.1.setNode 2 (fun d =>
          { twoRowPages.Init d 2 INVALID_PAGE_ID with size_ := rows }),
        first_page_id_ := 2 })

/-- The page id, pin count and dirty flag of every frame of the pool of a heap. -/
def TableHeap.frames (h : TableHeap) : List (Int × Int × Bool) :=
  h.buffer_pool_manager_.pages_.map (fun pg => (pg.page_id_, pg.pin_count_, pg.is_dirty_))

/-- The value returned and the record of the last of `n + 1` calls of `InsertTuple` (rows of
100 bytes, pages of 4096 bytes) on a heap, and the heap afterwards. -/
def insertRows (h : TableHeap) : Nat → Option (Bool × List HeapCall × TableHeap)
  | 0 => h.InsertTuple twoRowPages 4096 10 100
  | n + 1 => (insertRows h n).bind (fun r => r.2.2.InsertTuple twoRowPages 4096 10 100)

end MiniSql

namespace MiniSql

/-! ## The full-parent branch of `InsertIntoParent` -/

/-- The statements of the full-parent branch of `BPlusTree::InsertIntoParent` from the fetch of
the parent down to the `SetParentPageId` calls on `new_node` and `old_node`
(b_plus_tree.cpp:245-303): the frames of the parent (`father_node`), of the scratch page
`temp` and of the new sibling `temp2` of the parent, and the tree in the state these
statements leave. The statements that follow in the source, `UnpinPage(new_node)`,
`UnpinPage(temp)`, `DeletePage(temp)` and the call for the parent, are not part of it.
`fuel` is the fuel of the call of `InsertIntoParent` the statements belong to. -/
def BPlusTree.splitFullParent (t : BPlusTree) (fuel : Nat) (old_node : Nat) (key : Int)
    (new_node : Nat) : Option (Nat × Nat × Nat × BPlusTree) := do
  let b := t.buffer_pool_manager_
  let (father, b1) ← b.fetchNode (b.node old_node).parent_page_id_
  let ((temp, page_id), b2) ← newTreePage fuel b1 0
  let b3 := b2.setNode temp (fun d =>
    { InternalPage.Init d page_id INVALID_PAGE_ID t.internal_max_size_ with
      size_ := (b2.node father).size_ })
  let b4 := b3.setNode temp (fun d =>
    buildTempLoop (b3.node father) (b3.node old_node).page_id_ key
      (b3.node new_node).page_id_ (b3.node father).size_.toNat 0 0 d)
  let (temp2, t1) ← BPlusTree.Split { t with buffer_pool_manager_ := b4 } fuel false temp
  let b5 := t1.buffer_pool_manager_
  let b6 := b5.setNode father (fun d => { d with size_ := (b5.node temp).size_ + 1 })
  let b7 := b6.setNode father (fun d =>
    { d with array_ := copyN (b6.node temp).array_ (b6.node temp).size_.toNat 0 1 d.array_ })
  let c := comparator key ((b7.node temp2).KeyAt 0)
  let b8 :=
    if c < 0 then
      b7.setNode new_node (fun d => { d with parent_page_id_ := (b7.node father).page_id_ })
    else if c = 0 then
      b7.setNode new_node (fun d => { d with parent_page_id_ := (b7.node temp2).page_id_ })
    else
      (b7.setNode new_node (fun d =>
        { d with parent_page_id_ := (b7.node temp2).page_id_ })).setNode old_node
        (fun d => { d with parent_page_id_ := (b7.node temp2).page_id_ })
  some (father, temp, temp2, { t1 with buffer_pool_manager_ := b8 })

end MiniSql


namespace MiniSql

/-! ## A tree whose next insert splits a leaf under a full parent -/

end MiniSql


namespace MiniSql

/-! ## Point lookups after a root collapse (C1) -/

/-- C1 (evaluation at the failing input): with leaf_max_size = internal_max_size = 3, after
Insert 10, 20, 30, 40, Remove 30, Remove 40, Insert 30, the call Insert(40, 140) returns
true, and `GetValue(40)` then returns false and appends nothing. -/
theorem GetValue_misses_key_inserted_after_root_collapse :
    ((treeAfter 10 3 3 20 (splitThenMerge ++ [Op.insert 30 130])).bind
      (fun t => t.Insert 20 40 140)).map Prod.fst = some true ∧
    ((treeAfter 10 3 3 20 (splitThenMerge ++ [Op.insert 30 130, Op.insert 40 140])).bind
      (fun t => t.GetValue 20 40)).map Prod.fst = some (false, []) := by
  decide!

/-! ## Ordered scan and `End()` (C2, C3) -/

/-- C2 (evaluation at the failing input): with leaf_max_size = internal_max_size = 3 and keys
10, 20, 30, 40 inserted, the loop from `Begin()` to `End()` visits 10, 20, 30 only. -/
theorem scan_stops_before_last_key :
    (treeAfter 10 3 3 20 insert10to40).bind (fun t => t.scan 20) =
      some [(10, 110), (20, 120), (30, 130)] := by
  decide!

/-- C3 (evaluation at the failing input): on a tree holding key 10 alone, `End()` has index 0
although its leaf has size 1, and the iterator at key 10 advanced once (index 1) does not
compare equal to it. -/
theorem End_is_not_one_past_the_last_entry :
    (treeAfter 10 3 3 20 [Op.insert 10 110]).bind (fun t =>
      (t.End 20).bind (fun e =>
        (e.2.BeginAt 20 10).bind (fun it =>
          (it.1.next it.2.buffer_pool_manager_).bind (fun it1 =>
            (it1.1.eq e.1 it1.2).map (fun same =>
              (e.1.index, e.1.leaf.map (fun f => (it1.2.node f).size_), it1.1.index, same))))))
      = some (0, some 1, 1, false) := by
  decide!

/-! ## Removing every key (C6) -/

/-- C6 (evaluation at the failing input): with leaf_max_size = 2 and internal_max_size = 3,
after Insert 1, 2, 3 and Remove 3, 2, 1 the tree is not empty: `root_page_id_` is 2. -/
theorem IsEmpty_false_after_removing_every_key :
    (treeAfter 10 2 3 20
      [Op.insert 1 101, Op.insert 2 102, Op.insert 3 103,
       Op.remove 3, Op.remove 2, Op.remove 1]).map
      (fun t => (t.IsEmpty, t.root_page_id_)) = some (false, 2) := by
  decide!

/-! ## Parent pointers (C7) -/

/-- C7 (evaluation at the failing input): with leaf_max_size = internal_max_size = 3, after
Insert 10, 20, 30, 40, Remove 30, Remove 40 and Insert 30, 40, 50, 60, 70, 80 the root is
page 7, its child page 4 lists page 2 as a child, and the parent page id of page 2 is 8. -/
theorem parent_pointer_wrong_after_root_collapse :
    (treeAfter 16 3 3 20 (splitThenMerge ++
      [Op.insert 30 130, Op.insert 40 140, Op.insert 50 150, Op.insert 60 160,
       Op.insert 70 170, Op.insert 80 180])).map
      (fun t =>
        (t.root_page_id_,
         (t.buffer_pool_manager_.pageData 7).map (fun d => d.entries),
         (t.buffer_pool_manager_.pageData 4).map (fun d => d.entries)))
      = some (7, some [(0, 4), (50, 8)], some [(10, 2), (70, 6)]) ∧
    (treeAfter 16 3 3 20 (splitThenMerge ++
      [Op.insert 30 130, Op.insert 40 140, Op.insert 50 150, Op.insert 60 160,
       Op.insert 70 170, Op.insert 80 180])).map
      (fun t =>
        ((t.buffer_pool_manager_.pageData 4).map (fun d => d.IsLeafPage),
         (t.buffer_pool_manager_.pageData 2).map (fun d => d.parent_page_id_),
         t.parentPointersAccurate 8))
      = some (some false, some 8, false) := by
  decide!

/-! ## Leaf chain (C8) -/

/-- C8 (evaluation at the failing input): with leaf_max_size = internal_max_size = 3, after
Insert 10, 20, 30, 40, Remove 30, Remove 40 and Insert 30, 40, 50 the leaf chain from the
leftmost leaf reads 10, 20, 50 and then 30, 40. -/
theorem leaf_chain_out_of_order_after_root_collapse :
    (treeAfter 10 3 3 20 (splitThenMerge ++
      [Op.insert 30 130, Op.insert 40 140, Op.insert 50 150])).map
      (fun t => t.leafChain 8) = some (some [[10, 20, 50], [30, 40]]) := by
  decide!

/-! ## Pin counts (C9) -/

/-- C9 (evaluation at the failing input): on a tree holding key 10 alone every page is
unpinned, and after `Remove(20)` (key absent) or `Remove(10)` (key present) on a tree
holding 10 and 20, `Check()` returns false. -/
theorem Check_false_after_Remove :
    (treeAfter 10 3 3 20 [Op.insert 10 110]).map BPlusTree.Check = some true ∧
    (treeAfter 10 3 3 20 [Op.insert 10 110, Op.remove 20]).map BPlusTree.Check = some false ∧
    (treeAfter 10 3 3 20 [Op.insert 10 110, Op.insert 20 120]).map BPlusTree.Check
      = some true ∧
    (treeAfter 10 3 3 20 [Op.insert 10 110, Op.insert 20 120, Op.remove 10]).map
      BPlusTree.Check = some false := by
  decide!

/-! ## `UnpinPage` on a page that is not pinned (C10) -/

/-- The index `findPage` returns is a frame of the pool. -/
theorem findPage_get (ps : List Page) (page_id : Int) (i : Nat)
    (h : findPage ps page_id = some i) : ∃ p, ps[i]? = some p ∧ p.page_id_ = page_id := by
  induction ps generalizing i with
  | nil => simp [findPage] at h
  | cons q qs ih =>
    unfold findPage at h
    by_cases hq : q.page_id_ = page_id
    · simp [hq] at h
      subst h
      exact ⟨q, by simp, hq⟩
    · simp [hq] at h
      obtain ⟨j, hj, rfl⟩ := h
      obtain ⟨p, hp, hid⟩ := ih j hj
      exact ⟨p, by simpa using hp, hid⟩

/-- C10: `UnpinPage` on a page that is not in the page table, or whose frame has pin count 0,
returns false and leaves the whole pool (frames with their pin counts and dirty flags, page
table, free list, replacer, disk) as it was, whatever `is_dirty` is. -/
theorem UnpinPage_not_pinned (b : BufferPoolManager) (page_id : Int) (is_dirty : Bool)
    (h : b.page_table_.lookup page_id = none ∨
      ∃ i p, findPage b.pages_ page_id = some i ∧ b.pages_[i]? = some p ∧
        p.pin_count_ = 0) :
    b.UnpinPage page_id is_dirty = some (false, b) := by
  unfold BufferPoolManager.UnpinPage
  rcases h with h | ⟨i, p, hi, hp, hpin⟩
  · simp [h]
  · cases hl : b.page_table_.lookup page_id with
    | none => rfl
    | some frame_id =>
      simp [hi, hp, hpin]

/-- C10 at concrete pools: page 7 is not resident in a fresh pool; page 4 is resident with pin
count 0 in a pool of one frame. -/
theorem UnpinPage_not_pinned_witness :
    (BufferPoolManager.create 2 { bits := [], file := [] }).UnpinPage 7 true =
      some (false, BufferPoolManager.create 2 { bits := [], file := [] }) ∧
    ({ pool_size_ := 1,
       pages_ := [{ page_id_ := 4, pin_count_ := 0, is_dirty_ := false,
                    data_ := PageData.zero }],
       page_table_ := [(4, 0)], free_list_ := [],
       replacer_ := { lru_list_ := [0], max_num_pages := 1 },
       disk_manager_ := { bits := [true, true, true, true, true], file := [] } } :
      BufferPoolManager).UnpinPage 4 true =
      some (false,
        { pool_size_ := 1,
          pages_ := [{ page_id_ := 4, pin_count_ := 0, is_dirty_ := false,
                       data_ := PageData.zero }],
          page_table_ := [(4, 0)], free_list_ := [],
          replacer_ := { lru_list_ := [0], max_num_pages := 1 },
          disk_manager_ := { bits := [true, true, true, true, true], file := [] } }) :=
  ⟨UnpinPage_not_pinned _ 7 true (Or.inl (by decide)),
   UnpinPage_not_pinned _ 4 true (Or.inr ⟨0, _, by decide, rfl, rfl⟩)⟩

end MiniSql

namespace MiniSql

/-! ## Lookups do not move pages: the machinery for C4 -/

/-- `findPage` reads page ids only. -/
theorem findPage_congr (ps ps' : List Page)
    (h : ps.map (fun p => (p.page_id_, p.data_)) = ps'.map (fun p => (p.page_id_, p.data_)))
    (page_id : Int) : findPage ps page_id = findPage ps' page_id := by
  induction ps generalizing ps' with
  | nil =>
    cases ps' with
    | nil => rfl
    | cons q qs => simp at h
  | cons p ps ih =>
    cases ps' with
    | nil => simp at h
    | cons q qs =>
      simp only [List.map_cons, List.cons.injEq, Prod.mk.injEq] at h
      obtain ⟨⟨hid, _⟩, htl⟩ := h
      simp [findPage, hid, ih qs htl]

theorem SameData.refl (b : BufferPoolManager) : SameData b b := ⟨rfl, rfl⟩

theorem SameData.symm {b b' : BufferPoolManager} (h : SameData b b') : SameData b' b :=
  ⟨h.1.symm, h.2.symm⟩

theorem SameData.trans {b b' b'' : BufferPoolManager} (h : SameData b b')
    (h' : SameData b' b'') : SameData b b'' :=
  ⟨h.1.trans h'.1, h.2.trans h'.2⟩

/-- Frames of pools with the same data agree on page id and contents. -/
theorem SameData.get {b b' : BufferPoolManager} (h : SameData b b') (f : Nat) :
    (b.pages_[f]?).map (fun p => (p.page_id_, p.data_)) =
      (b'.pages_[f]?).map (fun p => (p.page_id_, p.data_)) := by
  have := congrArg (fun l => l[f]?) h.2
  simpa using this

theorem SameData.node {b b' : BufferPoolManager} (h : SameData b b') (f : Nat) :
    b.node f = b'.node f := by
  have := h.get f
  unfold BufferPoolManager.node
  cases h1 : b.pages_[f]? <;> cases h2 : b'.pages_[f]? <;> simp [h1, h2] at this ⊢
  exact this.2

theorem SameData.framePageId {b b' : BufferPoolManager} (h : SameData b b') (f : Nat) :
    b.framePageId f = b'.framePageId f := by
  have := h.get f
  unfold BufferPoolManager.framePageId
  cases h1 : b.pages_[f]? <;> cases h2 : b'.pages_[f]? <;> simp [h1, h2] at this ⊢
  exact this.1

theorem SameData.frameOf {b b' : BufferPoolManager} (h : SameData b b') (page_id : Int) :
    b.frameOf page_id = b'.frameOf page_id := by
  unfold BufferPoolManager.frameOf
  rw [h.1, findPage_congr _ _ h.2]

end MiniSql

namespace MiniSql

end MiniSql

namespace MiniSql

end MiniSql

namespace MiniSql

/-- A successful `lookup` names an entry of the list. -/
theorem lookup_mem (l : List (Int × Int)) (k v : Int) (h : l.lookup k = some v) :
    (k, v) ∈ l := by
  induction l with
  | nil => simp at h
  | cons e es ih =>
    obtain ⟨a, c⟩ := e
    by_cases hk : k = a
    · subst hk
      simp [List.lookup] at h
      simp [h]
    · have hk' : (k == a) = false := by simpa using hk
      simp only [List.lookup, hk'] at h
      exact List.mem_cons_of_mem _ (ih h)

end MiniSql

namespace MiniSql

/-! ## The pool without eviction -/

theorem PoolEq.refl_pool (b : BufferPoolManager) : PoolEq b b := ⟨rfl, rfl, rfl, rfl⟩

theorem PoolEq.symm_pool {b b' : BufferPoolManager} (h : PoolEq b b') : PoolEq b' b :=
  ⟨h.1.symm, h.2.1.symm, h.2.2.1.symm, h.2.2.2.symm⟩

theorem PoolEq.trans_pool {b b' b'' : BufferPoolManager} (h : PoolEq b b') (h' : PoolEq b' b'') :
    PoolEq b b'' :=
  ⟨h.1.trans h'.1, h.2.1.trans h'.2.1, h.2.2.1.trans h'.2.2.1, h.2.2.2.trans h'.2.2.2⟩

theorem PoolEq.sameData {b b' : BufferPoolManager} (h : PoolEq b b') : SameData b b' := by
  refine ⟨h.1, ?_⟩
  have := congrArg (List.map (fun c : Int × PageData × Bool => (c.1, c.2.1))) h.2.1
  simpa [List.map_map, Function.comp, Page.core] using this

theorem PoolEq.node_eq {b b' : BufferPoolManager} (h : PoolEq b b') (f : Nat) :
    b'.node f = b.node f := (h.sameData.node f).symm

theorem PoolEq.frameOf_eq {b b' : BufferPoolManager} (h : PoolEq b b') (p : Int) :
    b'.frameOf p = b.frameOf p := (h.sameData.frameOf p).symm

theorem PoolEq.framePageId_eq {b b' : BufferPoolManager} (h : PoolEq b b') (f : Nat) :
    b'.framePageId f = b.framePageId f := (h.sameData.framePageId f).symm

theorem PoolEq.holds {b b' : BufferPoolManager} (h : PoolEq b b') {f : Nat} {p : Int}
    (hh : b.Holds f p) : b'.Holds f p := by
  unfold BufferPoolManager.Holds at *
  rw [h.frameOf_eq]
  exact hh

theorem PoolEq.get_core {b b' : BufferPoolManager} (h : PoolEq b b') (f : Nat) :
    (b.pages_[f]?).map Page.core = (b'.pages_[f]?).map Page.core := by
  have := congrArg (fun l => l[f]?) h.2.1
  simpa using this

/-- Frames at the same index of lists with the same tags have the same tag. -/
theorem tag_get_some (ps ps' : List Page) (h : ps.map Page.tag = ps'.map Page.tag) (f : Nat)
    (pg : Page) (hf : ps'[f]? = some pg) : ∃ pg0, ps[f]? = some pg0 ∧ pg0.tag = pg.tag := by
  have := congrArg (fun l => l[f]?) h
  simp only [List.getElem?_map] at this
  rw [hf] at this
  cases h0 : ps[f]? with
  | none => rw [h0] at this; simp at this
  | some pg0 =>
    rw [h0] at this
    simp only [Option.map_some', Option.some.injEq] at this
    exact ⟨pg0, rfl, this⟩

theorem countInvalid_congr (ps ps' : List Page) (h : ps.map Page.tag = ps'.map Page.tag) :
    countInvalid ps = countInvalid ps' := by
  induction ps generalizing ps' with
  | nil =>
    cases ps' with
    | nil => rfl
    | cons q qs => simp at h
  | cons p ps ih =>
    cases ps' with
    | nil => simp at h
    | cons q qs =>
      simp only [List.map_cons, List.cons.injEq] at h
      have hid : p.page_id_ = q.page_id_ := congrArg Prod.fst h.1
      have := ih qs h.2
      unfold countInvalid at *
      simp only [List.filter_cons, hid]
      split <;> simp [this]

/-- `findPage` reads page ids only. -/
theorem findPage_tag (ps ps' : List Page) (h : ps.map Page.tag = ps'.map Page.tag) (p : Int) :
    findPage ps p = findPage ps' p := by
  induction ps generalizing ps' with
  | nil =>
    cases ps' with
    | nil => rfl
    | cons q qs => simp at h
  | cons a as ih =>
    cases ps' with
    | nil => simp at h
    | cons q qs =>
      simp only [List.map_cons, List.cons.injEq] at h
      have hid : a.page_id_ = q.page_id_ := congrArg Prod.fst h.1
      simp [findPage, hid, ih qs h.2]

/-- The invariants of the pool only read the page table, the tags of the frames, the free
list and the disk. -/
theorem PoolOK.transfer {b b' : BufferPoolManager} (hb : PoolOK b)
    (ht : b.page_table_ = b'.page_table_)
    (hp : b.pages_.map Page.tag = b'.pages_.map Page.tag)
    (hf : b.free_list_ = b'.free_list_) (hd : b.disk_manager_ = b'.disk_manager_) :
    PoolOK b' := by
  refine ⟨?_, ?_, ?_, ?_, ?_, ?_, ?_, ?_, ?_, ?_⟩
  · rw [← ht]; exact hb.noInvalidKey
  · rw [← ht]; exact hb.keysNodup
  · rw [← ht, ← hf]; exact hb.labels
  · intro i pg hi hne
    obtain ⟨pg0, h0, hc⟩ := tag_get_some _ _ hp i pg hi
    have hid : pg0.page_id_ = pg.page_id_ := congrArg Prod.fst hc
    rw [← ht, ← hid]
    exact hb.carried i pg0 h0 (by rw [hid]; exact hne)
  · intro i j pg pg' hi hj he hne
    obtain ⟨pg0, h0, hc⟩ := tag_get_some _ _ hp i pg hi
    obtain ⟨pg1, h1, hc1⟩ := tag_get_some _ _ hp j pg' hj
    have hid : pg0.page_id_ = pg.page_id_ := congrArg Prod.fst hc
    have hid1 : pg1.page_id_ = pg'.page_id_ := congrArg Prod.fst hc1
    exact hb.uniq i j pg0 pg1 h0 h1 (by rw [hid, hid1]; exact he) (by rw [hid]; exact hne)
  · intro p hpp
    rw [← findPage_tag _ _ hp]
    rw [← ht] at hpp
    exact hb.resident p hpp
  · intro p hpp
    rw [← ht] at hpp
    rw [← hd]
    exact hb.bits p hpp
  · rw [← hd]; exact hb.reserved
  · rw [← hf, ← countInvalid_congr _ _ hp]; exact hb.free
  · intro i pg hi he
    obtain ⟨pg0, h0, hc⟩ := tag_get_some _ _ hp i pg hi
    have hid : pg0.page_id_ = pg.page_id_ := congrArg Prod.fst hc
    have hdd := hb.cleanFree i pg0 h0 (by rw [hid]; exact he)
    have h3 : (pg0.page_id_ == INVALID_PAGE_ID && pg0.is_dirty_) =
        (pg.page_id_ == INVALID_PAGE_ID && pg.is_dirty_) := congrArg Prod.snd hc
    rw [hid, he, hdd] at h3
    simpa using h3.symm

theorem PoolEq.tags {b b' : BufferPoolManager} (h : PoolEq b b') :
    b.pages_.map Page.tag = b'.pages_.map Page.tag := by
  have := congrArg (List.map (fun c : Int × PageData × Bool => (c.1, c.2.2))) h.2.1
  simpa [List.map_map, Function.comp, Page.core, Page.tag] using this

theorem PoolEq.poolOK {b b' : BufferPoolManager} (h : PoolEq b b') (hb : PoolOK b) :
    PoolOK b' := hb.transfer h.1 h.tags h.2.2.1 h.2.2.2

end MiniSql

namespace MiniSql

/-! ## Frames and the primitives that do not move pages -/

theorem modifyPage_get (ps : List Page) (i j : Nat) (g : Page → Page) :
    (modifyPage ps i g)[j]? = if j = i then (ps[j]?).map g else ps[j]? := by
  induction ps generalizing i j with
  | nil => simp [modifyPage]
  | cons q qs ih =>
    cases i with
    | zero =>
      cases j with
      | zero => simp [modifyPage]
      | succ j => simp [modifyPage]
    | succ i =>
      cases j with
      | zero => simp [modifyPage]
      | succ j => simp [modifyPage, ih i j]

theorem modifyPage_length (ps : List Page) (i : Nat) (g : Page → Page) :
    (modifyPage ps i g).length = ps.length := by
  induction ps generalizing i with
  | nil => rfl
  | cons q qs ih =>
    cases i with
    | zero => simp [modifyPage]
    | succ i => simp [modifyPage, ih i]

/-- A frame update that keeps `k` of the frame it touches is invisible through `map k`. -/
theorem modifyPage_map {α : Type} (k : Page → α) (ps : List Page) (i : Nat) (g : Page → Page)
    (hg : ∀ pg, ps[i]? = some pg → k (g pg) = k pg) :
    (modifyPage ps i g).map k = ps.map k := by
  induction ps generalizing i with
  | nil => rfl
  | cons q qs ih =>
    cases i with
    | zero => simp [modifyPage, hg q (by simp)]
    | succ j =>
      simp only [modifyPage, List.map_cons, List.cons.injEq, true_and]
      exact ih j (fun pg hpg => hg pg (by simpa using hpg))

theorem BufferPoolManager.Holds.get_page {b : BufferPoolManager} {f : Nat} {p : Int} (h : b.Holds f p) :
    ∃ pg, b.pages_[f]? = some pg ∧ pg.page_id_ = p := by
  unfold BufferPoolManager.Holds BufferPoolManager.frameOf at h
  cases hl : b.page_table_.lookup p with
  | none => simp [hl] at h
  | some v =>
    simp only [hl] at h
    exact findPage_get _ _ _ h

theorem BufferPoolManager.Holds.resident {b : BufferPoolManager} {f : Nat} {p : Int} (h : b.Holds f p) :
    (b.page_table_.lookup p).isSome := by
  unfold BufferPoolManager.Holds BufferPoolManager.frameOf at h
  cases hl : b.page_table_.lookup p with
  | none => simp [hl] at h
  | some v => rfl

theorem BufferPoolManager.Holds.findPage {b : BufferPoolManager} {f : Nat} {p : Int} (h : b.Holds f p) :
    findPage b.pages_ p = some f := by
  unfold BufferPoolManager.Holds BufferPoolManager.frameOf at h
  cases hl : b.page_table_.lookup p with
  | none => simp [hl] at h
  | some v => simpa [hl] using h

theorem BufferPoolManager.Holds.pageId_at {b : BufferPoolManager} {f : Nat} {p : Int} (h : b.Holds f p) :
    b.framePageId f = p := by
  obtain ⟨pg, hpg, hid⟩ := h.get_page
  simp [BufferPoolManager.framePageId, hpg, hid]

theorem BufferPoolManager.Holds.inj {b : BufferPoolManager} {f : Nat} {p q : Int} (h : b.Holds f p)
    (h' : b.Holds f q) : p = q := by
  rw [← h.pageId_at, ← h'.pageId_at]

theorem BufferPoolManager.Holds.frame_ne {b : BufferPoolManager} {f f' : Nat} {p q : Int} (h : b.Holds f p)
    (h' : b.Holds f' q) (hne : p ≠ q) : f ≠ f' := by
  intro he
  subst he
  exact hne (h.inj h')

theorem BufferPoolManager.Holds.unique {b : BufferPoolManager} {f f' : Nat} {p : Int} (h : b.Holds f p)
    (h' : b.Holds f' p) : f = f' := by
  unfold BufferPoolManager.Holds at h h'
  rw [h] at h'
  exact Option.some.inj h'

theorem BufferPoolManager.Holds.ne_invalid {b : BufferPoolManager} (hb : PoolOK b) {f : Nat} {p : Int}
    (h : b.Holds f p) : p ≠ INVALID_PAGE_ID := by
  intro he
  have := h.resident
  rw [he, hb.noInvalidKey] at this
  cases this

theorem BufferPoolManager.Holds.bits {b : BufferPoolManager} (hb : PoolOK b) {f : Nat} {p : Int}
    (h : b.Holds f p) : 0 ≤ p ∧ getBit b.disk_manager_.bits p.toNat = true :=
  hb.bits p h.resident

/-- Every page of the page table has a frame. -/
theorem PoolOK.holds_of_resident {b : BufferPoolManager} (hb : PoolOK b) (p : Int)
    (h : (b.page_table_.lookup p).isSome) : ∃ f, b.Holds f p := by
  obtain ⟨f, hf⟩ := Option.isSome_iff_exists.mp (hb.resident p h)
  refine ⟨f, ?_⟩
  unfold BufferPoolManager.Holds BufferPoolManager.frameOf
  obtain ⟨v, hv⟩ := Option.isSome_iff_exists.mp h
  simp [hv, hf]

/-- A fetch of a resident page returns its frame and changes a pin count and the replacer
only. -/
theorem FetchPage_holds (b : BufferPoolManager) (p : Int) (f : Nat) (h : b.Holds f p) :
    ∃ b1, b.FetchPage p = some (some f, b1) ∧ PoolEq b b1 := by
  have hf := h.findPage
  obtain ⟨v, hv⟩ := Option.isSome_iff_exists.mp h.resident
  unfold BufferPoolManager.FetchPage
  simp only [hv, hf]
  refine ⟨_, rfl, rfl, ?_, rfl, rfl⟩
  show List.map _ b.pages_ = List.map _ (modifyPage _ _ _)
  rw [modifyPage_map]
  intro pg _
  rfl

theorem fetchNode_holds (b : BufferPoolManager) (p : Int) (f : Nat) (h : b.Holds f p) :
    ∃ b1, b.fetchNode p = some (f, b1) ∧ PoolEq b b1 := by
  obtain ⟨b1, h1, h2⟩ := FetchPage_holds b p f h
  exact ⟨b1, by simp [BufferPoolManager.fetchNode, h1], h2⟩

/-- In a consistent pool `UnpinPage` runs to its end and changes a pin count, a dirty flag of
a resident page and the replacer only. -/
theorem UnpinPage_poolEq (b : BufferPoolManager) (hb : PoolOK b) (p : Int) (d : Bool) :
    ∃ r b1, b.UnpinPage p d = some (r, b1) ∧ PoolEq b b1 := by
  unfold BufferPoolManager.UnpinPage
  cases hl : b.page_table_.lookup p with
  | none => exact ⟨false, b, rfl, PoolEq.refl_pool b⟩
  | some v =>
    have hres : (b.page_table_.lookup p).isSome := by simp [hl]
    obtain ⟨f, hf⟩ := hb.holds_of_resident p hres
    obtain ⟨pg, hpg, hid⟩ := hf.get_page
    have hne := hf.ne_invalid hb
    simp only [hf.findPage, hpg]
    by_cases hpin : pg.pin_count_ > 0
    · simp only [hpin, if_true]
      refine ⟨true, _, rfl, rfl, ?_, rfl, rfl⟩
      show List.map _ b.pages_ = List.map _ (modifyPage _ _ _)
      rw [modifyPage_map]
      intro pg' hpg'
      rw [hpg] at hpg'
      cases hpg'
      have : (pg.page_id_ == INVALID_PAGE_ID) = false := by
        simpa [hid] using hne
      simp [Page.core, this]
    · simp only [hpin, if_false]
      exact ⟨false, b, rfl, PoolEq.refl_pool b⟩

theorem setNode_frameOf (b : BufferPoolManager) (f : Nat) (g : PageData → PageData) (p : Int) :
    (b.setNode f g).frameOf p = b.frameOf p := by
  have h : findPage (b.setNode f g).pages_ p = findPage b.pages_ p := by
    apply findPage_tag
    unfold BufferPoolManager.setNode
    apply modifyPage_map
    intro pg _
    rfl
  unfold BufferPoolManager.frameOf
  rw [h]
  rfl

theorem setNode_node_ne (b : BufferPoolManager) (f f' : Nat) (g : PageData → PageData)
    (h : f' ≠ f) : (b.setNode f g).node f' = b.node f' := by
  unfold BufferPoolManager.node BufferPoolManager.setNode
  simp [modifyPage_get, h]

theorem setNode_node_same (b : BufferPoolManager) (f : Nat) (g : PageData → PageData)
    (h : f < b.pages_.length) : (b.setNode f g).node f = g (b.node f) := by
  unfold BufferPoolManager.node BufferPoolManager.setNode
  simp [modifyPage_get, List.getElem?_eq_getElem h]

theorem setNode_framePageId (b : BufferPoolManager) (f f' : Nat) (g : PageData → PageData) :
    (b.setNode f g).framePageId f' = b.framePageId f' := by
  unfold BufferPoolManager.framePageId BufferPoolManager.setNode
  simp only [modifyPage_get]
  split
  · cases h : b.pages_[f']? <;> simp
  · rfl

theorem setNode_poolOK {b : BufferPoolManager} (hb : PoolOK b) (f : Nat)
    (g : PageData → PageData) : PoolOK (b.setNode f g) := by
  refine hb.transfer rfl ?_ rfl rfl
  symm
  unfold BufferPoolManager.setNode
  apply modifyPage_map
  intro pg _
  rfl

theorem setNode_length (b : BufferPoolManager) (f : Nat) (g : PageData → PageData) :
    (b.setNode f g).pages_.length = b.pages_.length := modifyPage_length _ _ _

theorem BufferPoolManager.Holds.lt {b : BufferPoolManager} {f : Nat} {p : Int} (h : b.Holds f p) :
    f < b.pages_.length := by
  obtain ⟨pg, hpg, _⟩ := h.get_page
  by_contra hcon
  rw [List.getElem?_eq_none (by omega)] at hpg
  cases hpg

end MiniSql

namespace MiniSql

/-! ## Association lists, allocation bits -/

theorem lookup_isSome_iff (l : List (Int × Int)) (k : Int) :
    (l.lookup k).isSome ↔ k ∈ l.map Prod.fst := by
  induction l with
  | nil => simp
  | cons e es ih =>
    obtain ⟨a, c⟩ := e
    by_cases hk : k = a
    · subst hk
      simp [List.lookup]
    · have hk' : (k == a) = false := by simpa using hk
      simp [List.lookup, hk', ih, hk]

theorem lookup_eq_none_iff (l : List (Int × Int)) (k : Int) :
    l.lookup k = none ↔ k ∉ l.map Prod.fst := by
  rw [← lookup_isSome_iff]
  cases l.lookup k <;> simp

theorem lookup_append_some (l l' : List (Int × Int)) (k v : Int) (h : l.lookup k = some v) :
    (l ++ l').lookup k = some v := by
  induction l with
  | nil => simp at h
  | cons e es ih =>
    obtain ⟨a, c⟩ := e
    by_cases hk : k = a
    · subst hk
      simpa [List.lookup] using h
    · have hk' : (k == a) = false := by simpa using hk
      simp only [List.lookup, hk', List.cons_append] at h ⊢
      exact ih h

theorem lookup_append_none (l l' : List (Int × Int)) (k : Int) (h : l.lookup k = none) :
    (l ++ l').lookup k = l'.lookup k := by
  induction l with
  | nil => rfl
  | cons e es ih =>
    obtain ⟨a, c⟩ := e
    by_cases hk : k = a
    · subst hk
      simp [List.lookup] at h
    · have hk' : (k == a) = false := by simpa using hk
      simp only [List.lookup, hk', List.cons_append] at h ⊢
      exact ih h

/-- In a list with distinct keys, `lookup` finds each entry. -/
theorem lookup_of_mem (l : List (Int × Int)) (k v : Int) (hn : (l.map Prod.fst).Nodup)
    (h : (k, v) ∈ l) : l.lookup k = some v := by
  induction l with
  | nil => simp at h
  | cons e es ih =>
    obtain ⟨a, c⟩ := e
    simp only [List.map_cons, List.nodup_cons] at hn
    by_cases hk : k = a
    · subst hk
      simp only [List.mem_cons, Prod.mk.injEq, true_and] at h
      rcases h with h | h
      · simp [List.lookup, h]
      · exact absurd (List.mem_map_of_mem Prod.fst h) hn.1
    · have hk' : (k == a) = false := by simpa using hk
      simp only [List.mem_cons, Prod.mk.injEq, hk, false_and, false_or] at h
      simp only [List.lookup, hk']
      exact ih hn.2 h

theorem getBit_setBit (bits : List Bool) (i j : Nat) (v : Bool) :
    getBit (setBit bits i v) j = if j = i then v else getBit bits j := by
  induction bits generalizing i j with
  | nil =>
    induction i generalizing j with
    | zero =>
      cases j with
      | zero => simp [setBit, getBit]
      | succ j => simp [setBit, getBit]
    | succ i ih =>
      cases j with
      | zero => simp [setBit, getBit]
      | succ j => simp [setBit, getBit, ih j]
  | cons c cs ih =>
    cases i with
    | zero =>
      cases j with
      | zero => simp [setBit, getBit]
      | succ j => simp [setBit, getBit]
    | succ i =>
      cases j with
      | zero => simp [setBit, getBit]
      | succ j => simp [setBit, getBit, ih i j]

theorem getBit_firstClear (bits : List Bool) : getBit bits (firstClear bits) = false := by
  induction bits with
  | nil => simp [firstClear, getBit]
  | cons c cs ih =>
    cases c with
    | true => simpa [firstClear, getBit] using ih
    | false => simp [firstClear, getBit]

theorem getBit_lt_firstClear (bits : List Bool) (j : Nat) (h : j < firstClear bits) :
    getBit bits j = true := by
  induction bits generalizing j with
  | nil => simp [firstClear] at h
  | cons c cs ih =>
    cases c with
    | false => simp [firstClear] at h
    | true =>
      cases j with
      | zero => simp [getBit]
      | succ j =>
        have := ih j (by simpa [firstClear] using h)
        simpa [getBit] using this

theorem findPage_none_iff (ps : List Page) (p : Int) :
    findPage ps p = none ↔ ∀ (j : Nat) (pg : Page), ps[j]? = some pg → pg.page_id_ ≠ p := by
  induction ps with
  | nil => simp [findPage]
  | cons q qs ih =>
    unfold findPage
    by_cases hq : q.page_id_ = p
    · simp only [hq, if_true]
      constructor
      · intro h; cases h
      · intro h
        exact absurd hq (h 0 q (by simp))
    · simp only [hq, if_false, Option.map_eq_none', ih]
      constructor
      · intro h j pg hj
        cases j with
        | zero =>
          simp only [List.getElem?_cons_zero, Option.some.injEq] at hj
          subst hj
          exact hq
        | succ j => exact h j pg (by simpa using hj)
      · intro h j pg hj
        exact h (j + 1) pg (by simpa using hj)

/-- The first frame carrying `p` is any frame carrying `p` when only one does. -/
theorem findPage_eq_of_unique (ps : List Page) (p : Int) (i : Nat) (pg : Page)
    (hi : ps[i]? = some pg) (hid : pg.page_id_ = p)
    (hu : ∀ (j : Nat) (pg' : Page), ps[j]? = some pg' → pg'.page_id_ = p → j = i) :
    findPage ps p = some i := by
  cases h : findPage ps p with
  | none =>
    rw [findPage_none_iff] at h
    exact absurd hid (h i pg hi)
  | some j =>
    obtain ⟨pg', hj, hid'⟩ := findPage_get _ _ _ h
    rw [hu j pg' hj hid']

theorem countInvalid_pos_findPage (ps : List Page) (h : 0 < countInvalid ps) :
    (findPage ps INVALID_PAGE_ID).isSome := by
  induction ps with
  | nil => simp [countInvalid] at h
  | cons q qs ih =>
    unfold findPage
    by_cases hq : q.page_id_ = INVALID_PAGE_ID
    · simp [hq]
    · have : 0 < countInvalid qs := by
        unfold countInvalid at h ⊢
        simpa [List.filter_cons, hq] using h
      simp only [hq, if_false, Option.isSome_map']
      exact ih this

theorem countInvalid_modify (ps : List Page) (i : Nat) (g : Page → Page) (pg : Page)
    (hi : ps[i]? = some pg) :
    countInvalid (modifyPage ps i g) + (if pg.page_id_ = INVALID_PAGE_ID then 1 else 0) =
      countInvalid ps + (if (g pg).page_id_ = INVALID_PAGE_ID then 1 else 0) := by
  induction ps generalizing i with
  | nil => simp at hi
  | cons q qs ih =>
    cases i with
    | zero =>
      simp only [List.getElem?_cons_zero, Option.some.injEq] at hi
      subst hi
      unfold countInvalid
      simp only [modifyPage, List.filter_cons, beq_iff_eq]
      split <;> split <;> simp
    | succ i =>
      have := ih i (by simpa using hi)
      unfold countInvalid at this ⊢
      simp only [modifyPage, List.filter_cons]
      by_cases hq : (q.page_id_ == INVALID_PAGE_ID) = true
      · simp only [hq, if_true, List.length_cons]
        omega
      · simp only [hq, Bool.false_eq_true, if_false]
        exact this

end MiniSql

namespace MiniSql

/-! ## `NewPage` with a free frame -/

theorem tableEmplace_fresh (t : List (Int × Int)) (p f : Int) (h : t.lookup p = none) :
    tableEmplace t p f = t ++ [(p, f)] := by
  simp [tableEmplace, h]

end MiniSql

namespace MiniSql

/-! ## Arrays of a page, read and written through an index -/

theorem comparator_lt (a b : Int) : comparator a b < 0 ↔ a < b := by
  unfold comparator; split_ifs <;> omega

theorem comparator_gt (a b : Int) : comparator a b > 0 ↔ b < a := by
  unfold comparator; split_ifs <;> omega

theorem comparator_ge (a b : Int) : comparator a b >= 0 ↔ b ≤ a := by
  unfold comparator; split_ifs <;> omega

theorem cdiv_two_bounds (x : Int) (h : 0 ≤ x) : 2 * cdiv x 2 ≤ x ∧ x < 2 * cdiv x 2 + 2 := by
  unfold cdiv
  rw [Int.tdiv_eq_ediv h (by norm_num : (0 : Int) ≤ 2)]
  omega

theorem getD_set_replicate (a : List (Int × Int)) (n m : Nat) (v : Int × Int) :
    (if n < a.length then a.set n v
      else a ++ List.replicate (n - a.length) (0, 0) ++ [v]).getD m (0, 0) =
      if m = n then v else a.getD m (0, 0) := by
  by_cases h : n < a.length
  · simp only [h, if_true]
    by_cases hm : m = n
    · subst hm; simp [List.getD_eq_getElem?_getD, h]
    · simp only [hm, if_false, List.getD_eq_getElem?_getD]
      rw [List.getElem?_set_ne (Ne.symm hm)]
  · simp only [h, if_false, List.getD_eq_getElem?_getD]
    have hlen : a.length ≤ n := Nat.le_of_not_lt h
    by_cases hm : m = n
    · subst hm
      simp only [if_true]
      have hl : (a ++ List.replicate (m - a.length) ((0, 0) : Int × Int)).length = m := by
        simp; omega
      rw [List.getElem?_append_right (by rw [hl]), hl]
      simp
    · simp only [hm, if_false]
      by_cases hma : m < a.length
      · rw [List.append_assoc, List.getElem?_append_left hma]
      · have hma' : a.length ≤ m := Nat.le_of_not_lt hma
        rw [List.getElem?_eq_none hma']
        by_cases hmn : m < n
        · rw [List.getElem?_append_left (by simp; omega),
            List.getElem?_append_right hma']
          simp only [List.getElem?_replicate]
          split <;> rfl
        · rw [List.getElem?_eq_none (by simp; omega)]

theorem arrGet_arrSet (a : List (Int × Int)) (i j : Int) (v : Int × Int) (hi : 0 ≤ i)
    (hj : 0 ≤ j) : arrGet (arrSet a i v) j = if j = i then v else arrGet a j := by
  unfold arrGet arrSet
  rw [getD_set_replicate]
  have : (j.toNat = i.toNat) ↔ j = i := by omega
  simp only [this]

theorem shiftRight_get (lo : Int) (hlo : 0 ≤ lo) (n : Nat) (hi : Int) (a : List (Int × Int))
    (hn : hi + 1 - lo ≤ n) (j : Int) (hj : 0 ≤ j) :
    arrGet (shiftRight lo n hi a) j =
      if lo < j ∧ j ≤ hi + 1 then arrGet a (j - 1) else arrGet a j := by
  induction n generalizing hi a with
  | zero =>
    have : ¬ (lo < j ∧ j ≤ hi + 1) := by simp at hn; omega
    simp [shiftRight, this]
  | succ n ih =>
    unfold shiftRight
    by_cases h : hi ≥ lo
    · simp only [h, if_true]
      rw [ih (hi - 1) _ (by push_cast at hn; omega)]
      by_cases h1 : lo < j ∧ j ≤ hi - 1 + 1
      · have h2 : lo < j ∧ j ≤ hi + 1 := by omega
        simp only [h1, h2, and_self, if_true]
        rw [arrGet_arrSet _ _ _ _ (by omega) (by omega)]
        have : ¬ (j - 1 = hi + 1) := by omega
        simp only [this, if_false]
      · simp only [h1, if_false]
        rw [arrGet_arrSet _ _ _ _ (by omega) hj]
        by_cases h3 : j = hi + 1
        · have h2 : lo < j ∧ j ≤ hi + 1 := by omega
          rw [if_pos h3, if_pos h2]
          congr 1
          omega
        · have h2 : ¬ (lo < j ∧ j ≤ hi + 1) := by omega
          simp only [h3, if_false, h2]
    · have h2 : ¬ (lo < j ∧ j ≤ hi + 1) := by omega
      simp only [h, if_false, h2]

theorem shiftLeft_get (size : Int) (n : Nat) (i : Int) (hi : 0 ≤ i) (a : List (Int × Int))
    (hn : size - 1 - i ≤ n) (j : Int) (hj : 0 ≤ j) :
    arrGet (shiftLeft size n i a) j =
      if i ≤ j ∧ j < size - 1 then arrGet a (j + 1) else arrGet a j := by
  induction n generalizing i a with
  | zero =>
    have : ¬ (i ≤ j ∧ j < size - 1) := by simp at hn; omega
    simp [shiftLeft, this]
  | succ n ih =>
    unfold shiftLeft
    by_cases h : i < size - 1
    · simp only [h, if_true]
      rw [ih (i + 1) (by omega) _ (by push_cast at hn; omega)]
      by_cases h1 : i + 1 ≤ j ∧ j < size - 1
      · have h2 : i ≤ j ∧ j < size - 1 := by omega
        simp only [h1, h2, and_self, if_true]
        rw [arrGet_arrSet _ _ _ _ hi (by omega)]
        have : ¬ (j + 1 = i) := by omega
        simp only [this, if_false]
      · simp only [h1, if_false]
        rw [arrGet_arrSet _ _ _ _ hi hj]
        by_cases h3 : j = i
        · have h2 : i ≤ j ∧ j < size - 1 := by omega
          rw [if_pos h3, if_pos h2]
          congr 1
          omega
        · have h2 : ¬ (i ≤ j ∧ j < size - 1) := by omega
          simp only [h3, if_false, h2]
    · have h2 : ¬ (i ≤ j ∧ j < size - 1) := by omega
      simp only [h, if_false, h2]

theorem copyN_get (src : List (Int × Int)) (n : Nat) (s d : Int) (hd : 0 ≤ d)
    (dst : List (Int × Int)) (j : Int) (hj : 0 ≤ j) :
    arrGet (copyN src n s d dst) j =
      if d ≤ j ∧ j < d + n then arrGet src (s + (j - d)) else arrGet dst j := by
  induction n generalizing s d dst with
  | zero =>
    have : ¬ (d ≤ j ∧ j < d + ((0 : Nat) : Int)) := by push_cast; omega
    simp only [copyN, this, if_false]
  | succ n ih =>
    unfold copyN
    rw [ih (s + 1) (d + 1) (by omega)]
    by_cases h1 : d + 1 ≤ j ∧ j < d + 1 + (n : Int)
    · have h2 : d ≤ j ∧ j < d + ((n + 1 : Nat) : Int) := by push_cast; omega
      simp only [h1, h2, and_self, if_true]
      congr 1
      omega
    · simp only [h1, if_false]
      rw [arrGet_arrSet _ _ _ _ hd hj]
      by_cases h3 : j = d
      · have h2 : d ≤ j ∧ j < d + ((n + 1 : Nat) : Int) := by push_cast; omega
        rw [if_pos h3, if_pos h2]
        congr 1
        omega
      · have h2 : ¬ (d ≤ j ∧ j < d + ((n + 1 : Nat) : Int)) := by push_cast; omega
        simp only [h3, if_false, h2]

end MiniSql

namespace MiniSql

/-! ## The search loops of the pages -/

theorem SortedKeys.le {a : List (Int × Int)} {lo hi : Int} (h : SortedKeys a lo hi) (i j : Int)
    (hi1 : lo ≤ i) (hij : i ≤ j) (hj : j < hi) : (arrGet a i).1 ≤ (arrGet a j).1 := by
  rcases Int.le_iff_lt_or_eq.mp hij with h1 | h1
  · exact Int.le_of_lt (h i j hi1 h1 hj)
  · subst h1; exact Int.le_refl _

theorem leafSearchLoop_spec (a : List (Int × Int)) (key size : Int)
    (hs : SortedKeys a 0 size) (n : Nat) (low high : Int) (hlow : 0 ≤ low) (hhigh : high < size)
    (hlh : low ≤ high + 1) (hn : high - low + 2 ≤ n) :
    (∃ mid : Int, low ≤ mid ∧ mid ≤ high ∧ (arrGet a mid).1 = key ∧
      leafSearchLoop a key n low high = some (some mid)) ∨
    ((∀ j : Int, low ≤ j → j ≤ high → (arrGet a j).1 ≠ key) ∧
      leafSearchLoop a key n low high = some none) := by
  induction n generalizing low high with
  | zero => simp at hn; omega
  | succ n ih =>
    unfold leafSearchLoop
    by_cases h : low ≤ high
    · simp only [h, if_true]
      obtain ⟨hc1, hc2⟩ := cdiv_two_bounds (high - low) (by omega)
      have hm1 : low ≤ low + cdiv (high - low) 2 := by omega
      have hm2 : low + cdiv (high - low) 2 ≤ high := by omega
      by_cases hgt : comparator key (arrGet a (low + cdiv (high - low) 2)).1 > 0
      · simp only [hgt, if_true]
        have hlt := (comparator_gt _ _).mp hgt
        rcases ih (low + cdiv (high - low) 2 + 1) high (by omega) hhigh (by omega)
          (by push_cast at hn; omega) with ⟨mid, h1, h2, h3, h4⟩ | ⟨h1, h2⟩
        · exact Or.inl ⟨mid, by omega, h2, h3, h4⟩
        · refine Or.inr ⟨?_, h2⟩
          intro j hj1 hj2
          by_cases hjm : j ≤ low + cdiv (high - low) 2
          · have := hs.le j (low + cdiv (high - low) 2) (by omega) hjm (by omega)
            omega
          · exact h1 j (by omega) hj2
      · simp only [hgt, if_false]
        by_cases hlt : comparator key (arrGet a (low + cdiv (high - low) 2)).1 < 0
        · simp only [hlt, if_true]
          have hlt' := (comparator_lt _ _).mp hlt
          rcases ih low (low + cdiv (high - low) 2 - 1) hlow (by omega) (by omega)
            (by push_cast at hn; omega) with ⟨mid, h1, h2, h3, h4⟩ | ⟨h1, h2⟩
          · exact Or.inl ⟨mid, h1, by omega, h3, h4⟩
          · refine Or.inr ⟨?_, h2⟩
            intro j hj1 hj2
            by_cases hjm : low + cdiv (high - low) 2 ≤ j
            · have := hs.le (low + cdiv (high - low) 2) j (by omega) hjm (by omega)
              omega
            · exact h1 j hj1 (by omega)
        · simp only [hlt, if_false]
          have h1 := (comparator_gt _ _).not.mp hgt
          have h2 := (comparator_lt _ _).not.mp hlt
          exact Or.inl ⟨_, hm1, hm2, by omega, rfl⟩
    · rw [if_neg h]
      exact Or.inr ⟨by intro j h1 h2; omega, rfl⟩

theorem leafInsertLoop_spec (a : List (Int × Int)) (key size : Int)
    (ha : KeyAbsent a 0 size key) (n : Nat) (low high : Int)
    (hlow : 0 ≤ low) (hlh : low < high) (hhigh : high < size)
    (hl : (arrGet a low).1 < key) (hh : key < (arrGet a high).1) (hn : high - low ≤ n) :
    ∃ h : Int, leafInsertLoop a key n low high = some h ∧ low < h ∧ h ≤ high ∧
      (arrGet a (h - 1)).1 < key ∧ key < (arrGet a h).1 := by
  induction n generalizing low high with
  | zero => simp at hn; omega
  | succ n ih =>
    unfold leafInsertLoop
    by_cases h : low + 1 = high
    · have hc : (decide (low < high) && (low + 1 != high)) = false := by simp [h]
      simp only [hc, Bool.false_eq_true, if_false]
      refine ⟨high, rfl, hlh, Int.le_refl _, ?_, hh⟩
      have : high - 1 = low := by omega
      rw [this]; exact hl
    · have hc : (decide (low < high) && (low + 1 != high)) = true := by simp [h, hlh]
      simp only [hc, if_true]
      obtain ⟨hc1, hc2⟩ := cdiv_two_bounds (high - low) (by omega)
      have hm1 : low < low + cdiv (high - low) 2 := by omega
      have hm2 : low + cdiv (high - low) 2 < high := by omega
      by_cases hlt : comparator key (arrGet a (low + cdiv (high - low) 2)).1 < 0
      · simp only [hlt, if_true]
        obtain ⟨r, h1, h2, h3, h4⟩ := ih low (low + cdiv (high - low) 2) hlow hm1 (by omega) hl
          ((comparator_lt _ _).mp hlt) (by push_cast at hn; omega)
        exact ⟨r, h1, h2, by omega, h4⟩
      · simp only [hlt, if_false]
        have hne := ha (low + cdiv (high - low) 2) (by omega) (by omega)
        have h2 := (comparator_lt _ _).not.mp hlt
        have hgt : comparator key (arrGet a (low + cdiv (high - low) 2)).1 > 0 :=
          (comparator_gt _ _).mpr (by omega)
        simp only [hgt, if_true]
        obtain ⟨r, h1, h2, h3, h4⟩ := ih (low + cdiv (high - low) 2) high (by omega) hm2 hhigh
          (by omega) hh (by push_cast at hn; omega)
        exact ⟨r, h1, by omega, h3, h4⟩

theorem internalLookupLoop_spec (a : List (Int × Int)) (key size : Int)
    (hs : SortedKeys a 1 size) (n : Nat) (low high : Int)
    (hlow : 1 ≤ low) (hlh : low < high) (hhigh : high < size)
    (hl : (arrGet a low).1 ≤ key) (hh : key < (arrGet a high).1) (hn : high - low ≤ n) :
    ∃ r : Int, internalLookupLoop a key n low high = some (arrGet a r).2 ∧ low ≤ r ∧ r < high ∧
      (arrGet a r).1 ≤ key ∧ key < (arrGet a (r + 1)).1 := by
  induction n generalizing low high with
  | zero => simp at hn; omega
  | succ n ih =>
    unfold internalLookupLoop
    by_cases h : low + 1 = high
    · have hc : (decide (low < high) && (low + 1 != high)) = false := by simp [h]
      simp only [hc, Bool.false_eq_true, if_false]
      refine ⟨low, rfl, Int.le_refl _, hlh, hl, ?_⟩
      rw [h]; exact hh
    · have hc : (decide (low < high) && (low + 1 != high)) = true := by simp [h, hlh]
      simp only [hc, if_true]
      obtain ⟨hc1, hc2⟩ := cdiv_two_bounds (high - low) (by omega)
      have hm1 : low < low + cdiv (high - low) 2 := by omega
      have hm2 : low + cdiv (high - low) 2 < high := by omega
      by_cases hlt : comparator key (arrGet a (low + cdiv (high - low) 2)).1 < 0
      · simp only [hlt, if_true]
        obtain ⟨r, h1, h2, h3, h4, h5⟩ := ih low (low + cdiv (high - low) 2) hlow hm1 (by omega)
          hl ((comparator_lt _ _).mp hlt) (by push_cast at hn; omega)
        exact ⟨r, h1, h2, by omega, h4, h5⟩
      · simp only [hlt, if_false]
        have h2 := (comparator_lt _ _).not.mp hlt
        by_cases hgt : comparator key (arrGet a (low + cdiv (high - low) 2)).1 > 0
        · simp only [hgt, if_true]
          obtain ⟨r, h1, h2, h3, h4, h5⟩ := ih (low + cdiv (high - low) 2) high (by omega) hm2
            hhigh (by omega) hh (by push_cast at hn; omega)
          exact ⟨r, h1, by omega, h3, h4, h5⟩
        · simp only [hgt, if_false]
          have h3 := (comparator_gt _ _).not.mp hgt
          refine ⟨low + cdiv (high - low) 2, rfl, by omega, hm2, by omega, ?_⟩
          have := hs (low + cdiv (high - low) 2) (low + cdiv (high - low) 2 + 1) (by omega)
            (by omega) (by omega)
          omega

end MiniSql

namespace MiniSql

/-! ## The operations of one page -/

theorem LeafPage.Insert_spec (p : PageData) (key value : Int) (hsize : 0 ≤ p.size_)
    (hs : SortedKeys p.array_ 0 p.size_) (ha : KeyAbsent p.array_ 0 p.size_ key) :
    ∃ (d : PageData) (pos : Int), LeafPage.Insert p key value = some d ∧ 0 ≤ pos ∧
      pos ≤ p.size_ ∧ d = { p with array_ := d.array_, size_ := p.size_ + 1 } ∧
      (∀ j : Int, 0 ≤ j → j < pos → (arrGet p.array_ j).1 < key) ∧
      (∀ j : Int, pos ≤ j → j < p.size_ → key < (arrGet p.array_ j).1) ∧
      (∀ j : Int, 0 ≤ j → j ≤ p.size_ →
        arrGet d.array_ j = insAt (arrGet p.array_) pos (key, value) j) := by
  unfold LeafPage.Insert PageData.KeyAt
  by_cases h1 : p.size_ = 0 ∨ comparator key (arrGet p.array_ (p.size_ - 1)).1 > 0
  · rw [if_pos h1]
    refine ⟨_, p.size_, rfl, hsize, Int.le_refl _, rfl, ?_, ?_, ?_⟩
    · intro j hj1 hj2
      rcases h1 with h1 | h1
      · omega
      · have := (comparator_gt _ _).mp h1
        have := hs.le j (p.size_ - 1) hj1 (by omega) (by omega)
        omega
    · intro j hj1 hj2; omega
    · intro j hj1 hj2
      show arrGet (arrSet p.array_ p.size_ (key, value)) j = _
      rw [arrGet_arrSet _ _ _ _ hsize hj1]
      unfold insAt
      by_cases hj : j = p.size_
      · simp [hj]
      · have : j < p.size_ := by omega
        simp [hj, this]
  · rw [if_neg h1]
    have hpos : 0 < p.size_ := by
      by_contra h
      exact h1 (Or.inl (by omega))
    have hlast : key < (arrGet p.array_ (p.size_ - 1)).1 := by
      have h2 : ¬ comparator key (arrGet p.array_ (p.size_ - 1)).1 > 0 := fun h => h1 (Or.inr h)
      have := (comparator_gt _ _).not.mp h2
      have := ha (p.size_ - 1) (by omega) (by omega)
      omega
    by_cases h2 : comparator key (arrGet p.array_ 0).1 < 0
    · rw [if_pos h2]
      have hlt := (comparator_lt _ _).mp h2
      refine ⟨_, 0, rfl, Int.le_refl _, hsize, rfl, ?_, ?_, ?_⟩
      · intro j hj1 hj2; omega
      · intro j hj1 hj2
        have := hs.le 0 j (Int.le_refl _) hj1 hj2
        omega
      · intro j hj1 hj2
        show arrGet (arrSet (shiftRight 0 p.size_.toNat (p.size_ - 1) p.array_) 0 (key, value)) j
          = _
        rw [arrGet_arrSet _ _ _ _ (Int.le_refl _) hj1]
        unfold insAt
        by_cases hj : j = 0
        · simp [hj]
        · rw [shiftRight_get 0 (Int.le_refl _) _ _ _ (by omega) j hj1]
          have e1 : 0 < j ∧ j ≤ p.size_ - 1 + 1 := by omega
          have e2 : ¬ j < 0 := by omega
          rw [if_neg hj, if_pos e1, if_neg e2, if_neg hj]
    · rw [if_neg h2]
      have hfirst : (arrGet p.array_ 0).1 < key := by
        have := (comparator_lt _ _).not.mp h2
        have := ha 0 (Int.le_refl _) hpos
        omega
      have hsz : 0 < p.size_ - 1 := by
        by_contra hc
        have : p.size_ - 1 = 0 := by omega
        rw [this] at hlast
        omega
      obtain ⟨h, e, g1, g2, g3, g4⟩ := leafInsertLoop_spec p.array_ key p.size_ ha
        (p.size_.toNat + 1) 0 (p.size_ - 1) (Int.le_refl _) hsz (by omega) hfirst hlast
        (by push_cast; omega)
      rw [e]
      refine ⟨_, h, rfl, by omega, by omega, rfl, ?_, ?_, ?_⟩
      · intro j hj1 hj2
        have := hs.le j (h - 1) hj1 (by omega) (by omega)
        omega
      · intro j hj1 hj2
        have := hs.le h j (by omega) hj1 hj2
        omega
      · intro j hj1 hj2
        show arrGet (arrSet (shiftRight h p.size_.toNat (p.size_ - 1) p.array_) h (key, value)) j
          = _
        rw [arrGet_arrSet _ _ _ _ (by omega) hj1]
        unfold insAt
        by_cases hj : j = h
        · simp [hj]
        · rw [shiftRight_get h (by omega) _ _ _ (by omega) j hj1]
          by_cases hjl : j < h
          · have e1 : ¬ (h < j ∧ j ≤ p.size_ - 1 + 1) := by omega
            rw [if_neg hj, if_neg e1, if_pos hjl]
          · have e1 : h < j ∧ j ≤ p.size_ - 1 + 1 := by omega
            rw [if_neg hj, if_pos e1, if_neg hjl, if_neg hj]

theorem InternalPage.Lookup_child_spec (p : PageData) (key : Int) (hsize : 2 ≤ p.size_)
    (hs : SortedKeys p.array_ 1 p.size_) :
    ∃ r : Int, InternalPage.Lookup p key = some (arrGet p.array_ r).2 ∧ 0 ≤ r ∧ r < p.size_ ∧
      (r = 0 ∨ (arrGet p.array_ r).1 ≤ key) ∧
      (r = p.size_ - 1 ∨ key < (arrGet p.array_ (r + 1)).1) := by
  unfold InternalPage.Lookup
  by_cases h1 : comparator key (arrGet p.array_ 1).1 < 0
  · rw [if_pos h1]
    exact ⟨0, rfl, Int.le_refl _, by omega, Or.inl rfl, Or.inr ((comparator_lt _ _).mp h1)⟩
  · rw [if_neg h1]
    have g1 := (comparator_lt _ _).not.mp h1
    by_cases h2 : comparator key (arrGet p.array_ (p.size_ - 1)).1 >= 0
    · rw [if_pos h2]
      exact ⟨p.size_ - 1, rfl, by omega, by omega, Or.inr ((comparator_ge _ _).mp h2),
        Or.inl rfl⟩
    · rw [if_neg h2]
      have g2 := (comparator_ge _ _).not.mp h2
      have hlh : 1 < p.size_ - 1 := by
        by_contra hc
        have : p.size_ - 1 = 1 := by omega
        rw [this] at g2
        omega
      obtain ⟨r, e, r1, r2, r3, r4⟩ := internalLookupLoop_spec p.array_ key p.size_ hs
        (p.size_.toNat + 1) 1 (p.size_ - 1) (Int.le_refl _) hlh (by omega) (by omega)
        (by omega) (by push_cast; omega)
      exact ⟨r, e, by omega, by omega, Or.inr r3, Or.inr r4⟩

end MiniSql

namespace MiniSql

/-! ## Building the entries of a full parent with the new pair put in -/

end MiniSql

namespace MiniSql

/-! ## The allocation idiom of the tree, and `DeletePage` -/

theorem filter_lookup_ne (t : List (Int × Int)) (q fr : Int) (v : Int)
    (h : t.lookup q = some v) (hv : v ≠ fr) :
    (t.filter (fun e => e.2 != fr)).lookup q = some v := by
  induction t with
  | nil => simp at h
  | cons x xs ih =>
    obtain ⟨k, w⟩ := x
    by_cases hk : q = k
    · subst hk
      simp only [List.lookup, beq_self_eq_true] at h
      cases h
      have : ((v != fr) = true) := by simpa using hv
      simp [List.filter, this, List.lookup]
    · have hk' : (q == k) = false := by simpa using hk
      simp only [List.lookup, hk'] at h
      by_cases hw : (w != fr) = true
      · simp only [List.filter, hw, List.lookup, hk']
        exact ih h
      · have hw' : (w != fr) = false := by simpa using hw
        simp only [List.filter, hw']
        exact ih h

theorem filter_lookup_some (t : List (Int × Int)) (hn : (t.map Prod.fst).Nodup) (q fr v : Int)
    (h : (t.filter (fun e => e.2 != fr)).lookup q = some v) : t.lookup q = some v ∧ v ≠ fr := by
  have hm := lookup_mem _ _ _ h
  rw [List.mem_filter] at hm
  exact ⟨lookup_of_mem _ _ _ hn hm.1, by simpa using hm.2⟩

theorem DeAllocate_getBit (d : DiskManager) (p : Int) (j : Nat) (hj : j ≠ p.toNat) :
    getBit (d.DeAllocatePage p).bits j = getBit d.bits j := by
  unfold DiskManager.DeAllocatePage
  split
  · show getBit (setBit d.bits p.toNat false) j = _
    rw [getBit_setBit, if_neg hj]
  · rfl

theorem DeletePage_spec (b : BufferPoolManager) (hb : PoolOK b) (p : Int) (hp : 2 ≤ p) :
    ∃ r b', b.DeletePage p = some (r, b') ∧ DeletePageSpec b b' p := by
  have hrefl : DeletePageSpec b b p :=
    ⟨fun f' q _ h => h, fun _ => rfl, hb, Nat.le_refl _, rfl⟩
  unfold BufferPoolManager.DeletePage
  cases hl : b.page_table_.lookup p with
  | none => exact ⟨true, b, rfl, hrefl⟩
  | some fr =>
    obtain ⟨i, hi⟩ := Option.isSome_iff_exists.mp (hb.resident p (by rw [hl]; rfl))
    obtain ⟨pg, hpg, hid⟩ := findPage_get _ _ _ hi
    simp only [hi, hpg]
    by_cases hpin : (pg.pin_count_ != 0) = true
    · rw [if_pos hpin]; exact ⟨false, b, rfl, hrefl⟩
    · rw [if_neg hpin]
      refine ⟨true, _, rfl, ?_⟩
      have hpne : p ≠ INVALID_PAGE_ID := by unfold INVALID_PAGE_ID; omega
      have hsnd : (b.page_table_.map Prod.snd).Nodup := (List.nodup_append.mp hb.labels).1
      have hpmem : (p, fr) ∈ b.page_table_ := lookup_mem _ _ _ hl
      have hpages : ∀ j : Nat,
          (modifyPage b.pages_ i (fun q =>
            { q with page_id_ := INVALID_PAGE_ID, is_dirty_ := false }))[j]? =
          if j = i then some { pg with page_id_ := INVALID_PAGE_ID, is_dirty_ := false }
          else b.pages_[j]? := by
        intro j
        rw [modifyPage_get]
        split
        · rename_i h; subst h; simp [hpg]
        · rfl
      have hother : ∀ (q v : Int), q ≠ p → b.page_table_.lookup q = some v →
          (b.page_table_.filter (fun e => e.2 != fr)).lookup q = some v := by
        intro q v hq hv
        apply filter_lookup_ne _ _ _ _ hv
        intro hvf
        subst hvf
        have := List.inj_on_of_nodup_map hsnd (lookup_mem _ _ _ hv) hpmem rfl
        exact hq (congrArg Prod.fst this)
      have hback : ∀ q : Int, ((b.page_table_.filter (fun e => e.2 != fr)).lookup q).isSome →
          q ≠ p ∧ (b.page_table_.lookup q).isSome := by
        intro q hq
        obtain ⟨v, hv⟩ := Option.isSome_iff_exists.mp hq
        obtain ⟨h1, h2⟩ := filter_lookup_some _ hb.keysNodup _ _ _ hv
        refine ⟨?_, by rw [h1]; rfl⟩
        intro he
        subst he
        rw [hl] at h1
        cases h1
        exact h2 rfl
      have hfind : ∀ (f' : Nat) (q : Int), q ≠ p → b.Holds f' q →
          findPage (modifyPage b.pages_ i (fun q =>
            { q with page_id_ := INVALID_PAGE_ID, is_dirty_ := false })) q = some f' := by
        intro f' q hq hH
        obtain ⟨pg', hpg', hid'⟩ := hH.get_page
        have hqne := hH.ne_invalid hb
        have hf'ne : f' ≠ i := by
          intro he
          subst he
          rw [hpg] at hpg'
          cases hpg'
          exact hq (hid'.symm.trans hid)
        apply findPage_eq_of_unique _ _ f' pg' (by rw [hpages, if_neg hf'ne]; exact hpg') hid'
        intro j pg'' hj hid''
        rw [hpages] at hj
        by_cases hji : j = i
        · rw [if_pos hji] at hj
          cases hj
          exact absurd hid''.symm hqne
        · rw [if_neg hji] at hj
          exact hb.uniq j f' pg'' pg' hj hpg' (by rw [hid'', hid']) (by rw [hid'']; exact hqne)
      refine ⟨?_, ?_, ?_, ?_, ?_⟩
      · -- keep
        intro f' q hq hH
        obtain ⟨v, hv⟩ := Option.isSome_iff_exists.mp hH.resident
        unfold BufferPoolManager.Holds BufferPoolManager.frameOf
        simp only [hother q v hq hv]
        exact hfind f' q hq hH
      · -- node
        intro f'
        unfold BufferPoolManager.node
        simp only [hpages]
        by_cases hf : f' = i
        · subst hf; simp [hpg]
        · simp [hf]
      · -- ok
        refine ⟨?_, ?_, ?_, ?_, ?_, ?_, ?_, ?_, ?_, ?_⟩
        · show List.lookup INVALID_PAGE_ID (b.page_table_.filter _) = none
          cases hc : List.lookup INVALID_PAGE_ID (b.page_table_.filter (fun e => e.2 != fr)) with
          | none => rfl
          | some v =>
            have := (filter_lookup_some _ hb.keysNodup _ _ _ hc).1
            rw [hb.noInvalidKey] at this
            cases this
        · show ((b.page_table_.filter _).map Prod.fst).Nodup
          exact List.Nodup.sublist ((List.filter_sublist _).map _) hb.keysNodup
        · show ((b.page_table_.filter _).map Prod.snd ++ (b.free_list_ ++ [fr])).Nodup
          have hlab := List.nodup_append.mp hb.labels
          have hfrmem : fr ∈ b.page_table_.map Prod.snd := List.mem_map.mpr ⟨(p, fr), hpmem, rfl⟩
          rw [List.nodup_append]
          refine ⟨List.Nodup.sublist ((List.filter_sublist _).map _) hsnd, ?_, ?_⟩
          · rw [List.nodup_append]
            refine ⟨hlab.2.1, by simp, ?_⟩
            intro a ha1 ha2
            simp only [List.mem_singleton] at ha2
            subst ha2
            exact hlab.2.2 hfrmem ha1
          · intro a ha1 ha2
            obtain ⟨e, he, rfl⟩ := List.mem_map.mp ha1
            rw [List.mem_filter] at he
            rw [List.mem_append] at ha2
            rcases ha2 with ha2 | ha2
            · exact hlab.2.2 (List.mem_map.mpr ⟨e, he.1, rfl⟩) ha2
            · simp only [List.mem_singleton] at ha2
              have := he.2
              rw [ha2] at this
              simp at this
        · intro j pg' hj hne
          show (List.lookup pg'.page_id_ (b.page_table_.filter _)).isSome
          have hj' : (modifyPage b.pages_ i _)[j]? = some pg' := hj
          rw [hpages] at hj'
          by_cases hji : j = i
          · rw [if_pos hji] at hj'
            cases hj'
            exact absurd rfl hne
          · rw [if_neg hji] at hj'
            obtain ⟨v, hv⟩ := Option.isSome_iff_exists.mp (hb.carried j pg' hj' hne)
            have hqp : pg'.page_id_ ≠ p := by
              intro he
              exact hji (hb.uniq j i pg' pg hj' hpg (by rw [he, hid]) hne)
            rw [hother _ v hqp hv]
            rfl
        · intro j j' pg' pg'' hj hj' he hne
          have hj1 : (modifyPage b.pages_ i _)[j]? = some pg' := hj
          have hj2 : (modifyPage b.pages_ i _)[j']? = some pg'' := hj'
          rw [hpages] at hj1 hj2
          by_cases hji : j = i
          · rw [if_pos hji] at hj1
            cases hj1
            exact absurd rfl hne
          · by_cases hji' : j' = i
            · rw [if_pos hji'] at hj2
              cases hj2
              exact absurd he hne
            · rw [if_neg hji] at hj1
              rw [if_neg hji'] at hj2
              exact hb.uniq j j' pg' pg'' hj1 hj2 he hne
        · intro q hq
          show (findPage (modifyPage b.pages_ i _) q).isSome
          obtain ⟨hqp, hqr⟩ := hback q hq
          obtain ⟨f', hf'⟩ := hb.holds_of_resident q hqr
          rw [hfind f' q hqp hf']
          rfl
        · intro q hq
          obtain ⟨hqp, hqr⟩ := hback q hq
          have := hb.bits q hqr
          refine ⟨this.1, ?_⟩
          show getBit (b.disk_manager_.DeAllocatePage p).bits q.toNat = true
          rw [DeAllocate_getBit _ _ _ (by omega)]
          exact this.2
        · show getBit (b.disk_manager_.DeAllocatePage p).bits 0 = true ∧
            getBit (b.disk_manager_.DeAllocatePage p).bits 1 = true
          rw [DeAllocate_getBit _ _ _ (by omega), DeAllocate_getBit _ _ _ (by omega)]
          exact hb.reserved
        · show (b.free_list_ ++ [fr]).length = countInvalid (modifyPage b.pages_ i _)
          have h1 := countInvalid_modify b.pages_ i (fun q =>
            { q with page_id_ := INVALID_PAGE_ID, is_dirty_ := false }) pg hpg
          have hne : pg.page_id_ ≠ INVALID_PAGE_ID := by rw [hid]; exact hpne
          simp only [hne, if_false, if_true] at h1
          have h2 := hb.free
          simp only [List.length_append, List.length_singleton]
          omega
        · intro j pg' hj he
          have hj1 : (modifyPage b.pages_ i _)[j]? = some pg' := hj
          rw [hpages] at hj1
          by_cases hji : j = i
          · rw [if_pos hji] at hj1
            cases hj1
            rfl
          · rw [if_neg hji] at hj1
            exact hb.cleanFree j pg' hj1 he
      · show b.free_list_.length ≤ (b.free_list_ ++ [fr]).length
        simp
      · exact modifyPage_length _ _ _

end MiniSql

namespace MiniSql

/-! ## Pages of a tree: what the shape says about keys and children -/

theorem loLt.loLe {lo : Option Int} {k : Int} (h : loLt lo k) : loLe lo k :=
  fun x hx => Int.le_of_lt (h x hx)

theorem loLe.weaken_le {lo : Option Int} {k k' : Int} (h : loLe lo k) (hk : k ≤ k') : loLe lo k' :=
  fun x hx => Int.le_trans (h x hx) hk

theorem ltHi.weaken_hi {hi : Option Int} {k k' : Int} (h : ltHi k' hi) (hk : k ≤ k') : ltHi k hi :=
  fun x hx => Int.lt_of_le_of_lt hk (h x hx)

theorem loLe_none (k : Int) : loLe none k := fun x hx => by cases hx

theorem loLt_none (k : Int) : loLt none k := fun x hx => by cases hx

theorem ltHi_none (k : Int) : ltHi k none := fun x hx => by cases hx

theorem loLe_some (x k : Int) : loLe (some x) k ↔ x ≤ k :=
  ⟨fun h => h x rfl, fun h y hy => by cases hy; exact h⟩

theorem ltHi_some (k x : Int) : ltHi k (some x) ↔ k < x :=
  ⟨fun h => h x rfl, fun h y hy => by cases hy; exact h⟩

theorem KidsOK.lo_kid {G : Shape} {q n : Int} {e : Int → Int × Int} (h : KidsOK G q n e)
    (i : Int) (h0 : 0 ≤ i) (h1 : i < n) :
    (i = 0 ∧ G.lo (e i).2 = G.lo q) ∨ (1 ≤ i ∧ G.lo (e i).2 = some (e i).1) := by
  obtain ⟨_, _, _, hlo, _⟩ := h.kid i h0 h1
  by_cases hi : i = 0
  · rw [if_pos hi] at hlo; exact Or.inl ⟨hi, hlo⟩
  · rw [if_neg hi] at hlo; exact Or.inr ⟨by omega, hlo⟩

theorem KidsOK.hi_kid {G : Shape} {q n : Int} {e : Int → Int × Int} (h : KidsOK G q n e)
    (i : Int) (h0 : 0 ≤ i) (h1 : i < n) :
    (i = n - 1 ∧ G.hi (e i).2 = G.hi q) ∨ (i < n - 1 ∧ G.hi (e i).2 = some (e (i + 1)).1) := by
  obtain ⟨_, _, _, _, hhi⟩ := h.kid i h0 h1
  by_cases hi : i = n - 1
  · rw [if_pos hi] at hhi; exact Or.inl ⟨hi, hhi⟩
  · rw [if_neg hi] at hhi; exact Or.inr ⟨by omega, hhi⟩

/-- Two entries of an internal page name different children. -/
theorem KidsOK.kid_inj {G : Shape} {q n : Int} {e : Int → Int × Int} (h : KidsOK G q n e)
    (i j : Int) (hi0 : 0 ≤ i) (hi1 : i < n) (hj0 : 0 ≤ j) (hj1 : j < n)
    (he : (e i).2 = (e j).2) : i = j := by
  have key : ∀ i j : Int, 0 ≤ i → i < j → j < n → (e i).2 ≠ (e j).2 := by
    intro i j hi0 hij hj1 he
    rcases h.lo_kid j (by omega) hj1 with ⟨hj, _⟩ | ⟨hj, hloj⟩
    · omega
    · rcases h.lo_kid i hi0 (by omega) with ⟨hi, hloi⟩ | ⟨hi, hloi⟩
      · rw [he, hloj] at hloi
        have := h.lower j hj hj1 (e j).1 hloi.symm
        omega
      · rw [he, hloj] at hloi
        have := h.sorted i j hi hij hj1
        have := Option.some.inj hloi
        omega
  rcases Int.lt_trichotomy i j with hc | hc | hc
  · exact absurd he (key i j hi0 hc hj1)
  · exact hc
  · exact absurd he.symm (key j i hj0 hc hi1)

/-- The range of a child lies in the range of its parent. -/
theorem KidsOK.kid_range {G : Shape} {q n : Int} {e : Int → Int × Int} (h : KidsOK G q n e)
    (i : Int) (h0 : 0 ≤ i) (h1 : i < n) (k : Int) (hk : G.inRange (e i).2 k) :
    G.inRange q k := by
  obtain ⟨hk1, hk2⟩ := hk
  refine ⟨?_, ?_⟩
  · rcases h.lo_kid i h0 h1 with ⟨_, hlo⟩ | ⟨hi, hlo⟩
    · rw [hlo] at hk1; exact hk1
    · rw [hlo] at hk1
      exact (h.lower i hi h1).loLe.weaken_le ((loLe_some _ _).mp hk1)
  · rcases h.hi_kid i h0 h1 with ⟨_, hhi⟩ | ⟨hi, hhi⟩
    · rw [hhi] at hk2; exact hk2
    · rw [hhi] at hk2
      exact (h.upper (i + 1) (by omega) (by omega)).weaken_hi
        (Int.le_of_lt ((ltHi_some _ _).mp hk2))

/-- A key lies in the range of one child at most. -/
theorem KidsOK.kid_unique {G : Shape} {q n : Int} {e : Int → Int × Int} (h : KidsOK G q n e)
    (i j : Int) (hi0 : 0 ≤ i) (hi1 : i < n) (hj0 : 0 ≤ j) (hj1 : j < n) (k : Int)
    (hki : G.inRange (e i).2 k) (hkj : G.inRange (e j).2 k) : i = j := by
  have key : ∀ i j : Int, 0 ≤ i → i < j → j < n → G.inRange (e i).2 k →
      G.inRange (e j).2 k → False := by
    intro i j hi0 hij hj1 hki hkj
    rcases h.lo_kid j (by omega) hj1 with ⟨hj, _⟩ | ⟨hj, hloj⟩
    · omega
    · rcases h.hi_kid i hi0 (by omega) with ⟨hi, _⟩ | ⟨hi, hhii⟩
      · omega
      · have h1 := hkj.1
        rw [hloj, loLe_some] at h1
        have h2 := hki.2
        rw [hhii, ltHi_some] at h2
        by_cases hc : i + 1 = j
        · rw [hc] at h2; omega
        · have := h.sorted (i + 1) j (by omega) (by omega) hj1
          omega
  rcases Int.lt_trichotomy i j with hc | hc | hc
  · exact absurd (key i j hi0 hc hj1 hki hkj) id
  · exact hc
  · exact absurd (key j i hj0 hc hi1 hkj hki) id

theorem KidsOK.sortedKeys {G : Shape} {q : Int} {d : PageData}
    (h : KidsOK G q d.size_ (arrGet d.array_)) : SortedKeys d.array_ 1 d.size_ :=
  fun i j hi hij hj => h.sorted i j hi hij hj

end MiniSql

namespace MiniSql

/-! ## Reading a tree: descent to the leaf of a key -/

theorem PoolEq.holds_iff {b b' : BufferPoolManager} (h : PoolEq b b') (f : Nat) (p : Int) :
    b'.Holds f p ↔ b.Holds f p :=
  ⟨fun hh => h.symm_pool.holds hh, fun hh => h.holds hh⟩

/-- The invariant of a tree looks at the resident pages and their contents only. -/
theorem TreeInv.transfer_tree {b b' : BufferPoolManager} {G : Shape} {root lm im : Int}
    {pend : Option (Int × Int × Int)} {M : Int → Int → Prop}
    (h : TreeInv b G root lm im pend M) (hp : PoolOK b')
    (hh : ∀ (f : Nat) (q : Int), b'.Holds f q ↔ b.Holds f q)
    (hn : ∀ f : Nat, b'.node f = b.node f) : TreeInv b' G root lm im pend M := by
  refine ⟨hp, ?_, h.rootIn, h.rootPar, h.rootLo, h.rootHi, h.htLe, ?_, ?_, ?_, ?_, ?_, ?_,
    h.pendIn⟩
  · obtain ⟨f, hf⟩ := h.rootsPage
    exact ⟨f, (hh _ _).mpr hf⟩
  · intro q hq
    obtain ⟨f, hf⟩ := h.res q hq
    exact ⟨f, (hh _ _).mpr hf⟩
  · intro q f hq hf hpe
    rw [hn]
    exact h.node q f hq ((hh _ _).mp hf) hpe
  · intro q f po K pn hpe hq hqp hf
    rw [hn]
    exact h.pnode q f po K pn hpe hq hqp ((hh _ _).mp hf)
  · intro q f hq hf hpe
    rw [hn]
    exact h.ptr q f hq ((hh _ _).mp hf) hpe
  · intro q hq hqr hpe
    obtain ⟨h1, h2, h3⟩ := h.up q hq hqr hpe
    refine ⟨h1, h2, ?_⟩
    intro f hf
    rw [hn]
    exact h3 f ((hh _ _).mp hf)
  · intro k v
    rw [h.contents k v]
    constructor
    · rintro ⟨l, f, h1, h2, h3, h4⟩
      exact ⟨l, f, h1, h2, (hh _ _).mpr h3, by rw [hn]; exact h4⟩
    · rintro ⟨l, f, h1, h2, h3, h4⟩
      exact ⟨l, f, h1, h2, (hh _ _).mp h3, by rw [← hn]; exact h4⟩

theorem TreeInv.poolEq {b b' : BufferPoolManager} {G : Shape} {root lm im : Int}
    {pend : Option (Int × Int × Int)} {M : Int → Int → Prop}
    (h : TreeInv b G root lm im pend M) (he : PoolEq b b') : TreeInv b' G root lm im pend M :=
  h.transfer_tree (he.poolOK h.pool) (he.holds_iff) (he.node_eq)

/-- The pages of a tree at one height have disjoint key ranges. -/
theorem TreeInv.level_unique {b : BufferPoolManager} {G : Shape} {root lm im : Int}
    {M : Int → Int → Prop} (h : TreeInv b G root lm im none M) (k : Int) (d : Nat) :
    ∀ q q' : Int, G.S q → G.S q' → G.ht q = G.ht q' → G.ht q + d = G.ht root →
      G.inRange q k → G.inRange q' k → q = q' := by
  have hnp : ∀ (q po K pn : Int), (none : Option (Int × Int × Int)) = some (po, K, pn) →
      q ≠ G.par po := fun _ _ _ _ hc => by cases hc
  have hnq : ∀ (q po K : Int), (none : Option (Int × Int × Int)) ≠ some (po, K, q) :=
    fun _ _ _ hc => by cases hc
  have top : ∀ q : Int, G.S q → G.ht q = G.ht root → q = root := by
    intro q hq hht
    by_contra hne
    obtain ⟨h1, h2, _⟩ := h.up q hq hne (hnq q)
    have := h.htLe _ h1
    omega
  induction d with
  | zero =>
    intro q q' hq hq' hht hd _ _
    rw [top q hq (by omega), top q' hq' (by omega)]
  | succ d ih =>
    intro q q' hq hq' hht hd hk hk'
    have hne : q ≠ root := fun hc => by rw [hc] at hd; omega
    have hne' : q' ≠ root := fun hc => by rw [hc] at hht; omega
    obtain ⟨h1, h2, h3⟩ := h.up q hq hne (hnq q)
    obtain ⟨h1', h2', h3'⟩ := h.up q' hq' hne' (hnq q')
    obtain ⟨f, hf⟩ := h.res _ h1
    obtain ⟨f', hf'⟩ := h.res _ h1'
    obtain ⟨i, hi0, hi1, hi2⟩ := h3 f hf
    obtain ⟨i', hi0', hi1', hi2'⟩ := h3' f' hf'
    have hK := ((h.node _ f h1 hf (hnp _)).inner (by omega)).2
    have hK' := ((h.node _ f' h1' hf' (hnp _)).inner (by omega)).2
    have hr := hK.kid_range i hi0 hi1 k (by rw [hi2]; exact hk)
    have hr' := hK'.kid_range i' hi0' hi1' k (by rw [hi2']; exact hk')
    have hpp : G.par q = G.par q' := ih _ _ h1 h1' (by omega) (by omega) hr hr'
    rw [← hpp] at hf'
    have hff := hf.unique hf'
    subst hff
    have := hK.kid_unique i i' hi0 hi1 hi0' hi1' k (by rw [hi2]; exact hk)
      (by rw [hi2']; exact hk')
    subst this
    rw [← hi2, ← hi2']

/-- A key lies in the range of one leaf at most. -/
theorem TreeInv.leaf_unique {b : BufferPoolManager} {G : Shape} {root lm im : Int}
    {M : Int → Int → Prop} (h : TreeInv b G root lm im none M) (k : Int) (l l' : Int)
    (hl : G.S l) (hl' : G.S l') (h0 : G.ht l = 0) (h0' : G.ht l' = 0)
    (hk : G.inRange l k) (hk' : G.inRange l' k) : l = l' :=
  h.level_unique k (G.ht root) l l' hl hl' (by omega) (by omega) hk hk'

theorem findLeafLoop_spec {G : Shape} {root lm im : Int} {M : Int → Int → Prop} (k : Int)
    (fuel : Nat) :
    ∀ (b : BufferPoolManager) (q : Int) (f : Nat), TreeInv b G root lm im none M → G.S q →
      b.Holds f q → G.inRange q k → G.ht q + 1 ≤ fuel →
      ∃ (l : Int) (fl : Nat) (b' : BufferPoolManager),
        findLeafLoop k false fuel f b = some (some fl, b') ∧ PoolEq b b' ∧ G.S l ∧
        G.ht l = 0 ∧ b.Holds fl l ∧ G.inRange l k := by
  induction fuel with
  | zero => intro b q f _ _ _ _ hf; omega
  | succ n ih =>
    intro b q f h hq hf hk hfuel
    have hN := h.node q f hq hf (fun _ _ _ hc => by cases hc)
    unfold findLeafLoop
    by_cases hleaf : (b.node f).IsLeafPage = true
    · rw [if_pos hleaf]
      have h0 := hN.leafT.mp hleaf
      obtain ⟨r, b1, e1, p1⟩ := UnpinPage_poolEq b h.pool (b.node f).page_id_ false
      obtain ⟨b2, e2, p2⟩ := FetchPage_holds b1 q f (p1.holds hf)
      rw [hN.pid] at e1 ⊢
      simp only [e1, Option.bind_eq_bind, Option.some_bind, e2]
      exact ⟨q, f, b2, rfl, p1.trans_pool p2, hq, h0, hf, hk⟩
    · rw [if_neg hleaf]
      have h0 : G.ht q ≠ 0 := fun hc => hleaf (hN.leafT.mpr hc)
      obtain ⟨hsz, hK⟩ := hN.inner h0
      obtain ⟨r, er, r0, r1, r2, r3⟩ := InternalPage.Lookup_child_spec (b.node f) k hK.size_ge
        hK.sortedKeys
      obtain ⟨hcS, hcP, hcH, hcLo, hcHi⟩ := hK.kid r r0 r1
      obtain ⟨fc, hfc⟩ := h.res _ hcS
      obtain ⟨b1, e1, p1⟩ := fetchNode_holds b _ fc hfc
      obtain ⟨r', b2, e2, p2⟩ := UnpinPage_poolEq b1 (p1.poolOK h.pool) (b1.framePageId f) false
      have hrange : G.inRange (arrGet (b.node f).array_ r).2 k := by
        refine ⟨?_, ?_⟩
        · rw [hcLo]
          by_cases hr : r = 0
          · rw [if_pos hr]; exact hk.1
          · rw [if_neg hr, loLe_some]
            rcases r2 with r2 | r2
            · exact absurd r2 hr
            · exact r2
        · rw [hcHi]
          by_cases hr : r = (b.node f).size_ - 1
          · rw [if_pos hr]; exact hk.2
          · rw [if_neg hr, ltHi_some]
            rcases r3 with r3 | r3
            · exact absurd r3 hr
            · exact r3
      obtain ⟨l, fl, b', e3, p3, hl1, hl2, hl3, hl4⟩ := ih b2 _ fc (h.poolEq (p1.trans_pool p2)) hcS
        ((p1.trans_pool p2).holds hfc) hrange (by omega)
      simp only [Bool.false_eq_true, if_false, er, Option.bind_eq_bind, Option.some_bind, e1,
        e2, e3]
      exact ⟨l, fl, b', rfl, (p1.trans_pool p2).trans_pool p3, hl1, hl2, (p1.trans_pool p2).symm_pool.holds hl3, hl4⟩

theorem TreeInv.root_ne {b : BufferPoolManager} {G : Shape} {root lm im : Int}
    {pend : Option (Int × Int × Int)} {M : Int → Int → Prop}
    (h : TreeInv b G root lm im pend M) : root ≠ INVALID_PAGE_ID := by
  obtain ⟨f, hf⟩ := h.res root h.rootIn
  exact hf.ne_invalid h.pool

theorem TreeInv.rootRange {b : BufferPoolManager} {G : Shape} {root lm im : Int}
    {M : Int → Int → Prop} (h : TreeInv b G root lm im none M) (k : Int) :
    G.inRange root k := by
  refine ⟨?_, ?_⟩
  · rw [h.rootLo]; exact loLe_none k
  · rw [h.rootHi (fun _ _ hc => by cases hc)]; exact ltHi_none k

theorem FindLeafPage_spec (t : BPlusTree) {G : Shape} {lm im : Int} {M : Int → Int → Prop}
    (h : TreeInv t.buffer_pool_manager_ G t.root_page_id_ lm im none M) (k : Int) (fuel : Nat)
    (hfuel : G.ht t.root_page_id_ + 1 ≤ fuel) :
    ∃ (l : Int) (fl : Nat) (b' : BufferPoolManager),
      t.FindLeafPage fuel k false = some (some fl, { t with buffer_pool_manager_ := b' }) ∧
      PoolEq t.buffer_pool_manager_ b' ∧ G.S l ∧ G.ht l = 0 ∧
      t.buffer_pool_manager_.Holds fl l ∧ G.inRange l k := by
  obtain ⟨f, hf⟩ := h.res _ h.rootIn
  obtain ⟨b1, e1, p1⟩ := fetchNode_holds _ _ f hf
  obtain ⟨l, fl, b', e2, p2, h1, h2, h3, h4⟩ := findLeafLoop_spec k fuel b1 _ f (h.poolEq p1)
    h.rootIn (p1.holds hf) (h.rootRange k) hfuel
  refine ⟨l, fl, b', ?_, p1.trans_pool p2, h1, h2, p1.symm_pool.holds h3, h4⟩
  unfold BPlusTree.FindLeafPage BPlusTree.IsEmpty
  have hne : (t.root_page_id_ == INVALID_PAGE_ID) = false := by
    simpa using h.root_ne
  simp only [hne, Bool.false_eq_true, if_false, e1, Option.bind_eq_bind, Option.some_bind, e2]

end MiniSql

namespace MiniSql

/-! ## Pages that a change of the tree leaves alone -/

theorem PageData.sameTree.refl_same (d : PageData) : d.sameTree d := ⟨rfl, rfl, rfl, rfl, rfl⟩

theorem PageData.sameTree.setParent (d : PageData) (p : Int) :
    d.sameTree { d with parent_page_id_ := p } := ⟨rfl, rfl, rfl, rfl, rfl⟩

theorem PageData.sameTree.entry {d d' : PageData} (h : d.sameTree d') (k v : Int) :
    Entry d' k v ↔ Entry d k v := by
  unfold Entry
  rw [h.2.1, h.2.2.2.2]

theorem PageData.sameTree.isLeaf {d d' : PageData} (h : d.sameTree d') :
    d'.IsLeafPage = d.IsLeafPage := by
  unfold PageData.IsLeafPage
  rw [h.1]

theorem KidsOK.frame_kids {G G' : Shape} {q n : Int} {e : Int → Int × Int} (h : KidsOK G q n e)
    (a : G.Agree G' q) : KidsOK G' q n e := by
  obtain ⟨a1, a2, a3⟩ := a.self
  refine ⟨h.size_ge, h.sorted, ?_, ?_, ?_⟩
  · intro i h1 h2; rw [a1]; exact h.lower i h1 h2
  · intro i h1 h2; rw [a2]; exact h.upper i h1 h2
  · intro i h1 h2
    obtain ⟨k1, k2, k3, k4, k5⟩ := h.kid i h1 h2
    obtain ⟨c1, c2, c3, c4, c5⟩ := a.kids _ k1 k2
    rw [a1, a2, a3, c3, c4, c5]
    exact ⟨c1, c2, k3, k4, k5⟩

theorem LeafOK.frame_leaf {G G' : Shape} {lm q : Int} {d d' : PageData} (h : LeafOK G lm q d)
    (a : G.Agree G' q) (hd : d.sameTree d') : LeafOK G' lm q d' := by
  obtain ⟨a1, a2, a3⟩ := a.self
  obtain ⟨t1, t2, t3, t4, t5⟩ := hd
  refine ⟨⟨?_, ?_, ?_, ?_, ?_⟩, ?_, ?_⟩
  · rw [t2]; exact h.keys.size_pos
  · rw [t2]; exact h.keys.size_le
  · rw [t2, t5]; exact h.keys.sorted
  · rw [t2, t5, a1]; exact h.keys.lower
  · rw [t2, t5, a2]; exact h.keys.upper
  · rw [t4, a2]; exact h.last
  · intro x hx
    rw [a2] at hx
    rw [t4]
    obtain ⟨n1, n2, n3⟩ := h.next x hx
    obtain ⟨c1, c2, c3⟩ := a.nxt _ n1 n2
    exact ⟨c1, c2, c3.trans n3⟩

theorem NodeOK.frame_node {G G' : Shape} {lm im q : Int} {d d' : PageData}
    (h : NodeOK G lm im q d) (a : G.Agree G' q) (hd : d.sameTree d') :
    NodeOK G' lm im q d' := by
  obtain ⟨a1, a2, a3⟩ := a.self
  refine ⟨hd.2.2.1.trans h.pid, ?_, ?_, ?_⟩
  · rw [hd.isLeaf, a3]; exact h.leafT
  · intro h0
    rw [a3] at h0
    exact (h.leaf h0).frame_leaf a hd
  · intro h0
    rw [a3] at h0
    obtain ⟨s1, s2⟩ := h.inner h0
    rw [hd.2.1, hd.2.2.2.2]
    exact ⟨s1, s2.frame_kids a⟩

/-- A new root changes nothing around a page that is neither the new root nor the parent of
one of its children. -/
theorem Shape.newRoot_agree (G : Shape) (r po pn : Int) (hr : ¬ G.S r) (q : Int)
    (h1 : q ≠ r) (h2 : q ≠ G.par po) (h3 : q ≠ G.par pn) : G.Agree (G.newRoot r po pn) q := by
  refine ⟨⟨?_, ?_, ?_⟩, ?_, ?_⟩
  · show (if q = r then none else G.lo q) = G.lo q
    rw [if_neg h1]
  · show (if q = r then none else G.hi q) = G.hi q
    rw [if_neg h1]
  · show (if q = r then G.ht po + 1 else G.ht q) = G.ht q
    rw [if_neg h1]
  · intro c hc hp
    have c1 : c ≠ r := fun he => hr (he ▸ hc)
    have c2 : ¬ (c = po ∨ c = pn) := by
      rintro (he | he)
      · exact h2 (by rw [← hp, he])
      · exact h3 (by rw [← hp, he])
    refine ⟨Or.inl hc, ?_, ?_, ?_, ?_⟩
    · show (if c = r then INVALID_PAGE_ID else if c = po ∨ c = pn then r else G.par c) = q
      rw [if_neg c1, if_neg c2, hp]
    · show (if c = r then G.ht po + 1 else G.ht c) = G.ht c
      rw [if_neg c1]
    · show (if c = r then none else G.lo c) = G.lo c
      rw [if_neg c1]
    · show (if c = r then none else G.hi c) = G.hi c
      rw [if_neg c1]
  · intro c hc h0
    have c1 : c ≠ r := fun he => hr (he ▸ hc)
    refine ⟨Or.inl hc, ?_, ?_⟩
    · show (if c = r then G.ht po + 1 else G.ht c) = 0
      rw [if_neg c1, h0]
    · show (if c = r then none else G.lo c) = G.lo c
      rw [if_neg c1]

end MiniSql

namespace MiniSql

/-! ## Entries of a leaf: insertion and split -/

theorem insAt_lt (e : Int → Int × Int) (pos : Int) (x : Int × Int) (j : Int) (h : j < pos) :
    insAt e pos x j = e j := by
  unfold insAt; rw [if_pos h]

theorem insAt_eq (e : Int → Int × Int) (pos : Int) (x : Int × Int) :
    insAt e pos x pos = x := by
  unfold insAt; rw [if_neg (by omega), if_pos rfl]

theorem insAt_gt (e : Int → Int × Int) (pos : Int) (x : Int × Int) (j : Int) (h : pos < j) :
    insAt e pos x j = e (j - 1) := by
  unfold insAt; rw [if_neg (by omega), if_neg (by omega)]

/-- Inserting an absent key into a leaf with room keeps the leaf in order and adds the pair
to its entries. -/
theorem LeafKeys.insert {lo hi : Option Int} {lm' lm : Int} {d : PageData}
    (h : LeafKeys lo hi lm' d) (hsz : d.size_ < lm) (k v : Int)
    (ha : KeyAbsent d.array_ 0 d.size_ k) (hlo : loLe lo k) (hhi : ltHi k hi) :
    ∃ d' : PageData, LeafPage.Insert d k v = some d' ∧ LeafKeys lo hi lm d' ∧
      d' = { d with array_ := d'.array_, size_ := d.size_ + 1 } ∧
      (∀ k' v' : Int, Entry d' k' v' ↔ (Entry d k' v' ∨ (k' = k ∧ v' = v))) ∧
      ((arrGet d.array_ 0).1 < k → arrGet d'.array_ 0 = arrGet d.array_ 0) ∧
      (k < (arrGet d.array_ 0).1 → arrGet d'.array_ 0 = (k, v)) := by
  have hs0 : 0 ≤ d.size_ := by have := h.size_pos; omega
  obtain ⟨d', pos, e, p0, p1, hd, hb, ha', hget⟩ := LeafPage.Insert_spec d k v hs0 h.sorted ha
  have hsize : d'.size_ = d.size_ + 1 := by rw [hd]
  have hs1 := h.size_pos
  refine ⟨d', e, ⟨?_, ?_, ?_, ?_, ?_⟩, hd, ?_, ?_, ?_⟩
  · omega
  · omega
  · intro i j hi hij hj
    rw [hsize] at hj
    rw [hget i hi (by omega), hget j (by omega) (by omega)]
    rcases Int.lt_trichotomy i pos with hc | hc | hc
    · rw [insAt_lt _ _ _ _ hc]
      rcases Int.lt_trichotomy j pos with hc' | hc' | hc'
      · rw [insAt_lt _ _ _ _ hc']; exact h.sorted i j hi hij (by omega)
      · rw [hc', insAt_eq]; exact hb i hi hc
      · rw [insAt_gt _ _ _ _ hc']; exact h.sorted i (j - 1) hi (by omega) (by omega)
    · rw [hc, insAt_eq, insAt_gt _ _ _ _ (by omega)]
      exact ha' (j - 1) (by omega) (by omega)
    · rw [insAt_gt _ _ _ _ hc, insAt_gt _ _ _ _ (by omega)]
      exact h.sorted (i - 1) (j - 1) (by omega) (by omega) (by omega)
  · intro j hj0 hj1
    rw [hsize] at hj1
    rw [hget j hj0 (by omega)]
    rcases Int.lt_trichotomy j pos with hc | hc | hc
    · rw [insAt_lt _ _ _ _ hc]; exact h.lower j hj0 (by omega)
    · rw [hc, insAt_eq]; exact hlo
    · rw [insAt_gt _ _ _ _ hc]; exact h.lower (j - 1) (by omega) (by omega)
  · intro j hj0 hj1
    rw [hsize] at hj1
    rw [hget j hj0 (by omega)]
    rcases Int.lt_trichotomy j pos with hc | hc | hc
    · rw [insAt_lt _ _ _ _ hc]; exact h.upper j hj0 (by omega)
    · rw [hc, insAt_eq]; exact hhi
    · rw [insAt_gt _ _ _ _ hc]; exact h.upper (j - 1) (by omega) (by omega)
  · intro k' v'
    constructor
    · rintro ⟨j, hj0, hj1, hj2⟩
      rw [hsize] at hj1
      rw [hget j hj0 (by omega)] at hj2
      rcases Int.lt_trichotomy j pos with hc | hc | hc
      · rw [insAt_lt _ _ _ _ hc] at hj2
        exact Or.inl ⟨j, hj0, by omega, hj2⟩
      · rw [hc, insAt_eq] at hj2
        right
        exact ⟨(congrArg Prod.fst hj2).symm, (congrArg Prod.snd hj2).symm⟩
      · rw [insAt_gt _ _ _ _ hc] at hj2
        exact Or.inl ⟨j - 1, by omega, by omega, hj2⟩
    · rintro (⟨j, hj0, hj1, hj2⟩ | ⟨rfl, rfl⟩)
      · by_cases hc : j < pos
        · exact ⟨j, hj0, by omega, by rw [hget j hj0 (by omega), insAt_lt _ _ _ _ hc]; exact hj2⟩
        · refine ⟨j + 1, by omega, by omega, ?_⟩
          rw [hget (j + 1) (by omega) (by omega), insAt_gt _ _ _ _ (by omega)]
          rw [show j + 1 - 1 = j by omega]
          exact hj2
      · exact ⟨pos, p0, by omega, by rw [hget pos p0 p1, insAt_eq]⟩
  · intro hlt
    have hpos : 0 < pos := by
      by_contra hc
      have := ha' 0 (by omega) (by omega)
      omega
    rw [hget 0 (Int.le_refl _) hs0, insAt_lt _ _ _ _ hpos]
  · intro hlt
    have hpos : pos = 0 := by
      by_contra hc
      have := hb 0 (Int.le_refl _) (by omega)
      omega
    rw [hget 0 (Int.le_refl _) hs0, hpos, insAt_eq]

end MiniSql

namespace MiniSql

/-! ## A change of the tree, seen from the pages it leaves alone -/

/-- A step of the tree keeps the invariant if the pages whose contents change (`Dp`), the
pages whose surroundings change (`Sp`) and the pages whose parent changes (`Pp`) fit the new
shape; all other pages fit it because they fitted the old one. -/
theorem TreeInv.frame {b b' : BufferPoolManager} {G G' : Shape} {root root' lm im : Int}
    {pend pend' : Option (Int × Int × Int)} {M M' : Int → Int → Prop}
    (Dp Sp Pp : Int → Prop)
    (h : TreeInv b G root lm im pend M)
    (hp : PoolOK b')
    (hroots : ∃ f, b'.Holds f INDEX_ROOTS_PAGE_ID)
    (hDS : ∀ q : Int, Dp q → Sp q)
    (hmonoS : ∀ q : Int, G.S q → G'.S q)
    (hnew : ∀ q : Int, G'.S q → ¬ G.S q → Sp q ∧ Pp q)
    (hht : ∀ q : Int, G.S q → G'.ht q = G.ht q)
    (hH : ∀ (q : Int) (f : Nat), G.S q → b.Holds f q → b'.Holds f q)
    (hD : ∀ (q : Int) (f : Nat), G.S q → ¬ Dp q → b.Holds f q →
      (b.node f).sameTree (b'.node f))
    (hA : ∀ q : Int, G.S q → ¬ Sp q → G.Agree G' q)
    (hpp : ∀ po K pn : Int, pend = some (po, K, pn) → G.S (G.par po) → Sp (G.par po))
    (hP : ∀ (q : Int) (f : Nat), G.S q → ¬ Pp q → b.Holds f q →
      (b'.node f).parent_page_id_ = (b.node f).parent_page_id_ ∧ G'.par q = G.par q ∧
      ¬ Dp (G.par q))
    (hpn : ∀ po K pn : Int, pend = some (po, K, pn) → Pp pn)
    (hroot : root' ≠ root → Pp root)
    (rIn : G'.S root') (rPar : G'.par root' = INVALID_PAGE_ID) (rLo : G'.lo root' = none)
    (rHi : (∀ K pn : Int, pend' ≠ some (root', K, pn)) → G'.hi root' = none)
    (rHt : ∀ q : Int, G'.S q → G'.ht q ≤ G'.ht root')
    (sRes : ∀ q : Int, G'.S q → ¬ G.S q → ∃ f, b'.Holds f q)
    (sNode : ∀ (q : Int) (f : Nat), G'.S q → Sp q → b'.Holds f q →
      (∀ po K pn : Int, pend' = some (po, K, pn) → q ≠ G'.par po) →
      NodeOK G' lm im q (b'.node f))
    (sPnode : ∀ (q : Int) (f : Nat) (po K pn : Int), pend' = some (po, K, pn) → G'.S q →
      q = G'.par po → b'.Holds f q → PendOK G' im q (b'.node f) po K pn)
    (sPtr : ∀ (q : Int) (f : Nat), G'.S q → Pp q → b'.Holds f q →
      (∀ po K : Int, pend' ≠ some (po, K, q)) → (b'.node f).parent_page_id_ = G'.par q)
    (sUp : ∀ q : Int, G'.S q → q ≠ root' → Pp q → (∀ po K : Int, pend' ≠ some (po, K, q)) →
      G'.S (G'.par q) ∧ G'.ht (G'.par q) = G'.ht q + 1 ∧ ∀ f : Nat, b'.Holds f (G'.par q) →
        ∃ i : Int, 0 ≤ i ∧ i < (b'.node f).size_ ∧ (arrGet (b'.node f).array_ i).2 = q)
    (sM : ∀ k v : Int, M' k v ↔
      ((∃ (l : Int) (f : Nat), G.S l ∧ G.ht l = 0 ∧ ¬ Sp l ∧ b.Holds f l ∧
          Entry (b.node f) k v) ∨
       (∃ (l : Int) (f : Nat), G'.S l ∧ G'.ht l = 0 ∧ Sp l ∧ b'.Holds f l ∧
          Entry (b'.node f) k v)))
    (sPend : ∀ po K pn : Int, pend' = some (po, K, pn) →
      G'.S po ∧ G'.S pn ∧ po ≠ pn ∧ pn ≠ root' ∧ G'.hi po = some K ∧ G'.lo pn = some K ∧
      G'.ht pn = G'.ht po ∧ G'.par pn = G'.par po ∧ (po = root' → G'.hi pn = none)) :
    TreeInv b' G' root' lm im pend' M' := by
  have old : ∀ (q : Int) (f : Nat), G.S q → b'.Holds f q → b.Holds f q := by
    intro q f hq hf
    obtain ⟨f0, hf0⟩ := h.res q hq
    have := (hH q f0 hq hf0).unique hf
    rw [← this]
    exact hf0
  have inG : ∀ q : Int, G'.S q → ¬ Sp q → G.S q := by
    intro q hq hs
    by_contra hc
    exact hs (hnew q hq hc).1
  have inG' : ∀ q : Int, G'.S q → ¬ Pp q → G.S q := by
    intro q hq hs
    by_contra hc
    exact hs (hnew q hq hc).2
  refine ⟨hp, hroots, rIn, rPar, rLo, rHi, rHt, ?_, ?_, sPnode, ?_, ?_, ?_, sPend⟩
  · intro q hq
    by_cases hc : G.S q
    · obtain ⟨f, hf⟩ := h.res q hc
      exact ⟨f, hH q f hc hf⟩
    · exact sRes q hq hc
  · intro q f hq hf hpe
    by_cases hs : Sp q
    · exact sNode q f hq hs hf hpe
    · have hG := inG q hq hs
      have hf0 := old q f hG hf
      have hN := h.node q f hG hf0 (fun po K pn he hc => hs (by
        rw [hc]; exact hpp po K pn he (hc ▸ hG)))
      exact hN.frame_node (hA q hG hs) (hD q f hG (fun hd => hs (hDS q hd)) hf0)
  · intro q f hq hf hpe
    by_cases hs : Pp q
    · exact sPtr q f hq hs hf hpe
    · have hG := inG' q hq hs
      have hf0 := old q f hG hf
      obtain ⟨p1, p2, _⟩ := hP q f hG hs hf0
      rw [p1, p2]
      exact h.ptr q f hG hf0 (fun po K he => hs (hpn po K q he))
  · intro q hq hqr hpe
    by_cases hs : Pp q
    · exact sUp q hq hqr hs hpe
    · have hG := inG' q hq hs
      obtain ⟨f0, hf0⟩ := h.res q hG
      obtain ⟨p1, p2, p3⟩ := hP q f0 hG hs hf0
      have hqr0 : q ≠ root := by
        intro hc
        by_cases hrr : root' = root
        · exact hqr (hc.trans hrr.symm)
        · exact hs (hc ▸ hroot hrr)
      obtain ⟨u1, u2, u3⟩ := h.up q hG hqr0 (fun po K he => hs (hpn po K q he))
      rw [p2]
      refine ⟨hmonoS _ u1, by rw [hht _ u1, hht _ hG, u2], ?_⟩
      intro f hf
      have hf' := old _ f u1 hf
      obtain ⟨i, i0, i1, i2⟩ := u3 f hf'
      obtain ⟨t1, t2, t3, t4, t5⟩ := hD _ f u1 p3 hf'
      exact ⟨i, i0, by rw [t2]; exact i1, by rw [t5]; exact i2⟩
  · intro k v
    rw [sM k v]
    constructor
    · rintro (⟨l, f, h1, h2, h3, h4, h5⟩ | ⟨l, f, h1, h2, _, h4, h5⟩)
      · refine ⟨l, f, hmonoS l h1, by rw [hht l h1]; exact h2, hH l f h1 h4, ?_⟩
        exact ((hD l f h1 (fun hd => h3 (hDS l hd)) h4).entry k v).mpr h5
      · exact ⟨l, f, h1, h2, h4, h5⟩
    · rintro ⟨l, f, h1, h2, h3, h4⟩
      by_cases hs : Sp l
      · exact Or.inr ⟨l, f, h1, h2, hs, h3, h4⟩
      · have hG := inG l h1 hs
        have hf0 := old l f hG h3
        refine Or.inl ⟨l, f, hG, by rw [← hht l hG]; exact h2, hs, hf0, ?_⟩
        exact ((hD l f hG (fun hd => hs (hDS l hd)) hf0).entry k v).mp h4

end MiniSql

namespace MiniSql

/-! ## Insertion into a leaf with room -/

theorem setNode_holds_iff (b : BufferPoolManager) (f : Nat) (g : PageData → PageData)
    (f' : Nat) (p : Int) : (b.setNode f g).Holds f' p ↔ b.Holds f' p := by
  unfold BufferPoolManager.Holds
  rw [setNode_frameOf]

/-- The entries of a leaf are in its range. -/
theorem LeafKeys.entry_range {lo hi : Option Int} {lm : Int} {d : PageData}
    (h : LeafKeys lo hi lm d) (k v : Int) (he : Entry d k v) : loLe lo k ∧ ltHi k hi := by
  obtain ⟨j, j0, j1, j2⟩ := he
  have h1 := h.lower j j0 j1
  have h2 := h.upper j j0 j1
  rw [j2] at h1 h2
  exact ⟨h1, h2⟩

end MiniSql

namespace MiniSql

/-! ## Running the calls of the buffer pool inside a tree operation -/

theorem wp_FetchPage {α : Type} {b : BufferPoolManager} {p : Int} {f : Nat} (h : b.Holds f p)
    {k : Option Nat × BufferPoolManager → Option α} {P : α → Prop}
    (hk : ∀ b1 : BufferPoolManager, PoolEq b b1 → ∃ a, k (some f, b1) = some a ∧ P a) :
    ∃ a, (b.FetchPage p).bind k = some a ∧ P a := by
  obtain ⟨b1, e1, p1⟩ := FetchPage_holds b p f h
  rw [e1]
  exact hk b1 p1

end MiniSql

namespace MiniSql

/-! ## The shape after a split -/

theorem Shape.split_S (G : Shape) (po K pn : Int) (moved : List Int) (c : Int) :
    (G.split po K pn moved).S c ↔ (G.S c ∨ c = pn) := Iff.rfl

end MiniSql

namespace MiniSql

/-! ## A leaf is split -/

theorem TreeInv.S_ne_invalid {b : BufferPoolManager} {G : Shape} {root lm im : Int}
    {pend : Option (Int × Int × Int)} {M : Int → Int → Prop}
    (h : TreeInv b G root lm im pend M) (q : Int) (hq : G.S q) : q ≠ INVALID_PAGE_ID := by
  obtain ⟨f, hf⟩ := h.res q hq
  exact hf.ne_invalid h.pool

theorem TreeInv.not_fresh {b : BufferPoolManager} {G : Shape} {root lm im : Int}
    {pend : Option (Int × Int × Int)} {M : Int → Int → Prop}
    (h : TreeInv b G root lm im pend M) (pn : Int) (hfresh : b.page_table_.lookup pn = none) :
    ¬ G.S pn := by
  intro hq
  obtain ⟨f, hf⟩ := h.res pn hq
  have := hf.resident
  rw [hfresh] at this
  cases this

/-- The parent of a page of the tree: none for the root, a page one level up otherwise. -/
theorem TreeInv.par_cases {b : BufferPoolManager} {G : Shape} {root lm im : Int}
    {pend : Option (Int × Int × Int)} {M : Int → Int → Prop}
    (h : TreeInv b G root lm im pend M) (q : Int) (hq : G.S q)
    (hpn : ∀ po K : Int, pend ≠ some (po, K, q)) :
    (q = root ∧ G.par q = INVALID_PAGE_ID) ∨
    (q ≠ root ∧ G.S (G.par q) ∧ G.ht (G.par q) = G.ht q + 1) := by
  by_cases hr : q = root
  · exact Or.inl ⟨hr, by rw [hr]; exact h.rootPar⟩
  · obtain ⟨u1, u2, _⟩ := h.up q hq hr hpn
    exact Or.inr ⟨hr, u1, u2⟩

theorem TreeInv.par_ne_fresh {b : BufferPoolManager} {G : Shape} {root lm im : Int}
    {pend : Option (Int × Int × Int)} {M : Int → Int → Prop}
    (h : TreeInv b G root lm im pend M) (q : Int) (hq : G.S q)
    (hpn : ∀ po K : Int, pend ≠ some (po, K, q)) (pn : Int) (hS : ¬ G.S pn)
    (hne : pn ≠ INVALID_PAGE_ID) : G.par q ≠ pn := by
  rcases h.par_cases q hq hpn with ⟨_, h2⟩ | ⟨_, h2, _⟩
  · rw [h2]; exact Ne.symm hne
  · intro hc; exact hS (hc ▸ h2)

end MiniSql

namespace MiniSql

/-! ## A new root above a split root -/

theorem Shape.newRoot_ne (G : Shape) (r po pn c : Int) (h : c ≠ r) :
    (G.newRoot r po pn).lo c = G.lo c ∧ (G.newRoot r po pn).hi c = G.hi c ∧
    (G.newRoot r po pn).ht c = G.ht c := by
  refine ⟨?_, ?_, ?_⟩
  · show (if c = r then none else G.lo c) = G.lo c
    rw [if_neg h]
  · show (if c = r then none else G.hi c) = G.hi c
    rw [if_neg h]
  · show (if c = r then G.ht po + 1 else G.ht c) = G.ht c
    rw [if_neg h]

theorem Shape.newRoot_r (G : Shape) (r po pn : Int) :
    (G.newRoot r po pn).lo r = none ∧ (G.newRoot r po pn).hi r = none ∧
    (G.newRoot r po pn).ht r = G.ht po + 1 ∧ (G.newRoot r po pn).par r = INVALID_PAGE_ID := by
  refine ⟨?_, ?_, ?_, ?_⟩
  · show (if r = r then none else G.lo r) = none
    rw [if_pos rfl]
  · show (if r = r then none else G.hi r) = none
    rw [if_pos rfl]
  · show (if r = r then G.ht po + 1 else G.ht r) = G.ht po + 1
    rw [if_pos rfl]
  · show (if r = r then INVALID_PAGE_ID else if r = po ∨ r = pn then r else G.par r) = _
    rw [if_pos rfl]

theorem Shape.newRoot_par_kid (G : Shape) (r po pn c : Int) (h : c ≠ r) (h' : c = po ∨ c = pn) :
    (G.newRoot r po pn).par c = r := by
  show (if c = r then INVALID_PAGE_ID else if c = po ∨ c = pn then r else G.par c) = r
  rw [if_neg h, if_pos h']

theorem Shape.newRoot_par_ne (G : Shape) (r po pn c : Int) (h : c ≠ r)
    (h' : ¬ (c = po ∨ c = pn)) : (G.newRoot r po pn).par c = G.par c := by
  show (if c = r then INVALID_PAGE_ID else if c = po ∨ c = pn then r else G.par c) = G.par c
  rw [if_neg h, if_neg h']

/-- After the root has been split, a new root with the two halves as children completes the
tree. -/
theorem TreeInv.newRoot {b b' : BufferPoolManager} {G : Shape} {root lm im : Int}
    {M : Int → Int → Prop} {K pn : Int}
    (h : TreeInv b G root lm im (some (root, K, pn)) M) (fo fn fr : Nat) (r : Int)
    (hfo : b.Holds fo root) (hfn : b.Holds fn pn)
    (hp' : PoolOK b') (hfresh : b.page_table_.lookup r = none)
    (hkeep : ∀ (f : Nat) (q : Int), b.Holds f q → b'.Holds f q)
    (hfr : b'.Holds fr r)
    (hnodes : ∀ f : Nat, f ≠ fo → f ≠ fn → f ≠ fr → b'.node f = b.node f)
    (hdo : b'.node fo = { b.node fo with parent_page_id_ := r })
    (hdn : b'.node fn = { b.node fn with parent_page_id_ := r })
    (hdr : (b'.node fr).page_id_ = r ∧ (b'.node fr).IsLeafPage = false ∧
      (b'.node fr).parent_page_id_ = INVALID_PAGE_ID ∧ (b'.node fr).size_ = 2 ∧
      (arrGet (b'.node fr).array_ 0).2 = root ∧ arrGet (b'.node fr).array_ 1 = (K, pn))
    (him : 2 ≤ im) :
    TreeInv b' (G.newRoot r root pn) r lm im none M := by
  have hnone : ∀ (po K pn : Int), (none : Option (Int × Int × Int)) ≠ some (po, K, pn) :=
    fun _ _ _ hc => by cases hc
  obtain ⟨pS, pnS, hne0, hpnr, pHi, pLo, pHt, pPar, pEnd⟩ := h.pendIn root K pn rfl
  have hrS : ¬ G.S r := h.not_fresh r hfresh
  have hrI : r ≠ INVALID_PAGE_ID := hfr.ne_invalid hp'
  have hSne : ∀ q : Int, G.S q → q ≠ r := fun q hq hc => hrS (hc ▸ hq)
  have hfro : fr ≠ fo := by
    intro hc
    rw [hc] at hfr
    exact hSne root pS ((hkeep fo root hfo).inj hfr)
  have hfrn : fr ≠ fn := by
    intro hc
    rw [hc] at hfr
    exact hSne pn pnS ((hkeep fn pn hfn).inj hfr)
  have hfon : fo ≠ fn := hfo.frame_ne hfn hne0
  have frameOfS : ∀ (q : Int) (f : Nat), G.S q → b'.Holds f q → b.Holds f q := by
    intro q f hq hf'
    obtain ⟨f0, hf0⟩ := h.res q hq
    rw [← (hkeep f0 q hf0).unique hf']
    exact hf0
  have hparpn : G.par pn = INVALID_PAGE_ID := by rw [pPar, h.rootPar]
  apply TreeInv.frame (fun q => q = r) (fun q => q = r) (fun q => q = root ∨ q = pn ∨ q = r)
    h hp'
  · obtain ⟨f1, h1⟩ := h.rootsPage
    exact ⟨f1, hkeep _ _ h1⟩
  · exact fun _ hq => hq
  · exact fun q hq => Or.inl hq
  · rintro q (hq | hq) hq'
    · exact absurd hq hq'
    · exact ⟨hq, Or.inr (Or.inr hq)⟩
  · exact fun q hq => (G.newRoot_ne r root pn q (hSne q hq)).2.2
  · exact fun q f _ hf' => hkeep f q hf'
  · intro q f hq hD hf'
    by_cases h1 : f = fo
    · rw [h1, hdo]; exact PageData.sameTree.setParent _ _
    · by_cases h2 : f = fn
      · rw [h2, hdn]; exact PageData.sameTree.setParent _ _
      · rw [hnodes f h1 h2 ((hkeep f q hf').frame_ne hfr hD)]
        exact PageData.sameTree.refl_same _
  · intro q hq hS
    apply G.newRoot_agree r root pn hrS q hS
    · rw [h.rootPar]; exact h.S_ne_invalid q hq
    · rw [hparpn]; exact h.S_ne_invalid q hq
  · intro po K' pn' he hS
    cases he
    rw [h.rootPar] at hS
    exact absurd rfl (h.S_ne_invalid _ hS)
  · intro q f hq hP hf'
    have q1 : q ≠ root := fun hc => hP (Or.inl hc)
    have q2 : q ≠ pn := fun hc => hP (Or.inr (Or.inl hc))
    have q3 : q ≠ r := fun hc => hP (Or.inr (Or.inr hc))
    refine ⟨?_, G.newRoot_par_ne r root pn q q3 (by rintro (hc | hc); exact q1 hc; exact q2 hc),
      ?_⟩
    · rw [hnodes f (hf'.frame_ne hfo q1) (hf'.frame_ne hfn q2)
        ((hkeep f q hf').frame_ne hfr q3)]
    · exact h.par_ne_fresh q hq (fun po K' he => q2 (by cases he; rfl)) r hrS hrI
  · intro po K' pn' he
    cases he
    exact Or.inr (Or.inl rfl)
  · exact fun _ => Or.inl rfl
  · exact Or.inr rfl
  · exact (G.newRoot_r r root pn).2.2.2
  · exact (G.newRoot_r r root pn).1
  · exact fun _ => (G.newRoot_r r root pn).2.1
  · rintro q (hq | hq)
    · rw [(G.newRoot_ne r root pn q (hSne q hq)).2.2, (G.newRoot_r r root pn).2.2.1]
      have := h.htLe q hq
      omega
    · rw [hq]
  · rintro q (hq | hq) hq'
    · exact absurd hq hq'
    · exact ⟨fr, hq ▸ hfr⟩
  · intro q f hq hS hf' _
    subst hS
    have hff := hfr.unique hf'
    subst hff
    obtain ⟨d1, d2, d3, d4, d5, d6⟩ := hdr
    have hr0 := G.newRoot_r q root pn
    refine ⟨d1, ?_, ?_, ?_⟩
    · rw [d2, hr0.2.2.1]
      constructor
      · intro hc; cases hc
      · intro hc; omega
    · intro hc; rw [hr0.2.2.1] at hc; omega
    · intro _
      rw [d4]
      refine ⟨him, by omega, ?_, ?_, ?_, ?_⟩
      · intro i j hi hij hj; omega
      · intro i _ _; rw [hr0.1]; exact loLt_none _
      · intro i _ _; rw [hr0.2.1]; exact ltHi_none _
      · intro i hi0 hi1
        have hi : i = 0 ∨ i = 1 := by omega
        rcases hi with hi | hi
        · subst hi
          have hn := G.newRoot_ne q root pn root (hSne root pS)
          have e1 : arrGet (b'.node fr).array_ (0 + 1) = (K, pn) := d6
          rw [d5, e1]
          refine ⟨Or.inl pS, G.newRoot_par_kid q root pn root (hSne root pS) (Or.inl rfl),
            ?_, ?_, ?_⟩
          · rw [hn.2.2, hr0.2.2.1]
          · rw [hn.1, if_pos rfl, hr0.1, h.rootLo]
          · rw [hn.2.1, if_neg (show ¬ (0 : Int) = 2 - 1 by omega), pHi]
        · subst hi
          have hn := G.newRoot_ne q root pn pn (hSne pn pnS)
          rw [d6]
          refine ⟨Or.inl pnS, G.newRoot_par_kid q root pn pn (hSne pn pnS) (Or.inr rfl),
            ?_, ?_, ?_⟩
          · rw [hn.2.2, hr0.2.2.1, pHt]
          · rw [hn.1, if_neg (show ¬ (1 : Int) = 0 by omega), pLo]
          · rw [hn.2.1, if_pos (show (1 : Int) = 2 - 1 by omega), hr0.2.1, pEnd rfl]
  · exact fun q f po K pn hc => absurd hc (hnone po K pn)
  · intro q f hq hP hf' _
    rcases hP with hP | hP | hP
    · subst hP
      rw [← (hkeep fo q hfo).unique hf', hdo,
        G.newRoot_par_kid r q pn q (hSne q pS) (Or.inl rfl)]
    · subst hP
      rw [← (hkeep fn q hfn).unique hf', hdn,
        G.newRoot_par_kid r root q q (hSne q pnS) (Or.inr rfl)]
    · subst hP
      rw [← hfr.unique hf', hdr.2.2.1, (G.newRoot_r q root pn).2.2.2]
  · intro q hq hqr hP _
    have hkid : q = root ∨ q = pn := by
      rcases hP with hP | hP | hP
      · exact Or.inl hP
      · exact Or.inr hP
      · exact absurd hP hqr
    have hqS : G.S q := by
      rcases hkid with hc | hc
      · rw [hc]; exact pS
      · rw [hc]; exact pnS
    rw [G.newRoot_par_kid r root pn q hqr hkid, (G.newRoot_r r root pn).2.2.1,
      (G.newRoot_ne r root pn q hqr).2.2]
    refine ⟨Or.inr rfl, ?_, ?_⟩
    · rcases hkid with hc | hc
      · rw [hc]
      · rw [hc, pHt]
    · intro f hf'
      rw [← hfr.unique hf', hdr.2.2.2.1]
      rcases hkid with hc | hc
      · exact ⟨0, Int.le_refl _, by omega, by rw [hdr.2.2.2.2.1, hc]⟩
      · exact ⟨1, by omega, by omega, by rw [hdr.2.2.2.2.2, hc]⟩
  · intro k v
    rw [h.contents k v]
    constructor
    · rintro ⟨l, f, h1, h2, h3, h4⟩
      exact Or.inl ⟨l, f, h1, h2, hSne l h1, h3, h4⟩
    · rintro (⟨l, f, h1, h2, _, h4, h5⟩ | ⟨l, f, h1, h2, h3, h4, h5⟩)
      · exact ⟨l, f, h1, h2, h4, h5⟩
      · exfalso
        rw [h3, (G.newRoot_r r root pn).2.2.1] at h2
        omega
  · exact fun po K pn hc => absurd hc (hnone po K pn)

end MiniSql

namespace MiniSql

/-! ## The new page is entered in a parent with room -/

theorem KidsOK.congr {G : Shape} {q n : Int} {e e' : Int → Int × Int} (h : KidsOK G q n e)
    (he : ∀ j : Int, 0 ≤ j → j < n → e' j = e j) : KidsOK G q n e' := by
  have hn := h.size_ge
  refine ⟨hn, ?_, ?_, ?_, ?_⟩
  · intro i j hi hij hj
    rw [he i (by omega) (by omega), he j (by omega) hj]
    exact h.sorted i j hi hij hj
  · intro i hi1 hi2
    rw [he i (by omega) hi2]
    exact h.lower i hi1 hi2
  · intro i hi1 hi2
    rw [he i (by omega) hi2]
    exact h.upper i hi1 hi2
  · intro i hi1 hi2
    rw [he i hi1 hi2]
    obtain ⟨k1, k2, k3, k4, k5⟩ := h.kid i hi1 hi2
    refine ⟨k1, k2, k3, k4, ?_⟩
    rw [k5]
    by_cases hc : i = n - 1
    · rw [if_pos hc, if_pos hc]
    · rw [if_neg hc, if_neg hc, he (i + 1) (by omega) (by omega)]

end MiniSql

namespace MiniSql

/-! ## An internal page is split: the shape of the two halves -/

theorem KidsOK.kid_ne {G : Shape} {q n : Int} {e : Int → Int × Int} (h : KidsOK G q n e)
    (i : Int) (h0 : 0 ≤ i) (h1 : i < n) : (e i).2 ≠ q := by
  obtain ⟨_, _, k3, _⟩ := h.kid i h0 h1
  intro hc
  rw [hc] at k3
  omega

end MiniSql

namespace MiniSql

/-! ## The new page is entered in a full parent, which is split in turn -/

end MiniSql

namespace MiniSql

/-! ## Moving children to a new internal page -/

theorem PoolEq.free {b b' : BufferPoolManager} (h : PoolEq b b') :
    b'.free_list_ = b.free_list_ := h.2.2.1.symm

end MiniSql

namespace MiniSql

/-! ## `Split` of an internal page -/

end MiniSql

namespace MiniSql

/-! ## `InsertIntoParent`: the split page is the root -/

theorem UpdateRootPageId_spec (t : BPlusTree) (ins : Bool) (hb : PoolOK t.buffer_pool_manager_)
    (h1 : ∃ f, t.buffer_pool_manager_.Holds f INDEX_ROOTS_PAGE_ID) :
    ∃ b3, t.UpdateRootPageId ins = some { t with buffer_pool_manager_ := b3 } ∧
      PoolEq t.buffer_pool_manager_ b3 := by
  obtain ⟨f, hf⟩ := h1
  obtain ⟨b1, e1, p1⟩ := fetchNode_holds _ _ f hf
  obtain ⟨r2, b2, e2, p2⟩ := UnpinPage_poolEq b1 (p1.poolOK hb) (b1.framePageId f) true
  obtain ⟨r3, b3, e3, p3⟩ := UnpinPage_poolEq b2 (p2.poolOK (p1.poolOK hb)) INDEX_ROOTS_PAGE_ID
    true
  refine ⟨b3, ?_, (p1.trans_pool p2).trans_pool p3⟩
  unfold BPlusTree.UpdateRootPageId
  simp only [Option.bind_eq_bind, e1, Option.some_bind, e2, e3]

end MiniSql

namespace MiniSql

/-! ## `InsertIntoParent`: the parent has room -/

end MiniSql

namespace MiniSql

/-! ## `InsertIntoParent`: the parent is full -/

end MiniSql

namespace MiniSql

end MiniSql

namespace MiniSql

end MiniSql

namespace MiniSql

/-! ## `InsertIntoLeaf` -/

end MiniSql

namespace MiniSql

/-! ## `StartNewTree` and `Insert` -/

end MiniSql

namespace MiniSql

/-! ## The pool of a fresh engine -/

end MiniSql

namespace MiniSql

/-! ## A run of inserts -/

end MiniSql

namespace MiniSql

/-! ## The iterator on a tree -/

theorem AtEntry.of_poolEq {b b' : BufferPoolManager} {G : Shape} {it : IndexIterator} {k v : Int}
    (h : AtEntry b G it k v) (he : PoolEq b b') : AtEntry b' G it k v := by
  obtain ⟨fl, l, h1, h2, h3, h4, h5, h6, h7⟩ := h
  refine ⟨fl, l, h1, h2, h3, he.holds h4, h5, ?_, ?_⟩
  · rw [he.node_eq]; exact h6
  · rw [he.node_eq]; exact h7

theorem AtEntry.stored {b : BufferPoolManager} {G : Shape} {root lm im : Int}
    {M : Int → Int → Prop} (h : TreeInv b G root lm im none M) {it : IndexIterator}
    {k v : Int} (ha : AtEntry b G it k v) : M k v := by
  obtain ⟨fl, l, _, h2, h3, h4, h5, h6, h7⟩ := ha
  exact (h.contents k v).mpr ⟨l, fl, h2, h3, h4, it.index, h5, h6, h7⟩

theorem AtEntry.deref {b : BufferPoolManager} {G : Shape} {it : IndexIterator} {k v : Int}
    (ha : AtEntry b G it k v) : it.deref b = some (k, v) := by
  obtain ⟨fl, l, h1, _, _, _, _, h6, h7⟩ := ha
  unfold IndexIterator.deref
  rw [h1]
  simp only
  rw [if_neg (fun hc => by omega)]
  exact congrArg some h7

end MiniSql

namespace MiniSql

/-! ## `Begin(key)` and the entries that follow -/

end MiniSql

namespace MiniSql

/-! ## Bitmap page -/

set_option maxRecDepth 100000 in
theorem isByteIndexSet_setByteIndex : ∀ b, b < 256 → ∀ i, i < 8 → ∀ j, j < 8 →
    isByteIndexSet (setByteIndex b i) j = (isByteIndexSet b j || decide (i = j)) := by
  decide!

set_option maxRecDepth 100000 in
theorem isByteIndexSet_unsetByteIndex : ∀ b, b < 256 → ∀ i, i < 8 → ∀ j, j < 8 →
    isByteIndexSet (unsetByteIndex b i) j = (isByteIndexSet b j && !decide (i = j)) := by
  decide!

theorem setByteIndex_lt (b i : Nat) : setByteIndex b i < 256 := by
  unfold setByteIndex
  exact Nat.mod_lt _ (by decide)

theorem unsetByteIndex_lt (b i : Nat) (h : b < 256) : unsetByteIndex b i < 256 := by
  unfold unsetByteIndex
  exact Nat.lt_of_le_of_lt Nat.and_le_left h

theorem isByteIndexSet_full : ∀ i, i < 8 → isByteIndexSet 255 i = true := by
  decide

/-- Bit `o` of the array: bit `o % 8` of byte `o / 8`, counted from the top bit. -/
theorem IsPageFree_eq (PageSize : Nat) (p : BitmapPage) (o : Nat) (b : Nat)
    (hb : p.bytes[o / 8]? = some b) (ho : o < GetMaxSupportedSize PageSize) :
    p.IsPageFree PageSize o = some (!isByteIndexSet b (o % 8)) := by
  unfold BitmapPage.IsPageFree BitmapPage.IsPageFreeLow
  simp only
  have h1 : ¬ (o / 8 ≥ GetMaxSupportedSize PageSize) := by
    have := Nat.div_le_self o 8
    omega
  rw [if_neg h1, hb]
  simp only
  rw [Nat.mod_eq_of_lt (show o % 8 < 256 by omega)]

theorem allocBitLoop_spec (p : BitmapPage) (byteIndex b : Nat)
    (hb : p.bytes[byteIndex]? = some b) (n : Nat) :
    ∀ i : Nat, 9 ≤ n + i → i ≤ 8 →
      (∃ r, allocBitLoop p byteIndex n i = some (some r) ∧ i ≤ r ∧ r < 8 ∧
        isByteIndexSet b r = false ∧ ∀ j, i ≤ j → j < r → isByteIndexSet b j = true) ∨
      (allocBitLoop p byteIndex n i = some none ∧
        ∀ j, i ≤ j → j < 8 → isByteIndexSet b j = true) := by
  induction n with
  | zero => intro i h1 h2; omega
  | succ n ih =>
    intro i h1 h2
    unfold allocBitLoop
    by_cases hi : i < 8
    · rw [if_pos hi]
      unfold BitmapPage.IsPageFreeLow
      rw [hb]
      simp only
      rw [Nat.mod_eq_of_lt (show i < 256 by omega)]
      cases hs : isByteIndexSet b i
      · left
        exact ⟨i, rfl, Nat.le_refl _, hi, hs, fun j h3 h4 => by omega⟩
      · simp only [Bool.not_true]
        rcases ih (i + 1) (by omega) (by omega) with ⟨r, e, r1, r2, r3, r4⟩ | ⟨e, r4⟩
        · left
          refine ⟨r, e, by omega, r2, r3, ?_⟩
          intro j j1 j2
          by_cases hj : j = i
          · rw [hj]; exact hs
          · exact r4 j (by omega) j2
        · right
          refine ⟨e, ?_⟩
          intro j j1 j2
          by_cases hj : j = i
          · rw [hj]; exact hs
          · exact r4 j (by omega) j2
    · rw [if_neg hi]
      right
      exact ⟨rfl, fun j j1 j2 => by omega⟩

theorem byte_has_free : ∀ b, b < 256 → b ≠ 255 → ∃ i, i < 8 ∧ isByteIndexSet b i = false := by
  decide!

theorem BitmapPage.WF.byteAt {PageSize : Nat} {p : BitmapPage} (h : p.WF PageSize) (j : Nat)
    (hj : j < MAX_CHARS PageSize) : ∃ b, p.bytes[j]? = some b ∧ b < 256 := by
  have hlt : j < p.bytes.length := by rw [h.1]; exact hj
  refine ⟨p.bytes[j], List.getElem?_eq_getElem hlt, h.2 _ (List.getElem_mem hlt)⟩

theorem BitmapPage.WF.setByte {PageSize : Nat} {p : BitmapPage} (h : p.WF PageSize) (j v : Nat)
    (hv : v < 256) : BitmapPage.WF PageSize { p with bytes := p.bytes.set j v } := by
  refine ⟨by rw [List.length_set]; exact h.1, ?_⟩
  intro b hb
  rcases List.mem_or_eq_of_mem_set hb with h1 | h1
  · exact h.2 b h1
  · rw [h1]; exact hv

theorem allocByteLoop_spec (PageSize : Nat) (p : BitmapPage) (hwf : p.WF PageSize) (n : Nat) :
    ∀ byteIndex : Nat, MAX_CHARS PageSize + 1 ≤ n + byteIndex →
      byteIndex ≤ MAX_CHARS PageSize →
      (∃ j b i, allocByteLoop PageSize p n byteIndex =
          some (some (j * 8 + i), { p with bytes := p.bytes.set j (setByteIndex b i) }) ∧
        byteIndex ≤ j ∧ j < MAX_CHARS PageSize ∧ p.bytes[j]? = some b ∧ i < 8 ∧
        isByteIndexSet b i = false ∧ (∀ i', i' < i → isByteIndexSet b i' = true) ∧
        ∀ j', byteIndex ≤ j' → j' < j → p.bytes[j']? = some 255) ∨
      (allocByteLoop PageSize p n byteIndex = some (none, p) ∧
        ∀ j', byteIndex ≤ j' → j' < MAX_CHARS PageSize → p.bytes[j']? = some 255) := by
  induction n with
  | zero => intro byteIndex h1 h2; omega
  | succ n ih =>
    intro byteIndex h1 h2
    unfold allocByteLoop
    by_cases hlt : byteIndex < MAX_CHARS PageSize
    · rw [if_pos hlt]
      obtain ⟨b, hb, hb256⟩ := hwf.byteAt byteIndex hlt
      rw [hb]
      simp only
      by_cases hfull : b = 255
      · rw [if_neg (by rw [hfull]; decide)]
        rcases ih (byteIndex + 1) (by omega) (by omega) with
          ⟨j, b', i, e, r1, r2, r3, r4, r5, r6, r7⟩ | ⟨e, r7⟩
        · left
          refine ⟨j, b', i, e, by omega, r2, r3, r4, r5, r6, ?_⟩
          intro j' j1 j2
          by_cases hj : j' = byteIndex
          · rw [hj, hb, hfull]
          · exact r7 j' (by omega) j2
        · right
          refine ⟨e, ?_⟩
          intro j' j1 j2
          by_cases hj : j' = byteIndex
          · rw [hj, hb, hfull]
          · exact r7 j' (by omega) j2
      · rw [if_pos (by simpa using hfull)]
        rcases allocBitLoop_spec p byteIndex b hb 9 0 (by omega) (by omega) with
          ⟨r, e, _, r2, r3, r4⟩ | ⟨e, r4⟩
        · rw [e]
          left
          exact ⟨byteIndex, b, r, rfl, Nat.le_refl _, hlt, hb, r2, r3,
            fun i' hi' => r4 i' (Nat.zero_le _) hi', fun j' j1 j2 => by omega⟩
        · obtain ⟨i, hi, hs⟩ := byte_has_free b hb256 hfull
          rw [r4 i (Nat.zero_le _) hi] at hs
          cases hs
    · rw [if_neg hlt]
      right
      exact ⟨rfl, fun j' j1 j2 => by omega⟩

theorem IsPageFree_set (PageSize : Nat) (p : BitmapPage) (j v o : Nat) (hne : o / 8 ≠ j) :
    BitmapPage.IsPageFree PageSize { p with bytes := p.bytes.set j v } o =
      p.IsPageFree PageSize o := by
  unfold BitmapPage.IsPageFree BitmapPage.IsPageFreeLow
  simp only
  rw [List.getElem?_set_ne (Ne.symm hne)]

theorem IsPageFree_set_same (PageSize : Nat) (p : BitmapPage) (hwf : p.WF PageSize)
    (j v o : Nat) (ho : o < GetMaxSupportedSize PageSize) (he : o / 8 = j) :
    BitmapPage.IsPageFree PageSize { p with bytes := p.bytes.set j v } o =
      some (!isByteIndexSet v (o % 8)) := by
  have hj : j < MAX_CHARS PageSize := by
    unfold GetMaxSupportedSize at ho
    omega
  apply IsPageFree_eq PageSize _ o v _ ho
  show (p.bytes.set j v)[o / 8]? = some v
  rw [he, List.getElem?_set_self (by rw [hwf.1]; exact hj)]

theorem IsPageFree_byte (PageSize : Nat) (p : BitmapPage) (hwf : p.WF PageSize) (o : Nat)
    (ho : o < GetMaxSupportedSize PageSize) :
    ∃ b, p.bytes[o / 8]? = some b ∧ b < 256 ∧
      p.IsPageFree PageSize o = some (!isByteIndexSet b (o % 8)) := by
  have hj : o / 8 < MAX_CHARS PageSize := by
    unfold GetMaxSupportedSize at ho
    omega
  obtain ⟨b, hb, hb256⟩ := hwf.byteAt _ hj
  exact ⟨b, hb, hb256, IsPageFree_eq PageSize p o b hb ho⟩

end MiniSql

namespace MiniSql

/-- What `AllocatePage` does to a bitmap page. -/
theorem bitmapAllocate_spec (PageSize : Nat) (p : BitmapPage)
    (hwf : p.WF PageSize) :
    ∃ res, p.AllocatePage PageSize = some res ∧
      ((∀ o, o < GetMaxSupportedSize PageSize → p.IsPageFree PageSize o = some false) →
        res = (none, p)) ∧
      ∀ r, r < GetMaxSupportedSize PageSize → p.IsPageFree PageSize r = some true →
        (∀ o, o < r → p.IsPageFree PageSize o = some false) →
        res.1 = some r ∧ res.2.WF PageSize ∧
        res.2.page_allocated_ = p.page_allocated_ ∧
        res.2.next_free_page_ = p.next_free_page_ ∧
        res.2.IsPageFree PageSize r = some false ∧
        ∀ o, o < GetMaxSupportedSize PageSize → o ≠ r →
          res.2.IsPageFree PageSize o = p.IsPageFree PageSize o := by
  have hmax : GetMaxSupportedSize PageSize = 8 * MAX_CHARS PageSize := rfl
  unfold BitmapPage.AllocatePage
  rcases allocByteLoop_spec PageSize p hwf (MAX_CHARS PageSize + 1) 0 (by omega)
    (Nat.zero_le _) with ⟨j, b, i, e, _, r2, r3, r4, r5, r6, r7⟩ | ⟨e, r7⟩
  · have hb256 : b < 256 := by
      obtain ⟨b', hb', h256⟩ := hwf.byteAt j r2
      rw [r3] at hb'
      cases hb'
      exact h256
    have hoff : j * 8 + i < GetMaxSupportedSize PageSize := by rw [hmax]; omega
    have hd : (j * 8 + i) / 8 = j := by omega
    have hm : (j * 8 + i) % 8 = i := by omega
    have hfree : p.IsPageFree PageSize (j * 8 + i) = some true := by
      rw [IsPageFree_eq PageSize p _ b (by rw [hd]; exact r3) hoff, hm, r5]
      rfl
    have hbelow : ∀ o, o < j * 8 + i → p.IsPageFree PageSize o = some false := by
      intro o ho
      by_cases hj : o / 8 = j
      · rw [IsPageFree_eq PageSize p o b (by rw [hj]; exact r3) (by omega),
          r6 (o % 8) (by omega)]
        rfl
      · rw [IsPageFree_eq PageSize p o 255 (r7 _ (Nat.zero_le _) (by omega)) (by omega),
          isByteIndexSet_full _ (Nat.mod_lt _ (by decide))]
        rfl
    refine ⟨_, e, ?_, ?_⟩
    · intro hall
      rw [hall _ hoff] at hfree
      cases hfree
    · intro r hr hfr hbr
      have hrr : r = j * 8 + i := by
        rcases Nat.lt_trichotomy r (j * 8 + i) with hc | hc | hc
        · rw [hbelow r hc] at hfr
          cases hfr
        · exact hc
        · rw [hbr _ hc] at hfree
          cases hfree
      subst hrr
      refine ⟨rfl, hwf.setByte _ _ (setByteIndex_lt _ _), rfl, rfl, ?_, ?_⟩
      · show BitmapPage.IsPageFree PageSize
          { p with bytes := p.bytes.set j (setByteIndex b i) } (j * 8 + i) = some false
        rw [IsPageFree_set_same PageSize p hwf j _ _ hoff hd, hm,
          isByteIndexSet_setByteIndex b hb256 i r4 i r4]
        simp
      · intro o ho hne
        show BitmapPage.IsPageFree PageSize
          { p with bytes := p.bytes.set j (setByteIndex b i) } o = _
        by_cases hj : o / 8 = j
        · rw [IsPageFree_set_same PageSize p hwf j _ o ho hj,
            IsPageFree_eq PageSize p o b (by rw [hj]; exact r3) ho,
            isByteIndexSet_setByteIndex b hb256 i r4 (o % 8) (Nat.mod_lt _ (by decide))]
          have : ¬ i = o % 8 := by omega
          simp [this]
        · exact IsPageFree_set PageSize p j _ o hj
  · refine ⟨_, e, fun _ => rfl, ?_⟩
    intro r hr hfr _
    rw [IsPageFree_eq PageSize p r 255 (r7 _ (Nat.zero_le _) (by omega)) hr,
      isByteIndexSet_full _ (Nat.mod_lt _ (by decide))] at hfr
    cases hfr

/-- C16: on every bitmap page (an array of `MAX_CHARS` bytes) `AllocatePage` returns; when
`r` is the smallest offset below `MaxSize` whose bit is clear it returns true with
`page_offset = r`, sets that bit and changes no other bit (nor the counters); when no bit
is clear it returns false and leaves the page as it is. -/
theorem AllocatePage_lowest_free_bit (PageSize : Nat) (p : BitmapPage)
    (hwf : p.WF PageSize) :
    ∃ res, p.AllocatePage PageSize = some res ∧
      ((∀ o, o < GetMaxSupportedSize PageSize → p.IsPageFree PageSize o = some false) →
        res = (none, p)) ∧
      ∀ r, r < GetMaxSupportedSize PageSize → p.IsPageFree PageSize r = some true →
        (∀ o, o < r → p.IsPageFree PageSize o = some false) →
        res.1 = some r ∧ res.2.WF PageSize ∧
        res.2.page_allocated_ = p.page_allocated_ ∧
        res.2.next_free_page_ = p.next_free_page_ ∧
        res.2.IsPageFree PageSize r = some false ∧
        ∀ o, o < GetMaxSupportedSize PageSize → o ≠ r →
          res.2.IsPageFree PageSize o = p.IsPageFree PageSize o := by
  obtain ⟨res, e, h1, h2⟩ := bitmapAllocate_spec PageSize p hwf
  exact ⟨res, e, h1, h2⟩

/-- C16 at a page of 9 bytes (one byte of bits) whose bits 0, 1 and 3 are set: `AllocatePage`
returns true with `page_offset = 2` and the byte becomes `0xF0`. -/
theorem AllocatePage_lowest_free_bit_witness :
    BitmapPage.WF 9 { page_allocated_ := 0, next_free_page_ := 0, bytes := [0xD0] } ∧
    ∃ res, BitmapPage.AllocatePage 9
        { page_allocated_ := 0, next_free_page_ := 0, bytes := [0xD0] } = some res ∧
      res = (some 2, { page_allocated_ := 0, next_free_page_ := 0, bytes := [0xF0] }) := by
  have hwf : BitmapPage.WF 9 { page_allocated_ := 0, next_free_page_ := 0, bytes := [0xD0] } :=
    ⟨rfl, by decide⟩
  obtain ⟨res, e, _, h2⟩ := AllocatePage_lowest_free_bit 9
    { page_allocated_ := 0, next_free_page_ := 0, bytes := [0xD0] } hwf
  refine ⟨hwf, res, e, ?_⟩
  have e' : BitmapPage.AllocatePage 9
      { page_allocated_ := 0, next_free_page_ := 0, bytes := [0xD0] } =
      some (some 2, { page_allocated_ := 0, next_free_page_ := 0, bytes := [0xF0] }) := by
    decide
  rw [e'] at e
  exact (Option.some.inj e).symm

/-- What `DeAllocatePage` does to a bitmap page. -/
theorem bitmapDeAllocate_spec (PageSize : Nat) (p : BitmapPage)
    (hwf : p.WF PageSize) (o : Nat) (ho : o < GetMaxSupportedSize PageSize) :
    ∃ res, p.DeAllocatePage PageSize o = some res ∧
      (res.1 = true ↔ p.IsPageFree PageSize o = some false) ∧
      (p.IsPageFree PageSize o = some true → res = (false, p)) ∧
      (p.IsPageFree PageSize o = some false →
        res.2.WF PageSize ∧ res.2.page_allocated_ = p.page_allocated_ ∧
        res.2.next_free_page_ = p.next_free_page_ ∧
        res.2.IsPageFree PageSize o = some true ∧
        ∀ o', o' < GetMaxSupportedSize PageSize → o' ≠ o →
          res.2.IsPageFree PageSize o' = p.IsPageFree PageSize o') := by
  obtain ⟨b, hb, hb256, hfree⟩ := IsPageFree_byte PageSize p hwf o ho
  cases hs : isByteIndexSet b (o % 8)
  · rw [hs] at hfree
    have e : p.DeAllocatePage PageSize o = some (false, p) := by
      unfold BitmapPage.DeAllocatePage
      rw [hfree]
      rfl
    rw [hfree]
    exact ⟨_, e, ⟨fun hc => (by cases hc), fun hc => (by cases hc)⟩, fun _ => rfl,
      fun hc => (by cases hc)⟩
  · rw [hs] at hfree
    have e : p.DeAllocatePage PageSize o = some (true,
        { p with bytes := p.bytes.set (o / 8) (unsetByteIndex b (o % 8)) }) := by
      unfold BitmapPage.DeAllocatePage
      rw [hfree]
      show (match p.bytes[o / 8]? with
        | none => none
        | some b => some (true,
            { p with bytes := p.bytes.set (o / 8) (unsetByteIndex b (o % 8)) })) = _
      rw [hb]
    rw [hfree]
    refine ⟨_, e, ⟨fun _ => rfl, fun _ => rfl⟩, fun hc => (by cases hc), fun _ => ?_⟩
    have hm : o % 8 < 8 := Nat.mod_lt _ (by decide)
    refine ⟨hwf.setByte _ _ (unsetByteIndex_lt _ _ hb256), rfl, rfl, ?_, ?_⟩
    · show BitmapPage.IsPageFree PageSize
        { p with bytes := p.bytes.set (o / 8) (unsetByteIndex b (o % 8)) } o = some true
      rw [IsPageFree_set_same PageSize p hwf _ _ _ ho rfl,
        isByteIndexSet_unsetByteIndex b hb256 _ hm _ hm]
      simp
    · intro o' ho' hne
      show BitmapPage.IsPageFree PageSize
        { p with bytes := p.bytes.set (o / 8) (unsetByteIndex b (o % 8)) } o' = _
      by_cases hj : o' / 8 = o / 8
      · rw [IsPageFree_set_same PageSize p hwf _ _ o' ho' hj,
          IsPageFree_eq PageSize p o' b (by rw [hj]; exact hb) ho',
          isByteIndexSet_unsetByteIndex b hb256 _ hm (o' % 8) (Nat.mod_lt _ (by decide))]
        have : ¬ o % 8 = o' % 8 := by omega
        simp [this]
      · exact IsPageFree_set PageSize p _ _ o' hj

/-- C17: for every bitmap page and every offset below `MaxSize`, `DeAllocatePage(offset)`
returns true exactly when the bit of the offset was set; it then clears that bit and no
other (nor the counters); when the bit was clear it returns false and leaves the page as
it is. -/
theorem DeAllocatePage_clears_set_bit (PageSize : Nat) (p : BitmapPage)
    (hwf : p.WF PageSize) (o : Nat) (ho : o < GetMaxSupportedSize PageSize) :
    ∃ res, p.DeAllocatePage PageSize o = some res ∧
      (res.1 = true ↔ p.IsPageFree PageSize o = some false) ∧
      (p.IsPageFree PageSize o = some true → res = (false, p)) ∧
      (p.IsPageFree PageSize o = some false →
        res.2.WF PageSize ∧ res.2.page_allocated_ = p.page_allocated_ ∧
        res.2.next_free_page_ = p.next_free_page_ ∧
        res.2.IsPageFree PageSize o = some true ∧
        ∀ o', o' < GetMaxSupportedSize PageSize → o' ≠ o →
          res.2.IsPageFree PageSize o' = p.IsPageFree PageSize o') := by
  obtain ⟨res, e, h1, h2, h3⟩ := bitmapDeAllocate_spec PageSize p hwf o ho
  exact ⟨res, e, h1, h2, h3⟩

/-- C17 at a page of 9 bytes with byte `0xD0`: `DeAllocatePage(1)` returns true and leaves
`0x90`; `DeAllocatePage(2)` returns false and leaves the page as it is. -/
theorem DeAllocatePage_clears_set_bit_witness :
    BitmapPage.WF 9 { page_allocated_ := 0, next_free_page_ := 0, bytes := [0xD0] } ∧
    (1 : Nat) < GetMaxSupportedSize 9 ∧
    (∃ res, BitmapPage.DeAllocatePage 9
        { page_allocated_ := 0, next_free_page_ := 0, bytes := [0xD0] } 1 = some res ∧
      res = (true, { page_allocated_ := 0, next_free_page_ := 0, bytes := [0x90] })) ∧
    BitmapPage.DeAllocatePage 9
        { page_allocated_ := 0, next_free_page_ := 0, bytes := [0xD0] } 2 =
      some (false, { page_allocated_ := 0, next_free_page_ := 0, bytes := [0xD0] }) := by
  have hwf : BitmapPage.WF 9 { page_allocated_ := 0, next_free_page_ := 0, bytes := [0xD0] } :=
    ⟨rfl, by decide⟩
  obtain ⟨res, e, _, _, _⟩ := DeAllocatePage_clears_set_bit 9
    { page_allocated_ := 0, next_free_page_ := 0, bytes := [0xD0] } hwf 1 (by decide)
  refine ⟨hwf, by decide, ⟨res, e, ?_⟩, by decide⟩
  have e' : BitmapPage.DeAllocatePage 9
      { page_allocated_ := 0, next_free_page_ := 0, bytes := [0xD0] } 1 =
      some (true, { page_allocated_ := 0, next_free_page_ := 0, bytes := [0x90] }) := by
    decide
  rw [e'] at e
  exact (Option.some.inj e).symm

theorem allFree_WF (PageSize : Nat) : (BitmapPage.allFree PageSize).WF PageSize := by
  refine ⟨List.length_replicate _ _, ?_⟩
  intro b hb
  rw [(List.mem_replicate.mp hb).2]
  decide

theorem allFree_IsPageFree (PageSize o : Nat) (ho : o < GetMaxSupportedSize PageSize) :
    (BitmapPage.allFree PageSize).IsPageFree PageSize o = some true := by
  obtain ⟨b, hb, _, e⟩ := IsPageFree_byte PageSize _ (allFree_WF PageSize) o ho
  have hb0 : b = 0 := by
    have hb' : (List.replicate (MAX_CHARS PageSize) 0)[o / 8]? = some b := hb
    rw [List.getElem?_replicate] at hb'
    split_ifs at hb'
    exact (Option.some.inj hb').symm
  rw [e, hb0]
  have : ∀ i, i < 8 → isByteIndexSet 0 i = false := by decide
  rw [this _ (Nat.mod_lt _ (by decide))]
  rfl

/-- Allocating from a page whose set bits are the offsets below `k`: the next `m` calls
return `k`, `k + 1`, ... -/
theorem allocateN_from (PageSize : Nat) (m : Nat) :
    ∀ (k : Nat) (p : BitmapPage), p.WF PageSize →
      (∀ o, o < GetMaxSupportedSize PageSize →
        p.IsPageFree PageSize o = some (decide (k ≤ o))) →
      k + m ≤ GetMaxSupportedSize PageSize →
      ∃ p', BitmapPage.allocateN PageSize m p = some ((List.range' k m).map some, p') ∧
        p'.WF PageSize ∧
        ∀ o, o < GetMaxSupportedSize PageSize →
          p'.IsPageFree PageSize o = some (decide (k + m ≤ o)) := by
  induction m with
  | zero =>
    intro k p hwf hbits _
    exact ⟨p, rfl, hwf, hbits⟩
  | succ m ih =>
    intro k p hwf hbits hk
    obtain ⟨res, e, _, h2⟩ := bitmapAllocate_spec PageSize p hwf
    obtain ⟨r1, r2, _, _, r5, r6⟩ := h2 k (by omega)
      (by rw [hbits k (by omega)]; simp)
      (fun o ho => by
        rw [hbits o (by omega)]
        simp
        omega)
    obtain ⟨p', e', w', b'⟩ := ih (k + 1) res.2 r2
      (fun o ho => by
        by_cases hc : o = k
        · rw [hc, r5]
          simp
        · rw [r6 o ho hc, hbits o ho]
          congr 1
          simp only [decide_eq_decide]
          omega)
      (by omega)
    refine ⟨p', ?_, w', ?_⟩
    · unfold BitmapPage.allocateN
      rw [e]
      obtain ⟨r, p1⟩ := res
      simp only at r1 e'
      simp only [e', r1]
      rfl
    · intro o ho
      rw [b' o ho]
      congr 1
      simp only [decide_eq_decide]
      omega

/-- C18: starting from an all-free bitmap page of `PageSize` bytes, the `MaxSize`
calls of `AllocatePage` succeed with the offsets 0, 1, ..., `MaxSize - 1` in this order, the
call that follows returns false, and `IsPageFree` is then false at every offset below `MaxSize =
8 * (PageSize - 8)`. -/
theorem allocate_all_then_full (PageSize : Nat) :
    GetMaxSupportedSize PageSize = 8 * (PageSize - 8) ∧
    ∃ p, BitmapPage.allocateN PageSize (GetMaxSupportedSize PageSize)
        (BitmapPage.allFree PageSize) =
        some ((List.range (GetMaxSupportedSize PageSize)).map some, p) ∧
      p.AllocatePage PageSize = some (none, p) ∧
      ∀ o, o < GetMaxSupportedSize PageSize → p.IsPageFree PageSize o = some false := by
  refine ⟨rfl, ?_⟩
  obtain ⟨p, e, w, b⟩ := allocateN_from PageSize (GetMaxSupportedSize PageSize) 0
    (BitmapPage.allFree PageSize) (allFree_WF PageSize)
    (fun o ho => by rw [allFree_IsPageFree PageSize o ho]; simp) (by omega)
  have hb : ∀ o, o < GetMaxSupportedSize PageSize → p.IsPageFree PageSize o = some false := by
    intro o ho
    rw [b o ho]
    congr 1
    simp only [decide_eq_false_iff_not]
    omega
  refine ⟨p, ?_, ?_, hb⟩
  · rw [e, List.range_eq_range']
  · obtain ⟨res, e1, h1, _⟩ := bitmapAllocate_spec PageSize p w
    rw [e1, h1 hb]

end MiniSql

namespace MiniSql

/-! ## Disk manager: logical and physical page ids -/

theorem toInt32_of_lt (n : Nat) (h : n < 2 ^ 31) : toInt32 n = (n : Int) := by
  unfold toInt32
  have e : n % 2 ^ 32 = n := Nat.mod_eq_of_lt (by omega)
  rw [e, if_pos h]

theorem toSizeT_of_nat (n : Nat) (h : n < 2 ^ 64) : toSizeT (n : Int) = n := by
  unfold toSizeT
  rw [Int.emod_eq_of_lt (by omega) (by omega)]
  rfl

/-- Where the physical page id fits `int32_t`, `MapPageId` is the formula of the source in
exact arithmetic. -/
theorem MapPageId_eq (BS L : Int) (hBS : 0 < BS) (hL : 0 ≤ L)
    (hfit : 2 + (L / BS) * (BS + 1) + L % BS < 2 ^ 31) :
    DiskManager.MapPageId BS L = 2 + (L / BS) * (BS + 1) + L % BS := by
  obtain ⟨l, rfl⟩ := Int.eq_ofNat_of_zero_le hL
  obtain ⟨b, rfl⟩ := Int.eq_ofNat_of_zero_le (Int.le_of_lt hBS)
  have hfit1 : ((2 + l / b * (b + 1) + l % b : Nat) : Int) < 2 ^ 31 := by
    push_cast
    exact hfit
  have hfitN : 2 + l / b * (b + 1) + l % b < 2 ^ 31 := by exact_mod_cast hfit1
  have hbpos : 0 < b := by omega
  have hqle : l / b ≤ l / b * (b + 1) := Nat.le_mul_of_pos_right _ (by omega)
  have hqB : b * (l / b) ≤ l / b * (b + 1) := by
    rw [Nat.mul_comm]
    exact Nat.mul_le_mul_left _ (by omega)
  have hLd := Nat.div_add_mod l b
  unfold DiskManager.MapPageId
  simp only [Int.toNat_ofNat]
  rw [toSizeT_of_nat l (by omega), toInt32_of_lt (l / b) (by omega),
    toInt32_of_lt (l % b) (by omega), toSizeT_of_nat _ (by omega), toSizeT_of_nat _ (by omega),
    Nat.mod_eq_of_lt (by omega), toInt32_of_lt _ (by omega)]
  push_cast
  rfl

theorem roundTrip_ext (BS L : Int) (hBS : 0 < BS) (hL : 0 ≤ L)
    (hfit : 2 + (L / BS) * (BS + 1) + L % BS < 2 ^ 31) :
    DiskManager.getExtIndexFromPhyPageId BS (DiskManager.MapPageId BS L) = L / BS := by
  rw [MapPageId_eq BS L hBS hL hfit]
  obtain ⟨l, rfl⟩ := Int.eq_ofNat_of_zero_le hL
  obtain ⟨b, rfl⟩ := Int.eq_ofNat_of_zero_le (Int.le_of_lt hBS)
  have hfit1 : ((2 + l / b * (b + 1) + l % b : Nat) : Int) < 2 ^ 31 := by
    push_cast
    exact hfit
  have hfitN : 2 + l / b * (b + 1) + l % b < 2 ^ 31 := by exact_mod_cast hfit1
  have hbpos : 0 < b := by omega
  have hqle : l / b ≤ l / b * (b + 1) := Nat.le_mul_of_pos_right _ (by omega)
  have hr : l % b < b := Nat.mod_lt _ hbpos
  have e1 : (2 + ((l : Int) / (b : Int)) * ((b : Int) + 1) + (l : Int) % (b : Int) - 1) =
      ((l % b + 1 + (b + 1) * (l / b) : Nat) : Int) := by
    push_cast
    ring
  unfold DiskManager.getExtIndexFromPhyPageId
  rw [e1, toSizeT_of_nat _ (by
    have : (b + 1) * (l / b) = l / b * (b + 1) := Nat.mul_comm _ _
    omega)]
  simp only [Int.toNat_ofNat]
  rw [Nat.add_mul_div_left _ _ (by omega : 0 < b + 1), Nat.div_eq_of_lt (by omega),
    Nat.zero_add, Nat.mod_eq_of_lt (by omega)]
  push_cast
  rfl

theorem roundTrip_offset (BS L : Int) (hBS : 0 < BS) (hL : 0 ≤ L)
    (hfit : 2 + (L / BS) * (BS + 1) + L % BS < 2 ^ 31) :
    DiskManager.getOffsetFromPhyId BS (DiskManager.MapPageId BS L) = L % BS := by
  rw [MapPageId_eq BS L hBS hL hfit]
  obtain ⟨l, rfl⟩ := Int.eq_ofNat_of_zero_le hL
  obtain ⟨b, rfl⟩ := Int.eq_ofNat_of_zero_le (Int.le_of_lt hBS)
  have hfit1 : ((2 + l / b * (b + 1) + l % b : Nat) : Int) < 2 ^ 31 := by
    push_cast
    exact hfit
  have hfitN : 2 + l / b * (b + 1) + l % b < 2 ^ 31 := by exact_mod_cast hfit1
  have hbpos : 0 < b := by omega
  have hqle : l / b ≤ l / b * (b + 1) := Nat.le_mul_of_pos_right _ (by omega)
  have hr : l % b < b := Nat.mod_lt _ hbpos
  have e1 : (2 + ((l : Int) / (b : Int)) * ((b : Int) + 1) + (l : Int) % (b : Int) - 1) =
      ((l % b + 1 + (b + 1) * (l / b) : Nat) : Int) := by
    push_cast
    ring
  unfold DiskManager.getOffsetFromPhyId
  rw [e1, toSizeT_of_nat _ (by
    have : (b + 1) * (l / b) = l / b * (b + 1) := Nat.mul_comm _ _
    omega)]
  simp only [Int.toNat_ofNat]
  rw [Nat.add_mul_mod_self_left, Nat.mod_eq_of_lt (by omega : l % b + 1 < b + 1)]
  have e2 : (l % b + 1 + (2 ^ 64 - 1)) % 2 ^ 64 % 2 ^ 32 = l % b := by omega
  rw [e2]
  push_cast
  rfl

/-- C20, amended: for every logical page id `L >= 0` whose physical page id
`2 + (L / BITMAP_SIZE) * (BITMAP_SIZE + 1) + L mod BITMAP_SIZE` fits `int32_t` (and every
extent size `BITMAP_SIZE > 0`) `MapPageId(L)` is that number and the inverse helpers undo it:
`getExtIndexFromPhyPageId (MapPageId L) = L / BITMAP_SIZE` and
`getOffsetFromPhyId (MapPageId L) = L mod BITMAP_SIZE`. -/
theorem MapPageId_round_trip (BS L : Int) (hBS : 0 < BS) (hL : 0 ≤ L)
    (hfit : 2 + (L / BS) * (BS + 1) + L % BS < 2 ^ 31) :
    DiskManager.MapPageId BS L = 2 + (L / BS) * (BS + 1) + L % BS ∧
    DiskManager.getExtIndexFromPhyPageId BS (DiskManager.MapPageId BS L) = L / BS ∧
    DiskManager.getOffsetFromPhyId BS (DiskManager.MapPageId BS L) = L % BS :=
  ⟨MapPageId_eq BS L hBS hL hfit, roundTrip_ext BS L hBS hL hfit,
    roundTrip_offset BS L hBS hL hfit⟩

/-- C20 at `BITMAP_SIZE = 32704` (pages of 4096 bytes) and `L = 100000`: the physical page
is 100005, in extent 3 at offset 1888. -/
theorem MapPageId_round_trip_witness :
    (0 : Int) < 32704 ∧ (0 : Int) ≤ 100000 ∧
    (2 + (100000 / 32704) * (32704 + 1) + 100000 % 32704 : Int) < 2 ^ 31 ∧
    DiskManager.MapPageId 32704 100000 = 100005 ∧
    DiskManager.getExtIndexFromPhyPageId 32704 (DiskManager.MapPageId 32704 100000) = 3 ∧
    DiskManager.getOffsetFromPhyId 32704 (DiskManager.MapPageId 32704 100000) = 1888 := by
  obtain ⟨h1, h2, h3⟩ := MapPageId_round_trip 32704 100000 (by decide) (by decide) (by decide)
  exact ⟨by decide, by decide, by decide, by rw [h1]; decide, by rw [h2]; decide,
    by rw [h3]; decide⟩

/-- C20 as stated fails at the largest `page_id_t`: with `BITMAP_SIZE = 32704` (pages of 4096
bytes) and `L = 2147483647`, in extent 65664 at offset 8191, the sum 2147549313 does not fit
`int32_t`; `MapPageId(L)` is -2147417983, and the inverse helpers give 2084841870 and 14961
instead of 65664 and 8191. -/
theorem MapPageId_round_trip_fails_at_INT32_MAX :
    (2147483647 : Int) / 32704 = 65664 ∧ (2147483647 : Int) % 32704 = 8191 ∧
    (2 + (2147483647 / 32704) * (32704 + 1) + 2147483647 % 32704 : Int) = 2147549313 ∧
    DiskManager.MapPageId 32704 2147483647 = -2147417983 ∧
    DiskManager.getExtIndexFromPhyPageId 32704 (DiskManager.MapPageId 32704 2147483647) =
      2084841870 ∧
    DiskManager.getOffsetFromPhyId 32704 (DiskManager.MapPageId 32704 2147483647) = 14961 := by
  decide

end MiniSql

namespace MiniSql

/-! ## Disk manager: the bitmap page read at an offset beyond `INT_MAX` -/

theorem BITMAP_SIZE_pos (PAGE_SIZE : Nat) (h : 9 ≤ PAGE_SIZE) : 0 < BITMAP_SIZE PAGE_SIZE := by
  unfold BITMAP_SIZE GetMaxSupportedSize MAX_CHARS
  omega

/-- With pages of 4096 bytes the read of physical page 555986 has no result. -/
theorem ReadPhysicalPage_overflow (d : ExtentDisk) : d.ReadPhysicalPage 4096 555986 = none := by
  unfold ExtentDisk.ReadPhysicalPage
  simp only []
  rw [if_pos (Or.inr (by decide))]

/-- With pages of 4096 bytes the loop of `AllocatePage` passes the full extents below 17 and
reads the bitmap page of extent 17. -/
theorem allocExtentLoop_overflow (d : ExtentDisk)
    (hfull : ∀ e : Nat, e < 17 → d.meta_data_.used e = 32704)
    (h17 : d.meta_data_.used 17 ≠ 32704) (k : Nat) :
    ∀ (e n : Nat), e + k = 17 → k < n → allocExtentLoop 4096 d 17 n e = none := by
  have hB : BITMAP_SIZE 4096 = 32704 := by decide
  have hC : extentCapacity 4096 = 1022 := by decide
  induction k with
  | zero =>
    intro e n he hn
    obtain ⟨n', rfl⟩ : ∃ n', n = n' + 1 := ⟨n - 1, by omega⟩
    have he17 : e = 17 := by omega
    subst he17
    unfold allocExtentLoop
    rw [if_pos (Nat.le_refl _), hC, if_neg (by decide), hB, if_pos h17]
    have hp : DiskManager.getBitmapPhyIdFromExtIndex ((32704 : Nat) : Int) ((17 : Nat) : Int) =
        555986 := by decide
    simp only [hp, ReadPhysicalPage_overflow, Option.none_bind]
  | succ k ih =>
    intro e n he hn
    obtain ⟨n', rfl⟩ : ∃ n', n = n' + 1 := ⟨n - 1, by omega⟩
    unfold allocExtentLoop
    rw [if_pos (by omega), hC, if_neg (by omega), hB, if_neg (by
      intro hc
      exact hc (hfull e (by omega)))]
    exact ih (e + 1) n' (by omega) (by omega)

/-- C19 fails on the code. With pages of 4096 bytes an extent has 32704 data pages, and the
bitmap page of extent 17 is the physical page 555986. Its offset 555986 * 4096 = 2277318656
is beyond `INT_MAX`: `ReadPhysicalPage`, which computes it in `int`, has no defined result,
whatever the file holds (`WritePhysicalPage` computes the same offset in `size_t`). So once
the extents 0 to 16 are full, after 555968 allocations, `AllocatePage` has no defined result,
and neither has `IsPageFree` for page 555968, the first page of extent 17. -/
theorem AllocatePage_reads_bitmap_beyond_INT_MAX :
    BITMAP_SIZE 4096 = 32704 ∧ 17 * BITMAP_SIZE 4096 = 555968 ∧
    555968 < MAX_VALID_PAGE_ID 4096 ∧
    DiskManager.getBitmapPhyIdFromExtIndex (BITMAP_SIZE 4096) 17 = 555986 ∧
    (555986 : Int) * 4096 = 2277318656 ∧ (2 : Int) ^ 31 ≤ 2277318656 ∧
    (∀ d : ExtentDisk, d.ReadPhysicalPage 4096 555986 = none) ∧
    (∀ d : ExtentDisk, d.meta_data_.num_extents_ = 17 →
      (∀ e : Nat, e < 17 → d.meta_data_.used e = 32704) → d.meta_data_.used 17 ≠ 32704 →
      d.AllocatePage 4096 = none) ∧
    (∀ d : ExtentDisk, d.IsPageFree 4096 555968 = none) := by
  refine ⟨by decide, by decide, by decide, by decide, by decide, by decide,
    ReadPhysicalPage_overflow, ?_, ?_⟩
  · intro d hn hfull h17
    unfold ExtentDisk.AllocatePage
    rw [hn]
    exact allocExtentLoop_overflow d hfull h17 17 0 19 rfl (by decide)
  · intro d
    unfold ExtentDisk.IsPageFree
    have h1 : DiskManager.MapPageId ((BITMAP_SIZE 4096 : Nat) : Int) 555968 = 555987 := by decide
    have h2 : (DiskManager.getExtIndexFromPhyPageId ((BITMAP_SIZE 4096 : Nat) : Int)
        555987).toNat = 17 := by decide
    have h3 : DiskManager.getBitmapPhyIdFromExtIndex ((BITMAP_SIZE 4096 : Nat) : Int)
        ((17 : Nat) : Int) = 555986 := by decide
    simp only [h1, h2, h3, ReadPhysicalPage_overflow, Option.none_bind]

end MiniSql

namespace MiniSql

end MiniSql

namespace MiniSql

/-! ## Pool invariants: elementary facts -/

theorem pageOf_eq (b : BufferPoolManager) (r v : Int) (j : Nat)
    (hl : b.page_table_.lookup r = some v) (hf : findPage b.pages_ r = some j) :
    b.pageOf r = b.pages_[j]? := by
  unfold BufferPoolManager.pageOf BufferPoolManager.frameOf
  simp only [hl, hf]

theorem pageOf_none (b : BufferPoolManager) (r : Int) (hl : b.page_table_.lookup r = none) :
    b.pageOf r = none := by
  unfold BufferPoolManager.pageOf BufferPoolManager.frameOf
  simp only [hl]

theorem pageOf_resident (b : BufferPoolManager) (r : Int) (pg : Page)
    (h : b.pageOf r = some pg) : (b.page_table_.lookup r).isSome := by
  cases hl : b.page_table_.lookup r with
  | none => rw [pageOf_none b r hl] at h; cases h
  | some v => rfl

theorem isZero_resident (b : BufferPoolManager) (r : Int) (h : b.isZero r = true) :
    (b.page_table_.lookup r).isSome := by
  unfold BufferPoolManager.isZero at h
  cases hp : b.pageOf r with
  | none => rw [hp] at h; cases h
  | some pg => exact pageOf_resident b r pg hp

/-- A resident page has a frame, found by `findPage`, that carries its id. -/
theorem PoolCore.frame_of {b : BufferPoolManager} (h : PoolCore b) (r v : Int)
    (hl : b.page_table_.lookup r = some v) :
    ∃ (j : Nat) (pg : Page), findPage b.pages_ r = some j ∧ b.pages_[j]? = some pg ∧
      pg.page_id_ = r ∧ b.pageOf r = some pg := by
  obtain ⟨j, hj⟩ := Option.isSome_iff_exists.mp (h.resident r (by rw [hl]; rfl))
  obtain ⟨pg, hpg, hid⟩ := findPage_get _ _ _ hj
  exact ⟨j, pg, hj, hpg, hid, by rw [pageOf_eq b r v j hl hj, hpg]⟩

theorem PoolCore.key_valid {b : BufferPoolManager} (h : PoolCore b) (r : Int)
    (hl : (b.page_table_.lookup r).isSome) : r ≠ INVALID_PAGE_ID := by
  have := (h.bits r hl).1
  unfold INVALID_PAGE_ID
  omega

theorem PoolCore.valsNodup {b : BufferPoolManager} (h : PoolCore b) :
    (b.page_table_.map Prod.snd).Nodup := by
  have h1 : (b.free_list_ ++ b.page_table_.map Prod.snd).Nodup :=
    h.labels.nodup_iff.mpr
      ((List.nodup_range _).map (fun a c hac => by exact_mod_cast hac))
  exact (List.nodup_append.mp h1).2.1

theorem PoolCore.labelsNodup {b : BufferPoolManager} (h : PoolCore b) :
    (b.free_list_ ++ b.page_table_.map Prod.snd).Nodup :=
  h.labels.nodup_iff.mpr ((List.nodup_range _).map (fun a c hac => by exact_mod_cast hac))

/-- Two resident pages with the same frame id are the same page. -/
theorem PoolCore.frame_inj {b : BufferPoolManager} (h : PoolCore b) (p q f : Int)
    (hp : b.page_table_.lookup p = some f) (hq : b.page_table_.lookup q = some f) : p = q := by
  have := List.inj_on_of_nodup_map h.valsNodup (lookup_mem _ _ _ hp) (lookup_mem _ _ _ hq) rfl
  exact congrArg Prod.fst this

theorem PoolCore.frame_lt {b : BufferPoolManager} (h : PoolCore b) (p f : Int)
    (hp : b.page_table_.lookup p = some f) : 0 ≤ f ∧ f < b.pool_size_ := by
  have hm : f ∈ b.free_list_ ++ b.page_table_.map Prod.snd :=
    List.mem_append_right _ (List.mem_map.mpr ⟨(p, f), lookup_mem _ _ _ hp, rfl⟩)
  have := (h.labels.mem_iff).mp hm
  obtain ⟨i, hi, rfl⟩ := List.mem_map.mp this
  have := List.mem_range.mp hi
  constructor
  · omega
  · exact_mod_cast this

theorem countInvalid_replicate (n : Nat) : countInvalid (List.replicate n Page.fresh) = n := by
  induction n with
  | zero => rfl
  | succ n ih =>
    unfold countInvalid at ih ⊢
    rw [List.replicate_succ, List.filter_cons]
    have : (Page.fresh.page_id_ == INVALID_PAGE_ID) = true := rfl
    rw [this, if_pos rfl, List.length_cons, ih]

theorem getElem_replicate_fresh (n i : Nat) (pg : Page)
    (h : (List.replicate n Page.fresh)[i]? = some pg) : pg = Page.fresh := by
  rw [List.getElem?_replicate] at h
  split_ifs at h
  exact (Option.some.inj h).symm

theorem create_free_list (pool_size : Nat) (disk : DiskManager) :
    (BufferPoolManager.create pool_size disk).free_list_ =
      (List.range pool_size).map (fun (i : Nat) => (i : Int)) := by
  unfold BufferPoolManager.create
  simp only [List.map_id']
  induction List.range pool_size with
  | nil => rfl
  | cons x xs ih =>
    rw [List.map_cons, ← ih]
    rfl

/-- The pool built by the constructor is consistent, with an empty history. -/
theorem PoolInv.create (pool_size : Nat) (disk : DiskManager) :
    PoolInv (BufferPoolManager.create pool_size disk) PoolGhost.empty := by
  refine ⟨⟨?_, ?_, ?_, ?_, ?_, ?_, ?_, ?_, ?_, ?_⟩, rfl, rfl, List.nodup_nil, ?_, ?_, ?_⟩
  · exact List.length_replicate _ _
  · exact List.nodup_nil
  · rw [create_free_list]
    show List.Perm ((List.range pool_size).map (fun (i : Nat) => (i : Int)) ++ []) _
    rw [List.append_nil]
    exact List.Perm.refl _
  · intro i pg hi hne
    have := getElem_replicate_fresh _ _ _ hi
    subst this
    exact absurd rfl hne
  · intro i j pg pg' hi _ _ hne
    have := getElem_replicate_fresh _ _ _ hi
    subst this
    exact absurd rfl hne
  · intro p hp
    cases hp
  · intro p hp
    cases hp
  · rw [create_free_list, List.length_map, List.length_range]
    exact (countInvalid_replicate pool_size).symm
  · intro i pg hi _
    have := getElem_replicate_fresh _ _ _ hi
    subst this
    rfl
  · intro i pg hi
    have := getElem_replicate_fresh _ _ _ hi
    subst this
    exact Int.le_refl 0
  · intro q
    constructor
    · intro h
      cases h
    · intro h
      have := isZero_resident _ _ h
      cases this
  · intro q pg h
    have := pageOf_resident _ _ _ h
    cases this
  · intro q h
    cases h

end MiniSql

namespace MiniSql

/-! ## Putting a page into a free frame -/

theorem lookup_snoc (t : List (Int × Int)) (p f r : Int) (hp : t.lookup p = none) :
    (t ++ [(p, f)]).lookup r = if r = p then some f else t.lookup r := by
  by_cases hr : r = p
  · subst hr
    rw [if_pos rfl, lookup_append_none _ _ _ hp]
    simp [List.lookup]
  · rw [if_neg hr]
    cases hl : t.lookup r with
    | some v => exact lookup_append_some _ _ _ _ hl
    | none =>
      rw [lookup_append_none _ _ _ hl]
      have : (r == p) = false := by simpa using hr
      simp [List.lookup, this]

/-- The invariants of the pool after a page was put into a free frame, and where the pages
are found afterwards. -/
theorem PoolCore.install_core {b : BufferPoolManager} (h : PoolCore b) (f : Int) (rest : List Int)
    (hF : b.free_list_ = f :: rest) (i : Nat)
    (hi : findPage b.pages_ INVALID_PAGE_ID = some i) (p : Int)
    (hp : b.page_table_.lookup p = none) (hp0 : 0 ≤ p) (data : PageData) (disk : DiskManager)
    (hbits : ∀ q : Int, (b.page_table_.lookup q).isSome → getBit disk.bits q.toNat = true)
    (hpb : getBit disk.bits p.toNat = true) :
    PoolCore (b.installPage i p f data disk) ∧
    (∀ r : Int, (b.installPage i p f data disk).page_table_.lookup r =
      if r = p then some f else b.page_table_.lookup r) ∧
    (∀ r : Int, (b.installPage i p f data disk).pageOf r =
      if r = p then
        some { page_id_ := p, pin_count_ := 1, is_dirty_ := false, data_ := data }
      else b.pageOf r) := by
  obtain ⟨old, hold, holdid⟩ := findPage_get _ _ _ hi
  have hnew_ne : p ≠ INVALID_PAGE_ID := by unfold INVALID_PAGE_ID; omega
  have hnocarry : ∀ (j : Nat) (pg : Page), b.pages_[j]? = some pg → pg.page_id_ ≠ p := by
    intro j pg hj he
    have := h.carried j pg hj (by rw [he]; exact hnew_ne)
    rw [he, hp] at this
    cases this
  have hpages : ∀ j : Nat, (b.installPage i p f data disk).pages_[j]? =
      if j = i then some { page_id_ := p, pin_count_ := 1, is_dirty_ := false, data_ := data }
      else b.pages_[j]? := by
    intro j
    show (modifyPage b.pages_ i _)[j]? = _
    rw [modifyPage_get]
    split
    · rename_i hh; subst hh; simp [hold]
    · rfl
  have htab : ∀ r : Int, (b.installPage i p f data disk).page_table_.lookup r =
      if r = p then some f else b.page_table_.lookup r := fun r => lookup_snoc _ _ _ _ hp
  have hfind_new : findPage (b.installPage i p f data disk).pages_ p = some i := by
    apply findPage_eq_of_unique _ _ i
      ({ page_id_ := p, pin_count_ := 1, is_dirty_ := false, data_ := data } : Page)
      (by rw [hpages, if_pos rfl]) rfl
    intro j pg' hj hid
    rw [hpages] at hj
    by_cases hji : j = i
    · exact hji
    · rw [if_neg hji] at hj
      exact absurd hid (hnocarry j pg' hj)
  have hfind_old : ∀ (q v : Int) (j : Nat) (pg : Page), b.page_table_.lookup q = some v →
      findPage b.pages_ q = some j → b.pages_[j]? = some pg → pg.page_id_ = q →
      findPage (b.installPage i p f data disk).pages_ q = some j ∧ j ≠ i := by
    intro q v j pg hq hj hpg hid
    have hqne := h.key_valid q (by rw [hq]; rfl)
    have hjne : j ≠ i := by
      intro he
      subst he
      rw [hold] at hpg
      cases hpg
      exact hqne (hid ▸ holdid)
    refine ⟨?_, hjne⟩
    apply findPage_eq_of_unique _ _ j pg (by rw [hpages, if_neg hjne]; exact hpg) hid
    intro j' pg' hj' hid'
    rw [hpages] at hj'
    by_cases hji : j' = i
    · rw [if_pos hji] at hj'
      cases hj'
      simp only at hid'
      rw [← hid', hp] at hq
      cases hq
    · rw [if_neg hji] at hj'
      exact h.uniq j' j pg' pg hj' hpg (by rw [hid', hid]) (by rw [hid']; exact hqne)
  refine ⟨⟨?_, ?_, ?_, ?_, ?_, ?_, ?_, ?_, ?_, ?_⟩, htab, ?_⟩
  · show (modifyPage b.pages_ i _).length = b.pool_size_
    rw [modifyPage_length]
    exact h.size
  · show (List.map Prod.fst (b.page_table_ ++ [(p, f)])).Nodup
    rw [List.map_append, List.nodup_append]
    refine ⟨h.keysNodup, by simp, ?_⟩
    intro a ha hb'
    simp only [List.map_cons, List.map_nil, List.mem_singleton] at hb'
    subst hb'
    exact (lookup_eq_none_iff _ _).mp hp ha
  · show List.Perm (b.free_list_.tail ++ List.map Prod.snd (b.page_table_ ++ [(p, f)])) _
    have hl := h.labels
    rw [hF] at hl
    rw [hF, List.tail_cons, List.map_append, ← List.append_assoc]
    exact (List.perm_append_singleton f _).trans hl
  · intro j pg hj hne
    rw [hpages] at hj
    rw [htab]
    by_cases hji : j = i
    · rw [if_pos hji] at hj
      cases hj
      rw [if_pos rfl]
      rfl
    · rw [if_neg hji] at hj
      rw [if_neg (hnocarry j pg hj)]
      exact h.carried j pg hj hne
  · intro j j' pg pg' hj hj' he hne
    rw [hpages] at hj hj'
    by_cases hji : j = i
    · by_cases hji' : j' = i
      · rw [hji, hji']
      · rw [if_pos hji] at hj
        rw [if_neg hji'] at hj'
        cases hj
        exact absurd he.symm (hnocarry j' pg' hj')
    · by_cases hji' : j' = i
      · rw [if_pos hji'] at hj'
        rw [if_neg hji] at hj
        cases hj'
        exact absurd he (hnocarry j pg hj)
      · rw [if_neg hji] at hj
        rw [if_neg hji'] at hj'
        exact h.uniq j j' pg pg' hj hj' he hne
  · intro q hq
    rw [htab] at hq
    by_cases hqp : q = p
    · rw [hqp, hfind_new]
      rfl
    · rw [if_neg hqp] at hq
      obtain ⟨v, hv⟩ := Option.isSome_iff_exists.mp hq
      obtain ⟨j, pg, hj, hpg, hid, _⟩ := h.frame_of q v hv
      rw [(hfind_old q v j pg hv hj hpg hid).1]
      rfl
  · intro q hq
    rw [htab] at hq
    show 0 ≤ q ∧ getBit disk.bits q.toNat = true
    by_cases hqp : q = p
    · rw [hqp]
      exact ⟨hp0, hpb⟩
    · rw [if_neg hqp] at hq
      exact ⟨(h.bits q hq).1, hbits q hq⟩
  · show b.free_list_.tail.length = countInvalid (modifyPage b.pages_ i _)
    have h1 := countInvalid_modify b.pages_ i (fun _ =>
      ({ page_id_ := p, pin_count_ := 1, is_dirty_ := false, data_ := data } : Page)) old hold
    simp only [holdid, if_true, hnew_ne, if_false] at h1
    have h2 := h.free
    rw [hF] at h2
    rw [hF, List.tail_cons]
    simp only [List.length_cons] at h2
    omega
  · intro j pg hj he
    rw [hpages] at hj
    by_cases hji : j = i
    · rw [if_pos hji] at hj
      cases hj
      rfl
    · rw [if_neg hji] at hj
      exact h.cleanFree j pg hj he
  · intro j pg hj
    rw [hpages] at hj
    by_cases hji : j = i
    · rw [if_pos hji] at hj
      cases hj
      show (0 : Int) ≤ 1
      decide
    · rw [if_neg hji] at hj
      exact h.pins j pg hj
  · intro r
    by_cases hrp : r = p
    · rw [if_pos hrp, hrp,
        pageOf_eq _ p f i (by rw [htab, if_pos rfl]) hfind_new, hpages, if_pos rfl]
    · rw [if_neg hrp]
      cases hl : b.page_table_.lookup r with
      | none =>
        rw [pageOf_none b r hl, pageOf_none _ r (by rw [htab, if_neg hrp]; exact hl)]
      | some v =>
        obtain ⟨j, pg, hj, hpg, hid, hpo⟩ := h.frame_of r v hl
        obtain ⟨h1, h2⟩ := hfind_old r v j pg hl hj hpg hid
        rw [pageOf_eq _ r v j (by rw [htab, if_neg hrp]; exact hl) h1, hpages, if_neg h2,
          hpo, hpg]

/-- The history is untouched when a page is put into a free frame. -/
theorem PoolInv.install {b : BufferPoolManager} {g : PoolGhost} (h : PoolInv b g) (f : Int)
    (rest : List Int) (hF : b.free_list_ = f :: rest) (i : Nat)
    (hi : findPage b.pages_ INVALID_PAGE_ID = some i) (p : Int)
    (hp : b.page_table_.lookup p = none) (hp0 : 0 ≤ p) (data : PageData) (disk : DiskManager)
    (hbits : ∀ q : Int, (b.page_table_.lookup q).isSome → getBit disk.bits q.toNat = true)
    (hpb : getBit disk.bits p.toNat = true) :
    PoolInv (b.installPage i p f data disk) g := by
  obtain ⟨hc, htab, hpo⟩ := h.core.install_core f rest hF i hi p hp hp0 data disk hbits hpb
  have hZ : p ∉ g.unpinned := by
    intro hm
    have := isZero_resident b p ((h.unpinnedMem p).mp hm)
    rw [hp] at this
    cases this
  have hD : p ∉ g.dirtied := by
    intro hm
    have := h.dirtiedRes p hm
    unfold BufferPoolManager.resident at this
    rw [hp] at this
    cases this
  refine ⟨hc, h.maxPages, ?_, h.unpinnedNodup, ?_, ?_, ?_⟩
  · show b.replacer_.lru_list_ = _
    rw [h.lru]
    apply List.map_congr_left
    intro q hq
    have hqp : q ≠ p := fun he => hZ (he ▸ hq)
    rw [htab, if_neg hqp]
  · intro q
    by_cases hqp : q = p
    · subst hqp
      constructor
      · intro hm
        exact absurd hm hZ
      · intro hz
        unfold BufferPoolManager.isZero at hz
        rw [hpo, if_pos rfl] at hz
        cases hz
    · rw [h.unpinnedMem q]
      unfold BufferPoolManager.isZero
      rw [hpo, if_neg hqp]
  · intro q pg hq
    rw [hpo] at hq
    by_cases hqp : q = p
    · rw [if_pos hqp] at hq
      cases hq
      rw [hqp]
      constructor
      · intro hh
        cases hh
      · intro hm
        exact absurd hm hD
    · rw [if_neg hqp] at hq
      exact h.dirtiedMem q pg hq
  · intro q hq
    have := h.dirtiedRes q hq
    unfold BufferPoolManager.resident at this ⊢
    rw [htab]
    split
    · rfl
    · exact this

end MiniSql

namespace MiniSql

/-! ## Taking a page out of the pool -/

theorem lookup_filter_val (t : List (Int × Int)) (hn : (t.map Prod.fst).Nodup)
    (hv : (t.map Prod.snd).Nodup) (q f : Int) (hq : t.lookup q = some f) (r : Int) :
    (t.filter (fun e => e.2 != f)).lookup r = if r = q then none else t.lookup r := by
  by_cases hr : r = q
  · rw [if_pos hr, hr]
    cases hc : (t.filter (fun e => e.2 != f)).lookup q with
    | none => rfl
    | some v =>
      obtain ⟨h1, h2⟩ := filter_lookup_some _ hn _ _ _ hc
      rw [hq] at h1
      exact absurd (Option.some.inj h1).symm h2
  · rw [if_neg hr]
    cases hl : t.lookup r with
    | some v =>
      apply filter_lookup_ne _ _ _ _ hl
      intro hvf
      subst hvf
      have := List.inj_on_of_nodup_map hv (lookup_mem _ _ _ hl) (lookup_mem _ _ _ hq) rfl
      exact hr (congrArg Prod.fst this)
    | none =>
      cases hc : (t.filter (fun e => e.2 != f)).lookup r with
      | none => rfl
      | some v =>
        have := (filter_lookup_some _ hn _ _ _ hc).1
        rw [hl] at this
        cases this

theorem Pin_list (r : LRUReplacer) (f : Int) : (r.Pin f).lru_list_ = r.lru_list_.erase f := by
  unfold LRUReplacer.Pin
  simp only
  by_cases hm : f ∈ r.lru_list_
  · have hc : r.lru_list_.contains f = true := by simpa using hm
    have hl : (r.lru_list_.length != 0) = true := by
      have := List.length_pos_of_mem hm
      rw [bne_iff_ne]
      omega
    rw [hc, hl]
    simp
  · have hc : r.lru_list_.contains f = false := by simpa using hm
    have hlast : (r.lru_list_.getLast? != some f) = true := by
      cases hg : r.lru_list_.getLast? with
      | none => rfl
      | some x =>
        have hx : x ≠ f := by
          intro hxf
          subst hxf
          exact hm (List.mem_of_getLast?_eq_some hg)
        simpa using hx
    rw [hc, hlast]
    simp only [Bool.not_false, Bool.and_self, Bool.not_true, Bool.and_false, Bool.false_eq_true,
      if_false]
    exact (List.erase_of_not_mem hm).symm

theorem Pin_max (r : LRUReplacer) (f : Int) : (r.Pin f).max_num_pages = r.max_num_pages := by
  unfold LRUReplacer.Pin
  simp only
  split <;> rfl

/-- The frame ids of the replacer are distinct. -/
theorem PoolInv.lruNodup {b : BufferPoolManager} {g : PoolGhost} (h : PoolInv b g) :
    b.replacer_.lru_list_.Nodup := by
  rw [h.lru]
  apply List.Nodup.map_on _ h.unpinnedNodup
  intro x hx y hy hxy
  obtain ⟨v, hv⟩ := Option.isSome_iff_exists.mp (isZero_resident b x ((h.unpinnedMem x).mp hx))
  obtain ⟨w, hw⟩ := Option.isSome_iff_exists.mp (isZero_resident b y ((h.unpinnedMem y).mp hy))
  rw [hv, hw] at hxy
  simp only [Option.getD_some] at hxy
  subst hxy
  exact h.core.frame_inj x y v hv hw

/-- The invariants of the pool after a page has left it, and where the pages are found
afterwards. -/
theorem PoolCore.drop_core {b : BufferPoolManager} (h : PoolCore b) (q f : Int)
    (hq : b.page_table_.lookup q = some f) (i : Nat) (hi : findPage b.pages_ q = some i)
    (disk : DiskManager)
    (hbits : ∀ r : Int, r ≠ q → (b.page_table_.lookup r).isSome →
      getBit disk.bits r.toNat = true) :
    PoolCore (b.dropPage i f disk) ∧
    (∀ r : Int, (b.dropPage i f disk).page_table_.lookup r =
      if r = q then none else b.page_table_.lookup r) ∧
    (∀ r : Int, (b.dropPage i f disk).pageOf r = if r = q then none else b.pageOf r) := by
  obtain ⟨pg, hpg, hid⟩ := findPage_get _ _ _ hi
  have hqne : q ≠ INVALID_PAGE_ID := h.key_valid q (by rw [hq]; rfl)
  have hpages : ∀ j : Nat, (b.dropPage i f disk).pages_[j]? =
      if j = i then some { pg with page_id_ := INVALID_PAGE_ID, is_dirty_ := false }
      else b.pages_[j]? := by
    intro j
    show (modifyPage b.pages_ i _)[j]? = _
    rw [modifyPage_get]
    split
    · rename_i hh; subst hh; simp [hpg]
    · rfl
  have htab : ∀ r : Int, (b.dropPage i f disk).page_table_.lookup r =
      if r = q then none else b.page_table_.lookup r :=
    fun r => lookup_filter_val _ h.keysNodup h.valsNodup q f hq r
  have hfind : ∀ (r v : Int) (j : Nat) (pg' : Page), r ≠ q → b.page_table_.lookup r = some v →
      findPage b.pages_ r = some j → b.pages_[j]? = some pg' → pg'.page_id_ = r →
      findPage (b.dropPage i f disk).pages_ r = some j ∧ j ≠ i := by
    intro r v j pg' hr hl hj hpg' hid'
    have hrne := h.key_valid r (by rw [hl]; rfl)
    have hjne : j ≠ i := by
      intro he
      subst he
      rw [hpg] at hpg'
      cases hpg'
      exact hr (hid'.symm.trans hid)
    refine ⟨?_, hjne⟩
    apply findPage_eq_of_unique _ _ j pg' (by rw [hpages, if_neg hjne]; exact hpg') hid'
    intro j' pg'' hj' hid''
    rw [hpages] at hj'
    by_cases hji : j' = i
    · rw [if_pos hji] at hj'
      cases hj'
      exact absurd hid''.symm hrne
    · rw [if_neg hji] at hj'
      exact h.uniq j' j pg'' pg' hj' hpg' (by rw [hid'', hid']) (by rw [hid'']; exact hrne)
  have hfmem : f ∈ b.page_table_.map Prod.snd :=
    List.mem_map.mpr ⟨(q, f), lookup_mem _ _ _ hq, rfl⟩
  refine ⟨⟨?_, ?_, ?_, ?_, ?_, ?_, ?_, ?_, ?_, ?_⟩, htab, ?_⟩
  · show (modifyPage b.pages_ i _).length = b.pool_size_
    rw [modifyPage_length]
    exact h.size
  · show ((b.page_table_.filter _).map Prod.fst).Nodup
    exact List.Nodup.sublist ((List.filter_sublist _).map _) h.keysNodup
  · show List.Perm ((b.free_list_ ++ [f]) ++
      (b.page_table_.filter (fun e => e.2 != f)).map Prod.snd) _
    have e1 : (b.page_table_.filter (fun e => e.2 != f)).map Prod.snd =
        (b.page_table_.map Prod.snd).erase f := by
      rw [h.valsNodup.erase_eq_filter, List.filter_map]
      rfl
    rw [e1, List.append_assoc]
    exact (List.Perm.append_left b.free_list_ (List.perm_cons_erase hfmem).symm).trans h.labels
  · intro j pg' hj hne
    rw [hpages] at hj
    rw [htab]
    by_cases hji : j = i
    · rw [if_pos hji] at hj
      cases hj
      exact absurd rfl hne
    · rw [if_neg hji] at hj
      have hqp : pg'.page_id_ ≠ q := by
        intro he
        exact hji (h.uniq j i pg' pg hj hpg (by rw [he, hid]) hne)
      rw [if_neg hqp]
      exact h.carried j pg' hj hne
  · intro j j' pg' pg'' hj hj' he hne
    rw [hpages] at hj hj'
    by_cases hji : j = i
    · rw [if_pos hji] at hj
      cases hj
      exact absurd rfl hne
    · by_cases hji' : j' = i
      · rw [if_pos hji'] at hj'
        cases hj'
        exact absurd he hne
      · rw [if_neg hji] at hj
        rw [if_neg hji'] at hj'
        exact h.uniq j j' pg' pg'' hj hj' he hne
  · intro r hr
    rw [htab] at hr
    by_cases hrq : r = q
    · rw [if_pos hrq] at hr
      cases hr
    · rw [if_neg hrq] at hr
      obtain ⟨v, hv⟩ := Option.isSome_iff_exists.mp hr
      obtain ⟨j, pg', hj, hpg', hid', _⟩ := h.frame_of r v hv
      rw [(hfind r v j pg' hrq hv hj hpg' hid').1]
      rfl
  · intro r hr
    rw [htab] at hr
    show 0 ≤ r ∧ getBit disk.bits r.toNat = true
    by_cases hrq : r = q
    · rw [if_pos hrq] at hr
      cases hr
    · rw [if_neg hrq] at hr
      exact ⟨(h.bits r hr).1, hbits r hrq hr⟩
  · show (b.free_list_ ++ [f]).length = countInvalid (modifyPage b.pages_ i _)
    have h1 := countInvalid_modify b.pages_ i (fun x =>
      { x with page_id_ := INVALID_PAGE_ID, is_dirty_ := false }) pg hpg
    have hne : pg.page_id_ ≠ INVALID_PAGE_ID := by rw [hid]; exact hqne
    simp only [hne, if_false, if_true] at h1
    have h2 := h.free
    simp only [List.length_append, List.length_singleton]
    omega
  · intro j pg' hj he
    rw [hpages] at hj
    by_cases hji : j = i
    · rw [if_pos hji] at hj
      cases hj
      rfl
    · rw [if_neg hji] at hj
      exact h.cleanFree j pg' hj he
  · intro j pg' hj
    rw [hpages] at hj
    by_cases hji : j = i
    · rw [if_pos hji] at hj
      cases hj
      exact h.pins i pg hpg
    · rw [if_neg hji] at hj
      exact h.pins j pg' hj
  · intro r
    by_cases hrq : r = q
    · rw [if_pos hrq]
      exact pageOf_none _ r (by rw [htab, if_pos hrq])
    · rw [if_neg hrq]
      cases hl : b.page_table_.lookup r with
      | none =>
        rw [pageOf_none b r hl, pageOf_none _ r (by rw [htab, if_neg hrq]; exact hl)]
      | some v =>
        obtain ⟨j, pg', hj, hpg', hid', hpo⟩ := h.frame_of r v hl
        obtain ⟨h1, h2⟩ := hfind r v j pg' hrq hl hj hpg' hid'
        rw [pageOf_eq _ r v j (by rw [htab, if_neg hrq]; exact hl) h1, hpages, if_neg h2,
          hpo, hpg']

/-- The history after a page has left the pool: the page is struck from it. -/
theorem PoolInv.drop {b : BufferPoolManager} {g : PoolGhost} (h : PoolInv b g) (q f : Int)
    (hq : b.page_table_.lookup q = some f) (i : Nat) (hi : findPage b.pages_ q = some i)
    (disk : DiskManager)
    (hbits : ∀ r : Int, r ≠ q → (b.page_table_.lookup r).isSome →
      getBit disk.bits r.toNat = true) :
    PoolInv (b.dropPage i f disk)
      { unpinned := g.unpinned.filter (fun r => r != q),
        dirtied := g.dirtied.filter (fun r => r != q) } := by
  obtain ⟨hc, htab, hpo⟩ := h.core.drop_core q f hq i hi disk hbits
  refine ⟨hc, ?_, ?_, h.unpinnedNodup.filter _, ?_, ?_, ?_⟩
  · show (b.replacer_.Pin f).max_num_pages = b.pool_size_
    rw [Pin_max]
    exact h.maxPages
  · show (b.replacer_.Pin f).lru_list_ = _
    rw [Pin_list, h.lruNodup.erase_eq_filter, h.lru, List.filter_map]
    simp only
    have e1 : List.filter ((fun x => x != f) ∘
        fun r => (b.page_table_.lookup r).getD INVALID_FRAME_ID) g.unpinned =
        List.filter (fun r => r != q) g.unpinned := by
      apply List.filter_congr
      intro x hx
      obtain ⟨v, hv⟩ := Option.isSome_iff_exists.mp
        (isZero_resident b x ((h.unpinnedMem x).mp hx))
      simp only [Function.comp, hv, Option.getD_some]
      by_cases hxq : x = q
      · subst hxq
        rw [hq] at hv
        cases hv
        rw [bne_self_eq_false, bne_self_eq_false]
      · have hvf : v ≠ f := by
          intro he
          subst he
          exact hxq (h.core.frame_inj x q v hv hq)
        rw [bne_iff_ne.mpr hvf, bne_iff_ne.mpr hxq]
    rw [e1]
    apply List.map_congr_left
    intro x hx
    have hxq : x ≠ q := by
      have := (List.mem_filter.mp hx).2
      simpa using this
    rw [htab, if_neg hxq]
  · intro r
    rw [List.mem_filter, h.unpinnedMem r]
    unfold BufferPoolManager.isZero
    rw [hpo]
    by_cases hrq : r = q
    · rw [if_pos hrq]
      simp [hrq]
    · rw [if_neg hrq]
      simp [hrq]
  · intro r pg' hr
    rw [hpo] at hr
    by_cases hrq : r = q
    · rw [if_pos hrq] at hr
      cases hr
    · rw [if_neg hrq] at hr
      rw [List.mem_filter, ← h.dirtiedMem r pg' hr]
      simp [hrq]
  · intro r hr
    obtain ⟨h1, h2⟩ := List.mem_filter.mp hr
    have hrq : r ≠ q := by simpa using h2
    have := h.dirtiedRes r h1
    unfold BufferPoolManager.resident at this ⊢
    rw [htab, if_neg hrq]
    exact this

end MiniSql

namespace MiniSql

/-! ## Changes of pin count and dirty flag -/

/-- The structural invariants only read the page table, the tags of the frames, the free
list and the allocation bits. -/
theorem PoolCore.transfer_core {b : BufferPoolManager} (h : PoolCore b) (b' : BufferPoolManager)
    (hs : b'.pool_size_ = b.pool_size_)
    (ht : b'.page_table_ = b.page_table_)
    (hp : b.pages_.map Page.tag = b'.pages_.map Page.tag)
    (hf : b'.free_list_ = b.free_list_)
    (hd : b'.disk_manager_.bits = b.disk_manager_.bits)
    (hpins : ∀ (i : Nat) (pg : Page), b'.pages_[i]? = some pg → 0 ≤ pg.pin_count_) :
    PoolCore b' := by
  refine ⟨?_, ?_, ?_, ?_, ?_, ?_, ?_, ?_, ?_, hpins⟩
  · have := congrArg List.length hp
    rw [List.length_map, List.length_map] at this
    rw [← this, hs]
    exact h.size
  · rw [ht]; exact h.keysNodup
  · rw [ht, hf, hs]; exact h.labels
  · intro i pg hi hne
    obtain ⟨pg0, h0, hc⟩ := tag_get_some _ _ hp i pg hi
    have hid : pg0.page_id_ = pg.page_id_ := congrArg Prod.fst hc
    rw [ht, ← hid]
    exact h.carried i pg0 h0 (by rw [hid]; exact hne)
  · intro i j pg pg' hi hj he hne
    obtain ⟨pg0, h0, hc⟩ := tag_get_some _ _ hp i pg hi
    obtain ⟨pg1, h1, hc1⟩ := tag_get_some _ _ hp j pg' hj
    have hid : pg0.page_id_ = pg.page_id_ := congrArg Prod.fst hc
    have hid1 : pg1.page_id_ = pg'.page_id_ := congrArg Prod.fst hc1
    exact h.uniq i j pg0 pg1 h0 h1 (by rw [hid, hid1]; exact he) (by rw [hid]; exact hne)
  · intro p hpp
    rw [← findPage_tag _ _ hp]
    rw [ht] at hpp
    exact h.resident p hpp
  · intro p hpp
    rw [ht] at hpp
    rw [hd]
    exact h.bits p hpp
  · rw [hf, ← countInvalid_congr _ _ hp]; exact h.free
  · intro i pg hi he
    obtain ⟨pg0, h0, hc⟩ := tag_get_some _ _ hp i pg hi
    have hid : pg0.page_id_ = pg.page_id_ := congrArg Prod.fst hc
    have hdd := h.cleanFree i pg0 h0 (by rw [hid]; exact he)
    have h3 : (pg0.page_id_ == INVALID_PAGE_ID && pg0.is_dirty_) =
        (pg.page_id_ == INVALID_PAGE_ID && pg.is_dirty_) := congrArg Prod.snd hc
    rw [hid, he, hdd] at h3
    simpa using h3.symm

/-- Where the pages are found after the frame of the resident page `p` was changed by `gf`,
which keeps page ids. -/
theorem pageOf_modify {b : BufferPoolManager} (h : PoolCore b) (b' : BufferPoolManager)
    (ht : b'.page_table_ = b.page_table_) (i : Nat) (gf : Page → Page)
    (hP : b'.pages_ = modifyPage b.pages_ i gf)
    (hg : ∀ x : Page, (gf x).page_id_ = x.page_id_) (p v : Int)
    (hl : b.page_table_.lookup p = some v) (hi : findPage b.pages_ p = some i) (r : Int) :
    b'.pageOf r = if r = p then (b.pageOf p).map gf else b.pageOf r := by
  have hne := h.key_valid p (by rw [hl]; rfl)
  have htag : b.pages_.map Page.page_id_ = b'.pages_.map Page.page_id_ := by
    rw [hP, modifyPage_map]
    intro pg _
    exact hg pg
  have hfind : ∀ r' : Int, findPage b'.pages_ r' = findPage b.pages_ r' := by
    intro r'
    have key : ∀ (ps ps' : List Page), ps.map Page.page_id_ = ps'.map Page.page_id_ →
        findPage ps' r' = findPage ps r' := by
      intro ps
      induction ps with
      | nil =>
        intro ps' he
        cases ps' with
        | nil => rfl
        | cons q qs => simp at he
      | cons a as ih =>
        intro ps' he
        cases ps' with
        | nil => simp at he
        | cons q qs =>
          simp only [List.map_cons, List.cons.injEq] at he
          simp [findPage, he.1, ih qs he.2]
    exact key _ _ htag
  cases hlr : b.page_table_.lookup r with
  | none =>
    have hrp : r ≠ p := by
      intro he
      rw [he, hl] at hlr
      cases hlr
    rw [if_neg hrp, pageOf_none b r hlr, pageOf_none b' r (by rw [ht]; exact hlr)]
  | some w =>
    obtain ⟨j, pg, hj, hpg, hid, hpo⟩ := h.frame_of r w hlr
    rw [pageOf_eq b' r w j (by rw [ht]; exact hlr) (by rw [hfind]; exact hj), hP,
      modifyPage_get]
    by_cases hrp : r = p
    · subst hrp
      rw [hi] at hj
      cases hj
      rw [if_pos rfl, if_pos rfl, hpo, hpg]
    · have hji : j ≠ i := by
        intro he
        subst he
        obtain ⟨pg2, hpg2, hid2⟩ := findPage_get _ _ _ hi
        rw [hpg] at hpg2
        cases hpg2
        exact hrp (hid.symm.trans hid2)
      rw [if_neg hji, if_neg hrp, hpo, hpg]

theorem modify_tags (ps : List Page) (i : Nat) (gf : Page → Page)
    (hg : ∀ pg : Page, ps[i]? = some pg → (gf pg).tag = pg.tag) :
    ps.map Page.tag = (modifyPage ps i gf).map Page.tag :=
  (modifyPage_map Page.tag ps i gf hg).symm

/-- The replacer without frame `f` lists the frames of the history without the page of
`f`. -/
theorem PoolInv.lru_filter {b : BufferPoolManager} {g : PoolGhost} (h : PoolInv b g) (q f : Int)
    (hq : b.page_table_.lookup q = some f) :
    b.replacer_.lru_list_.erase f = (g.unpinned.filter (fun r => r != q)).map
      (fun r => (b.page_table_.lookup r).getD INVALID_FRAME_ID) := by
  rw [h.lruNodup.erase_eq_filter, h.lru, List.filter_map]
  congr 1
  apply List.filter_congr
  intro x hx
  obtain ⟨v, hv⟩ := Option.isSome_iff_exists.mp
    (isZero_resident b x ((h.unpinnedMem x).mp hx))
  simp only [Function.comp, hv, Option.getD_some]
  by_cases hxq : x = q
  · subst hxq
    rw [hq] at hv
    cases hv
    rw [bne_self_eq_false, bne_self_eq_false]
  · have hvf : v ≠ f := by
      intro he
      subst he
      exact hxq (h.core.frame_inj x q v hv hq)
    rw [bne_iff_ne.mpr hvf, bne_iff_ne.mpr hxq]

/-- `FetchPage` of a resident page keeps the invariants; the page leaves `unpinned`. -/
theorem PoolInv.repin {b : BufferPoolManager} {g : PoolGhost} (h : PoolInv b g) (p f : Int)
    (hl : b.page_table_.lookup p = some f) (i : Nat) (hi : findPage b.pages_ p = some i) :
    PoolInv
      { b with
        pages_ := modifyPage b.pages_ i (fun x => { x with pin_count_ := x.pin_count_ + 1 }),
        replacer_ := b.replacer_.Pin f }
      { g with unpinned := g.unpinned.filter (fun r => r != p) } := by
  obtain ⟨pg, hpg, hid⟩ := findPage_get _ _ _ hi
  have hpo := fun r => pageOf_modify h.core
    { b with
      pages_ := modifyPage b.pages_ i (fun x => { x with pin_count_ := x.pin_count_ + 1 }),
      replacer_ := b.replacer_.Pin f } rfl i
    (fun x => { x with pin_count_ := x.pin_count_ + 1 }) rfl (fun _ => rfl) p f hl hi r
  have hpop : b.pageOf p = some pg := by rw [pageOf_eq b p f i hl hi, hpg]
  refine ⟨?_, ?_, ?_, h.unpinnedNodup.filter _, ?_, ?_, ?_⟩
  · refine h.core.transfer_core _ ?_ ?_ ?_ ?_ ?_ ?_
    · rfl
    · rfl
    · exact modify_tags _ _ _ (fun _ _ => rfl)
    · rfl
    · rfl
    intro j pg' hj
    have hj' : (modifyPage b.pages_ i _)[j]? = some pg' := hj
    rw [modifyPage_get] at hj'
    by_cases hji : j = i
    · rw [if_pos hji, hji, hpg] at hj'
      cases hj'
      have := h.core.pins i pg hpg
      show 0 ≤ pg.pin_count_ + 1
      omega
    · rw [if_neg hji] at hj'
      exact h.core.pins j pg' hj'
  · show (b.replacer_.Pin f).max_num_pages = b.pool_size_
    rw [Pin_max]
    exact h.maxPages
  · show (b.replacer_.Pin f).lru_list_ = _
    rw [Pin_list]
    exact h.lru_filter p f hl
  · intro r
    rw [List.mem_filter, h.unpinnedMem r]
    unfold BufferPoolManager.isZero
    rw [hpo]
    by_cases hrp : r = p
    · rw [if_pos hrp, hpop, hrp]
      have := h.core.pins i pg hpg
      have hne : ¬ (pg.pin_count_ + 1 = 0) := by omega
      simp [hne]
    · rw [if_neg hrp]
      simp [hrp]
  · intro r pg' hr
    rw [hpo] at hr
    by_cases hrp : r = p
    · rw [if_pos hrp, hpop] at hr
      cases hr
      rw [hrp]
      exact h.dirtiedMem p pg hpop
    · rw [if_neg hrp] at hr
      exact h.dirtiedMem r pg' hr
  · exact h.dirtiedRes

theorem Unpin_list (r : LRUReplacer) (f : Int) (hf : f ∉ r.lru_list_)
    (hlen : r.lru_list_.length < r.max_num_pages) :
    (r.Unpin f).lru_list_ = r.lru_list_ ++ [f] := by
  unfold LRUReplacer.Unpin
  simp only
  by_cases h0 : r.lru_list_.length = 0
  · have : (r.lru_list_.length == 0) = true := by simpa using h0
    rw [if_pos this]
  · have : (r.lru_list_.length == 0) = false := by simpa using h0
    rw [this]
    have hc : r.lru_list_.contains f = false := by simpa using hf
    have hlast : (r.lru_list_.getLast? != some f) = true := by
      cases hg : r.lru_list_.getLast? with
      | none => rfl
      | some x =>
        have hx : x ≠ f := by
          intro hxf
          subst hxf
          exact hf (List.mem_of_getLast?_eq_some hg)
        simpa using hx
    have hmax : (r.lru_list_.length == r.max_num_pages) = false := by
      have : r.lru_list_.length ≠ r.max_num_pages := by omega
      simpa using this
    rw [hc, hlast, hmax]
    rfl

theorem Unpin_max (r : LRUReplacer) (f : Int) : (r.Unpin f).max_num_pages = r.max_num_pages := by
  unfold LRUReplacer.Unpin
  simp only
  split
  · rfl
  · split <;> rfl

/-- A frame id outside the replacer leaves room in it. -/
theorem PoolInv.lru_room {b : BufferPoolManager} {g : PoolGhost} (h : PoolInv b g) (p f : Int)
    (hl : b.page_table_.lookup p = some f) (hf : f ∉ b.replacer_.lru_list_) :
    b.replacer_.lru_list_.length < b.replacer_.max_num_pages := by
  have hnd : (f :: b.replacer_.lru_list_).Nodup := List.nodup_cons.mpr ⟨hf, h.lruNodup⟩
  have hsub : f :: b.replacer_.lru_list_ ⊆
      (List.range b.pool_size_).map (fun (i : Nat) => (i : Int)) := by
    intro x hx
    have hx' : ∃ q, b.page_table_.lookup q = some x := by
      rcases List.mem_cons.mp hx with hx | hx
      · exact ⟨p, hx ▸ hl⟩
      · rw [h.lru] at hx
        obtain ⟨q, hq, rfl⟩ := List.mem_map.mp hx
        obtain ⟨v, hv⟩ := Option.isSome_iff_exists.mp
          (isZero_resident b q ((h.unpinnedMem q).mp hq))
        exact ⟨q, by rw [hv]; rfl⟩
    obtain ⟨q, hq⟩ := hx'
    have := h.core.frame_lt q x hq
    refine List.mem_map.mpr ⟨x.toNat, List.mem_range.mpr ?_, ?_⟩
    · omega
    · omega
  have := (List.subperm_of_subset hnd hsub).length_le
  rw [List.length_cons, List.length_map, List.length_range] at this
  rw [h.maxPages]
  omega

/-- A successful `UnpinPage` keeps the invariants; the history records it. -/
theorem PoolInv.unpin {b : BufferPoolManager} {g : PoolGhost} (h : PoolInv b g) (p f : Int)
    (hl : b.page_table_.lookup p = some f) (i : Nat) (hi : findPage b.pages_ p = some i)
    (pg : Page) (hpg : b.pages_[i]? = some pg) (hpin : pg.pin_count_ > 0) (d : Bool) :
    PoolInv
      { b with
        pages_ := modifyPage b.pages_ i (fun q =>
          { q with pin_count_ := q.pin_count_ - 1,
                   is_dirty_ := if d then true else q.is_dirty_ }),
        replacer_ := if pg.pin_count_ - 1 = 0 then b.replacer_.Unpin f else b.replacer_ }
      { unpinned := g.unpinned ++ (if pg.pin_count_ - 1 = 0 then [p] else []),
        dirtied := if d then p :: g.dirtied else g.dirtied } := by
  obtain ⟨pg2, hpg2, hid⟩ := findPage_get _ _ _ hi
  rw [hpg] at hpg2
  cases hpg2
  have hne := h.core.key_valid p (by rw [hl]; rfl)
  have hpo := fun r => pageOf_modify h.core
    { b with
      pages_ := modifyPage b.pages_ i (fun q =>
        { q with pin_count_ := q.pin_count_ - 1,
                 is_dirty_ := if d then true else q.is_dirty_ }),
      replacer_ := if pg.pin_count_ - 1 = 0 then b.replacer_.Unpin f else b.replacer_ } rfl i
    (fun q => { q with pin_count_ := q.pin_count_ - 1,
                       is_dirty_ := if d then true else q.is_dirty_ }) rfl (fun _ => rfl)
    p f hl hi r
  have hpop : b.pageOf p = some pg := by rw [pageOf_eq b p f i hl hi, hpg]
  have hpZ : p ∉ g.unpinned := by
    intro hm
    have := (h.unpinnedMem p).mp hm
    unfold BufferPoolManager.isZero at this
    rw [hpop] at this
    have h0 : pg.pin_count_ = 0 := by simpa using this
    omega
  have hfR : f ∉ b.replacer_.lru_list_ := by
    intro hm
    rw [h.lru] at hm
    obtain ⟨q, hq, hqf⟩ := List.mem_map.mp hm
    obtain ⟨v, hv⟩ := Option.isSome_iff_exists.mp
      (isZero_resident b q ((h.unpinnedMem q).mp hq))
    rw [hv] at hqf
    simp only [Option.getD_some] at hqf
    subst hqf
    exact hpZ (h.core.frame_inj q p v hv hl ▸ hq)
  refine ⟨?_, ?_, ?_, ?_, ?_, ?_, ?_⟩
  · refine h.core.transfer_core _ ?_ ?_ (modify_tags _ _ _ ?_) ?_ ?_ ?_
    · rfl
    · rfl
    rotate_left
    · rfl
    · rfl
    · intro j pg' hj
      have hj' : (modifyPage b.pages_ i _)[j]? = some pg' := hj
      rw [modifyPage_get] at hj'
      by_cases hji : j = i
      · rw [if_pos hji, hji, hpg] at hj'
        cases hj'
        show 0 ≤ pg.pin_count_ - 1
        omega
      · rw [if_neg hji] at hj'
        exact h.core.pins j pg' hj'
    · intro pg' hpg'
      rw [hpg] at hpg'
      cases hpg'
      have : (pg.page_id_ == INVALID_PAGE_ID) = false := by
        rw [hid]
        simpa using hne
      simp [Page.tag, this]
  · show (if pg.pin_count_ - 1 = 0 then b.replacer_.Unpin f else b.replacer_).max_num_pages = _
    split
    · rw [Unpin_max]
      exact h.maxPages
    · exact h.maxPages
  · show (if pg.pin_count_ - 1 = 0 then b.replacer_.Unpin f else b.replacer_).lru_list_ = _
    by_cases h0 : pg.pin_count_ - 1 = 0
    · rw [if_pos h0, if_pos h0, Unpin_list _ _ hfR (h.lru_room p f hl hfR), List.map_append,
        ← h.lru]
      show _ = _ ++ [(b.page_table_.lookup p).getD INVALID_FRAME_ID]
      rw [hl]
      rfl
    · rw [if_neg h0, if_neg h0, List.append_nil]
      exact h.lru
  · by_cases h0 : pg.pin_count_ - 1 = 0
    · rw [if_pos h0]
      exact List.Nodup.append h.unpinnedNodup (List.nodup_singleton p) (by
        intro a ha hb
        rw [List.mem_singleton] at hb
        exact hpZ (hb ▸ ha))
    · rw [if_neg h0, List.append_nil]
      exact h.unpinnedNodup
  · intro r
    unfold BufferPoolManager.isZero
    rw [hpo]
    by_cases hrp : r = p
    · rw [if_pos hrp, hpop, hrp]
      show _ ↔ (pg.pin_count_ - 1 == 0) = true
      by_cases h0 : pg.pin_count_ - 1 = 0
      · rw [if_pos h0]
        simp [h0]
      · rw [if_neg h0, List.append_nil]
        simp [h0, hpZ]
    · rw [if_neg hrp]
      have := h.unpinnedMem r
      unfold BufferPoolManager.isZero at this
      rw [← this, List.mem_append]
      constructor
      · rintro (h1 | h1)
        · exact h1
        · split_ifs at h1
          · exact absurd (List.mem_singleton.mp h1) hrp
          · cases h1
      · intro h1
        exact Or.inl h1
  · intro r pg' hr
    rw [hpo] at hr
    by_cases hrp : r = p
    · rw [if_pos hrp, hpop] at hr
      cases hr
      rw [hrp]
      show (if d then true else pg.is_dirty_) = true ↔ _
      have := h.dirtiedMem p pg hpop
      cases d
      · simpa using this
      · simp
    · rw [if_neg hrp] at hr
      have := h.dirtiedMem r pg' hr
      cases d
      · simpa using this
      · rw [this]
        simp [hrp]
  · intro r hr
    cases d
    · exact h.dirtiedRes r hr
    · rcases List.mem_cons.mp hr with h1 | h1
      · rw [h1]
        show (b.page_table_.lookup p).isSome = true
        rw [hl]
        rfl
      · exact h.dirtiedRes r h1

/-- A write to the file keeps the invariants. -/
theorem PoolInv.disk {b : BufferPoolManager} {g : PoolGhost} (h : PoolInv b g)
    (disk : DiskManager) (hd : disk.bits = b.disk_manager_.bits) :
    PoolInv { b with disk_manager_ := disk } g :=
  ⟨by
    refine h.core.transfer_core _ ?_ ?_ ?_ ?_ ?_ ?_
    · rfl
    · rfl
    · rfl
    · rfl
    · exact hd
    · exact h.core.pins, h.maxPages, h.lru, h.unpinnedNodup,
    h.unpinnedMem, h.dirtiedMem, h.dirtiedRes⟩

end MiniSql

namespace MiniSql

/-! ## Reusing the frame of the replacer's victim -/

theorem modifyPage_twice (ps : List Page) (i : Nat) (g1 : Page → Page) (c : Page) :
    modifyPage (modifyPage ps i g1) i (fun _ => c) = modifyPage ps i (fun _ => c) := by
  induction ps generalizing i with
  | nil => rfl
  | cons q qs ih =>
    cases i with
    | zero => rfl
    | succ i => simp [modifyPage, ih i]

theorem tableKeyOf_of_mem (t : List (Int × Int)) (hv : (t.map Prod.snd).Nodup) (q f : Int)
    (h : (q, f) ∈ t) : tableKeyOf t f = some q := by
  induction t with
  | nil => cases h
  | cons e es ih =>
    obtain ⟨k, v⟩ := e
    unfold tableKeyOf
    by_cases hvf : v = f
    · rw [if_pos hvf]
      subst hvf
      have := List.inj_on_of_nodup_map hv (List.mem_cons_self _ _) h rfl
      exact congrArg some (congrArg Prod.fst this)
    · rw [if_neg hvf]
      rw [List.map_cons, List.nodup_cons] at hv
      rcases List.mem_cons.mp h with h1 | h1
      · cases h1
        exact absurd rfl hvf
      · exact ih hv.2 h1

theorem countInvalid_zero (ps : List Page) (h : countInvalid ps = 0) (j : Nat) (pg : Page)
    (hj : ps[j]? = some pg) : pg.page_id_ ≠ INVALID_PAGE_ID := by
  intro he
  have hm : pg ∈ ps.filter (fun p => p.page_id_ == INVALID_PAGE_ID) := by
    rw [List.mem_filter]
    exact ⟨List.mem_iff_getElem?.mpr ⟨j, hj⟩, by simpa using he⟩
  have := List.length_pos_of_mem hm
  unfold countInvalid at h
  omega

theorem findByFrame_eq (t : List (Int × Int)) (f : Int) (ps : List Page) :
    ∀ (i : Nat) (pg : Page),
      (∀ (j : Nat) (pg' : Page), ps[j]? = some pg' → (t.lookup pg'.page_id_).isSome) →
      ps[i]? = some pg → t.lookup pg.page_id_ = some f →
      (∀ (j : Nat) (pg' : Page), ps[j]? = some pg' → t.lookup pg'.page_id_ = some f → j = i) →
      findByFrame t ps f = some i := by
  induction ps with
  | nil =>
    intro i pg _ hi
    simp at hi
  | cons a as ih =>
    intro i pg hall hi hl hu
    unfold findByFrame
    obtain ⟨v, hv⟩ := Option.isSome_iff_exists.mp (hall 0 a (List.getElem?_cons_zero))
    rw [hv]
    simp only
    by_cases hvf : v = f
    · rw [if_pos hvf]
      have := hu 0 a (List.getElem?_cons_zero) (by rw [hv, hvf])
      rw [← this]
    · rw [if_neg hvf]
      cases i with
      | zero =>
        simp only [List.getElem?_cons_zero, Option.some.injEq] at hi
        subst hi
        rw [hv] at hl
        exact absurd (Option.some.inj hl) hvf
      | succ i =>
        rw [ih i pg (fun j pg' hj => hall (j + 1) pg' (by simpa using hj))
          (by simpa using hi) hl
          (fun j pg' hj hl' => by
            have := hu (j + 1) pg' (by simpa using hj) hl'
            omega)]
        rfl

theorem filter_key_val (t : List (Int × Int)) (hn : (t.map Prod.fst).Nodup)
    (hv : (t.map Prod.snd).Nodup) (q f : Int) (hq : t.lookup q = some f) :
    t.filter (fun e => e.1 != q) = t.filter (fun e => e.2 != f) := by
  apply List.filter_congr
  intro e he
  obtain ⟨k, v⟩ := e
  have hiff : k = q ↔ v = f := by
    constructor
    · intro hk
      subst hk
      have := lookup_of_mem _ _ _ hn he
      rw [hq] at this
      exact (Option.some.inj this).symm
    · intro hvf
      subst hvf
      have := List.inj_on_of_nodup_map hv he (lookup_mem _ _ _ hq) rfl
      exact congrArg Prod.fst this
  by_cases hk : k = q
  · have hv' := hiff.mp hk
    subst hk hv'
    simp
  · have hv' : v ≠ f := fun hh => hk (hiff.mpr hh)
    show (k != q) = (v != f)
    rw [bne_iff_ne.mpr hk, bne_iff_ne.mpr hv']

theorem Pin_head (r : LRUReplacer) (f : Int) (rest : List Int) (h : r.lru_list_ = f :: rest) :
    r.Pin f = { r with lru_list_ := rest } := by
  have h1 := Pin_list r f
  have h2 := Pin_max r f
  rw [h, List.erase_cons_head] at h1
  cases hr : r.Pin f with
  | mk l m =>
    rw [hr] at h1 h2
    simp only at h1 h2
    rw [h1, h2]

/-- What the pool looks like when the free list is empty and the replacer has a victim: the
victim is the frame of the first page of `unpinned`, and the scans of `FetchPage` and
`NewPage` find the frame of that page. -/
theorem PoolInv.victim {b : BufferPoolManager} {g : PoolGhost} (h : PoolInv b g)
    (hF : b.free_list_ = []) (fv : Int) (rrest : List Int)
    (hR : b.replacer_.lru_list_ = fv :: rrest) :
    ∃ (q : Int) (zrest : List Int) (i : Nat) (pg : Page),
      g.unpinned = q :: zrest ∧ b.page_table_.lookup q = some fv ∧
      findPage b.pages_ q = some i ∧ b.pages_[i]? = some pg ∧ pg.page_id_ = q ∧
      pg.pin_count_ = 0 ∧ b.pageOf q = some pg ∧
      (tableKeyOf b.page_table_ fv).getD INVALID_PAGE_ID = q ∧
      findByFrame b.page_table_ b.pages_ fv = some i ∧
      b.page_table_.filter (fun e => e.1 != q) = b.page_table_.filter (fun e => e.2 != fv) ∧
      b.replacer_.Victim = (some fv, b.replacer_.Pin fv) ∧
      findPage (modifyPage b.pages_ i (fun x =>
        { x with page_id_ := INVALID_PAGE_ID, is_dirty_ := false })) INVALID_PAGE_ID =
        some i := by
  have hlru := h.lru
  rw [hR] at hlru
  cases hZ : g.unpinned with
  | nil =>
    rw [hZ] at hlru
    cases hlru
  | cons q zrest =>
    rw [hZ, List.map_cons] at hlru
    have hqZ : q ∈ g.unpinned := by rw [hZ]; exact List.mem_cons_self _ _
    have hz := (h.unpinnedMem q).mp hqZ
    obtain ⟨v, hv⟩ := Option.isSome_iff_exists.mp (isZero_resident b q hz)
    have hvf : v = fv := by
      have := (List.cons.inj hlru).1
      rw [hv] at this
      exact this.symm
    subst hvf
    obtain ⟨i, pg, hi, hpg, hid, hpo⟩ := h.core.frame_of q v hv
    have hpin : pg.pin_count_ = 0 := by
      unfold BufferPoolManager.isZero at hz
      rw [hpo] at hz
      simpa using hz
    have hcnt : countInvalid b.pages_ = 0 := by
      rw [← h.core.free, hF]
      rfl
    have hvalid := countInvalid_zero b.pages_ hcnt
    refine ⟨q, zrest, i, pg, rfl, hv, hi, hpg, hid, hpin, hpo, ?_, ?_, ?_, ?_, ?_⟩
    · rw [tableKeyOf_of_mem _ h.core.valsNodup q v (lookup_mem _ _ _ hv)]
      rfl
    · apply findByFrame_eq _ _ _ i pg
      · intro j pg' hj
        exact h.core.carried j pg' hj (hvalid j pg' hj)
      · exact hpg
      · rw [hid]; exact hv
      · intro j pg' hj hl'
        have := h.core.frame_inj _ _ _ hl' hv
        exact h.core.uniq j i pg' pg hj hpg (by rw [this, hid]) (hvalid j pg' hj)
    · exact filter_key_val _ h.core.keysNodup h.core.valsNodup q v hv
    · unfold LRUReplacer.Victim
      rw [hR]
      simp only
      rw [Pin_head _ _ _ hR]
    · apply findPage_eq_of_unique _ _ i
        ({ pg with page_id_ := INVALID_PAGE_ID, is_dirty_ := false } : Page)
      · rw [modifyPage_get, if_pos rfl, hpg]
        rfl
      · rfl
      · intro j pg' hj hid'
        rw [modifyPage_get] at hj
        by_cases hji : j = i
        · exact hji
        · rw [if_neg hji] at hj
          exact absurd hid' (hvalid j pg' hj)

/-- The invariants after the frame of the resident page `q` (pin count 0, the only frame
to take) was given to the page `p`: `q` is struck from the history. -/
theorem PoolInv.evict {b : BufferPoolManager} {g : PoolGhost} (h : PoolInv b g)
    (hF : b.free_list_ = []) (q fv : Int) (hq : b.page_table_.lookup q = some fv) (i : Nat)
    (hi : findPage b.pages_ q = some i)
    (hinv : findPage (modifyPage b.pages_ i (fun x =>
      { x with page_id_ := INVALID_PAGE_ID, is_dirty_ := false })) INVALID_PAGE_ID = some i)
    (p : Int) (hp : b.page_table_.lookup p = none) (hp0 : 0 ≤ p) (data : PageData)
    (disk : DiskManager)
    (hbits : ∀ r : Int, r ≠ q → (b.page_table_.lookup r).isSome →
      getBit disk.bits r.toNat = true)
    (hpb : getBit disk.bits p.toNat = true) :
    PoolInv ((b.dropPage i fv disk).installPage i p fv data disk)
      { unpinned := g.unpinned.filter (fun r => r != q),
        dirtied := g.dirtied.filter (fun r => r != q) } ∧
    (∀ r : Int, ((b.dropPage i fv disk).installPage i p fv data disk).page_table_.lookup r =
      if r = p then some fv else if r = q then none else b.page_table_.lookup r) ∧
    (∀ r : Int, ((b.dropPage i fv disk).installPage i p fv data disk).pageOf r =
      if r = p then
        some { page_id_ := p, pin_count_ := 1, is_dirty_ := false, data_ := data }
      else if r = q then none else b.pageOf r) := by
  have hd := h.drop q fv hq i hi disk hbits
  obtain ⟨_, htab1, hpo1⟩ := h.core.drop_core q fv hq i hi disk hbits
  have hF1 : (b.dropPage i fv disk).free_list_ = fv :: [] := by
    show b.free_list_ ++ [fv] = _
    rw [hF]
    rfl
  have hp1 : (b.dropPage i fv disk).page_table_.lookup p = none := by
    rw [htab1]
    split
    · rfl
    · exact hp
  have hbits1 : ∀ r : Int, ((b.dropPage i fv disk).page_table_.lookup r).isSome →
      getBit (disk : DiskManager).bits r.toNat = true := by
    intro r hr
    rw [htab1] at hr
    by_cases hrq : r = q
    · rw [if_pos hrq] at hr
      cases hr
    · rw [if_neg hrq] at hr
      exact hbits r hrq hr
  have hin := hd.install fv [] hF1 i hinv p hp1 hp0 data disk hbits1 hpb
  obtain ⟨_, htab2, hpo2⟩ := hd.core.install_core fv [] hF1 i hinv p hp1 hp0 data disk hbits1 hpb
  refine ⟨hin, ?_, ?_⟩
  · intro r
    rw [htab2, htab1]
  · intro r
    rw [hpo2, hpo1]

end MiniSql

namespace MiniSql

/-! ## The calls of the buffer pool manager on a consistent pool -/

theorem FetchPage_resident (b : BufferPoolManager) (p f : Int) (i : Nat)
    (hl : b.page_table_.lookup p = some f) (hi : findPage b.pages_ p = some i) :
    b.FetchPage p = some (some i,
      { b with
        pages_ := modifyPage b.pages_ i (fun x => { x with pin_count_ := x.pin_count_ + 1 }),
        replacer_ := b.replacer_.Pin f }) := by
  unfold BufferPoolManager.FetchPage
  simp only [hl, hi]

theorem PoolCore.freeFrame {b : BufferPoolManager} (h : PoolCore b) (f : Int)
    (rest : List Int) (hF : b.free_list_ = f :: rest) :
    ∃ (i : Nat) (old : Page), findPage b.pages_ INVALID_PAGE_ID = some i ∧
      b.pages_[i]? = some old ∧ old.page_id_ = INVALID_PAGE_ID ∧ old.is_dirty_ = false := by
  have hcnt : 0 < countInvalid b.pages_ := by
    rw [← h.free, hF]
    simp
  obtain ⟨i, hi⟩ := Option.isSome_iff_exists.mp (countInvalid_pos_findPage _ hcnt)
  obtain ⟨old, hold, hid⟩ := findPage_get _ _ _ hi
  exact ⟨i, old, hi, hold, hid, h.cleanFree i old hold hid⟩

theorem FetchPage_free {b : BufferPoolManager} (h : PoolCore b) (p f : Int) (rest : List Int)
    (hl : b.page_table_.lookup p = none) (hF : b.free_list_ = f :: rest) (hp0 : 0 ≤ p) :
    ∃ i : Nat, findPage b.pages_ INVALID_PAGE_ID = some i ∧
      b.FetchPage p = some (some i,
        b.installPage i p f ((b.disk_manager_.file.lookup p).getD PageData.zero)
          b.disk_manager_) := by
  obtain ⟨i, old, hi, hold, hid, hclean⟩ := h.freeFrame f rest hF
  refine ⟨i, hi, ?_⟩
  unfold BufferPoolManager.FetchPage
  simp only [hl, hF, hi]
  unfold BufferPoolManager.installFetched DiskManager.ReadPage
  have hp1 : ¬ p < 0 := by omega
  simp only [Option.bind_eq_bind, Option.some_bind, hold, hclean, Bool.false_eq_true,
    if_false, hp1, tableEmplace_fresh _ _ _ hl]
  unfold BufferPoolManager.installPage
  simp only [hF, List.tail_cons]

theorem FetchPage_none (b : BufferPoolManager) (p : Int)
    (hl : b.page_table_.lookup p = none) (hF : b.free_list_ = [])
    (hR : b.replacer_.lru_list_ = []) : b.FetchPage p = some (none, b) := by
  unfold BufferPoolManager.FetchPage LRUReplacer.Victim
  simp only [hl, hF, hR]

theorem afterWriteBack_bits (d : DiskManager) (pg : Page) :
    (d.afterWriteBack pg).bits = d.bits := by
  unfold DiskManager.afterWriteBack
  split <;> rfl

theorem FetchPage_evict {b : BufferPoolManager} {g : PoolGhost} (h : PoolInv b g) (p : Int)
    (hl : b.page_table_.lookup p = none) (hF : b.free_list_ = []) (fv : Int) (hp0 : 0 ≤ p)
    (q : Int) (i : Nat) (pg : Page) (hq : b.page_table_.lookup q = some fv)
    (hi : findPage b.pages_ q = some i) (hpg : b.pages_[i]? = some pg)
    (hid : pg.page_id_ = q)
    (hkey : (tableKeyOf b.page_table_ fv).getD INVALID_PAGE_ID = q)
    (hfil : b.page_table_.filter (fun e => e.1 != q) =
      b.page_table_.filter (fun e => e.2 != fv))
    (hvic : b.replacer_.Victim = (some fv, b.replacer_.Pin fv)) :
    b.FetchPage p = some (some i,
      (b.dropPage i fv (b.disk_manager_.afterWriteBack pg)).installPage i p fv
        (((b.disk_manager_.afterWriteBack pg).file.lookup p).getD PageData.zero)
        (b.disk_manager_.afterWriteBack pg)) := by
  have hq0 : 0 ≤ pg.page_id_ := by
    rw [hid]
    exact (h.core.bits q (by rw [hq]; rfl)).1
  have hl' : (b.page_table_.filter (fun e => e.2 != fv)).lookup p = none := by
    rw [lookup_filter_val _ h.core.keysNodup h.core.valsNodup q fv hq]
    split
    · rfl
    · exact hl
  unfold BufferPoolManager.FetchPage
  simp only [hl, hF, hvic, hkey, hi, hfil]
  unfold BufferPoolManager.installFetched DiskManager.ReadPage
  have hp1 : ¬ p < 0 := by omega
  have hq1 : ¬ pg.page_id_ < 0 := by omega
  simp only [Option.bind_eq_bind, Option.some_bind, hpg, hp1, if_false,
    tableEmplace_fresh _ _ _ hl']
  unfold BufferPoolManager.installPage BufferPoolManager.dropPage DiskManager.WritePage
    DiskManager.afterWriteBack
  simp only [hF, List.nil_append, List.tail_cons, modifyPage_twice, hq1, if_false]
  cases pg.is_dirty_
  · rfl
  · rfl

theorem NewPage_free {b : BufferPoolManager} (h : PoolCore b) (f : Int) (rest : List Int)
    (hF : b.free_list_ = f :: rest) (keep : Int) :
    ∃ i : Nat, findPage b.pages_ INVALID_PAGE_ID = some i ∧
      b.NewPage keep = some ((some i, b.disk_manager_.AllocatePage.1),
        b.installPage i b.disk_manager_.AllocatePage.1 f PageData.zero
          b.disk_manager_.AllocatePage.2) := by
  obtain ⟨i, old, hi, hold, hid, hclean⟩ := h.freeFrame f rest hF
  refine ⟨i, hi, ?_⟩
  have hfresh : b.page_table_.lookup b.disk_manager_.AllocatePage.1 = none := by
    cases hc : b.page_table_.lookup b.disk_manager_.AllocatePage.1 with
    | none => rfl
    | some v =>
      have := (h.bits _ (by rw [hc]; rfl)).2
      have hb := getBit_firstClear b.disk_manager_.bits
      unfold DiskManager.AllocatePage at this
      simp only [Int.toNat_ofNat] at this
      rw [hb] at this
      cases this
  unfold BufferPoolManager.NewPage
  simp only [hF, hi]
  unfold BufferPoolManager.installNew
  simp only [Option.bind_eq_bind, Option.some_bind, hold, hclean, Bool.false_eq_true,
    if_false, tableEmplace_fresh _ _ _ hfresh]
  unfold BufferPoolManager.installPage
  simp only [hF, List.tail_cons]

theorem NewPage_none (b : BufferPoolManager) (keep : Int) (hF : b.free_list_ = [])
    (hR : b.replacer_.lru_list_ = []) : b.NewPage keep = some ((none, keep), b) := by
  unfold BufferPoolManager.NewPage LRUReplacer.Victim
  simp only [hF, hR]

theorem NewPage_evict {b : BufferPoolManager} {g : PoolGhost} (h : PoolInv b g) (keep : Int)
    (hF : b.free_list_ = []) (fv : Int)
    (q : Int) (i : Nat) (pg : Page) (hq : b.page_table_.lookup q = some fv)
    (hpg : b.pages_[i]? = some pg) (hid : pg.page_id_ = q)
    (hfind : findByFrame b.page_table_ b.pages_ fv = some i)
    (hvic : b.replacer_.Victim = (some fv, b.replacer_.Pin fv)) :
    b.NewPage keep = some ((some i, b.disk_manager_.AllocatePage.1),
      (b.dropPage i fv (b.disk_manager_.AllocatePage.2.afterWriteBack pg)).installPage i
        b.disk_manager_.AllocatePage.1 fv PageData.zero
        (b.disk_manager_.AllocatePage.2.afterWriteBack pg)) := by
  have hq0 : 0 ≤ pg.page_id_ := by
    rw [hid]
    exact (h.core.bits q (by rw [hq]; rfl)).1
  have hfresh : b.page_table_.lookup b.disk_manager_.AllocatePage.1 = none := by
    cases hc : b.page_table_.lookup b.disk_manager_.AllocatePage.1 with
    | none => rfl
    | some v =>
      have := (h.core.bits _ (by rw [hc]; rfl)).2
      have hb := getBit_firstClear b.disk_manager_.bits
      unfold DiskManager.AllocatePage at this
      simp only [Int.toNat_ofNat] at this
      rw [hb] at this
      cases this
  have hl' : (b.page_table_.filter (fun e => e.2 != fv)).lookup
      b.disk_manager_.AllocatePage.1 = none := by
    rw [lookup_filter_val _ h.core.keysNodup h.core.valsNodup q fv hq]
    split
    · rfl
    · exact hfresh
  unfold BufferPoolManager.NewPage
  simp only [hF, hvic, hfind]
  unfold BufferPoolManager.installNew
  have hq1 : ¬ pg.page_id_ < 0 := by omega
  simp only [Option.bind_eq_bind, Option.some_bind, hpg, tableEmplace_fresh _ _ _ hl']
  unfold BufferPoolManager.installPage BufferPoolManager.dropPage DiskManager.WritePage
    DiskManager.afterWriteBack
  simp only [hF, List.nil_append, List.tail_cons, modifyPage_twice, hq1, if_false]
  cases pg.is_dirty_
  · rfl
  · rfl

theorem DeletePage_absent (b : BufferPoolManager) (p : Int)
    (hl : b.page_table_.lookup p = none) : b.DeletePage p = some (true, b) := by
  unfold BufferPoolManager.DeletePage
  simp only [hl]

theorem DeletePage_pinned (b : BufferPoolManager) (p f : Int) (i : Nat) (pg : Page)
    (hl : b.page_table_.lookup p = some f) (hi : findPage b.pages_ p = some i)
    (hpg : b.pages_[i]? = some pg) (hpin : pg.pin_count_ ≠ 0) :
    b.DeletePage p = some (false, b) := by
  unfold BufferPoolManager.DeletePage
  have : (pg.pin_count_ != 0) = true := bne_iff_ne.mpr hpin
  simp only [hl, hi, hpg, this, if_true]

theorem DeletePage_unpinned (b : BufferPoolManager) (p f : Int) (i : Nat) (pg : Page)
    (hl : b.page_table_.lookup p = some f) (hi : findPage b.pages_ p = some i)
    (hpg : b.pages_[i]? = some pg) (hpin : pg.pin_count_ = 0) :
    b.DeletePage p = some (true, b.dropPage i f (b.disk_manager_.DeAllocatePage p)) := by
  unfold BufferPoolManager.DeletePage
  have : (pg.pin_count_ != 0) = false := by rw [hpin]; rfl
  simp only [hl, hi, hpg, this, Bool.false_eq_true, if_false]
  rfl

theorem UnpinPage_absent (b : BufferPoolManager) (p : Int) (d : Bool)
    (hl : b.page_table_.lookup p = none) : b.UnpinPage p d = some (false, b) := by
  unfold BufferPoolManager.UnpinPage
  simp only [hl]

theorem UnpinPage_zero (b : BufferPoolManager) (p f : Int) (d : Bool) (i : Nat) (pg : Page)
    (hl : b.page_table_.lookup p = some f) (hi : findPage b.pages_ p = some i)
    (hpg : b.pages_[i]? = some pg) (hpin : ¬ pg.pin_count_ > 0) :
    b.UnpinPage p d = some (false, b) := by
  unfold BufferPoolManager.UnpinPage
  simp only [hl, hi, hpg, hpin, if_false]

theorem UnpinPage_pinned (b : BufferPoolManager) (p f : Int) (d : Bool) (i : Nat) (pg : Page)
    (hl : b.page_table_.lookup p = some f) (hi : findPage b.pages_ p = some i)
    (hpg : b.pages_[i]? = some pg) (hpin : pg.pin_count_ > 0) :
    b.UnpinPage p d = some (true,
      { b with
        pages_ := modifyPage b.pages_ i (fun q =>
          { q with pin_count_ := q.pin_count_ - 1,
                   is_dirty_ := if d then true else q.is_dirty_ }),
        replacer_ := if pg.pin_count_ - 1 = 0 then b.replacer_.Unpin f else b.replacer_ }) := by
  unfold BufferPoolManager.UnpinPage
  simp only [hl, hi, hpg, hpin, if_true]

/-- `FlushPage` changes the file only. -/
theorem FlushPage_disk {b : BufferPoolManager} (h : PoolCore b) (p : Int) :
    ∃ (r : Bool) (disk : DiskManager), b.FlushPage p =
      some (r, { b with disk_manager_ := disk }) ∧ disk.bits = b.disk_manager_.bits := by
  unfold BufferPoolManager.FlushPage
  by_cases hp : p = INVALID_PAGE_ID
  · rw [if_pos hp]
    exact ⟨false, b.disk_manager_, rfl, rfl⟩
  · rw [if_neg hp]
    cases hl : b.page_table_.lookup p with
    | none => exact ⟨false, b.disk_manager_, rfl, rfl⟩
    | some f =>
      obtain ⟨i, pg, hi, hpg, _, _⟩ := h.frame_of p f hl
      have hp0 := (h.bits p (by rw [hl]; rfl)).1
      have hp1 : ¬ p < 0 := by omega
      simp only [hi, hpg]
      unfold DiskManager.WritePage
      simp only [hp1, if_false]
      exact ⟨true, _, rfl, rfl⟩

end MiniSql

namespace MiniSql

/-! ## Every call keeps the invariants -/

/-- The pages of the old history that still have pin count 0 after a call, read off the
invariants of the new state. -/
theorem ghost_unpinned {b1 : BufferPoolManager} {g1 : PoolGhost} (h1 : PoolInv b1 g1)
    (Z : List Int) (pr : Int → Bool) (he : g1.unpinned = Z.filter pr) :
    Z.filter b1.isZero = g1.unpinned := by
  rw [he]
  apply List.filter_congr
  intro x hx
  have := h1.unpinnedMem x
  rw [he, List.mem_filter] at this
  cases hz : b1.isZero x with
  | true =>
    rw [hz] at this
    exact (this.mpr rfl).2.symm
  | false =>
    rw [hz] at this
    cases hp : pr x with
    | false => rfl
    | true =>
      have := this.mp ⟨hx, hp⟩
      cases this

/-- The page id given out by the disk manager is not resident; afterwards its bit and the
bits of the resident pages are set. -/
theorem PoolCore.alloc_fresh {b : BufferPoolManager} (h : PoolCore b) :
    b.page_table_.lookup b.disk_manager_.AllocatePage.1 = none ∧
    0 ≤ b.disk_manager_.AllocatePage.1 ∧
    (∀ q : Int, (b.page_table_.lookup q).isSome →
      getBit b.disk_manager_.AllocatePage.2.bits q.toNat = true) ∧
    getBit b.disk_manager_.AllocatePage.2.bits b.disk_manager_.AllocatePage.1.toNat = true := by
  have hb := getBit_firstClear b.disk_manager_.bits
  refine ⟨?_, ?_, ?_, ?_⟩
  · cases hc : b.page_table_.lookup b.disk_manager_.AllocatePage.1 with
    | none => rfl
    | some v =>
      have := (h.bits _ (by rw [hc]; rfl)).2
      unfold DiskManager.AllocatePage at this
      simp only [Int.toNat_ofNat] at this
      rw [hb] at this
      cases this
  · exact Int.natCast_nonneg _
  · intro q hq
    show getBit (setBit b.disk_manager_.bits _ true) q.toNat = true
    rw [getBit_setBit]
    split
    · rfl
    · exact (h.bits q hq).2
  · show getBit (setBit b.disk_manager_.bits _ true) (Int.toNat (Nat.cast _)) = true
    rw [getBit_setBit, Int.toNat_ofNat, if_pos rfl]

theorem PoolInv.step_NewPage {b : BufferPoolManager} {g : PoolGhost} (h : PoolInv b g) :
    ∃ b1 g1, b.step g PoolOp.NewPage = some (b1, g1) ∧ PoolInv b1 g1 ∧
      b1.pool_size_ = b.pool_size_ := by
  obtain ⟨hfresh, hp0, hbits, hpb⟩ := h.core.alloc_fresh
  cases hF : b.free_list_ with
  | cons f rest =>
    obtain ⟨i, hi, e⟩ := NewPage_free h.core f rest hF INVALID_PAGE_ID
    have hin := h.install f rest hF i hi _ hfresh hp0 PageData.zero _ hbits hpb
    obtain ⟨_, htab, _⟩ := h.core.install_core f rest hF i hi _ hfresh hp0 PageData.zero _
      hbits hpb
    refine ⟨_, _, by simp only [BufferPoolManager.step, e]; rfl, ?_, ?_⟩
    swap
    · rfl
    rw [ghost_unpinned hin g.unpinned (fun _ => true)
      (List.filter_eq_self.mpr (fun _ _ => rfl)).symm]
    have hD : g.dirtied.filter (fun q =>
        (b.installPage i b.disk_manager_.AllocatePage.1 f PageData.zero
          b.disk_manager_.AllocatePage.2).resident q &&
        q != b.disk_manager_.AllocatePage.1) = g.dirtied := by
      apply List.filter_eq_self.mpr
      intro x hx
      have hr := h.dirtiedRes x hx
      unfold BufferPoolManager.resident at hr ⊢
      have hxp : x ≠ b.disk_manager_.AllocatePage.1 := by
        intro he
        rw [he, hfresh] at hr
        cases hr
      rw [htab, if_neg hxp, hr, bne_iff_ne.mpr hxp]
      rfl
    rw [hD]
    exact hin
  | nil =>
    cases hR : b.replacer_.lru_list_ with
    | nil =>
      refine ⟨b, g, ?_, h, rfl⟩
      simp only [BufferPoolManager.step, NewPage_none b _ hF hR]
    | cons fv rrest =>
      obtain ⟨q, zrest, i, pg, hZ, hq, hi, hpg, hid, hpin, hpo, hkey, hfind, hfil, hvic, hinv⟩ :=
        h.victim hF fv rrest hR
      have e := NewPage_evict h INVALID_PAGE_ID hF fv q i pg hq hpg hid hfind hvic
      have hbits' : ∀ r : Int, r ≠ q → (b.page_table_.lookup r).isSome →
          getBit (b.disk_manager_.AllocatePage.2.afterWriteBack pg).bits r.toNat = true := by
        intro r _ hr
        rw [afterWriteBack_bits]
        exact hbits r hr
      have hpb' : getBit (b.disk_manager_.AllocatePage.2.afterWriteBack pg).bits
          b.disk_manager_.AllocatePage.1.toNat = true := by
        rw [afterWriteBack_bits]
        exact hpb
      obtain ⟨hin, htab, _⟩ := h.evict hF q fv hq i hi hinv _ hfresh hp0 PageData.zero _
        hbits' hpb'
      refine ⟨_, _, by simp only [BufferPoolManager.step, e]; rfl, ?_, ?_⟩
      swap
      · rfl
      rw [ghost_unpinned hin g.unpinned (fun r => r != q) rfl]
      have hD : g.dirtied.filter (fun x =>
          ((b.dropPage i fv (b.disk_manager_.AllocatePage.2.afterWriteBack pg)).installPage i
            b.disk_manager_.AllocatePage.1 fv PageData.zero
            (b.disk_manager_.AllocatePage.2.afterWriteBack pg)).resident x &&
          x != b.disk_manager_.AllocatePage.1) = g.dirtied.filter (fun r => r != q) := by
        apply List.filter_congr
        intro x hx
        have hr := h.dirtiedRes x hx
        unfold BufferPoolManager.resident at hr ⊢
        have hxp : x ≠ b.disk_manager_.AllocatePage.1 := by
          intro he
          rw [he, hfresh] at hr
          cases hr
        rw [htab, if_neg hxp, bne_iff_ne.mpr hxp, Bool.and_true]
        by_cases hxq : x = q
        · rw [if_pos hxq, hxq, bne_self_eq_false]
          rfl
        · rw [if_neg hxq, hr, bne_iff_ne.mpr hxq]
      rw [hD]
      exact hin

theorem PoolInv.step_FetchPage {b : BufferPoolManager} {g : PoolGhost} (h : PoolInv b g)
    (p : Int) (hp0 : 0 ≤ p) (hpb : getBit b.disk_manager_.bits p.toNat = true) :
    ∃ b1 g1, b.step g (PoolOp.FetchPage p) = some (b1, g1) ∧ PoolInv b1 g1 ∧
      b1.pool_size_ = b.pool_size_ := by
  have hbits : ∀ q : Int, (b.page_table_.lookup q).isSome →
      getBit b.disk_manager_.bits q.toNat = true := fun q hq => (h.core.bits q hq).2
  cases hl : b.page_table_.lookup p with
  | some f =>
    obtain ⟨i, pg, hi, hpg, hid, hpo⟩ := h.core.frame_of p f hl
    have e := FetchPage_resident b p f i hl hi
    have hin := h.repin p f hl i hi
    have hres : b.resident p = true := by
      unfold BufferPoolManager.resident
      rw [hl]
      rfl
    refine ⟨_, _, by simp only [BufferPoolManager.step, e, hres, if_true]; rfl, ?_, ?_⟩
    swap
    · rfl
    rw [ghost_unpinned hin g.unpinned (fun r => r != p) rfl]
    exact hin
  | none =>
    have hres : b.resident p = false := by
      unfold BufferPoolManager.resident
      rw [hl]
      rfl
    cases hF : b.free_list_ with
    | cons f rest =>
      obtain ⟨i, hi, e⟩ := FetchPage_free h.core p f rest hl hF hp0
      have hin := h.install f rest hF i hi p hl hp0
        ((b.disk_manager_.file.lookup p).getD PageData.zero) b.disk_manager_ hbits hpb
      obtain ⟨_, htab, _⟩ := h.core.install_core f rest hF i hi p hl hp0
        ((b.disk_manager_.file.lookup p).getD PageData.zero) b.disk_manager_ hbits hpb
      refine ⟨_, _, by
        simp only [BufferPoolManager.step, e, hres, Bool.false_eq_true, if_false]; rfl, ?_, ?_⟩
      swap
      · rfl
      rw [ghost_unpinned hin g.unpinned (fun _ => true)
        (List.filter_eq_self.mpr (fun _ _ => rfl)).symm]
      have hD : g.dirtied.filter (fun q =>
          (b.installPage i p f ((b.disk_manager_.file.lookup p).getD PageData.zero)
            b.disk_manager_).resident q && q != p) = g.dirtied := by
        apply List.filter_eq_self.mpr
        intro x hx
        have hr := h.dirtiedRes x hx
        unfold BufferPoolManager.resident at hr ⊢
        have hxp : x ≠ p := by
          intro he
          rw [he, hl] at hr
          cases hr
        rw [htab, if_neg hxp, hr, bne_iff_ne.mpr hxp]
        rfl
      rw [hD]
      exact hin
    | nil =>
      cases hR : b.replacer_.lru_list_ with
      | nil =>
        refine ⟨b, g, ?_, h, rfl⟩
        simp only [BufferPoolManager.step, FetchPage_none b p hl hF hR]
      | cons fv rrest =>
        obtain ⟨q, zrest, i, pg, hZ, hq, hi, hpg, hid, hpin, hpo, hkey, hfind, hfil, hvic,
          hinv⟩ := h.victim hF fv rrest hR
        have e := FetchPage_evict h p hl hF fv hp0 q i pg hq hi hpg hid hkey hfil hvic
        have hbits' : ∀ r : Int, r ≠ q → (b.page_table_.lookup r).isSome →
            getBit (b.disk_manager_.afterWriteBack pg).bits r.toNat = true := by
          intro r _ hr
          rw [afterWriteBack_bits]
          exact hbits r hr
        have hpb' : getBit (b.disk_manager_.afterWriteBack pg).bits p.toNat = true := by
          rw [afterWriteBack_bits]
          exact hpb
        obtain ⟨hin, htab, _⟩ := h.evict hF q fv hq i hi hinv p hl hp0
          (((b.disk_manager_.afterWriteBack pg).file.lookup p).getD PageData.zero) _
          hbits' hpb'
        refine ⟨_, _, by
          simp only [BufferPoolManager.step, e, hres, Bool.false_eq_true, if_false]; rfl, ?_, ?_⟩
        swap
        · rfl
        rw [ghost_unpinned hin g.unpinned (fun r => r != q) rfl]
        have hD : g.dirtied.filter (fun x =>
            ((b.dropPage i fv (b.disk_manager_.afterWriteBack pg)).installPage i p fv
              (((b.disk_manager_.afterWriteBack pg).file.lookup p).getD PageData.zero)
              (b.disk_manager_.afterWriteBack pg)).resident x && x != p) =
            g.dirtied.filter (fun r => r != q) := by
          apply List.filter_congr
          intro x hx
          have hr := h.dirtiedRes x hx
          unfold BufferPoolManager.resident at hr ⊢
          have hxp : x ≠ p := by
            intro he
            rw [he, hl] at hr
            cases hr
          rw [htab, if_neg hxp, bne_iff_ne.mpr hxp, Bool.and_true]
          by_cases hxq : x = q
          · rw [if_pos hxq, hxq, bne_self_eq_false]
            rfl
          · rw [if_neg hxq, hr, bne_iff_ne.mpr hxq]
        rw [hD]
        exact hin

theorem PoolInv.step_UnpinPage {b : BufferPoolManager} {g : PoolGhost} (h : PoolInv b g)
    (p : Int) (d : Bool) :
    ∃ b1 g1, b.step g (PoolOp.UnpinPage p d) = some (b1, g1) ∧ PoolInv b1 g1 ∧
      b1.pool_size_ = b.pool_size_ := by
  cases hl : b.page_table_.lookup p with
  | none =>
    refine ⟨b, g, ?_, h, rfl⟩
    simp only [BufferPoolManager.step, UnpinPage_absent b p d hl]
  | some f =>
    obtain ⟨i, pg, hi, hpg, hid, hpo⟩ := h.core.frame_of p f hl
    by_cases hpin : pg.pin_count_ > 0
    · have e := UnpinPage_pinned b p f d i pg hl hi hpg hpin
      have hin := h.unpin p f hl i hi pg hpg hpin d
      refine ⟨_, _, by simp only [BufferPoolManager.step, e]; rfl, ?_, ?_⟩
      swap
      · rfl
      have hpZ : p ∉ g.unpinned := by
        intro hm
        have := (h.unpinnedMem p).mp hm
        unfold BufferPoolManager.isZero at this
        rw [hpo] at this
        have h0 : pg.pin_count_ = 0 := by simpa using this
        omega
      have hz := hin.unpinnedMem p
      have hiff : ({ b with
          pages_ := modifyPage b.pages_ i (fun q =>
            { q with pin_count_ := q.pin_count_ - 1,
                     is_dirty_ := if d then true else q.is_dirty_ }),
          replacer_ := if pg.pin_count_ - 1 = 0 then b.replacer_.Unpin f
            else b.replacer_ } : BufferPoolManager).isZero p = true ↔
          pg.pin_count_ - 1 = 0 := by
        rw [← hz]
        simp only [List.mem_append]
        constructor
        · rintro (h1 | h1)
          · exact absurd h1 hpZ
          · split_ifs at h1 with h2
            · exact h2
            · cases h1
        · intro h2
          right
          rw [if_pos h2]
          exact List.mem_singleton.mpr rfl
      rw [if_congr hiff rfl rfl]
      exact hin
    · refine ⟨b, g, ?_, h, rfl⟩
      simp only [BufferPoolManager.step, UnpinPage_zero b p f d i pg hl hi hpg hpin]

theorem PoolInv.step_DeletePage {b : BufferPoolManager} {g : PoolGhost} (h : PoolInv b g)
    (p : Int) :
    ∃ b1 g1, b.step g (PoolOp.DeletePage p) = some (b1, g1) ∧ PoolInv b1 g1 ∧
      b1.pool_size_ = b.pool_size_ := by
  have hsame : PoolInv b
      { unpinned := g.unpinned.filter b.isZero, dirtied := g.dirtied.filter b.resident } := by
    rw [List.filter_eq_self.mpr (fun x hx => (h.unpinnedMem x).mp hx),
      List.filter_eq_self.mpr (fun x hx => h.dirtiedRes x hx)]
    exact h
  cases hl : b.page_table_.lookup p with
  | none =>
    exact ⟨_, _, by simp only [BufferPoolManager.step, DeletePage_absent b p hl], hsame, rfl⟩
  | some f =>
    obtain ⟨i, pg, hi, hpg, hid, hpo⟩ := h.core.frame_of p f hl
    by_cases hpin : pg.pin_count_ = 0
    · have e := DeletePage_unpinned b p f i pg hl hi hpg hpin
      have hp0 := (h.core.bits p (by rw [hl]; rfl)).1
      have hbits : ∀ r : Int, r ≠ p → (b.page_table_.lookup r).isSome →
          getBit (b.disk_manager_.DeAllocatePage p).bits r.toNat = true := by
        intro r hr hres
        have := h.core.bits r hres
        rw [DeAllocate_getBit _ _ _ (by omega)]
        exact this.2
      have hin := h.drop p f hl i hi (b.disk_manager_.DeAllocatePage p) hbits
      obtain ⟨_, htab, _⟩ := h.core.drop_core p f hl i hi (b.disk_manager_.DeAllocatePage p)
        hbits
      refine ⟨_, _, by simp only [BufferPoolManager.step, e]; rfl, ?_, ?_⟩
      swap
      · rfl
      rw [ghost_unpinned hin g.unpinned (fun r => r != p) rfl]
      have hD : g.dirtied.filter
          (b.dropPage i f (b.disk_manager_.DeAllocatePage p)).resident =
          g.dirtied.filter (fun r => r != p) := by
        apply List.filter_congr
        intro x hx
        have hr := h.dirtiedRes x hx
        unfold BufferPoolManager.resident at hr ⊢
        rw [htab]
        by_cases hxp : x = p
        · rw [if_pos hxp, hxp, bne_self_eq_false]
          rfl
        · rw [if_neg hxp, hr, bne_iff_ne.mpr hxp]
      rw [hD]
      exact hin
    · exact ⟨_, _, by
        simp only [BufferPoolManager.step, DeletePage_pinned b p f i pg hl hi hpg hpin], hsame, rfl⟩

theorem PoolInv.step_FlushPage {b : BufferPoolManager} {g : PoolGhost} (h : PoolInv b g)
    (p : Int) :
    ∃ b1 g1, b.step g (PoolOp.FlushPage p) = some (b1, g1) ∧ PoolInv b1 g1 ∧
      b1.pool_size_ = b.pool_size_ := by
  obtain ⟨r, disk, e, hd⟩ := FlushPage_disk h.core p
  exact ⟨_, _, by simp only [BufferPoolManager.step, e], h.disk disk hd, rfl⟩

/-- Every call with a valid page id runs to its end and keeps the invariants. -/
theorem PoolInv.step {b : BufferPoolManager} {g : PoolGhost} (h : PoolInv b g) (op : PoolOp)
    (hv : b.validOp op = true) :
    ∃ b1 g1, b.step g op = some (b1, g1) ∧ PoolInv b1 g1 ∧
      b1.pool_size_ = b.pool_size_ := by
  cases op with
  | NewPage => exact h.step_NewPage
  | FetchPage p =>
    unfold BufferPoolManager.validOp at hv
    rw [Bool.and_eq_true] at hv
    exact h.step_FetchPage p (by simpa using hv.1) hv.2
  | UnpinPage p d => exact h.step_UnpinPage p d
  | DeletePage p => exact h.step_DeletePage p
  | FlushPage p => exact h.step_FlushPage p

/-- A sequence of calls with valid page ids runs to its end and keeps the invariants. -/
theorem PoolInv.run_calls {b : BufferPoolManager} {g : PoolGhost} (h : PoolInv b g)
    (ops : List PoolOp) (hv : b.validOps g ops = true) :
    ∃ b1 g1, b.run g ops = some (b1, g1) ∧ PoolInv b1 g1 ∧
      b1.pool_size_ = b.pool_size_ := by
  induction ops generalizing b g with
  | nil => exact ⟨b, g, rfl, h, rfl⟩
  | cons op ops ih =>
    unfold BufferPoolManager.validOps at hv
    rw [Bool.and_eq_true] at hv
    obtain ⟨b1, g1, e, h1, hs1⟩ := h.step op hv.1
    have hv2 := hv.2
    rw [e] at hv2
    obtain ⟨b2, g2, e2, h2, hs2⟩ := ih h1 hv2
    refine ⟨b2, g2, ?_, h2, hs2.trans hs1⟩
    unfold BufferPoolManager.run
    rw [e]
    exact e2

end MiniSql

namespace MiniSql

/-! ## The buffer pool after any sequence of calls -/

/-- A state reached from a fresh pool by calls with valid page ids satisfies the
invariants. -/
theorem PoolInv.reach (pool_size : Nat) (disk : DiskManager) (ops : List PoolOp)
    (b : BufferPoolManager) (g : PoolGhost)
    (hv : (BufferPoolManager.create pool_size disk).validOps PoolGhost.empty ops = true)
    (hrun : (BufferPoolManager.create pool_size disk).run PoolGhost.empty ops = some (b, g)) :
    PoolInv b g ∧ b.pool_size_ = pool_size := by
  obtain ⟨b1, g1, e, h1, hs⟩ := (PoolInv.create pool_size disk).run_calls ops hv
  rw [hrun] at e
  cases e
  exact ⟨h1, hs⟩

/-! ### The calls as C++ defines them -/

theorem eraseLoop_some (cond : Int × Int → Bool) :
    ∀ (t t' : List (Int × Int)), eraseLoop cond t = some t' →
      t' = t ∧ ∀ e, e ∈ t → cond e = false := by
  intro t
  induction t with
  | nil =>
    intro t' h
    unfold eraseLoop at h
    exact ⟨(Option.some.inj h).symm, fun e he => by cases he⟩
  | cons a rest ih =>
    intro t' h
    unfold eraseLoop at h
    cases hc : cond a with
    | true =>
      rw [hc, if_pos rfl] at h
      cases h
    | false =>
      rw [hc, if_neg (by simp)] at h
      cases hr : eraseLoop cond rest with
      | none =>
        rw [hr] at h
        cases h
      | some r =>
        rw [hr] at h
        obtain ⟨e1, e2⟩ := ih r hr
        refine ⟨?_, ?_⟩
        · rw [← Option.some.inj h, e1]
        · intro e he
          rcases List.mem_cons.mp he with h1 | h1
          · rw [h1]
            exact hc
          · exact e2 e h1

theorem eraseLoop_none_of_mem (cond : Int × Int → Bool) (t : List (Int × Int)) (e : Int × Int)
    (he : e ∈ t) (hc : cond e = true) : eraseLoop cond t = none := by
  cases h : eraseLoop cond t with
  | none => rfl
  | some t' =>
    have := (eraseLoop_some cond t t' h).2 e he
    rw [hc] at this
    cases this

theorem filter_eq_of_all_false (cond keep : Int × Int → Bool) (t : List (Int × Int))
    (h : ∀ e, e ∈ t → cond e = false) (hk : ∀ e, keep e = !cond e) : t.filter keep = t := by
  apply List.filter_eq_self.mpr
  intro e he
  rw [hk, h e he]
  rfl

theorem mem_of_lookup (t : List (Int × Int)) (p f : Int) (h : t.lookup p = some f) :
    (p, f) ∈ t := by
  induction t with
  | nil => cases h
  | cons a rest ih =>
    obtain ⟨k, v⟩ := a
    rw [List.lookup_cons] at h
    by_cases hk : p = k
    · subst hk
      simp only [beq_self_eq_true] at h
      rw [Option.some.inj h]
      exact List.mem_cons_self _ _
    · have : (p == k) = false := by simpa using hk
      rw [this] at h
      exact List.mem_cons_of_mem _ (ih h)

/-- Where `FetchPageStrict` has a result, `FetchPage` has the same. -/
theorem FetchPageStrict_agrees (b : BufferPoolManager) (p : Int)
    (r : Option Nat × BufferPoolManager) (h : b.FetchPageStrict p = some r) :
    b.FetchPage p = some r := by
  unfold BufferPoolManager.FetchPageStrict at h
  unfold BufferPoolManager.FetchPage
  cases hl : b.page_table_.lookup p with
  | some f =>
    rw [hl] at h
    exact h
  | none =>
    rw [hl] at h
    cases hF : b.free_list_ with
    | cons f rest =>
      rw [hF] at h
      exact h
    | nil =>
      rw [hF] at h
      simp only [] at h ⊢
      cases hV : b.replacer_.Victim with
      | mk v rep =>
        rw [hV] at h
        cases v with
        | none => exact h
        | some fv =>
          simp only [] at h ⊢
          cases hE : eraseLoop
              (fun e => e.1 == (tableKeyOf b.page_table_ fv).getD INVALID_PAGE_ID)
              b.page_table_ with
          | none =>
            rw [hE] at h
            cases h
          | some table =>
            rw [hE] at h
            obtain ⟨e1, e2⟩ := eraseLoop_some _ _ _ hE
            rw [filter_eq_of_all_false
              (fun e => e.1 == (tableKeyOf b.page_table_ fv).getD INVALID_PAGE_ID)
              (fun e => e.1 != (tableKeyOf b.page_table_ fv).getD INVALID_PAGE_ID) _ e2
              (fun e => rfl)]
            subst e1
            exact h

/-- Where `NewPageStrict` has a result, `NewPage` has the same. -/
theorem NewPageStrict_agrees (b : BufferPoolManager) (keep : Int)
    (r : (Option Nat × Int) × BufferPoolManager) (h : b.NewPageStrict keep = some r) :
    b.NewPage keep = some r := by
  unfold BufferPoolManager.NewPageStrict at h
  unfold BufferPoolManager.NewPage
  cases hF : b.free_list_ with
  | cons f rest =>
    rw [hF] at h
    exact h
  | nil =>
    rw [hF] at h
    simp only [] at h ⊢
    cases hV : b.replacer_.Victim with
    | mk v rep =>
      rw [hV] at h
      cases v with
      | none => exact h
      | some fv =>
        simp only [] at h ⊢
        cases hE : eraseLoop (fun e => e.2 == fv) b.page_table_ with
        | none =>
          rw [hE] at h
          cases h
        | some table =>
          rw [hE] at h
          obtain ⟨e1, e2⟩ := eraseLoop_some _ _ _ hE
          rw [filter_eq_of_all_false (fun e => e.2 == fv) (fun e => e.2 != fv) _ e2
            (fun e => rfl)]
          subst e1
          exact h

/-- Where `DeletePageStrict` has a result, `DeletePage` has the same. -/
theorem DeletePageStrict_agrees (b : BufferPoolManager) (p : Int)
    (r : Bool × BufferPoolManager) (h : b.DeletePageStrict p = some r) :
    b.DeletePage p = some r := by
  unfold BufferPoolManager.DeletePageStrict at h
  unfold BufferPoolManager.DeletePage
  cases hl : b.page_table_.lookup p with
  | none =>
    rw [hl] at h
    exact h
  | some f =>
    rw [hl] at h
    simp only [] at h ⊢
    cases hi : findPage b.pages_ p with
    | none =>
      rw [hi] at h
      cases h
    | some i =>
      rw [hi] at h
      simp only [] at h ⊢
      cases hpg : b.pages_[i]? with
      | none =>
        rw [hpg] at h
        cases h
      | some pg =>
        rw [hpg] at h
        simp only [] at h ⊢
        by_cases hpin : (pg.pin_count_ != 0) = true
        · rw [if_pos hpin] at h ⊢
          exact h
        · rw [if_neg hpin] at h ⊢
          cases hE : eraseLoop (fun e => e.2 == f) b.page_table_ with
          | none =>
            rw [hE] at h
            cases h
          | some table =>
            rw [hE] at h
            obtain ⟨e1, e2⟩ := eraseLoop_some _ _ _ hE
            rw [filter_eq_of_all_false (fun e => e.2 == f) (fun e => e.2 != f) _ e2
              (fun e => rfl)]
            subst e1
            exact h

/-- Where `stepStrict` has a result, `step` has the same. -/
theorem stepStrict_agrees (b : BufferPoolManager) (g : PoolGhost) (op : PoolOp)
    (r : BufferPoolManager × PoolGhost) (h : b.stepStrict g op = some r) :
    b.step g op = some r := by
  cases op with
  | NewPage =>
    simp only [BufferPoolManager.stepStrict] at h
    simp only [BufferPoolManager.step]
    cases hc : b.NewPageStrict INVALID_PAGE_ID with
    | none =>
      rw [hc] at h
      cases h
    | some x =>
      rw [hc] at h
      rw [NewPageStrict_agrees b _ x hc]
      exact h
  | FetchPage p =>
    simp only [BufferPoolManager.stepStrict] at h
    simp only [BufferPoolManager.step]
    cases hc : b.FetchPageStrict p with
    | none =>
      rw [hc] at h
      cases h
    | some x =>
      rw [hc] at h
      rw [FetchPageStrict_agrees b _ x hc]
      exact h
  | UnpinPage p d => exact h
  | DeletePage p =>
    simp only [BufferPoolManager.stepStrict] at h
    simp only [BufferPoolManager.step]
    cases hc : b.DeletePageStrict p with
    | none =>
      rw [hc] at h
      cases h
    | some x =>
      rw [hc] at h
      rw [DeletePageStrict_agrees b _ x hc]
      exact h
  | FlushPage p => exact h

/-- A run as C++ defines it is a run of `run`, with the same validity of the page ids. -/
theorem runStrict_agrees (ops : List PoolOp) :
    ∀ (b : BufferPoolManager) (g : PoolGhost) (r : BufferPoolManager × PoolGhost),
      b.runStrict g ops = some r →
      b.run g ops = some r ∧ (b.validOpsStrict g ops = true → b.validOps g ops = true) := by
  induction ops with
  | nil =>
    intro b g r h
    exact ⟨h, fun _ => rfl⟩
  | cons op rest ih =>
    intro b g r h
    unfold BufferPoolManager.runStrict at h
    cases hs : b.stepStrict g op with
    | none =>
      rw [hs] at h
      cases h
    | some x =>
      obtain ⟨b1, g1⟩ := x
      rw [hs] at h
      have hl := stepStrict_agrees b g op _ hs
      obtain ⟨i1, i2⟩ := ih b1 g1 r h
      refine ⟨?_, ?_⟩
      · unfold BufferPoolManager.run
        rw [hl]
        exact i1
      · intro hv
        unfold BufferPoolManager.validOpsStrict at hv
        unfold BufferPoolManager.validOps
        rw [hs] at hv
        rw [hl]
        simp only [Bool.and_eq_true] at hv ⊢
        exact ⟨hv.1, i2 hv.2⟩

/-- The replacer and the frame ids after a run that stays within the defined behaviour of
the program: after every sequence of `NewPage`, `FetchPage`, `UnpinPage`, `DeletePage` and
`FlushPage` calls with valid page ids on a fresh buffer pool that runs to its end with
`runStrict`, the replacer holds exactly the frame ids that the page table assigns to resident
pages with pin count 0 (each once), and the free list followed by the frame ids of the page
table is a rearrangement of `0 .. pool_size - 1`. -/
theorem replacer_and_frames_in_defined_runs (pool_size : Nat) (disk : DiskManager)
    (ops : List PoolOp) (b : BufferPoolManager) (g : PoolGhost)
    (hv : (BufferPoolManager.create pool_size disk).validOpsStrict PoolGhost.empty ops = true)
    (hrun : (BufferPoolManager.create pool_size disk).runStrict PoolGhost.empty ops =
      some (b, g)) :
    (∀ f : Int, f ∈ b.replacer_.lru_list_ ↔
      ∃ p : Int, b.page_table_.lookup p = some f ∧ b.isZero p = true) ∧
    b.replacer_.lru_list_.Nodup ∧
    List.Perm (b.free_list_ ++ b.page_table_.map Prod.snd)
      ((List.range pool_size).map (fun (i : Nat) => (i : Int))) := by
  obtain ⟨hrun', hv'⟩ := runStrict_agrees ops _ _ _ hrun
  obtain ⟨h, hs⟩ := PoolInv.reach pool_size disk ops b g (hv' hv) hrun'
  refine ⟨?_, h.lruNodup, ?_⟩
  · intro f
    rw [h.lru, List.mem_map]
    constructor
    · rintro ⟨p, hp, hpf⟩
      have hz := (h.unpinnedMem p).mp hp
      obtain ⟨v, hv'⟩ := Option.isSome_iff_exists.mp (isZero_resident b p hz)
      rw [hv'] at hpf
      exact ⟨p, by rw [hv']; exact congrArg some hpf, hz⟩
    · rintro ⟨p, hp, hz⟩
      exact ⟨p, (h.unpinnedMem p).mpr hz, by rw [hp]; rfl⟩
  · have := h.core.labels
    rw [hs] at this
    exact this

/-- C15 does not hold on the code, by a defect of the code: a sequence with a `DeletePage`
that deletes, or with a `NewPage` or `FetchPage` that reuses a frame, has no state after it.
On a pool of one frame, `NewPage` and `UnpinPage(0)` leave page 0 in frame 0 with pin count
0, frame 0 in the replacer and the free list empty; `DeletePage(0)` then erases the entry of
page 0 inside its loop over the page table and increments the erased iterator
(buffer_pool_manager.cpp:156-160), and a `NewPage` in its place does the same
(buffer_pool_manager.cpp:116-120): the runs have no result. Read as the removal it is
written to perform, `DeletePage(0)` leaves the replacer empty, frame 0 in the free list and
the page table empty, as the claim says. In every run that stays within the defined
behaviour the statement of the claim holds; such a run over all five calls, on a pool of
three frames, leaves the frames 0 and 1 in the replacer and frame 2 free. -/
theorem replacer_and_frames_lost_at_page_table_erase :
    ((BufferPoolManager.create 1 DiskManager.blank).runStrict PoolGhost.empty
      [PoolOp.NewPage, PoolOp.UnpinPage 0 false]).map (fun x =>
        (x.1.replacer_.lru_list_, x.1.free_list_, x.1.page_table_)) =
      some ([0], [], [(0, 0)]) ∧
    ((BufferPoolManager.create 1 DiskManager.blank).runStrict PoolGhost.empty
      [PoolOp.NewPage, PoolOp.UnpinPage 0 false, PoolOp.DeletePage 0]).map (fun x =>
        x.1.page_table_) = none ∧
    ((BufferPoolManager.create 1 DiskManager.blank).runStrict PoolGhost.empty
      [PoolOp.NewPage, PoolOp.UnpinPage 0 false, PoolOp.NewPage]).map (fun x =>
        x.1.page_table_) = none ∧
    ((BufferPoolManager.create 1 DiskManager.blank).run PoolGhost.empty
      [PoolOp.NewPage, PoolOp.UnpinPage 0 false, PoolOp.DeletePage 0]).map (fun x =>
        (x.1.replacer_.lru_list_, x.1.free_list_, x.1.page_table_)) =
      some ([], [0], []) ∧
    (∀ (pool_size : Nat) (disk : DiskManager) (ops : List PoolOp) (b : BufferPoolManager)
      (g : PoolGhost),
      (BufferPoolManager.create pool_size disk).validOpsStrict PoolGhost.empty ops = true →
      (BufferPoolManager.create pool_size disk).runStrict PoolGhost.empty ops = some (b, g) →
      (∀ f : Int, f ∈ b.replacer_.lru_list_ ↔
        ∃ p : Int, b.page_table_.lookup p = some f ∧ b.isZero p = true) ∧
      b.replacer_.lru_list_.Nodup ∧
      List.Perm (b.free_list_ ++ b.page_table_.map Prod.snd)
        ((List.range pool_size).map (fun (i : Nat) => (i : Int)))) ∧
    (BufferPoolManager.create 3 DiskManager.blank).validOpsStrict PoolGhost.empty
      definedExample = true ∧
    ((BufferPoolManager.create 3 DiskManager.blank).runStrict PoolGhost.empty
      definedExample).map (fun x => (x.1.replacer_.lru_list_, x.1.free_list_,
        x.1.page_table_)) = some ([0, 1], [2], [(0, 0), (1, 1)]) := by
  exact ⟨by decide!, by decide!, by decide!, by decide!,
    replacer_and_frames_in_defined_runs, by decide!, by decide!⟩

/-- C11: in a state reached from a fresh pool by calls with valid page ids, when the free
list is empty and every frame that holds a page has pin count > 0, `FetchPage` of a page
that is not resident and `NewPage` return null and leave the whole state of the pool, the
disk manager included, as it was. -/
theorem all_pinned_returns_null (pool_size : Nat) (disk : DiskManager) (ops : List PoolOp)
    (b : BufferPoolManager) (g : PoolGhost)
    (hv : (BufferPoolManager.create pool_size disk).validOps PoolGhost.empty ops = true)
    (hrun : (BufferPoolManager.create pool_size disk).run PoolGhost.empty ops = some (b, g))
    (hF : b.free_list_ = [])
    (hpin : ∀ pg : Page, pg ∈ b.pages_ → pg.page_id_ ≠ INVALID_PAGE_ID → 0 < pg.pin_count_) :
    (∀ p : Int, b.resident p = false → b.FetchPage p = some (none, b)) ∧
    (∀ keep : Int, b.NewPage keep = some ((none, keep), b)) := by
  obtain ⟨h, _⟩ := PoolInv.reach pool_size disk ops b g hv hrun
  have hZ : g.unpinned = [] := by
    cases hz : g.unpinned with
    | nil => rfl
    | cons q rest =>
      have hq := (h.unpinnedMem q).mp (by rw [hz]; exact List.mem_cons_self _ _)
      obtain ⟨v, hv'⟩ := Option.isSome_iff_exists.mp (isZero_resident b q hq)
      obtain ⟨i, pg, hi, hpg, hid, hpo⟩ := h.core.frame_of q v hv'
      have hp := hpin pg (List.mem_iff_getElem?.mpr ⟨i, hpg⟩)
        (by rw [hid]; exact h.core.key_valid q (by rw [hv']; rfl))
      unfold BufferPoolManager.isZero at hq
      rw [hpo] at hq
      have h0 : pg.pin_count_ = 0 := by simpa using hq
      omega
  have hR : b.replacer_.lru_list_ = [] := by
    rw [h.lru, hZ]
    rfl
  refine ⟨?_, fun keep => NewPage_none b keep hF hR⟩
  intro p hp
  have hl : b.page_table_.lookup p = none := by
    unfold BufferPoolManager.resident at hp
    cases hc : b.page_table_.lookup p with
    | none => rfl
    | some v =>
      rw [hc] at hp
      cases hp
  exact FetchPage_none b p hl hF hR

/-- C11 on a pool of two frames after two `NewPage` calls: both pages are pinned. -/
theorem all_pinned_returns_null_witness :
    ∃ (b : BufferPoolManager) (g : PoolGhost),
      (BufferPoolManager.create 2 DiskManager.blank).run PoolGhost.empty
        [PoolOp.NewPage, PoolOp.NewPage] = some (b, g) ∧
      b.free_list_ = [] ∧ b.FetchPage 7 = some (none, b) ∧
      b.NewPage 5 = some ((none, 5), b) := by
  have hv : (BufferPoolManager.create 2 DiskManager.blank).validOps PoolGhost.empty
      [PoolOp.NewPage, PoolOp.NewPage] = true := by decide!
  obtain ⟨b, g, hrun, _, _⟩ := (PoolInv.create 2 DiskManager.blank).run_calls _ hv
  have e1 : ((BufferPoolManager.create 2 DiskManager.blank).run PoolGhost.empty
      [PoolOp.NewPage, PoolOp.NewPage]).map (fun x => x.1.free_list_) = some [] := by decide!
  have e2 : ((BufferPoolManager.create 2 DiskManager.blank).run PoolGhost.empty
      [PoolOp.NewPage, PoolOp.NewPage]).map (fun x => decide (∀ pg : Page, pg ∈ x.1.pages_ →
        pg.page_id_ ≠ INVALID_PAGE_ID → 0 < pg.pin_count_)) = some true := by decide!
  have e3 : ((BufferPoolManager.create 2 DiskManager.blank).run PoolGhost.empty
      [PoolOp.NewPage, PoolOp.NewPage]).map (fun x => x.1.resident 7) = some false := by
    decide!
  rw [hrun] at e1 e2 e3
  have hF : b.free_list_ = [] := Option.some.inj e1
  have hpin := of_decide_eq_true (Option.some.inj e2)
  have hres : b.resident 7 = false := Option.some.inj e3
  have := all_pinned_returns_null 2 DiskManager.blank _ b g hv hrun hF hpin
  exact ⟨b, g, hrun, hF, this.1 7 hres, this.2 5⟩

end MiniSql

namespace MiniSql

/-! ## Eviction order, write-back and `DeletePage` -/

theorem resident_eq_false (b : BufferPoolManager) (p : Int) (h : b.resident p = false) :
    b.page_table_.lookup p = none := by
  unfold BufferPoolManager.resident at h
  cases hc : b.page_table_.lookup p with
  | none => rfl
  | some v =>
    rw [hc] at h
    cases h

/-- With an empty free list and a page in `unpinned`, `NewPage` runs as described by
`PoolInv.evict` on the first page of `unpinned`. -/
theorem PoolInv.NewPage_victim {b : BufferPoolManager} {g : PoolGhost} (h : PoolInv b g)
    (hF : b.free_list_ = []) (q : Int) (rest : List Int) (hq : g.unpinned = q :: rest)
    (keep : Int) :
    ∃ (i : Nat) (pg : Page) (fv : Int) (b1 : BufferPoolManager),
      b.NewPage keep = some ((some i, b.disk_manager_.AllocatePage.1), b1) ∧
      b.frameOf q = some i ∧ b.pageOf q = some pg ∧
      b.page_table_.lookup b.disk_manager_.AllocatePage.1 = none ∧
      b1.disk_manager_ = b.disk_manager_.AllocatePage.2.afterWriteBack pg ∧
      pg.page_id_ = q ∧
      ∀ r : Int, b1.page_table_.lookup r =
        if r = b.disk_manager_.AllocatePage.1 then some fv
        else if r = q then none else b.page_table_.lookup r := by
  obtain ⟨hfresh, hp0, hbits, hpb⟩ := h.core.alloc_fresh
  have hR : b.replacer_.lru_list_ =
      (b.page_table_.lookup q).getD INVALID_FRAME_ID ::
        rest.map (fun r => (b.page_table_.lookup r).getD INVALID_FRAME_ID) := by
    rw [h.lru, hq]
    rfl
  obtain ⟨q', zrest, i, pg, hZ, hq', hi, hpg, hid, hpin, hpo, hkey, hfind, hfil, hvic, hinv⟩ :=
    h.victim hF _ _ hR
  rw [hq] at hZ
  have hqq : q = q' := (List.cons.inj hZ).1
  subst hqq
  have e := NewPage_evict h keep hF _ q i pg hq' hpg hid hfind hvic
  have hbits' : ∀ r : Int, r ≠ q → (b.page_table_.lookup r).isSome →
      getBit (b.disk_manager_.AllocatePage.2.afterWriteBack pg).bits r.toNat = true := by
    intro r _ hr
    rw [afterWriteBack_bits]
    exact hbits r hr
  have hpb' : getBit (b.disk_manager_.AllocatePage.2.afterWriteBack pg).bits
      b.disk_manager_.AllocatePage.1.toNat = true := by
    rw [afterWriteBack_bits]
    exact hpb
  obtain ⟨_, htab, _⟩ := h.evict hF q _ hq' i hi hinv _ hfresh hp0 PageData.zero _ hbits' hpb'
  refine ⟨i, pg, _, _, e, ?_, hpo, hfresh, rfl, hid, htab⟩
  unfold BufferPoolManager.frameOf
  rw [hq']
  exact hi

/-- With an empty free list and a page in `unpinned`, `FetchPage` of a page that is not
resident runs as described by `PoolInv.evict` on the first page of `unpinned`. -/
theorem PoolInv.FetchPage_victim {b : BufferPoolManager} {g : PoolGhost} (h : PoolInv b g)
    (hF : b.free_list_ = []) (q : Int) (rest : List Int) (hq : g.unpinned = q :: rest)
    (p : Int) (hp0 : 0 ≤ p) (hpb : getBit b.disk_manager_.bits p.toNat = true)
    (hl : b.page_table_.lookup p = none) :
    ∃ (i : Nat) (pg : Page) (fv : Int) (b1 : BufferPoolManager),
      b.FetchPage p = some (some i, b1) ∧
      b.frameOf q = some i ∧ b.pageOf q = some pg ∧
      b1.disk_manager_ = b.disk_manager_.afterWriteBack pg ∧
      pg.page_id_ = q ∧
      ∀ r : Int, b1.page_table_.lookup r =
        if r = p then some fv else if r = q then none else b.page_table_.lookup r := by
  have hbits : ∀ r : Int, (b.page_table_.lookup r).isSome →
      getBit b.disk_manager_.bits r.toNat = true := fun r hr => (h.core.bits r hr).2
  have hR : b.replacer_.lru_list_ =
      (b.page_table_.lookup q).getD INVALID_FRAME_ID ::
        rest.map (fun r => (b.page_table_.lookup r).getD INVALID_FRAME_ID) := by
    rw [h.lru, hq]
    rfl
  obtain ⟨q', zrest, i, pg, hZ, hq', hi, hpg, hid, hpin, hpo, hkey, hfind, hfil, hvic, hinv⟩ :=
    h.victim hF _ _ hR
  rw [hq] at hZ
  have hqq : q = q' := (List.cons.inj hZ).1
  subst hqq
  have e := FetchPage_evict h p hl hF _ hp0 q i pg hq' hi hpg hid hkey hfil hvic
  have hbits' : ∀ r : Int, r ≠ q → (b.page_table_.lookup r).isSome →
      getBit (b.disk_manager_.afterWriteBack pg).bits r.toNat = true := by
    intro r _ hr
    rw [afterWriteBack_bits]
    exact hbits r hr
  have hpb' : getBit (b.disk_manager_.afterWriteBack pg).bits p.toNat = true := by
    rw [afterWriteBack_bits]
    exact hpb
  obtain ⟨_, htab, _⟩ := h.evict hF q _ hq' i hi hinv p hl hp0
    (((b.disk_manager_.afterWriteBack pg).file.lookup p).getD PageData.zero) _ hbits' hpb'
  refine ⟨i, pg, _, _, e, ?_, hpo, rfl, hid, htab⟩
  unfold BufferPoolManager.frameOf
  rw [hq']
  exact hi

theorem resident_after_evict (b b1 : BufferPoolManager) (p q fv : Int)
    (hp : b.page_table_.lookup p = none) (hq : (b.page_table_.lookup q).isSome)
    (htab : ∀ r : Int, b1.page_table_.lookup r =
      if r = p then some fv else if r = q then none else b.page_table_.lookup r) :
    b1.resident q = false ∧
    ∀ r : Int, b1.resident r = true ↔ (r = p ∨ (r ≠ q ∧ b.resident r = true)) := by
  have hqp : q ≠ p := by
    intro he
    rw [he, hp] at hq
    cases hq
  constructor
  · unfold BufferPoolManager.resident
    rw [htab, if_neg hqp, if_pos rfl]
    rfl
  · intro r
    unfold BufferPoolManager.resident
    rw [htab]
    by_cases hrp : r = p
    · rw [if_pos hrp]
      exact ⟨fun _ => Or.inl hrp, fun _ => rfl⟩
    · rw [if_neg hrp]
      by_cases hrq : r = q
      · rw [if_pos hrq]
        constructor
        · intro hh
          cases hh
        · rintro (h1 | h1)
          · exact absurd h1 hrp
          · exact absurd hrq h1.1
      · rw [if_neg hrq]
        constructor
        · intro hh
          exact Or.inr ⟨hrq, hh⟩
        · rintro (h1 | h1)
          · exact absurd h1 hrp
          · exact h1.2

/-- With the erase loops read as the removal of the entries they are written to erase: in a
state reached from a fresh pool by calls with valid page ids, `unpinned`
lists the resident pages with pin count 0 in the order in which their pin count dropped to
0. When the free list is empty and `q` is the first of them, `NewPage` and `FetchPage` of a
page that is not resident return a frame, `q` is no longer resident, and the resident pages
are then the new page and every page but `q` that was resident. -/
theorem eviction_as_written_takes_least_recently_unpinned (pool_size : Nat)
    (disk : DiskManager)
    (ops : List PoolOp) (b : BufferPoolManager) (g : PoolGhost)
    (hv : (BufferPoolManager.create pool_size disk).validOps PoolGhost.empty ops = true)
    (hrun : (BufferPoolManager.create pool_size disk).run PoolGhost.empty ops = some (b, g))
    (hF : b.free_list_ = []) (q : Int) (rest : List Int) (hq : g.unpinned = q :: rest) :
    (∀ r : Int, r ∈ g.unpinned ↔ b.isZero r = true) ∧
    (∀ keep : Int, ∃ (i : Nat) (page_id : Int) (b1 : BufferPoolManager),
      b.NewPage keep = some ((some i, page_id), b1) ∧ b1.resident q = false ∧
      ∀ r : Int, b1.resident r = true ↔ (r = page_id ∨ (r ≠ q ∧ b.resident r = true))) ∧
    (∀ p : Int, 0 ≤ p → getBit b.disk_manager_.bits p.toNat = true → b.resident p = false →
      ∃ (i : Nat) (b1 : BufferPoolManager),
        b.FetchPage p = some (some i, b1) ∧ b1.resident q = false ∧
        ∀ r : Int, b1.resident r = true ↔ (r = p ∨ (r ≠ q ∧ b.resident r = true))) := by
  obtain ⟨h, _⟩ := PoolInv.reach pool_size disk ops b g hv hrun
  have hqres : (b.page_table_.lookup q).isSome :=
    isZero_resident b q ((h.unpinnedMem q).mp (by rw [hq]; exact List.mem_cons_self _ _))
  refine ⟨h.unpinnedMem, ?_, ?_⟩
  · intro keep
    obtain ⟨i, pg, fv, b1, e, _, _, hfresh, _, _, htab⟩ := h.NewPage_victim hF q rest hq keep
    obtain ⟨r1, r2⟩ := resident_after_evict b b1 _ q fv hfresh hqres htab
    exact ⟨i, _, b1, e, r1, r2⟩
  · intro p hp0 hpb hres
    have hl := resident_eq_false b p hres
    obtain ⟨i, pg, fv, b1, e, _, _, _, _, htab⟩ :=
      h.FetchPage_victim hF q rest hq p hp0 hpb hl
    obtain ⟨r1, r2⟩ := resident_after_evict b b1 p q fv hl hqres htab
    exact ⟨i, b1, e, r1, r2⟩

/-- With the erase loops read as the removal of the entries they are written to erase: in a
state reached from a fresh pool by calls with valid page ids, `dirtied` holds
the resident pages that were unpinned with `is_dirty = true` since they were loaded or
created. When `NewPage` or `FetchPage` of a page that is not resident reuses the frame of
the page `q` (the free list is empty and `q` is the first page of `unpinned`), the file
gains exactly one write, the bytes of `q` under the page id `q`, if `q` is in `dirtied`,
and is unchanged otherwise. -/
theorem write_back_as_written_iff_unpinned_dirty (pool_size : Nat) (disk : DiskManager)
    (ops : List PoolOp) (b : BufferPoolManager) (g : PoolGhost)
    (hv : (BufferPoolManager.create pool_size disk).validOps PoolGhost.empty ops = true)
    (hrun : (BufferPoolManager.create pool_size disk).run PoolGhost.empty ops = some (b, g))
    (hF : b.free_list_ = []) (q : Int) (rest : List Int) (hq : g.unpinned = q :: rest)
    (pg : Page) (hpg : b.pageOf q = some pg) :
    (∀ keep : Int, ∃ (i : Nat) (page_id : Int) (b1 : BufferPoolManager),
      b.NewPage keep = some ((some i, page_id), b1) ∧ b.frameOf q = some i ∧
      b1.resident q = false ∧
      b1.disk_manager_.file =
        if q ∈ g.dirtied then (q, pg.data_) :: b.disk_manager_.file
        else b.disk_manager_.file) ∧
    (∀ p : Int, 0 ≤ p → getBit b.disk_manager_.bits p.toNat = true → b.resident p = false →
      ∃ (i : Nat) (b1 : BufferPoolManager),
        b.FetchPage p = some (some i, b1) ∧ b.frameOf q = some i ∧
        b1.resident q = false ∧
        b1.disk_manager_.file =
          if q ∈ g.dirtied then (q, pg.data_) :: b.disk_manager_.file
          else b.disk_manager_.file) := by
  obtain ⟨h, _⟩ := PoolInv.reach pool_size disk ops b g hv hrun
  have hqres : (b.page_table_.lookup q).isSome :=
    isZero_resident b q ((h.unpinnedMem q).mp (by rw [hq]; exact List.mem_cons_self _ _))
  have hd := h.dirtiedMem q pg hpg
  refine ⟨?_, ?_⟩
  · intro keep
    obtain ⟨i, pg', fv, b1, e, hfr, hpo, hfresh, hdisk, hid, htab⟩ :=
      h.NewPage_victim hF q rest hq keep
    rw [hpg] at hpo
    cases hpo
    obtain ⟨r1, _⟩ := resident_after_evict b b1 _ q fv hfresh hqres htab
    refine ⟨i, _, b1, e, hfr, r1, ?_⟩
    rw [hdisk]
    unfold DiskManager.afterWriteBack
    by_cases hdq : q ∈ g.dirtied
    · rw [if_pos hdq, if_pos (hd.mpr hdq), hid]
      rfl
    · have : ¬ (pg.is_dirty_ = true) := fun hh => hdq (hd.mp hh)
      rw [if_neg hdq, if_neg this]
      rfl
  · intro p hp0 hpb hres
    have hl := resident_eq_false b p hres
    obtain ⟨i, pg', fv, b1, e, hfr, hpo, hdisk, hid, htab⟩ :=
      h.FetchPage_victim hF q rest hq p hp0 hpb hl
    rw [hpg] at hpo
    cases hpo
    obtain ⟨r1, _⟩ := resident_after_evict b b1 p q fv hl hqres htab
    refine ⟨i, b1, e, hfr, r1, ?_⟩
    rw [hdisk]
    unfold DiskManager.afterWriteBack
    by_cases hdq : q ∈ g.dirtied
    · rw [if_pos hdq, if_pos (hd.mpr hdq), hid]
    · have : ¬ (pg.is_dirty_ = true) := fun hh => hdq (hd.mp hh)
      rw [if_neg hdq, if_neg this]

/-- With the erase loop read as the removal of the entries it is written to erase: in a
state reached from a fresh pool by calls with valid page ids,
`DeletePage(page_id)` returns true and changes nothing when the page is not resident;
returns false and changes nothing when the page is resident with pin count > 0; and
otherwise returns true, after which the page is not in the page table, its frame id is in
the free list and not in the replacer, its frame has page id `INVALID_PAGE_ID` and dirty
flag false, and the disk manager is the one after `DeAllocatePage(page_id)`. -/
theorem DeletePage_as_written_contract (pool_size : Nat) (disk : DiskManager)
    (ops : List PoolOp) (b : BufferPoolManager) (g : PoolGhost)
    (hv : (BufferPoolManager.create pool_size disk).validOps PoolGhost.empty ops = true)
    (hrun : (BufferPoolManager.create pool_size disk).run PoolGhost.empty ops = some (b, g))
    (page_id : Int) :
    (b.resident page_id = false → b.DeletePage page_id = some (true, b)) ∧
    (∀ pg : Page, b.pageOf page_id = some pg → 0 < pg.pin_count_ →
      b.DeletePage page_id = some (false, b)) ∧
    (∀ (pg : Page) (frame_id : Int), b.pageOf page_id = some pg →
      b.page_table_.lookup page_id = some frame_id → ¬ 0 < pg.pin_count_ →
      ∃ (i : Nat) (b1 : BufferPoolManager),
        b.frameOf page_id = some i ∧ b.DeletePage page_id = some (true, b1) ∧
        b1.resident page_id = false ∧ frame_id ∈ b1.free_list_ ∧
        frame_id ∉ b1.replacer_.lru_list_ ∧
        (b1.pages_[i]?).map (fun x => (x.page_id_, x.is_dirty_)) =
          some (INVALID_PAGE_ID, false) ∧
        b1.disk_manager_ = b.disk_manager_.DeAllocatePage page_id) := by
  obtain ⟨h, _⟩ := PoolInv.reach pool_size disk ops b g hv hrun
  refine ⟨?_, ?_, ?_⟩
  · intro hres
    exact DeletePage_absent b page_id (resident_eq_false b page_id hres)
  · intro pg hpg hpin
    obtain ⟨f, hf⟩ := Option.isSome_iff_exists.mp (pageOf_resident b page_id pg hpg)
    obtain ⟨i, pg', hi, hpg', _, hpo⟩ := h.core.frame_of page_id f hf
    rw [hpg] at hpo
    cases hpo
    exact DeletePage_pinned b page_id f i pg hf hi hpg' (by omega)
  · intro pg f hpg hf hpin
    obtain ⟨i, pg', hi, hpg', _, hpo⟩ := h.core.frame_of page_id f hf
    rw [hpg] at hpo
    cases hpo
    have h0 : pg.pin_count_ = 0 := by
      have := h.core.pins i pg hpg'
      omega
    have e := DeletePage_unpinned b page_id f i pg hf hi hpg' h0
    refine ⟨i, _, ?_, e, ?_, ?_, ?_, ?_, rfl⟩
    · unfold BufferPoolManager.frameOf
      rw [hf]
      exact hi
    · unfold BufferPoolManager.resident
      show ((b.page_table_.filter (fun e => e.2 != f)).lookup page_id).isSome = false
      rw [lookup_filter_val _ h.core.keysNodup h.core.valsNodup page_id f hf, if_pos rfl]
      rfl
    · show f ∈ b.free_list_ ++ [f]
      exact List.mem_append_right _ (List.mem_singleton.mpr rfl)
    · show f ∉ (b.replacer_.Pin f).lru_list_
      rw [Pin_list]
      intro hm
      exact ((h.lruNodup.mem_erase_iff).mp hm).1 rfl
    · show ((modifyPage b.pages_ i _)[i]?).map _ = _
      rw [modifyPage_get, if_pos rfl, hpg']
      rfl

/-! ## The erase loops as C++ defines them: eviction and deletion have no result -/

/-- A state reached by a run with defined behaviour satisfies the pool invariant. -/
theorem PoolInv.reachStrict (pool_size : Nat) (disk : DiskManager) (ops : List PoolOp)
    (b : BufferPoolManager) (g : PoolGhost)
    (hv : (BufferPoolManager.create pool_size disk).validOpsStrict PoolGhost.empty ops = true)
    (hrun : (BufferPoolManager.create pool_size disk).runStrict PoolGhost.empty ops =
      some (b, g)) : PoolInv b g := by
  obtain ⟨h1, h2⟩ := runStrict_agrees ops _ _ _ hrun
  exact (PoolInv.reach pool_size disk ops b g (h2 hv) h1).1

/-- With an empty free list and a frame in the replacer, the erase loop of `NewPage` erases
the entry of the victim. -/
theorem PoolInv.NewPageStrict_evict {b : BufferPoolManager} {g : PoolGhost} (h : PoolInv b g)
    (hF : b.free_list_ = []) (hR : b.replacer_.lru_list_ ≠ []) (keep : Int) :
    b.NewPageStrict keep = none := by
  cases hlru : b.replacer_.lru_list_ with
  | nil => exact absurd hlru hR
  | cons fv rrest =>
    obtain ⟨q, _, _, _, _, hq, _, _, _, _, _, _, _, _, hvic, _⟩ := h.victim hF fv rrest hlru
    unfold BufferPoolManager.NewPageStrict
    simp only [hF, hvic]
    rw [eraseLoop_none_of_mem (fun e => e.2 == fv) b.page_table_ (q, fv)
      (mem_of_lookup _ _ _ hq) (beq_self_eq_true fv)]

/-- With an empty free list and a frame in the replacer, the erase loop of `FetchPage` of a
page that is not resident erases the entry of the victim. -/
theorem PoolInv.FetchPageStrict_evict {b : BufferPoolManager} {g : PoolGhost}
    (h : PoolInv b g) (hF : b.free_list_ = []) (hR : b.replacer_.lru_list_ ≠ []) (p : Int)
    (hl : b.page_table_.lookup p = none) : b.FetchPageStrict p = none := by
  cases hlru : b.replacer_.lru_list_ with
  | nil => exact absurd hlru hR
  | cons fv rrest =>
    obtain ⟨q, _, _, _, _, hq, _, _, _, _, _, hkey, _, _, hvic, _⟩ :=
      h.victim hF fv rrest hlru
    unfold BufferPoolManager.FetchPageStrict
    simp only [hl, hF, hvic, hkey]
    rw [eraseLoop_none_of_mem (fun e => e.1 == q) b.page_table_ (q, fv)
      (mem_of_lookup _ _ _ hq) (beq_self_eq_true q)]

/-- A `NewPage` with defined behaviour that returns a frame took it from the free list and
wrote nothing to the file. -/
theorem PoolInv.NewPageStrict_frame {b : BufferPoolManager} {g : PoolGhost} (h : PoolInv b g)
    (keep : Int) (i : Nat) (page_id : Int) (b1 : BufferPoolManager)
    (e : b.NewPageStrict keep = some ((some i, page_id), b1)) :
    b.free_list_ ≠ [] ∧ b1.disk_manager_.file = b.disk_manager_.file := by
  cases hF : b.free_list_ with
  | nil =>
    by_cases hR : b.replacer_.lru_list_ = []
    · have := NewPage_none b keep hF hR
      rw [NewPageStrict_agrees b keep _ e] at this
      cases this
    · rw [h.NewPageStrict_evict hF hR keep] at e
      cases e
  | cons f rest =>
    obtain ⟨j, _, hj⟩ := NewPage_free h.core f rest hF keep
    rw [NewPageStrict_agrees b keep _ e] at hj
    cases hj
    exact ⟨by simp, rfl⟩

/-- A `FetchPage` with defined behaviour of a page that is not resident, when it returns a
frame, took it from the free list and wrote nothing to the file. -/
theorem PoolInv.FetchPageStrict_frame {b : BufferPoolManager} {g : PoolGhost}
    (h : PoolInv b g) (p : Int) (hp0 : 0 ≤ p) (hl : b.page_table_.lookup p = none) (i : Nat)
    (b1 : BufferPoolManager) (e : b.FetchPageStrict p = some (some i, b1)) :
    b.free_list_ ≠ [] ∧ b1.disk_manager_.file = b.disk_manager_.file := by
  cases hF : b.free_list_ with
  | nil =>
    by_cases hR : b.replacer_.lru_list_ = []
    · have := FetchPage_none b p hl hF hR
      rw [FetchPageStrict_agrees b p _ e] at this
      cases this
    · rw [h.FetchPageStrict_evict hF hR p hl] at e
      cases e
  | cons f rest =>
    obtain ⟨j, _, hj⟩ := FetchPage_free h.core p f rest hl hF hp0
    rw [FetchPageStrict_agrees b p _ e] at hj
    cases hj
    exact ⟨by simp, rfl⟩

theorem DeletePageStrict_absent (b : BufferPoolManager) (p : Int)
    (hl : b.page_table_.lookup p = none) : b.DeletePageStrict p = some (true, b) := by
  unfold BufferPoolManager.DeletePageStrict
  simp only [hl]

theorem DeletePageStrict_pinned (b : BufferPoolManager) (p f : Int) (i : Nat) (pg : Page)
    (hl : b.page_table_.lookup p = some f) (hi : findPage b.pages_ p = some i)
    (hpg : b.pages_[i]? = some pg) (hpin : pg.pin_count_ ≠ 0) :
    b.DeletePageStrict p = some (false, b) := by
  unfold BufferPoolManager.DeletePageStrict
  have : (pg.pin_count_ != 0) = true := bne_iff_ne.mpr hpin
  simp only [hl, hi, hpg, this, if_true]

theorem DeletePageStrict_unpinned (b : BufferPoolManager) (p f : Int) (i : Nat) (pg : Page)
    (hl : b.page_table_.lookup p = some f) (hi : findPage b.pages_ p = some i)
    (hpg : b.pages_[i]? = some pg) (hpin : pg.pin_count_ = 0) :
    b.DeletePageStrict p = none := by
  unfold BufferPoolManager.DeletePageStrict
  have : (pg.pin_count_ != 0) = false := by rw [hpin]; rfl
  simp only [hl, hi, hpg, this, Bool.false_eq_true, if_false]
  rw [eraseLoop_none_of_mem (fun e => e.2 == f) b.page_table_ (p, f)
    (mem_of_lookup _ _ _ hl) (beq_self_eq_true f)]

/-! ### Calls with defined behaviour never remove a page-table entry -/

theorem mem_tableEmplace (t : List (Int × Int)) (p f : Int) (e : Int × Int) (he : e ∈ t) :
    e ∈ tableEmplace t p f := by
  unfold tableEmplace
  cases t.lookup p with
  | some _ => exact he
  | none => exact List.mem_append_left _ he

theorem installFetched_table (b : BufferPoolManager) (p f : Int) (res : Option Nat)
    (r : Option Nat × BufferPoolManager) (h : b.installFetched p f res = some r) :
    r.2.page_table_ = tableEmplace b.page_table_ p f := by
  unfold BufferPoolManager.installFetched at h
  cases res with
  | none => cases h
  | some i =>
    simp only [Option.bind_eq_bind, Option.some_bind] at h
    cases hold : b.pages_[i]? with
    | none => rw [hold] at h; cases h
    | some old =>
      rw [hold] at h
      simp only [Option.some_bind] at h
      split at h
      · simp only [Option.bind_eq_some] at h
        obtain ⟨disk, _, data, _, e⟩ := h
        rw [← Option.some.inj e]
      · simp only [Option.some_bind, Option.bind_eq_some] at h
        obtain ⟨data, _, e⟩ := h
        rw [← Option.some.inj e]

theorem installNew_table (b : BufferPoolManager) (f : Int) (res : Option Nat)
    (r : (Option Nat × Int) × BufferPoolManager) (h : b.installNew f res = some r) :
    r.2.page_table_ = tableEmplace b.page_table_ b.disk_manager_.AllocatePage.1 f := by
  unfold BufferPoolManager.installNew at h
  cases res with
  | none => cases h
  | some i =>
    simp only [Option.bind_eq_bind, Option.some_bind] at h
    cases hold : b.pages_[i]? with
    | none => rw [hold] at h; cases h
    | some old =>
      rw [hold] at h
      simp only [Option.some_bind] at h
      split at h
      · simp only [Option.bind_eq_some] at h
        obtain ⟨disk, _, e⟩ := h
        rw [← Option.some.inj e]
      · rw [← Option.some.inj h]

theorem FetchPageStrict_table (b : BufferPoolManager) (p : Int)
    (r : Option Nat × BufferPoolManager) (h : b.FetchPageStrict p = some r) :
    ∀ e : Int × Int, e ∈ b.page_table_ → e ∈ r.2.page_table_ := by
  intro e he
  unfold BufferPoolManager.FetchPageStrict at h
  cases hl : b.page_table_.lookup p with
  | some f =>
    rw [hl] at h
    simp only [] at h
    cases hi : findPage b.pages_ p with
    | none =>
      rw [hi] at h
      cases h
    | some i =>
      rw [hi] at h
      rw [← Option.some.inj h]
      exact he
  | none =>
    rw [hl] at h
    cases hF : b.free_list_ with
    | cons f rest =>
      rw [hF] at h
      rw [installFetched_table _ _ _ _ _ h]
      exact mem_tableEmplace _ _ _ _ he
    | nil =>
      rw [hF] at h
      simp only [] at h
      cases hV : b.replacer_.Victim with
      | mk v rep =>
        rw [hV] at h
        cases v with
        | none =>
          rw [← Option.some.inj h]
          exact he
        | some fv =>
          simp only [] at h
          cases hE : eraseLoop
              (fun e => e.1 == (tableKeyOf b.page_table_ fv).getD INVALID_PAGE_ID)
              b.page_table_ with
          | none =>
            rw [hE] at h
            cases h
          | some table =>
            rw [hE] at h
            obtain ⟨e1, _⟩ := eraseLoop_some _ _ _ hE
            rw [installFetched_table _ _ _ _ _ h]
            subst e1
            exact mem_tableEmplace _ _ _ _ he

theorem NewPageStrict_table (b : BufferPoolManager) (keep : Int)
    (r : (Option Nat × Int) × BufferPoolManager) (h : b.NewPageStrict keep = some r) :
    ∀ e : Int × Int, e ∈ b.page_table_ → e ∈ r.2.page_table_ := by
  intro e he
  unfold BufferPoolManager.NewPageStrict at h
  cases hF : b.free_list_ with
  | cons f rest =>
    rw [hF] at h
    rw [installNew_table _ _ _ _ h]
    exact mem_tableEmplace _ _ _ _ he
  | nil =>
    rw [hF] at h
    simp only [] at h
    cases hV : b.replacer_.Victim with
    | mk v rep =>
      rw [hV] at h
      cases v with
      | none =>
        rw [← Option.some.inj h]
        exact he
      | some fv =>
        simp only [] at h
        cases hE : eraseLoop (fun e => e.2 == fv) b.page_table_ with
        | none =>
          rw [hE] at h
          cases h
        | some table =>
          rw [hE] at h
          obtain ⟨e1, _⟩ := eraseLoop_some _ _ _ hE
          rw [installNew_table _ _ _ _ h]
          subst e1
          exact mem_tableEmplace _ _ _ _ he

theorem DeletePageStrict_table (b : BufferPoolManager) (p : Int)
    (r : Bool × BufferPoolManager) (h : b.DeletePageStrict p = some r) :
    r.2.page_table_ = b.page_table_ := by
  unfold BufferPoolManager.DeletePageStrict at h
  cases hl : b.page_table_.lookup p with
  | none =>
    rw [hl] at h
    rw [← Option.some.inj h]
  | some f =>
    rw [hl] at h
    simp only [] at h
    cases hi : findPage b.pages_ p with
    | none =>
      rw [hi] at h
      cases h
    | some i =>
      rw [hi] at h
      simp only [] at h
      cases hp : b.pages_[i]? with
      | none =>
        rw [hp] at h
        cases h
      | some pg =>
        rw [hp] at h
        simp only [] at h
        split at h
        · rw [← Option.some.inj h]
        · cases hE : eraseLoop (fun e => e.2 == f) b.page_table_ with
          | none =>
            rw [hE] at h
            cases h
          | some table =>
            rw [hE] at h
            rw [← Option.some.inj h]
            exact (eraseLoop_some _ _ _ hE).1

theorem UnpinPage_table (b : BufferPoolManager) (p : Int) (d : Bool)
    (r : Bool × BufferPoolManager) (h : b.UnpinPage p d = some r) :
    r.2.page_table_ = b.page_table_ := by
  unfold BufferPoolManager.UnpinPage at h
  cases hl : b.page_table_.lookup p with
  | none =>
    rw [hl] at h
    rw [← Option.some.inj h]
  | some f =>
    rw [hl] at h
    simp only [] at h
    cases hi : findPage b.pages_ p with
    | none =>
      rw [hi] at h
      cases h
    | some i =>
      rw [hi] at h
      simp only [] at h
      cases hp : b.pages_[i]? with
      | none =>
        rw [hp] at h
        cases h
      | some pg =>
        rw [hp] at h
        simp only [] at h
        split at h
        · rw [← Option.some.inj h]
        · rw [← Option.some.inj h]

theorem FlushPage_table (b : BufferPoolManager) (p : Int)
    (r : Bool × BufferPoolManager) (h : b.FlushPage p = some r) :
    r.2.page_table_ = b.page_table_ := by
  unfold BufferPoolManager.FlushPage at h
  split at h
  · rw [← Option.some.inj h]
  · cases hl : b.page_table_.lookup p with
    | none =>
      rw [hl] at h
      rw [← Option.some.inj h]
    | some f =>
      rw [hl] at h
      simp only [] at h
      cases hi : findPage b.pages_ p with
      | none =>
        rw [hi] at h
        cases h
      | some i =>
        rw [hi] at h
        simp only [] at h
        cases hp : b.pages_[i]? with
        | none =>
          rw [hp] at h
          cases h
        | some pg =>
          rw [hp] at h
          simp only [] at h
          cases hw : b.disk_manager_.WritePage p pg.data_ with
          | none =>
            rw [hw] at h
            cases h
          | some disk =>
            rw [hw] at h
            rw [← Option.some.inj h]

/-- C12 does not hold on the code, by a defect of the code: the eviction of the claim has no
defined behaviour. On the example of the claim (a pool of three frames, `NewPage` gives pages
0, 1, 2, each is unpinned once, `FetchPage(0)` pins page 0 again) the run so far is defined
and leaves the free list empty, frames 1 and 2 in the replacer and the page table
`(0,0), (1,1), (2,2)`; the next `NewPage` erases the entry of page 1 inside its loop over the
page table and then increments the erased iterator (buffer_pool_manager.cpp:116-120), so
it has no result; `FetchPage(3)` has none either (buffer_pool_manager.cpp:69-73). Read as
the removal they are written to perform, the same calls evict page 1 and keep pages 0 and 2.
In general, in every state reached from a fresh pool by calls with defined behaviour and
valid page ids, if the free list is empty and the replacer holds a frame, `NewPage` and
`FetchPage` of a page that is not resident have no result. -/
theorem eviction_erases_inside_page_table_loop :
    ((BufferPoolManager.create 3 DiskManager.blank).runStrict PoolGhost.empty
        evictionExample).map (fun x =>
          (x.1.free_list_, x.1.replacer_.lru_list_, x.1.page_table_, x.2.unpinned)) =
      some ([], [1, 2], [(0, 0), (1, 1), (2, 2)], [1, 2]) ∧
    ((BufferPoolManager.create 3 DiskManager.blank).runStrict PoolGhost.empty
        evictionExample).bind (fun x =>
          (x.1.NewPageStrict INVALID_PAGE_ID).map (fun r => r.1)) = none ∧
    ((BufferPoolManager.create 3 DiskManager.blank).runStrict PoolGhost.empty
        evictionExample).bind (fun x =>
          (x.1.FetchPageStrict 3).map (fun r => r.1)) = none ∧
    ((BufferPoolManager.create 3 DiskManager.blank).runStrict PoolGhost.empty
        evictionExample).bind (fun x =>
          (x.1.NewPage INVALID_PAGE_ID).map (fun r =>
            (r.1, r.2.resident 0, r.2.resident 1, r.2.resident 2, r.2.resident 3))) =
      some ((some 1, 3), true, false, true, true) ∧
    (∀ (pool_size : Nat) (disk : DiskManager) (ops : List PoolOp) (b : BufferPoolManager)
      (g : PoolGhost),
      (BufferPoolManager.create pool_size disk).validOpsStrict PoolGhost.empty ops = true →
      (BufferPoolManager.create pool_size disk).runStrict PoolGhost.empty ops = some (b, g) →
      b.free_list_ = [] → b.replacer_.lru_list_ ≠ [] →
      (∀ keep : Int, b.NewPageStrict keep = none) ∧
      (∀ p : Int, b.resident p = false → b.FetchPageStrict p = none)) := by
  refine ⟨by decide!, by decide!, by decide!, by decide!, ?_⟩
  intro pool_size disk ops b g hv hrun hF hR
  have h := PoolInv.reachStrict pool_size disk ops b g hv hrun
  exact ⟨fun keep => h.NewPageStrict_evict hF hR keep,
    fun p hres => h.FetchPageStrict_evict hF hR p (resident_eq_false b p hres)⟩

/-- C13 does not hold on the code, by a defect of the code: no frame is reused with defined
behaviour, so the write-back of the claim is never reached. On a pool of one frame, page 0
is created, unpinned with `is_dirty = true`, fetched and unpinned with `is_dirty = false`:
the run is defined and leaves page 0 dirty with pin count 0, the free list empty and the file
without a write; the `NewPage` that would take its frame erases the entry of page 0 inside
its loop over the page table and increments the erased iterator
(buffer_pool_manager.cpp:116-120), so it has no result. Read as the removal it is written to
perform, that `NewPage` writes page 0 to the file once. In general, in every state reached
from a fresh pool by calls with defined behaviour and valid page ids, a `NewPage` or a
`FetchPage` of a page that is not resident that returns a frame took the frame from the free
list and left the file as it was. -/
theorem write_back_on_reuse_is_never_reached :
    ((BufferPoolManager.create 1 DiskManager.blank).runStrict PoolGhost.empty
        dirtyExample).map (fun x =>
          (x.1.free_list_, x.1.replacer_.lru_list_, x.1.disk_manager_.file.map Prod.fst,
            x.2.dirtied)) = some ([], [0], [], [0]) ∧
    ((BufferPoolManager.create 1 DiskManager.blank).runStrict PoolGhost.empty
        dirtyExample).bind (fun x =>
          (x.1.pageOf 0).map (fun pg => (pg.is_dirty_, pg.pin_count_))) = some (true, 0) ∧
    ((BufferPoolManager.create 1 DiskManager.blank).runStrict PoolGhost.empty
        dirtyExample).bind (fun x =>
          (x.1.NewPageStrict INVALID_PAGE_ID).map (fun r => r.1)) = none ∧
    ((BufferPoolManager.create 1 DiskManager.blank).runStrict PoolGhost.empty
        dirtyExample).bind (fun x =>
          (x.1.NewPage INVALID_PAGE_ID).map (fun r =>
            (r.1, r.2.resident 0, r.2.disk_manager_.file.map Prod.fst))) =
      some ((some 0, 1), false, [0]) ∧
    (∀ (pool_size : Nat) (disk : DiskManager) (ops : List PoolOp) (b : BufferPoolManager)
      (g : PoolGhost),
      (BufferPoolManager.create pool_size disk).validOpsStrict PoolGhost.empty ops = true →
      (BufferPoolManager.create pool_size disk).runStrict PoolGhost.empty ops = some (b, g) →
      (∀ (keep : Int) (i : Nat) (page_id : Int) (b1 : BufferPoolManager),
        b.NewPageStrict keep = some ((some i, page_id), b1) →
        b.free_list_ ≠ [] ∧ b1.disk_manager_.file = b.disk_manager_.file) ∧
      (∀ (p : Int) (i : Nat) (b1 : BufferPoolManager), 0 ≤ p → b.resident p = false →
        b.FetchPageStrict p = some (some i, b1) →
        b.free_list_ ≠ [] ∧ b1.disk_manager_.file = b.disk_manager_.file)) := by
  refine ⟨by decide!, by decide!, by decide!, by decide!, ?_⟩
  intro pool_size disk ops b g hv hrun
  have h := PoolInv.reachStrict pool_size disk ops b g hv hrun
  exact ⟨fun keep i page_id b1 e => h.NewPageStrict_frame keep i page_id b1 e,
    fun p i b1 hp0 hres e => h.FetchPageStrict_frame p hp0 (resident_eq_false b p hres) i b1 e⟩

/-- C14 does not hold on the code, by a defect of the code: the third case of the claim has
no defined behaviour. In every state reached from a fresh pool by calls with defined
behaviour and valid page ids, `DeletePage(page_id)` returns true and changes nothing when the
page is not resident, returns false and changes nothing when the page is resident with pin
count > 0, and has no result when the page is resident with pin count 0: its loop over the
page table erases the entry of the page and then increments the erased iterator
(buffer_pool_manager.cpp:156-160). On a pool of two frames holding page 0 with pin count 0
and page 1 with pin count 1: `DeletePage(5)` returns true, `DeletePage(1)` returns false,
`DeletePage(0)` has no result; read as the removal it is written to perform, `DeletePage(0)`
returns true and page 0 is no longer resident. -/
theorem DeletePage_erases_inside_page_table_loop :
    (∀ (pool_size : Nat) (disk : DiskManager) (ops : List PoolOp) (b : BufferPoolManager)
      (g : PoolGhost) (page_id : Int),
      (BufferPoolManager.create pool_size disk).validOpsStrict PoolGhost.empty ops = true →
      (BufferPoolManager.create pool_size disk).runStrict PoolGhost.empty ops = some (b, g) →
      (b.resident page_id = false → b.DeletePageStrict page_id = some (true, b)) ∧
      (∀ pg : Page, b.pageOf page_id = some pg → 0 < pg.pin_count_ →
        b.DeletePageStrict page_id = some (false, b)) ∧
      (∀ pg : Page, b.pageOf page_id = some pg → ¬ 0 < pg.pin_count_ →
        b.DeletePageStrict page_id = none)) ∧
    ((BufferPoolManager.create 2 DiskManager.blank).runStrict PoolGhost.empty
        [PoolOp.NewPage, PoolOp.NewPage, PoolOp.UnpinPage 0 true]).map (fun x =>
          ((x.1.pageOf 0).map (fun pg => pg.pin_count_),
            (x.1.pageOf 1).map (fun pg => pg.pin_count_), x.1.resident 5)) =
      some (some 0, some 1, false) ∧
    ((BufferPoolManager.create 2 DiskManager.blank).runStrict PoolGhost.empty
        [PoolOp.NewPage, PoolOp.NewPage, PoolOp.UnpinPage 0 true]).map (fun x =>
          ((x.1.DeletePageStrict 5).map (fun r => r.1),
            (x.1.DeletePageStrict 1).map (fun r => r.1),
            (x.1.DeletePageStrict 0).map (fun r => r.1))) =
      some (some true, some false, none) ∧
    ((BufferPoolManager.create 2 DiskManager.blank).runStrict PoolGhost.empty
        [PoolOp.NewPage, PoolOp.NewPage, PoolOp.UnpinPage 0 true]).bind (fun x =>
          (x.1.DeletePage 0).map (fun r => (r.1, r.2.resident 0))) = some (true, false) := by
  refine ⟨?_, by decide!, by decide!, by decide!⟩
  intro pool_size disk ops b g page_id hv hrun
  have h := PoolInv.reachStrict pool_size disk ops b g hv hrun
  refine ⟨?_, ?_, ?_⟩
  · intro hres
    exact DeletePageStrict_absent b page_id (resident_eq_false b page_id hres)
  · intro pg hpg hpin
    obtain ⟨f, hf⟩ := Option.isSome_iff_exists.mp (pageOf_resident b page_id pg hpg)
    obtain ⟨i, pg', hi, hpg', _, hpo⟩ := h.core.frame_of page_id f hf
    rw [hpg] at hpo
    cases hpo
    exact DeletePageStrict_pinned b page_id f i pg hf hi hpg' (by omega)
  · intro pg hpg hpin
    obtain ⟨f, hf⟩ := Option.isSome_iff_exists.mp (pageOf_resident b page_id pg hpg)
    obtain ⟨i, pg', hi, hpg', _, hpo⟩ := h.core.frame_of page_id f hf
    rw [hpg] at hpo
    cases hpo
    have h0 : pg.pin_count_ = 0 := by
      have := h.core.pins i pg hpg'
      omega
    exact DeletePageStrict_unpinned b page_id f i pg hf hi hpg' h0

end MiniSql

namespace MiniSql

/-! ## `num_extents_` after an allocation from an existing extent (C21) -/

/-- C21 (evaluation at the failing input): with pages of 16 bytes an extent has 64 data
pages. After 65 calls of `AllocatePage` on an empty database file `num_extents_` is 2; after
`DeAllocatePage(0)` the next `AllocatePage` returns page 0, taken from extent 0, and leaves
`num_extents_` at 1, not at max(2, 0 + 1) = 2. What follows from it, with pages of 20 bytes
(96 data pages to the extent, room for three extents): after 193 allocations,
`DeAllocatePage(0)` and one more allocation, `num_extents_` is 1 and the next `AllocatePage`
returns `INVALID_PAGE_ID` although page 193, in the third extent, is free. -/
theorem num_extents_shrinks_after_allocation_from_earlier_extent :
    (diskAfter 16 (allocateTimes 65)).map (fun d => d.meta_data_.num_extents_) = some 2 ∧
    (diskAfter 16 (allocateTimes 65 ++ [DiskOp.deallocate 0])).map
      (fun d => d.meta_data_.num_extents_) = some 2 ∧
    ((diskAfter 16 (allocateTimes 65 ++ [DiskOp.deallocate 0])).bind
      (fun d => d.AllocatePage 16)).map (fun r => (r.1, r.2.meta_data_.num_extents_))
      = some (0, 1) ∧
    ((diskAfter 20 (allocateTimes 193 ++ [DiskOp.deallocate 0, DiskOp.allocate])).bind
      (fun d => d.AllocatePage 20)).map
      (fun r => (r.1, r.2.meta_data_.num_extents_, r.2.IsPageFree 20 193))
      = some (INVALID_PAGE_ID, 1, some true) := by
  decide!

/-! ## `DeAllocatePage` of a free page (C22) -/

/-- C22 (evaluation at the failing input): on an empty database file, where the bit of page
0 is free, `DeAllocatePage(0)` leaves the bitmap as it is and decrements both counters:
`num_allocated_pages_` and `extent_used_page_[0]` wrap from 0 to 4294967295. -/
theorem DeAllocatePage_of_free_page_decrements_counters :
    ExtentDisk.empty.IsPageFree 4096 0 = some true ∧
    (ExtentDisk.empty.DeAllocatePage 4096 0).map
      (fun d => (d.meta_data_.num_allocated_pages_, d.meta_data_.used 0, d.IsPageFree 4096 0))
      = some (4294967295, 4294967295, some true) := by
  decide!

end MiniSql

namespace MiniSql

/-! ## The replacer under any sequence of calls (C24) -/

theorem Unpin_present (r : LRUReplacer) (f : Int) (hf : f ∈ r.lru_list_) :
    (r.Unpin f).lru_list_ = r.lru_list_.erase f ++ [f] := by
  unfold LRUReplacer.Unpin
  simp only
  have h0 : (r.lru_list_.length == 0) = false := by
    have := List.length_pos_of_mem hf
    have : r.lru_list_.length ≠ 0 := by omega
    simpa using this
  have hc : r.lru_list_.contains f = true := by simpa using hf
  rw [h0, hc]
  rfl

theorem Unpin_absent (r : LRUReplacer) (f : Int) (hf : f ∉ r.lru_list_) :
    (r.Unpin f).lru_list_ =
      (if r.lru_list_.length = r.max_num_pages then r.lru_list_.tail else r.lru_list_) ++ [f] := by
  unfold LRUReplacer.Unpin
  simp only
  by_cases h0 : r.lru_list_.length = 0
  · have hnil : r.lru_list_ = [] := List.length_eq_zero.mp h0
    have : (r.lru_list_.length == 0) = true := by simpa using h0
    rw [if_pos this, hnil]
    split <;> rfl
  · have : (r.lru_list_.length == 0) = false := by simpa using h0
    rw [this]
    have hc : r.lru_list_.contains f = false := by simpa using hf
    have hlast : (r.lru_list_.getLast? != some f) = true := by
      cases hg : r.lru_list_.getLast? with
      | none => rfl
      | some x =>
        have hx : x ≠ f := by
          intro hxf
          subst hxf
          exact hf (List.mem_of_getLast?_eq_some hg)
        simpa using hx
    rw [hc, hlast]
    by_cases hm : r.lru_list_.length = r.max_num_pages
    · have : (r.lru_list_.length == r.max_num_pages) = true := by simpa using hm
      rw [if_pos hm]
      simp [this]
    · have : (r.lru_list_.length == r.max_num_pages) = false := by simpa using hm
      rw [if_neg hm]
      simp [this]

theorem Victim_list (r : LRUReplacer) : (r.Victim).2.lru_list_ = r.lru_list_.tail := by
  obtain ⟨l, m⟩ := r
  cases l <;> rfl

theorem Victim_max (r : LRUReplacer) : (r.Victim).2.max_num_pages = r.max_num_pages := by
  obtain ⟨l, m⟩ := r
  cases l <;> rfl

theorem Victim_result (r : LRUReplacer) : (r.Victim).1 = r.lru_list_.head? := by
  obtain ⟨l, m⟩ := r
  cases l <;> rfl

theorem call_max (r : LRUReplacer) (op : ReplacerOp) :
    (r.call op).2.max_num_pages = r.max_num_pages := by
  cases op with
  | Pin f => exact Pin_max r f
  | Unpin f => exact Unpin_max r f
  | Victim => exact Victim_max r

/-- One call keeps the list free of duplicates and within the capacity. -/
theorem call_bounded (r : LRUReplacer) (op : ReplacerOp) (hcap : 1 ≤ r.max_num_pages)
    (hnd : r.lru_list_.Nodup) (hlen : r.lru_list_.length ≤ r.max_num_pages) :
    (r.call op).2.lru_list_.Nodup ∧ (r.call op).2.lru_list_.length ≤ r.max_num_pages := by
  cases op with
  | Pin f =>
    show (r.Pin f).lru_list_.Nodup ∧ (r.Pin f).lru_list_.length ≤ r.max_num_pages
    rw [Pin_list]
    refine ⟨hnd.erase f, ?_⟩
    have := (List.erase_sublist f r.lru_list_).length_le
    omega
  | Victim =>
    show (r.Victim).2.lru_list_.Nodup ∧ (r.Victim).2.lru_list_.length ≤ r.max_num_pages
    rw [Victim_list]
    refine ⟨hnd.sublist (List.tail_sublist _), ?_⟩
    have := (List.tail_sublist r.lru_list_).length_le
    omega
  | Unpin f =>
    show (r.Unpin f).lru_list_.Nodup ∧ (r.Unpin f).lru_list_.length ≤ r.max_num_pages
    by_cases hf : f ∈ r.lru_list_
    · rw [Unpin_present r f hf]
      constructor
      · rw [List.nodup_append]
        refine ⟨hnd.erase f, List.nodup_singleton f, ?_⟩
        intro x hx hx1
        rw [List.mem_singleton] at hx1
        subst hx1
        exact (hnd.mem_erase_iff.mp hx).1 rfl
      · rw [List.length_append, List.length_erase_of_mem hf, List.length_singleton]
        have := List.length_pos_of_mem hf
        omega
    · rw [Unpin_absent r f hf]
      by_cases hm : r.lru_list_.length = r.max_num_pages
      · rw [if_pos hm]
        constructor
        · rw [List.nodup_append]
          refine ⟨hnd.sublist (List.tail_sublist _), List.nodup_singleton f, ?_⟩
          intro x hx hx1
          rw [List.mem_singleton] at hx1
          subst hx1
          exact hf (List.mem_of_mem_tail hx)
        · rw [List.length_append, List.length_tail, List.length_singleton]
          omega
      · rw [if_neg hm]
        constructor
        · rw [List.nodup_append]
          refine ⟨hnd, List.nodup_singleton f, ?_⟩
          intro x hx hx1
          rw [List.mem_singleton] at hx1
          subst hx1
          exact hf hx
        · rw [List.length_append, List.length_singleton]
          omega

/-- A sequence of calls keeps the list free of duplicates and within the capacity. -/
theorem run_bounded (ops : List ReplacerOp) :
    ∀ r : LRUReplacer, 1 ≤ r.max_num_pages → r.lru_list_.Nodup →
      r.lru_list_.length ≤ r.max_num_pages →
      (r.run ops).lru_list_.Nodup ∧ (r.run ops).lru_list_.length ≤ r.max_num_pages ∧
        (r.run ops).max_num_pages = r.max_num_pages := by
  induction ops with
  | nil => intro r _ hnd hlen; exact ⟨hnd, hlen, rfl⟩
  | cons op ops ih =>
    intro r hcap hnd hlen
    have h1 := call_bounded r op hcap hnd hlen
    have hm := call_max r op
    have h2 := ih (r.call op).2 (by rw [hm]; exact hcap) h1.1 (by rw [hm]; exact h1.2)
    rw [hm] at h2
    exact h2

/-- C24: for every capacity of at least 1 and every sequence of `Pin`, `Unpin` and `Victim`
calls on a new replacer, the list of the replacer holds no frame id twice and `Size()` is at
most the capacity (after the sequence, hence after each of its calls). -/
theorem replacer_list_distinct_and_within_capacity (capacity : Nat) (hcap : 1 ≤ capacity)
    (ops : List ReplacerOp) :
    ((LRUReplacer.create capacity).run ops).lru_list_.Nodup ∧
    ((LRUReplacer.create capacity).run ops).Size ≤ capacity := by
  have h := run_bounded ops (LRUReplacer.create capacity) hcap List.nodup_nil (Nat.zero_le _)
  exact ⟨h.1, h.2.1⟩

theorem replacer_list_distinct_and_within_capacity_witness :
    1 ≤ 1 ∧
    ((LRUReplacer.create 1).run replacerExample).lru_list_.Nodup ∧
    ((LRUReplacer.create 1).run replacerExample).Size ≤ 1 ∧
    ((LRUReplacer.create 1).run replacerExample).lru_list_ = [2] :=
  ⟨by decide, (replacer_list_distinct_and_within_capacity 1 (by decide) replacerExample).1,
    (replacer_list_distinct_and_within_capacity 1 (by decide) replacerExample).2, by decide⟩

end MiniSql

namespace MiniSql

/-! ## `Victim` returns the least recently unpinned frame (C23) -/

theorem lastTouch_cons_some (e : ReplacerEvent) (h : List ReplacerEvent) (f g : Int)
    (he : e.frame = some f) :
    lastTouch (e :: h) g = if g = f then some (h.length, e.isUnpin) else lastTouch h g := by
  show (if e.frame = some g then some (h.length, e.isUnpin) else lastTouch h g) = _
  rw [he]
  by_cases hg : g = f
  · subst hg
    rw [if_pos rfl, if_pos rfl]
  · have : ¬ (some f = some g) := fun hh => hg (Option.some.inj hh).symm
    rw [if_neg this, if_neg hg]

theorem lastTouch_cons_none (e : ReplacerEvent) (h : List ReplacerEvent) (g : Int)
    (he : e.frame = none) : lastTouch (e :: h) g = lastTouch h g := by
  show (if e.frame = some g then some (h.length, e.isUnpin) else lastTouch h g) = _
  rw [he]
  rw [if_neg (by simp)]

/-- The empty replacer against the empty record. -/
theorem ReplInv.initial (S : List Int) (n : Nat) : ReplInv S (LRUReplacer.create n) [] where
  nodup := List.nodup_nil
  mem := by
    intro f
    constructor
    · intro hf
      cases hf
    · rintro ⟨t, ht⟩
      cases ht
  sorted := List.Pairwise.nil
  time := by
    intro f t b hf
    cases hf
  sub := by
    intro f hf
    cases hf

/-- A call that operates on no frame (a `Victim` that returns false). -/
theorem ReplInv.idle {S : List Int} {r : LRUReplacer} {h : List ReplacerEvent}
    (hi : ReplInv S r h) (e : ReplacerEvent) (he : e.frame = none) : ReplInv S r (e :: h) where
  nodup := hi.nodup
  mem := by
    intro f
    unfold unpinnedAt
    rw [lastTouch_cons_none e h f he]
    exact hi.mem f
  sorted := by
    refine hi.sorted.imp ?_
    intro a b hab t s ha hb
    unfold unpinnedAt at ha hb
    rw [lastTouch_cons_none e h _ he] at ha hb
    exact hab t s ha hb
  time := by
    intro f t b hf
    rw [lastTouch_cons_none e h f he] at hf
    have := hi.time f t b hf
    rw [List.length_cons]
    omega
  sub := hi.sub

/-- A call that takes frame `f` out of the list (`Pin`, or `Victim` returning `f`). -/
theorem ReplInv.remove {S : List Int} {r : LRUReplacer} {h : List ReplacerEvent}
    (hi : ReplInv S r h) (r1 : LRUReplacer) (e : ReplacerEvent) (f : Int)
    (he : e.frame = some f) (hu : e.isUnpin = false)
    (hl : r1.lru_list_ = r.lru_list_.erase f) : ReplInv S r1 (e :: h) where
  nodup := by
    rw [hl]
    exact hi.nodup.erase f
  mem := by
    intro g
    unfold unpinnedAt
    rw [hl, hi.nodup.mem_erase_iff, lastTouch_cons_some e h f g he, hu]
    by_cases hg : g = f
    · rw [if_pos hg]
      constructor
      · intro hh
        exact absurd hg hh.1
      · rintro ⟨t, ht⟩
        cases ht
    · rw [if_neg hg]
      constructor
      · intro hh
        exact (hi.mem g).mp hh.2
      · intro hh
        exact ⟨hg, (hi.mem g).mpr hh⟩
  sorted := by
    rw [hl]
    refine (hi.sorted.sublist (List.erase_sublist f _)).imp ?_
    intro a b hab t s ha hb
    unfold unpinnedAt at ha hb
    rw [lastTouch_cons_some e h f _ he, hu] at ha hb
    by_cases hA : a = f
    · rw [if_pos hA] at ha
      cases ha
    · by_cases hB : b = f
      · rw [if_pos hB] at hb
        cases hb
      · rw [if_neg hA] at ha
        rw [if_neg hB] at hb
        exact hab t s ha hb
  time := by
    intro g t b hg
    rw [lastTouch_cons_some e h f g he] at hg
    rw [List.length_cons]
    by_cases hG : g = f
    · rw [if_pos hG] at hg
      cases hg
      omega
    · rw [if_neg hG] at hg
      have := hi.time g t b hg
      omega
  sub := by
    intro g hg
    rw [hl] at hg
    exact hi.sub g (List.mem_of_mem_erase hg)

/-- A call that moves frame `f` to the back of the list (`Unpin`). -/
theorem ReplInv.append {S : List Int} {r : LRUReplacer} {h : List ReplacerEvent}
    (hi : ReplInv S r h) (r1 : LRUReplacer) (e : ReplacerEvent) (f : Int)
    (he : e.frame = some f) (hu : e.isUnpin = true) (hS : f ∈ S)
    (hl : r1.lru_list_ = r.lru_list_.erase f ++ [f]) : ReplInv S r1 (e :: h) where
  nodup := by
    rw [hl, List.nodup_append]
    refine ⟨hi.nodup.erase f, List.nodup_singleton f, ?_⟩
    intro x hx hx1
    rw [List.mem_singleton] at hx1
    subst hx1
    exact (hi.nodup.mem_erase_iff.mp hx).1 rfl
  mem := by
    intro g
    unfold unpinnedAt
    rw [hl, List.mem_append, hi.nodup.mem_erase_iff, List.mem_singleton,
      lastTouch_cons_some e h f g he, hu]
    by_cases hg : g = f
    · rw [if_pos hg]
      constructor
      · intro _
        exact ⟨h.length, rfl⟩
      · intro _
        exact Or.inr hg
    · rw [if_neg hg]
      constructor
      · intro hh
        rcases hh with hh | hh
        · exact (hi.mem g).mp hh.2
        · exact absurd hh hg
      · intro hh
        exact Or.inl ⟨hg, (hi.mem g).mpr hh⟩
  sorted := by
    rw [hl, List.pairwise_append]
    refine ⟨?_, List.pairwise_singleton _ _, ?_⟩
    · refine (hi.sorted.sublist (List.erase_sublist f _)).imp_of_mem ?_
      intro a b hma hmb hab t s ha hb
      have hA : a ≠ f := (hi.nodup.mem_erase_iff.mp hma).1
      have hB : b ≠ f := (hi.nodup.mem_erase_iff.mp hmb).1
      unfold unpinnedAt at ha hb
      rw [lastTouch_cons_some e h f _ he, if_neg hA] at ha
      rw [lastTouch_cons_some e h f _ he, if_neg hB] at hb
      exact hab t s ha hb
    · intro a ha b hb
      rw [List.mem_singleton] at hb
      subst hb
      intro t s hta hsb
      unfold unpinnedAt at hta hsb
      have hab : a ≠ b := (hi.nodup.mem_erase_iff.mp ha).1
      rw [lastTouch_cons_some e h b _ he, if_neg hab] at hta
      rw [lastTouch_cons_some e h b _ he, if_pos rfl, hu] at hsb
      cases hsb
      exact hi.time a t true hta
  time := by
    intro g t b hg
    rw [lastTouch_cons_some e h f g he] at hg
    rw [List.length_cons]
    by_cases hG : g = f
    · rw [if_pos hG] at hg
      cases hg
      omega
    · rw [if_neg hG] at hg
      have := hi.time g t b hg
      omega
  sub := by
    intro g hg
    rw [hl, List.mem_append, List.mem_singleton] at hg
    rcases hg with hg | hg
    · exact hi.sub g (List.mem_of_mem_erase hg)
    · rw [hg]
      exact hS

/-- The list stays below the capacity when the frame ids come from fewer ids than it. -/
theorem ReplInv.below_capacity {S : List Int} {r : LRUReplacer} {h : List ReplacerEvent}
    (hi : ReplInv S r h) (hcap : S.length < r.max_num_pages) (f : Int)
    (hf : f ∉ r.lru_list_) (hfS : f ∈ S) : r.lru_list_.length ≠ r.max_num_pages := by
  have hnd : (f :: r.lru_list_).Nodup := List.nodup_cons.mpr ⟨hf, hi.nodup⟩
  have hsub : f :: r.lru_list_ ⊆ S := by
    intro x hx
    rcases List.mem_cons.mp hx with hx | hx
    · rw [hx]
      exact hfS
    · exact hi.sub x hx
  have := (List.subperm_of_subset hnd hsub).length_le
  rw [List.length_cons] at this
  omega

/-- One call, recorded. -/
theorem ReplInv.call {S : List Int} {r : LRUReplacer} {h : List ReplacerEvent}
    (hi : ReplInv S r h) (hcap : S.length < r.max_num_pages) (op : ReplacerOp)
    (hop : ∀ f ∈ framesUsed [op], f ∈ S) :
    ReplInv S (r.call op).2 ((op, (r.call op).1) :: h) := by
  cases op with
  | Pin f => exact hi.remove (r.Pin f) (ReplacerOp.Pin f, none) f rfl rfl (Pin_list r f)
  | Unpin f =>
    have hfS : f ∈ S := hop f (List.mem_singleton.mpr rfl)
    refine hi.append (r.Unpin f) (ReplacerOp.Unpin f, none) f rfl rfl hfS ?_
    by_cases hf : f ∈ r.lru_list_
    · exact Unpin_present r f hf
    · rw [Unpin_absent r f hf, if_neg (hi.below_capacity hcap f hf hfS), List.erase_of_not_mem hf]
  | Victim =>
    cases hl : r.lru_list_ with
    | nil =>
      have hv : r.Victim = (none, r) := by
        unfold LRUReplacer.Victim
        rw [hl]
      show ReplInv S (r.Victim).2 ((ReplacerOp.Victim, (r.Victim).1) :: h)
      rw [hv]
      exact hi.idle (ReplacerOp.Victim, none) rfl
    | cons x rest =>
      have hv : r.Victim = (some x, { r with lru_list_ := rest }) := by
        unfold LRUReplacer.Victim
        rw [hl]
      show ReplInv S (r.Victim).2 ((ReplacerOp.Victim, (r.Victim).1) :: h)
      rw [hv]
      refine hi.remove _ (ReplacerOp.Victim, some x) x rfl rfl ?_
      rw [hl, List.erase_cons_head]

theorem framesUsed_cons_subset (op : ReplacerOp) (ops : List ReplacerOp) (S : List Int)
    (h : ∀ f ∈ framesUsed (op :: ops), f ∈ S) :
    (∀ f ∈ framesUsed [op], f ∈ S) ∧ ∀ f ∈ framesUsed ops, f ∈ S := by
  cases op with
  | Pin g =>
    refine ⟨fun f hf => h f ?_, fun f hf => h f (List.mem_cons_of_mem _ hf)⟩
    rw [List.mem_singleton.mp hf]
    exact List.mem_cons_self _ _
  | Unpin g =>
    refine ⟨fun f hf => h f ?_, fun f hf => h f (List.mem_cons_of_mem _ hf)⟩
    rw [List.mem_singleton.mp hf]
    exact List.mem_cons_self _ _
  | Victim => exact ⟨fun f hf => (by cases hf), fun f hf => h f hf⟩

/-- A sequence of calls, recorded. -/
theorem ReplInv.trace {S : List Int} (ops : List ReplacerOp) :
    ∀ (r : LRUReplacer) (h : List ReplacerEvent), ReplInv S r h → S.length < r.max_num_pages →
      (∀ f ∈ framesUsed ops, f ∈ S) →
      ReplInv S (r.trace h ops).1 (r.trace h ops).2 := by
  induction ops with
  | nil => intro r h hi _ _; exact hi
  | cons op ops ih =>
    intro r h hi hcap hop
    have hsub := framesUsed_cons_subset op ops S hop
    show ReplInv S (LRUReplacer.trace (r.call op).2 ((op, (r.call op).1) :: h) ops).1
      (LRUReplacer.trace (r.call op).2 ((op, (r.call op).1) :: h) ops).2
    exact ih _ _ (hi.call hcap op hsub.1) (by rw [call_max]; exact hcap) hsub.2

/-- What `Victim` does on a list that holds the frames whose most recent operation is an
`Unpin`, oldest `Unpin` first. -/
theorem ReplInv.victim_call {S : List Int} {r : LRUReplacer} {h : List ReplacerEvent}
    (hi : ReplInv S r h) :
    (∀ f t, unpinnedAt h f t → (∀ g s, unpinnedAt h g s → t ≤ s) →
      r.Victim = (some f, { r with lru_list_ := r.lru_list_.erase f }) ∧
      ∀ g, g ∈ r.lru_list_.erase f ↔ g ≠ f ∧ ∃ s, unpinnedAt h g s) ∧
    ((∃ g s, unpinnedAt h g s) →
      ∃ f t, unpinnedAt h f t ∧ ∀ g s, unpinnedAt h g s → t ≤ s) ∧
    ((∀ g s, ¬ unpinnedAt h g s) → r.Victim = (none, r)) := by
  refine ⟨?_, ?_, ?_⟩
  · intro f t hf hmin
    have hfm : f ∈ r.lru_list_ := (hi.mem f).mpr ⟨t, hf⟩
    cases hl : r.lru_list_ with
    | nil =>
      rw [hl] at hfm
      cases hfm
    | cons x rest =>
      have hxf : x = f := by
        by_contra hne
        rw [hl] at hfm
        have hfr : f ∈ rest := by
          rcases List.mem_cons.mp hfm with hh | hh
          · exact absurd hh.symm hne
          · exact hh
        obtain ⟨tx, hx⟩ := (hi.mem x).mp (by rw [hl]; exact List.mem_cons_self _ _)
        have hs := hi.sorted
        rw [hl, List.pairwise_cons] at hs
        have h1 := hs.1 f hfr tx t hx hf
        have h2 := hmin x tx hx
        omega
      subst hxf
      constructor
      · unfold LRUReplacer.Victim
        rw [hl, List.erase_cons_head]
      · intro g
        rw [← hl, hi.nodup.mem_erase_iff, hi.mem g]
  · rintro ⟨g, s, hg⟩
    have hgm : g ∈ r.lru_list_ := (hi.mem g).mpr ⟨s, hg⟩
    cases hl : r.lru_list_ with
    | nil =>
      rw [hl] at hgm
      cases hgm
    | cons x rest =>
      obtain ⟨tx, hx⟩ := (hi.mem x).mp (by rw [hl]; exact List.mem_cons_self _ _)
      refine ⟨x, tx, hx, ?_⟩
      intro g1 s1 hg1
      have hm : g1 ∈ r.lru_list_ := (hi.mem g1).mpr ⟨s1, hg1⟩
      rw [hl] at hm
      rcases List.mem_cons.mp hm with hh | hh
      · subst hh
        unfold unpinnedAt at hg1 hx
        rw [hx] at hg1
        cases hg1
        exact Nat.le_refl _
      · have hs := hi.sorted
        rw [hl, List.pairwise_cons] at hs
        exact Nat.le_of_lt (hs.1 g1 hh tx s1 hx hg1)
  · intro hnone
    cases hl : r.lru_list_ with
    | nil =>
      unfold LRUReplacer.Victim
      rw [hl]
    | cons x rest =>
      obtain ⟨tx, hx⟩ := (hi.mem x).mp (by rw [hl]; exact List.mem_cons_self _ _)
      exact absurd hx (hnone x tx)

/-- C23: take a new replacer of capacity `capacity` and any sequence `ops` of `Pin`, `Unpin`
and `Victim` calls that passes fewer distinct frame ids than the capacity. After it, when
frame `f` is one whose most recent operation is an `Unpin` and this `Unpin` (call number
`t`) is the oldest among the frames whose most recent operation is an `Unpin`, `Victim`
returns `f` and removes it from the list, which then holds the other such frames; there is
such a frame as soon as some frame has an `Unpin` as its most recent operation; and when no
frame has, `Victim` returns false and changes nothing. -/
theorem Victim_returns_least_recently_unpinned (capacity : Nat) (ops : List ReplacerOp)
    (hfew : (framesUsed ops).dedup.length < capacity) :
    (∀ f t, unpinnedAt ((LRUReplacer.create capacity).trace [] ops).2 f t →
      (∀ g s, unpinnedAt ((LRUReplacer.create capacity).trace [] ops).2 g s → t ≤ s) →
      ((LRUReplacer.create capacity).trace [] ops).1.Victim =
        (some f, { ((LRUReplacer.create capacity).trace [] ops).1 with
          lru_list_ := ((LRUReplacer.create capacity).trace [] ops).1.lru_list_.erase f }) ∧
      ∀ g, g ∈ ((LRUReplacer.create capacity).trace [] ops).1.lru_list_.erase f ↔
        g ≠ f ∧ ∃ s, unpinnedAt ((LRUReplacer.create capacity).trace [] ops).2 g s) ∧
    ((∃ g s, unpinnedAt ((LRUReplacer.create capacity).trace [] ops).2 g s) →
      ∃ f t, unpinnedAt ((LRUReplacer.create capacity).trace [] ops).2 f t ∧
        ∀ g s, unpinnedAt ((LRUReplacer.create capacity).trace [] ops).2 g s → t ≤ s) ∧
    ((∀ g s, ¬ unpinnedAt ((LRUReplacer.create capacity).trace [] ops).2 g s) →
      ((LRUReplacer.create capacity).trace [] ops).1.Victim =
        (none, ((LRUReplacer.create capacity).trace [] ops).1)) :=
  (ReplInv.trace ops (LRUReplacer.create capacity) []
    (ReplInv.initial _ capacity) hfew (fun _ hf => List.mem_dedup.mpr hf)).victim_call

theorem Victim_returns_least_recently_unpinned_witness :
    (framesUsed replacerExample).dedup.length < 3 ∧
    ((LRUReplacer.create 3).trace [] replacerExample).1.lru_list_ = [1, 2] ∧
    unpinnedAt ((LRUReplacer.create 3).trace [] replacerExample).2 1 6 ∧
    unpinnedAt ((LRUReplacer.create 3).trace [] replacerExample).2 2 7 ∧
    ((LRUReplacer.create 3).trace [] replacerExample).1.Victim.1 = some 1 ∧
    ((∃ g s, unpinnedAt ((LRUReplacer.create 3).trace [] replacerExample).2 g s) →
      ∃ f t, unpinnedAt ((LRUReplacer.create 3).trace [] replacerExample).2 f t ∧
        ∀ g s, unpinnedAt ((LRUReplacer.create 3).trace [] replacerExample).2 g s → t ≤ s) :=
  ⟨by decide, by decide, (by unfold unpinnedAt; decide), (by unfold unpinnedAt; decide),
    by decide, (Victim_returns_least_recently_unpinned 3 replacerExample (by decide)).2.1⟩

end MiniSql

namespace MiniSql

/-! ## `GetTable` by name (C26) -/

/-- C26 (evaluation at the failing input): in a catalog where table "t" is registered,
`GetTable("t", table_info)` returns `DB_TABLE_NOT_EXIST` and leaves `table_info` as it was
(here `nullptr`), while the overload by table id returns `DB_SUCCESS` with the `TableInfo`;
for the name "u", which is not registered, `GetTable` returns `DB_SUCCESS`, enters "u" in
`table_names_` with table id 0 and sets `table_info` to `tables_[0]`, the `TableInfo` of
"t". In every catalog the call returns `DB_TABLE_NOT_EXIST` exactly for the names that are
registered. -/
theorem GetTable_by_name_fails_for_registered_table :
    ((catalogWithTable.GetTable "t" none).1, (catalogWithTable.GetTable "t" none).2.1)
      = (dberr_t.DB_TABLE_NOT_EXIST, none) ∧
    catalogWithTable.GetTableById 0 none = (dberr_t.DB_SUCCESS, some 7) ∧
    ((catalogWithTable.GetTable "u" none).1, (catalogWithTable.GetTable "u" none).2.1,
      (catalogWithTable.GetTable "u" none).2.2.table_names_)
      = (dberr_t.DB_SUCCESS, some 7, [("t", 0), ("u", 0)]) ∧
    ∀ (c : CatalogManager Nat) (table_name : String) (table_info : Option Nat),
      (c.GetTable table_name table_info).1 =
        if (c.table_names_.lookup table_name).isSome then dberr_t.DB_TABLE_NOT_EXIST
        else dberr_t.DB_SUCCESS := by
  refine ⟨by decide, by decide, by decide, ?_⟩
  intro c table_name table_info
  unfold CatalogManager.GetTable mapCount
  cases h : (c.table_names_.lookup table_name).isSome <;> simp

/-! ## `AdjustRoot` on an internal root of size 1 (C28) -/

/-- C28 (evaluation at the failing input): with leaf_max_size = internal_max_size = 3, after
Insert 10, 20, 30, 40 the root is internal page 4 with the leaves 2 and 3 as children, both
with parent page id 4. Remove 30 merges leaf 3 into leaf 2 and calls `AdjustRoot` on page 4,
then of size 1: afterwards `root_page_id_` is 2, the only child of page 4, and the parent
page id of page 2 is still 4, not `INVALID_PAGE_ID`. -/
theorem AdjustRoot_keeps_parent_of_promoted_child :
    (treeAfter 10 3 3 20 insert10to40).map (fun t => t.root_page_id_) = some 4 ∧
    (treeAfter 10 3 3 20 insert10to40).map
      (fun t => (t.buffer_pool_manager_.pageData 4).map (fun d => (d.IsLeafPage, d.entries)))
      = some (some (false, [(0, 2), (30, 3)])) ∧
    (treeAfter 10 3 3 20 insert10to40).map
      (fun t => ((t.buffer_pool_manager_.pageData 2).map (fun d => d.parent_page_id_),
        (t.buffer_pool_manager_.pageData 3).map (fun d => d.parent_page_id_)))
      = some (some 4, some 4) ∧
    (treeAfter 10 3 3 20 (insert10to40 ++ [Op.remove 30])).map (fun t => t.root_page_id_)
      = some 2 ∧
    (treeAfter 10 3 3 20 (insert10to40 ++ [Op.remove 30])).map
      (fun t => (t.buffer_pool_manager_.pageData 4).map
        (fun d => (d.IsLeafPage, d.entries, d.parent_page_id_)))
      = some (some (false, [(0, 2)], INVALID_PAGE_ID)) ∧
    (treeAfter 10 3 3 20 (insert10to40 ++ [Op.remove 30])).map
      (fun t => (t.buffer_pool_manager_.pageData 2).map
        (fun d => (d.IsLeafPage, d.entries.map Prod.fst, d.parent_page_id_)))
      = some (some (true, [10, 20, 40], 4)) := by
  decide!

end MiniSql

namespace MiniSql

/-! ## `CatalogMeta`: what is written is read back (C27) -/

theorem toInt32_toUInt32 (v : Int) (h0 : 0 ≤ v) (h1 : v < 2 ^ 31) : toInt32 (toUInt32 v) = v := by
  unfold toInt32 toUInt32
  have e1 : v % 2 ^ 32 = v := Int.emod_eq_of_lt h0 (by omega)
  rw [e1]
  have e2 : v.toNat % 2 ^ 32 = v.toNat := Nat.mod_eq_of_lt (by omega)
  rw [e2, if_pos (by omega)]
  omega

theorem toUInt32_nonneg (v : Int) (h0 : 0 ≤ v) (h1 : v < 2 ^ 31) : toUInt32 v = v.toNat := by
  unfold toUInt32
  rw [Int.emod_eq_of_lt h0 (by omega)]

theorem toInt32_small (n : Nat) (h : n < 2 ^ 31) : (toInt32 n).toNat = n := by
  unfold toInt32
  have e2 : n % 2 ^ 32 = n := Nat.mod_eq_of_lt (by omega)
  rw [e2, if_pos h]
  omega

/-- The loop that counts down from `len` for the entries without a page. -/
theorem count_loop (m : List (Nat × Int)) :
    ∀ len : Nat, len < 2 ^ 32 →
      (m.filter (fun e => decide (e.2 = INVALID_PAGE_ID))).length ≤ len →
      m.foldl (fun len it => if it.2 = INVALID_PAGE_ID then (len + (2 ^ 32 - 1)) % 2 ^ 32 else len)
        len = len - (m.filter (fun e => decide (e.2 = INVALID_PAGE_ID))).length := by
  induction m with
  | nil => intro len _ _; rfl
  | cons e m ih =>
    intro len hlen hc
    rw [List.foldl_cons]
    by_cases he : e.2 = INVALID_PAGE_ID
    · rw [if_pos he]
      rw [List.filter_cons_of_pos (by simpa using he), List.length_cons] at hc ⊢
      have e1 : (len + (2 ^ 32 - 1)) % 2 ^ 32 = len - 1 := by omega
      rw [e1, ih (len - 1) (by omega) (by omega)]
      omega
    · rw [if_neg he]
      rw [List.filter_cons_of_neg (by simpa using he)] at hc ⊢
      exact ih len hlen hc

theorem live_length (m : List (Nat × Int))
    (hids : ∀ e ∈ m, 0 ≤ e.2 ∨ e.2 = INVALID_PAGE_ID) :
    (liveEntries m).length + (m.filter (fun e => decide (e.2 = INVALID_PAGE_ID))).length
      = m.length := by
  induction m with
  | nil => rfl
  | cons e m ih =>
    have ih1 := ih (fun x hx => hids x (List.mem_cons_of_mem _ hx))
    unfold liveEntries at ih1 ⊢
    rcases hids e (List.mem_cons_self _ _) with h | h
    · have hne : ¬ e.2 = INVALID_PAGE_ID := by
        intro hh
        rw [hh] at h
        exact absurd h (by decide)
      rw [List.filter_cons_of_pos (by simpa using h), List.filter_cons_of_neg (by simpa using hne),
        List.length_cons, List.length_cons]
      omega
    · have hneg : ¬ 0 ≤ e.2 := by
        rw [h]
        decide
      rw [List.filter_cons_of_neg (by simpa using hneg), List.filter_cons_of_pos (by simpa using h),
        List.length_cons, List.length_cons]
      omega

/-- The count written is the number of entries with a page. -/
theorem serializedCount_live (m : List (Nat × Int)) (hm : MetaMapOK m)
    (hids : ∀ e ∈ m, 0 ≤ e.2 ∨ e.2 = INVALID_PAGE_ID) :
    serializedCount m = (liveEntries m).length := by
  unfold serializedCount
  have hl := live_length m hids
  have hs := hm.size
  have e1 : m.length % 2 ^ 32 = m.length := Nat.mod_eq_of_lt (by omega)
  rw [e1, count_loop m m.length (by omega) (by omega)]
  omega

/-- The entries written are the entries with a page. -/
theorem serializedEntries_live (m : List (Nat × Int)) (hids : ∀ e ∈ m, e.2 < 2 ^ 31) :
    serializedEntries m = entryWords (liveEntries m) := by
  induction m with
  | nil => rfl
  | cons e m ih =>
    have ih1 := ih (fun x hx => hids x (List.mem_cons_of_mem _ hx))
    unfold liveEntries at ih1 ⊢
    unfold serializedEntries
    by_cases h : 0 ≤ e.2
    · rw [if_pos h, List.filter_cons_of_pos (by simpa using h)]
      show _ = e.1 :: e.2.toNat :: entryWords _
      rw [ih1, toUInt32_nonneg e.2 h (hids e (List.mem_cons_self _ _))]
    · rw [if_neg h, List.filter_cons_of_neg (by simpa using h)]
      exact ih1

theorem metaLookup_isSome_iff (m : List (Nat × Int)) (k : Nat) :
    (m.lookup k).isSome = true ↔ k ∈ m.map Prod.fst := by
  induction m with
  | nil => simp
  | cons e m ih =>
    obtain ⟨a, b⟩ := e
    rw [List.lookup_cons]
    by_cases h : k = a
    · subst h
      simp
    · have : (k == a) = false := by simpa using h
      rw [this]
      simp only [List.map_cons, List.mem_cons]
      rw [ih]
      constructor
      · exact Or.inr
      · rintro (hh | hh)
        · exact absurd hh h
        · exact hh

/-- Reading back the words of entries with distinct new keys appends the entries. -/
theorem readEntries_words (L : List (Nat × Int)) :
    ∀ (m : List (Nat × Int)) (rest : List Nat),
      (m.map Prod.fst ++ L.map Prod.fst).Nodup → (∀ e ∈ L, 0 ≤ e.2 ∧ e.2 < 2 ^ 31) →
      readEntries L.length (entryWords L ++ rest) m = some (m ++ L, rest) := by
  induction L with
  | nil =>
    intro m rest _ _
    show some (m, rest) = some (m ++ [], rest)
    rw [List.append_nil]
  | cons e L ih =>
    intro m rest hnd hv
    have hve := hv e (List.mem_cons_self _ _)
    show readEntries L.length (entryWords L ++ rest) (mapAssign m e.1 (toInt32 e.2.toNat)) = _
    have hk : ¬ ((m.lookup e.1).isSome = true) := by
      rw [metaLookup_isSome_iff]
      intro hmem
      rw [List.nodup_append] at hnd
      exact hnd.2.2 hmem (by simp)
    have ha : mapAssign m e.1 (toInt32 e.2.toNat) = m ++ [e] := by
      unfold mapAssign
      rw [if_neg hk]
      have : toInt32 e.2.toNat = e.2 := by
        have := toInt32_toUInt32 e.2 hve.1 hve.2
        rw [toUInt32_nonneg e.2 hve.1 hve.2] at this
        exact this
      rw [this]
    rw [ha, ih (m ++ [e]) rest ?_ (fun x hx => hv x (List.mem_cons_of_mem _ hx))]
    · rw [List.append_assoc]
      rfl
    · rw [List.map_append, List.append_assoc]
      exact hnd

theorem mem_liveEntries (m : List (Nat × Int)) (k : Nat) (v : Int) :
    (k, v) ∈ liveEntries m ↔ (k, v) ∈ m ∧ 0 ≤ v := by
  unfold liveEntries
  rw [List.mem_filter]
  simp

theorem mem_mapEmplace (m : List (Nat × Int)) (k0 : Nat) (k : Nat) (v : Int) (hv : 0 ≤ v) :
    (k, v) ∈ mapEmplace m k0 INVALID_PAGE_ID ↔ (k, v) ∈ m := by
  unfold mapEmplace
  split
  · rfl
  · rw [List.mem_append, List.mem_singleton]
    constructor
    · rintro (h | h)
      · exact h
      · have : v = INVALID_PAGE_ID := (Prod.mk.inj h).2
        rw [this] at hv
        exact absurd hv (by decide)
    · exact Or.inl

theorem liveEntries_ok (m : List (Nat × Int)) (hm : MetaMapOK m) :
    ((liveEntries m).map Prod.fst).Nodup ∧ (∀ e ∈ liveEntries m, 0 ≤ e.2 ∧ e.2 < 2 ^ 31) ∧
      (liveEntries m).length < 2 ^ 31 := by
  refine ⟨?_, ?_, ?_⟩
  · exact hm.keys.sublist (List.Sublist.map _ (List.filter_sublist _))
  · intro e he
    obtain ⟨a, b⟩ := e
    have := (mem_liveEntries m a b).mp he
    exact ⟨this.2, hm.ids _ this.1⟩
  · have h1 : (m.filter (fun e : Nat × Int => decide (0 ≤ e.2))).length ≤ m.length :=
      List.length_filter_le _ _
    have := hm.size
    unfold liveEntries
    omega

/-- C27: take a `CatalogMeta` whose two maps hold page ids that are each at least 0 or
`INVALID_PAGE_ID` (maps with distinct keys, `int32_t` page ids and fewer than `2 ^ 31`
entries). `SerializeTo` writes the magic number, then for the table map and for the index
map the number of entries with page id at least 0 followed by exactly these entries; and
`DeserializeFrom` of a buffer that starts with these words returns a `CatalogMeta` in
whose maps the entries with page id at least 0 are those of the original. -/
theorem CatalogMeta_written_entries_read_back (MAGIC : Nat) (c : CatalogMeta) (rest : List Nat)
    (hT : MetaMapOK c.table_meta_pages_) (hI : MetaMapOK c.index_meta_pages_)
    (hidsT : ∀ e ∈ c.table_meta_pages_, 0 ≤ e.2 ∨ e.2 = INVALID_PAGE_ID)
    (hidsI : ∀ e ∈ c.index_meta_pages_, 0 ≤ e.2 ∨ e.2 = INVALID_PAGE_ID) :
    c.SerializeTo MAGIC =
      [MAGIC, (liveEntries c.table_meta_pages_).length] ++
        entryWords (liveEntries c.table_meta_pages_) ++
      ([(liveEntries c.index_meta_pages_).length] ++
        entryWords (liveEntries c.index_meta_pages_)) ∧
    ∃ d, CatalogMeta.DeserializeFrom (c.SerializeTo MAGIC ++ rest) = some d ∧
      (∀ k v, 0 ≤ v → ((k, v) ∈ d.table_meta_pages_ ↔ (k, v) ∈ c.table_meta_pages_)) ∧
      (∀ k v, 0 ≤ v → ((k, v) ∈ d.index_meta_pages_ ↔ (k, v) ∈ c.index_meta_pages_)) := by
  have hser : c.SerializeTo MAGIC =
      [MAGIC, (liveEntries c.table_meta_pages_).length] ++
        entryWords (liveEntries c.table_meta_pages_) ++
      ([(liveEntries c.index_meta_pages_).length] ++
        entryWords (liveEntries c.index_meta_pages_)) := by
    unfold CatalogMeta.SerializeTo
    rw [serializedCount_live _ hT hidsT, serializedCount_live _ hI hidsI,
      serializedEntries_live _ hT.ids, serializedEntries_live _ hI.ids]
  refine ⟨hser, ?_⟩
  obtain ⟨t1, t2, t3⟩ := liveEntries_ok _ hT
  obtain ⟨i1, i2, i3⟩ := liveEntries_ok _ hI
  have hbuf : c.SerializeTo MAGIC ++ rest =
      MAGIC :: (liveEntries c.table_meta_pages_).length ::
        (entryWords (liveEntries c.table_meta_pages_) ++
          ((liveEntries c.index_meta_pages_).length ::
            (entryWords (liveEntries c.index_meta_pages_) ++ rest))) := by
    rw [hser]
    simp
  have r1 := readEntries_words (liveEntries c.table_meta_pages_) []
    ((liveEntries c.index_meta_pages_).length ::
      (entryWords (liveEntries c.index_meta_pages_) ++ rest)) (by simpa using t1) t2
  have r2 := readEntries_words (liveEntries c.index_meta_pages_) [] rest (by simpa using i1) i2
  refine ⟨{ table_meta_pages_ :=
              mapEmplace (liveEntries c.table_meta_pages_)
                (liveEntries c.table_meta_pages_).length INVALID_PAGE_ID,
            index_meta_pages_ :=
              mapEmplace (liveEntries c.index_meta_pages_)
                (liveEntries c.index_meta_pages_).length INVALID_PAGE_ID }, ?_, ?_, ?_⟩
  · rw [hbuf]
    unfold CatalogMeta.DeserializeFrom
    simp only [toInt32_small _ t3, r1, toInt32_small _ i3, r2, List.nil_append]
  · intro k v hv
    show (k, v) ∈ mapEmplace _ _ INVALID_PAGE_ID ↔ _
    rw [mem_mapEmplace _ _ k v hv, mem_liveEntries]
    exact ⟨fun h => h.1, fun h => ⟨h, hv⟩⟩
  · intro k v hv
    show (k, v) ∈ mapEmplace _ _ INVALID_PAGE_ID ↔ _
    rw [mem_mapEmplace _ _ k v hv, mem_liveEntries]
    exact ⟨fun h => h.1, fun h => ⟨h, hv⟩⟩

theorem CatalogMeta_written_entries_read_back_witness :
    MetaMapOK catalogMetaExample.table_meta_pages_ ∧
    MetaMapOK catalogMetaExample.index_meta_pages_ ∧
    catalogMetaExample.SerializeTo 89849 = [89849, 2, 0, 5, 2, 9, 1, 0, 7] ∧
    CatalogMeta.DeserializeFrom (catalogMetaExample.SerializeTo 89849 ++ [0, 0]) =
      some { table_meta_pages_ := [(0, 5), (2, 9)],
             index_meta_pages_ := [(0, 7), (1, INVALID_PAGE_ID)] } ∧
    ∃ d, CatalogMeta.DeserializeFrom (catalogMetaExample.SerializeTo 89849 ++ [0, 0]) = some d ∧
      (∀ k v, 0 ≤ v →
        ((k, v) ∈ d.table_meta_pages_ ↔ (k, v) ∈ catalogMetaExample.table_meta_pages_)) ∧
      (∀ k v, 0 ≤ v →
        ((k, v) ∈ d.index_meta_pages_ ↔ (k, v) ∈ catalogMetaExample.index_meta_pages_)) :=
  have hT : MetaMapOK catalogMetaExample.table_meta_pages_ :=
    ⟨by decide, by simp [catalogMetaExample, INVALID_PAGE_ID], by simp [catalogMetaExample]⟩
  have hI : MetaMapOK catalogMetaExample.index_meta_pages_ :=
    ⟨by decide, by simp [catalogMetaExample, INVALID_PAGE_ID], by simp [catalogMetaExample]⟩
  ⟨hT, hI, by decide, by decide,
    (CatalogMeta_written_entries_read_back 89849 catalogMetaExample [0, 0] hT hI
      (by decide) (by decide)).2⟩

end MiniSql

namespace MiniSql

/-! ## `TableHeap::Begin` (C25) -/

/-- The first round of the loop of `Begin` fetches the page of `rowId`. -/
theorem beginLoop_no_page (ops : TablePageOps) (fuel : Nat) (b : BufferPoolManager)
    (rowId : RowId) (pageId : Int) (hf : b.fetchNode rowId.page_id_ = none) (hp : pageId ≠ INVALID_PAGE_ID) :
    beginLoop ops fuel b rowId pageId = none := by
  cases fuel with
  | zero => rfl
  | succ n =>
    unfold beginLoop
    rw [if_pos hp, hf]
    rfl

/-- C25 (evaluation at the failing input): take the table heap whose only page is page 2
(`first_page_id_` is 2), whatever tuples the page holds (for every choice of the functions of
`TablePage`). `Begin` has no result: its loop calls `FetchPage(rowId.GetPageId())` with the
default `RowId`, that is `FetchPage(INVALID_PAGE_ID)`, where it should fetch page 2, and the
read of page -1 fails the assertion of `DiskManager::ReadPage`. -/
theorem Begin_fetches_the_page_of_the_default_RowId :
    heapOfOnePage.map (fun h => h.first_page_id_) = some 2 ∧
    heapOfOnePage.map (fun h => (h.buffer_pool_manager_.fetchNode 2).isSome) = some true ∧
    heapOfOnePage.map (fun h => h.buffer_pool_manager_.FetchPage INVALID_PAGE_ID) = some none ∧
    ∀ (ops : TablePageOps) (fuel : Nat), heapOfOnePage.bind (fun h => h.Begin ops fuel) = none := by
  have h1 : heapOfOnePage.map (fun h => h.first_page_id_) = some 2 := by decide!
  have h2 : heapOfOnePage.map (fun h => (h.buffer_pool_manager_.fetchNode 2).isSome) = some true := by
    decide!
  have h3 : heapOfOnePage.map (fun h => h.buffer_pool_manager_.FetchPage INVALID_PAGE_ID)
      = some none := by decide!
  refine ⟨h1, h2, h3, ?_⟩
  intro ops fuel
  cases hh : heapOfOnePage with
  | none => rfl
  | some h =>
    rw [hh] at h1 h3
    have e1 : h.first_page_id_ = 2 := Option.some.inj h1
    have e3 : h.buffer_pool_manager_.FetchPage INVALID_PAGE_ID = none := Option.some.inj h3
    have e4 : h.buffer_pool_manager_.fetchNode RowId.create.page_id_ = none := by
      show h.buffer_pool_manager_.fetchNode INVALID_PAGE_ID = none
      unfold BufferPoolManager.fetchNode
      rw [e3]
    show h.Begin ops fuel = none
    unfold TableHeap.Begin
    rw [beginLoop_no_page ops fuel _ _ _ e4 (by rw [e1]; decide)]
    rfl

end MiniSql

namespace MiniSql

/-! ## The list of entries of a page -/

theorem entries_eq_map (d : PageData) :
    d.entries = (List.range d.size_.toNat).map (fun (i : Nat) => arrGet d.array_ (i : Int)) := by
  unfold PageData.entries
  induction List.range d.size_.toNat with
  | nil => rfl
  | cons x xs ih =>
    rw [List.map_cons, ← ih]
    rfl

theorem entries_length (d : PageData) : d.entries.length = d.size_.toNat := by
  rw [entries_eq_map, List.length_map, List.length_range]

theorem entries_at (d : PageData) (j : Nat) :
    d.entries[j]? = if j < d.size_.toNat then some (arrGet d.array_ (j : Int)) else none := by
  rw [entries_eq_map, List.getElem?_map]
  by_cases h : j < d.size_.toNat
  · rw [if_pos h, List.getElem?_range h]
    rfl
  · rw [if_neg h, List.getElem?_eq_none (by rw [List.length_range]; omega)]
    rfl

theorem mem_entries (d : PageData) (k v : Int) : (k, v) ∈ d.entries ↔ Entry d k v := by
  rw [entries_eq_map, List.mem_map]
  unfold Entry
  constructor
  · rintro ⟨i, hi, he⟩
    rw [List.mem_range] at hi
    exact ⟨(i : Int), by omega, by omega, he⟩
  · rintro ⟨j, h0, h1, he⟩
    refine ⟨j.toNat, ?_, ?_⟩
    · rw [List.mem_range]
      omega
    · rw [Int.toNat_of_nonneg h0]
      exact he

theorem entries_ordered (d : PageData) (hs : SortedKeys d.array_ 0 d.size_) :
    KeyOrdered d.entries := by
  unfold KeyOrdered
  rw [List.pairwise_iff_getElem]
  intro i j hi hj hij
  have hi1 := hi
  have hj1 := hj
  rw [entries_length] at hi1 hj1
  have ei : d.entries[i] = arrGet d.array_ (i : Int) := by
    have := entries_at d i
    rw [if_pos hi1, List.getElem?_eq_getElem hi] at this
    exact Option.some.inj this
  have ej : d.entries[j] = arrGet d.array_ (j : Int) := by
    have := entries_at d j
    rw [if_pos hj1, List.getElem?_eq_getElem hj] at this
    exact Option.some.inj this
  rw [ei, ej]
  exact hs _ _ (by omega) (by omega) (by omega)

/-- Two lists of entries in key order with the same members are the same list. -/
theorem ordered_ext (l l' : List (Int × Int)) (h : KeyOrdered l) (h' : KeyOrdered l')
    (hm : ∀ e, e ∈ l ↔ e ∈ l') : l = l' := by
  haveI : IsAntisymm (Int × Int) (fun a b => a.1 < b.1) :=
    ⟨fun a b h1 h2 => absurd h1 (by omega)⟩
  have nd : ∀ l : List (Int × Int), KeyOrdered l → l.Nodup := by
    intro l hl
    exact hl.imp (fun {a b} hab => by
      intro hc
      rw [hc] at hab
      exact absurd hab (by omega))
  exact List.eq_of_perm_of_sorted ((List.perm_ext_iff_of_nodup (nd l h) (nd l' h')).mpr hm) h h'

/-- The entries of a page whose array agrees with the one of `a` on the first entries and
with the one of `c` after them. -/
theorem entries_append (d a c : PageData) (ha : 0 ≤ a.size_) (hc : 0 ≤ c.size_)
    (hsz : d.size_ = a.size_ + c.size_)
    (h1 : ∀ j : Int, 0 ≤ j → j < a.size_ → arrGet d.array_ j = arrGet a.array_ j)
    (h2 : ∀ j : Int, 0 ≤ j → j < c.size_ → arrGet d.array_ (a.size_ + j) = arrGet c.array_ j) :
    d.entries = a.entries ++ c.entries := by
  apply List.ext_getElem?
  intro n
  rw [entries_at]
  by_cases hn : n < a.size_.toNat
  · rw [List.getElem?_append_left (by rw [entries_length]; exact hn), entries_at,
      if_pos hn, if_pos (by omega), h1 _ (by omega) (by omega)]
  · rw [List.getElem?_append_right (by rw [entries_length]; omega), entries_at,
      entries_length]
    by_cases hn2 : n - a.size_.toNat < c.size_.toNat
    · rw [if_pos hn2, if_pos (by omega)]
      have := h2 ((n - a.size_.toNat : Nat) : Int) (by omega) (by omega)
      rw [← this]
      congr 2
      omega
    · rw [if_neg hn2, if_neg (by omega)]

/-! ## Page operations on the way of `Remove` -/

theorem valueIndexLoop_spec (a : List (Int × Int)) (value size : Int) (i0 : Int)
    (hv : (arrGet a i0).2 = value) (hlt : i0 < size) (n : Nat) :
    ∀ i : Int, i ≤ i0 → size - i ≤ n → (∀ j : Int, i ≤ j → j < i0 → (arrGet a j).2 ≠ value) →
      valueIndexLoop a value size n i = i0 := by
  induction n with
  | zero =>
    intro i hi hn _
    simp at hn
    omega
  | succ n ih =>
    intro i hi hn hne
    unfold valueIndexLoop
    rw [if_pos (by omega)]
    by_cases hc : i = i0
    · subst hc
      rw [if_pos hv]
    · rw [if_neg (hne i (Int.le_refl _) (by omega))]
      exact ih (i + 1) (by omega) (by push_cast at hn; omega)
        (fun j h1 h2 => hne j (by omega) h2)

theorem InternalPage.ValueIndex_spec (p : PageData) (value : Int) (i0 : Int) (h0 : 0 ≤ i0)
    (h1 : i0 < p.size_) (hv : (arrGet p.array_ i0).2 = value)
    (hne : ∀ j : Int, 0 ≤ j → j < i0 → (arrGet p.array_ j).2 ≠ value) :
    InternalPage.ValueIndex p value = i0 := by
  unfold InternalPage.ValueIndex
  exact valueIndexLoop_spec p.array_ value p.size_ i0 hv h1 _ 0 h0 (by omega) hne

/-- `RemoveAndDeleteRecord` of a key that the leaf stores at index `j0`: the entries after
`j0` move one place down. -/
theorem LeafPage.RemoveAndDeleteRecord_spec (p : PageData) (key : Int) (j0 : Int) (h0 : 0 ≤ j0)
    (h1 : j0 < p.size_) (hk : (arrGet p.array_ j0).1 = key)
    (hs : SortedKeys p.array_ 0 p.size_) :
    ∃ d, LeafPage.RemoveAndDeleteRecord p key = some d ∧
      d = { p with array_ := d.array_, size_ := p.size_ - 1 } ∧
      ∀ j : Int, 0 ≤ j → j < p.size_ - 1 →
        arrGet d.array_ j = if j0 ≤ j then arrGet p.array_ (j + 1) else arrGet p.array_ j := by
  unfold LeafPage.RemoveAndDeleteRecord PageData.KeyAt
  have hfirst := hs.le 0 j0 (Int.le_refl _) h0 h1
  have hlast := hs.le j0 (p.size_ - 1) h0 (by omega) (by omega)
  have hcond : ¬ (p.size_ = 0 ∨ comparator key (arrGet p.array_ 0).1 < 0 ∨
      comparator key (arrGet p.array_ (p.size_ - 1)).1 > 0) := by
    rw [comparator_lt, comparator_gt]
    omega
  rw [if_neg hcond]
  rcases leafSearchLoop_spec p.array_ key p.size_ hs (p.size_.toNat + 1) 0 (p.size_ - 1)
    (Int.le_refl _) (by omega) (by omega) (by push_cast; omega) with
    ⟨mid, m0, m1, m2, e⟩ | ⟨hno, _⟩
  · rw [e]
    have hmid : mid = j0 := by
      by_contra hne
      rcases Int.lt_or_gt_of_ne hne with hlt | hgt
      · have := hs mid j0 m0 hlt h1
        omega
      · have := hs j0 mid h0 hgt (by omega)
        omega
    subst hmid
    refine ⟨_, rfl, rfl, ?_⟩
    intro j hj0 hj1
    show arrGet (shiftLeft p.size_ p.size_.toNat mid p.array_) j = _
    rw [shiftLeft_get p.size_ p.size_.toNat mid h0 p.array_ (by omega) j hj0]
    by_cases hc : mid ≤ j
    · rw [if_pos ⟨hc, hj1⟩, if_pos hc]
    · rw [if_neg (fun hh => hc hh.1), if_neg hc]
  · exact absurd hk (hno j0 h0 (by omega))

/-- The leaf after `RemoveAndDeleteRecord`: in key order, with the entries of the other
keys. -/
theorem removed_entries (p d : PageData) (key : Int) (j0 : Int) (h0 : 0 ≤ j0)
    (h1 : j0 < p.size_) (hk : (arrGet p.array_ j0).1 = key)
    (hs : SortedKeys p.array_ 0 p.size_) (hsz : d.size_ = p.size_ - 1)
    (hd : ∀ j : Int, 0 ≤ j → j < p.size_ - 1 →
      arrGet d.array_ j = if j0 ≤ j then arrGet p.array_ (j + 1) else arrGet p.array_ j) :
    SortedKeys d.array_ 0 d.size_ ∧
    d.entries = p.entries.filter (fun e => e.1 != key) := by
  have hsd : SortedKeys d.array_ 0 d.size_ := by
    intro i j hi hij hj
    rw [hsz] at hj
    rw [hd i hi (by omega), hd j (by omega) hj]
    by_cases c1 : j0 ≤ i
    · rw [if_pos c1, if_pos (by omega)]
      exact hs _ _ (by omega) (by omega) (by omega)
    · rw [if_neg c1]
      by_cases c2 : j0 ≤ j
      · rw [if_pos c2]
        exact hs _ _ (by omega) (by omega) (by omega)
      · rw [if_neg c2]
        exact hs _ _ (by omega) (by omega) (by omega)
  refine ⟨hsd, ?_⟩
  apply ordered_ext _ _ (entries_ordered d hsd)
    ((entries_ordered p hs).sublist (List.filter_sublist _))
  rintro ⟨k', v'⟩
  rw [mem_entries, List.mem_filter, mem_entries]
  unfold Entry
  constructor
  · rintro ⟨j, hj0, hj1, he⟩
    rw [hsz] at hj1
    rw [hd j hj0 hj1] at he
    by_cases c : j0 ≤ j
    · rw [if_pos c] at he
      refine ⟨⟨j + 1, by omega, by omega, he⟩, ?_⟩
      have := hs j0 (j + 1) h0 (by omega) (by omega)
      rw [he] at this
      simp only [bne_iff_ne, ne_eq]
      show ¬ k' = key
      omega
    · rw [if_neg c] at he
      refine ⟨⟨j, hj0, by omega, he⟩, ?_⟩
      have := hs j j0 hj0 (by omega) h1
      rw [he] at this
      simp only [bne_iff_ne, ne_eq]
      show ¬ k' = key
      omega
  · rintro ⟨⟨j, hj0, hj1, he⟩, hne⟩
    simp only [bne_iff_ne, ne_eq] at hne
    have hjne : j ≠ j0 := by
      intro hc
      rw [hc, ] at he
      rw [he] at hk
      exact hne hk
    rcases Int.lt_or_gt_of_ne hjne with hlt | hgt
    · refine ⟨j, hj0, by omega, ?_⟩
      rw [hd j hj0 (by omega), if_neg (by omega)]
      exact he
    · refine ⟨j - 1, by omega, by omega, ?_⟩
      rw [hd (j - 1) (by omega) (by omega), if_pos (by omega)]
      rw [show j - 1 + 1 = j by omega]
      exact he

theorem LeafPage.CopyNFrom_get (p : PageData) (src : List (Int × Int)) (size : Int)
    (h0 : 0 ≤ p.size_) (hs : 0 ≤ size) :
    (LeafPage.CopyNFrom p src 0 size).size_ = p.size_ + size ∧
    (LeafPage.CopyNFrom p src 0 size).page_type_ = p.page_type_ ∧
    (LeafPage.CopyNFrom p src 0 size).page_id_ = p.page_id_ ∧
    (∀ j : Int, 0 ≤ j → j < p.size_ →
      arrGet (LeafPage.CopyNFrom p src 0 size).array_ j = arrGet p.array_ j) ∧
    (∀ j : Int, 0 ≤ j → j < size →
      arrGet (LeafPage.CopyNFrom p src 0 size).array_ (p.size_ + j) = arrGet src j) := by
  unfold LeafPage.CopyNFrom PageData.IncreaseSize
  refine ⟨rfl, rfl, rfl, ?_, ?_⟩
  · intro j hj0 hj1
    show arrGet (copyN src size.toNat 0 p.size_ p.array_) j = _
    rw [copyN_get src size.toNat 0 p.size_ h0 p.array_ j hj0, if_neg (by omega)]
  · intro j hj0 hj1
    show arrGet (copyN src size.toNat 0 p.size_ p.array_) (p.size_ + j) = _
    rw [copyN_get src size.toNat 0 p.size_ h0 p.array_ _ (by omega), if_pos (by omega)]
    congr 1
    omega

end MiniSql

namespace MiniSql

/-! ## `Remove` from the right one of two leaves under the root -/

/-- `AdjustRoot` on an internal root of size 1: the only child becomes the root; the pool
keeps its pages, and the contents of every frame but the one of the old root. -/
theorem AdjustRoot_collapse (t : BPlusTree) (fr : Nat) (hb : PoolOK t.buffer_pool_manager_)
    (hroots : ∃ f, t.buffer_pool_manager_.Holds f INDEX_ROOTS_PAGE_ID)
    (hleaf : (t.buffer_pool_manager_.node fr).IsLeafPage = false)
    (hsz : (t.buffer_pool_manager_.node fr).size_ = 1) :
    ∃ b', t.AdjustRoot fr = some (true,
        { t with root_page_id_ := (t.buffer_pool_manager_.node fr).ValueAt 0,
                 buffer_pool_manager_ := b' }) ∧
      PoolOK b' ∧ (∀ (f : Nat) (q : Int), b'.Holds f q ↔ t.buffer_pool_manager_.Holds f q) ∧
      (∀ f : Nat, f ≠ fr → b'.node f = t.buffer_pool_manager_.node f) := by
  unfold BPlusTree.AdjustRoot
  simp only [hleaf, hsz, Bool.false_eq_true, if_false, if_true, Option.bind_eq_bind]
  obtain ⟨b3, e3, p3⟩ := UpdateRootPageId_spec
    { t with root_page_id_ := (t.buffer_pool_manager_.node fr).ValueAt 0 } false hb hroots
  rw [e3]
  simp only [Option.some_bind]
  obtain ⟨r, b4, e4, p4⟩ := UnpinPage_poolEq
    (b3.setNode fr (fun d => { d with parent_page_id_ := INVALID_PAGE_ID }))
    (setNode_poolOK (p3.poolOK hb) _ _) ((t.buffer_pool_manager_.node fr).ValueAt 0) true
  rw [e4]
  simp only [Option.some_bind]
  refine ⟨b4, rfl, p4.poolOK (setNode_poolOK (p3.poolOK hb) _ _), ?_, ?_⟩
  · intro f q
    rw [p4.holds_iff, setNode_holds_iff, p3.holds_iff]
  · intro f hf
    rw [p4.node_eq, setNode_node_ne _ _ _ _ hf, p3.node_eq]

theorem MoveAllTo_facts (b : BufferPoolManager) (fR fL : Nat) (hne : fL ≠ fR)
    (hlt : fL < b.pages_.length) :
    (LeafPage.MoveAllTo b fR fL).node fL =
      { LeafPage.CopyNFrom (b.node fL) (b.node fR).array_ 0 (b.node fR).size_ with
        next_page_id_ := (b.node fR).next_page_id_ } ∧
    (∀ f : Nat, f ≠ fL → (LeafPage.MoveAllTo b fR fL).node f = b.node f) ∧
    (∀ (f : Nat) (q : Int), (LeafPage.MoveAllTo b fR fL).Holds f q ↔ b.Holds f q) ∧
    (PoolOK b → PoolOK (LeafPage.MoveAllTo b fR fL)) := by
  unfold LeafPage.MoveAllTo
  refine ⟨?_, ?_, ?_, ?_⟩
  · simp only []
    rw [setNode_node_same _ _ _ (by rw [setNode_length]; exact hlt),
      setNode_node_same _ _ _ hlt, setNode_node_ne _ _ _ _ (Ne.symm hne)]
  · intro f hf
    simp only []
    rw [setNode_node_ne _ _ _ _ hf, setNode_node_ne _ _ _ _ hf]
  · intro f q
    simp only []
    rw [setNode_holds_iff, setNode_holds_iff]
  · intro hb
    exact setNode_poolOK (setNode_poolOK hb _ _) _ _

theorem Remove_last_of_two (d : PageData) (hsz : d.size_ = 2) :
    (InternalPage.Remove d 1).size_ = 1 ∧
    (InternalPage.Remove d 1).ValueAt 0 = d.ValueAt 0 ∧
    (InternalPage.Remove d 1).IsLeafPage = d.IsLeafPage ∧
    (InternalPage.Remove d 1).parent_page_id_ = d.parent_page_id_ := by
  unfold InternalPage.Remove PageData.IncreaseSize PageData.ValueAt
  refine ⟨by simp only [hsz]; rfl, ?_, rfl, rfl⟩
  simp only []
  rw [shiftLeft_get d.size_ d.size_.toNat 1 (by omega) d.array_ (by rw [hsz]; simp) 0
    (Int.le_refl _), if_neg (by omega)]

/-- `Coalesce` of the right leaf into the left one under a root with these two children:
the root collapses onto the left leaf, which holds what `MoveAllTo` left in it. -/
theorem Coalesce_into_left (t : BPlusTree) (n : Nat) (fL fR fr : Nat) (pL pR pr : Int)
    (hb : PoolOK t.buffer_pool_manager_)
    (hroots : ∃ f, t.buffer_pool_manager_.Holds f INDEX_ROOTS_PAGE_ID)
    (hL : t.buffer_pool_manager_.Holds fL pL) (hr : t.buffer_pool_manager_.Holds fr pr)
    (hLR : fL ≠ fR) (hLr : fL ≠ fr) (hRr : fR ≠ fr)
    (hpid : (t.buffer_pool_manager_.node fR).page_id_ = pR) (hR2 : 2 ≤ pR)
    (hleaf : (t.buffer_pool_manager_.node fr).IsLeafPage = false)
    (hsz : (t.buffer_pool_manager_.node fr).size_ = 2)
    (hpar : (t.buffer_pool_manager_.node fr).parent_page_id_ = INVALID_PAGE_ID) :
    ∃ b', t.Coalesce (n + 2) true fL fR fr 1 = some (true,
        { t with root_page_id_ := (t.buffer_pool_manager_.node fr).ValueAt 0,
                 buffer_pool_manager_ := b' }) ∧
      PoolOK b' ∧
      (∀ (f : Nat) (q : Int), q ≠ pR → t.buffer_pool_manager_.Holds f q → b'.Holds f q) ∧
      b'.node fL = (LeafPage.MoveAllTo t.buffer_pool_manager_ fR fL).node fL := by
  obtain ⟨m1, m2, m3, m4⟩ := MoveAllTo_facts t.buffer_pool_manager_ fR fL hLR hL.lt
  rw [BPlusTree.Coalesce]
  simp only [if_true, Option.bind_eq_bind, Option.some_bind]
  generalize hB1 : LeafPage.MoveAllTo t.buffer_pool_manager_ fR fL = B1 at m1 m2 m3 m4
  have hB1ok : PoolOK B1 := m4 hb
  have hlt : fr < B1.pages_.length := ((m3 _ _).mpr hr).lt
  have e2R : ((B1.setNode fr (fun d => InternalPage.Remove d 1)).node fR).page_id_ = pR := by
    rw [setNode_node_ne _ _ _ _ hRr, m2 fR (Ne.symm hLR), hpid]
  rw [e2R]
  obtain ⟨r3, b3, e3, p3⟩ := UnpinPage_poolEq (B1.setNode fr (fun d => InternalPage.Remove d 1))
    (setNode_poolOK hB1ok _ _) pR true
  rw [e3]
  simp only [Option.some_bind]
  have e3R : (b3.node fR).page_id_ = pR := by rw [p3.node_eq, e2R]
  rw [e3R]
  have hb3 : PoolOK b3 := p3.poolOK (setNode_poolOK hB1ok _ _)
  obtain ⟨r4, b4, e4, s4⟩ := DeletePage_spec b3 hb3 pR hR2
  rw [e4]
  simp only [Option.some_bind]
  have hkeep : ∀ (f : Nat) (q : Int), q ≠ pR → t.buffer_pool_manager_.Holds f q →
      b4.Holds f q := by
    intro f q hq hh
    apply s4.keep f q hq
    rw [p3.holds_iff, setNode_holds_iff, m3]
    exact hh
  have hn4 : ∀ f : Nat, b4.node f = (B1.setNode fr (fun d => InternalPage.Remove d 1)).node f := by
    intro f
    rw [s4.node, p3.node_eq]
  have hn4r : b4.node fr = InternalPage.Remove (t.buffer_pool_manager_.node fr) 1 := by
    rw [hn4, setNode_node_same _ _ _ hlt, m2 fr (Ne.symm hLr)]
  obtain ⟨q1, q2, q3, q4⟩ := Remove_last_of_two (t.buffer_pool_manager_.node fr) hsz
  rw [BPlusTree.CoalesceOrRedistribute]
  have hroot : (b4.node fr).IsRootPage = true := by
    unfold PageData.IsRootPage
    rw [hn4r, q4, hpar]
    rfl
  simp only [hroot, if_true]
  obtain ⟨f1, hf1⟩ := hroots
  have hne1 : INDEX_ROOTS_PAGE_ID ≠ pR := by
    unfold INDEX_ROOTS_PAGE_ID
    omega
  obtain ⟨b5, e5, a1, a2, a3⟩ := AdjustRoot_collapse { t with buffer_pool_manager_ := b4 } fr
    s4.ok ⟨f1, hkeep _ _ hne1 hf1⟩ (by show (b4.node fr).IsLeafPage = false; rw [hn4r, q3, hleaf])
    (by show (b4.node fr).size_ = 1; rw [hn4r, q1])
  rw [e5]
  refine ⟨b5, ?_, a1, ?_, ?_⟩
  · show some (true, { t with buffer_pool_manager_ := b5, root_page_id_ := (b4.node fr).ValueAt 0 })
      = _
    rw [hn4r, q2]
  · intro f q hq hh
    exact (a2 f q).mpr (hkeep f q hq hh)
  · rw [a3 fL hLr]
    show b4.node fL = _
    rw [hn4, setNode_node_ne _ _ _ _ hLr]

/-- `CoalesceOrRedistribute` on the right one of the two leaves under the root, when it is
below its minimum size and fits into the left leaf: the right leaf is merged into the left
one and the root collapses onto it. -/
theorem CoalesceOrRedistribute_right_leaf (t : BPlusTree) (n : Nat) (fL fR fr : Nat)
    (pL pR pr : Int) (hb : PoolOK t.buffer_pool_manager_)
    (hroots : ∃ f, t.buffer_pool_manager_.Holds f INDEX_ROOTS_PAGE_ID)
    (hL : t.buffer_pool_manager_.Holds fL pL) (hR : t.buffer_pool_manager_.Holds fR pR)
    (hr : t.buffer_pool_manager_.Holds fr pr)
    (hLR : pL ≠ pR) (hLr : pL ≠ pr) (hRr : pR ≠ pr) (hR2 : 2 ≤ pR)
    (hpid : (t.buffer_pool_manager_.node fR).page_id_ = pR)
    (hparR : (t.buffer_pool_manager_.node fR).parent_page_id_ = pr)
    (hleafR : (t.buffer_pool_manager_.node fR).IsLeafPage = true)
    (hunder : (t.buffer_pool_manager_.node fR).size_ <
      (t.buffer_pool_manager_.node fR).GetMinSize)
    (hsum : (t.buffer_pool_manager_.node fL).size_ + (t.buffer_pool_manager_.node fR).size_ ≤
      (t.buffer_pool_manager_.node fR).max_size_)
    (hleaf : (t.buffer_pool_manager_.node fr).IsLeafPage = false)
    (hsz : (t.buffer_pool_manager_.node fr).size_ = 2)
    (hpar : (t.buffer_pool_manager_.node fr).parent_page_id_ = INVALID_PAGE_ID)
    (hk0 : (arrGet (t.buffer_pool_manager_.node fr).array_ 0).2 = pL)
    (hk1 : (arrGet (t.buffer_pool_manager_.node fr).array_ 1).2 = pR) :
    ∃ b', t.CoalesceOrRedistribute (n + 3) true fR = some (true,
        { t with root_page_id_ := pL, buffer_pool_manager_ := b' }) ∧
      PoolOK b' ∧ b'.Holds fL pL ∧
      b'.node fL =
        { LeafPage.CopyNFrom (t.buffer_pool_manager_.node fL)
            (t.buffer_pool_manager_.node fR).array_ 0 (t.buffer_pool_manager_.node fR).size_ with
          next_page_id_ := (t.buffer_pool_manager_.node fR).next_page_id_ } := by
  have hfLR : fL ≠ fR := hL.frame_ne hR hLR
  have hfLr : fL ≠ fr := hL.frame_ne hr hLr
  have hfRr : fR ≠ fr := hR.frame_ne hr hRr
  have hprne : pr ≠ INVALID_PAGE_ID := hr.ne_invalid hb
  rw [BPlusTree.CoalesceOrRedistribute]
  have hnotroot : (t.buffer_pool_manager_.node fR).IsRootPage = false := by
    unfold PageData.IsRootPage
    rw [hparR]
    simpa using hprne
  simp only [hnotroot, Bool.false_eq_true, if_false, Option.bind_eq_bind, hparR]
  obtain ⟨b1, e1, p1⟩ := fetchNode_holds t.buffer_pool_manager_ pr fr hr
  rw [e1]
  simp only [Option.some_bind, p1.node_eq, hpid]
  have hidx : InternalPage.ValueIndex (t.buffer_pool_manager_.node fr) pR = 1 := by
    apply InternalPage.ValueIndex_spec _ _ 1 (by omega) (by omega) hk1
    intro j hj0 hj1
    have : j = 0 := by omega
    subst this
    rw [hk0]
    exact hLR
  rw [hidx]
  generalize hB2 : b1.setNode fr (fun d => d.SetKeyAt 1 ((t.buffer_pool_manager_.node fR).KeyAt 0))
    = B2
  have hltr : fr < b1.pages_.length := (p1.holds hr).lt
  have hB2ok : PoolOK B2 := by rw [← hB2]; exact setNode_poolOK (p1.poolOK hb) _ _
  have hB2H : ∀ (f : Nat) (q : Int), B2.Holds f q ↔ t.buffer_pool_manager_.Holds f q := by
    intro f q
    rw [← hB2, setNode_holds_iff, p1.holds_iff]
  have hB2r : B2.node fr = (t.buffer_pool_manager_.node fr).SetKeyAt 1
      ((t.buffer_pool_manager_.node fR).KeyAt 0) := by
    rw [← hB2, setNode_node_same _ _ _ hltr, p1.node_eq]
  have hB2x : ∀ f : Nat, f ≠ fr → B2.node f = t.buffer_pool_manager_.node f := by
    intro f hf
    rw [← hB2, setNode_node_ne _ _ _ _ hf, p1.node_eq]
  obtain ⟨r3, b3, e3, p3⟩ := UnpinPage_poolEq B2 hB2ok (B2.node fr).page_id_ true
  rw [e3]
  simp only [Option.some_bind, p3.node_eq, hB2x fR hfRr, hleafR, if_true]
  have hnot : decide ((t.buffer_pool_manager_.node fR).size_ ≥
      (t.buffer_pool_manager_.node fR).GetMinSize) = false := by
    simpa using hunder
  simp only [hnot, Bool.false_eq_true, if_false]
  have hsib : (B2.node fr).ValueAt (1 - 1) = pL := by
    rw [hB2r]
    unfold PageData.ValueAt PageData.SetKeyAt
    simp only []
    rw [arrGet_arrSet _ _ _ _ (by omega) (by omega), if_neg (by omega)]
    exact hk0
  rw [if_neg (by omega : ¬ (1 : Int) = 0), hsib]
  obtain ⟨b4, e4, p4⟩ := fetchNode_holds b3 pL fL (p3.holds ((hB2H _ _).mpr hL))
  rw [e4]
  simp only [Option.some_bind, p4.node_eq, p3.node_eq, hB2x fR hfRr, hB2x fL hfLr]
  rw [if_neg (by omega)]
  have h4H : ∀ (f : Nat) (q : Int), b4.Holds f q ↔ t.buffer_pool_manager_.Holds f q := by
    intro f q
    rw [p4.holds_iff, p3.holds_iff, hB2H]
  have h4n : ∀ f : Nat, b4.node f = B2.node f := by
    intro f
    rw [p4.node_eq, p3.node_eq]
  have h4ok : PoolOK b4 := p4.poolOK (p3.poolOK hB2ok)
  obtain ⟨froots, hfroots⟩ := hroots
  obtain ⟨b5, e5, a1, a2, a3⟩ := Coalesce_into_left { t with buffer_pool_manager_ := b4 } n
    fL fR fr pL pR pr h4ok ⟨froots, (h4H _ _).mpr hfroots⟩ ((h4H _ _).mpr hL)
    ((h4H _ _).mpr hr) hfLR hfLr hfRr
    (by show (b4.node fR).page_id_ = pR; rw [h4n, hB2x fR hfRr, hpid]) hR2
    (by show (b4.node fr).IsLeafPage = false; rw [h4n, hB2r]; exact hleaf)
    (by show (b4.node fr).size_ = 2; rw [h4n, hB2r]; exact hsz)
    (by show (b4.node fr).parent_page_id_ = INVALID_PAGE_ID; rw [h4n, hB2r]; exact hpar)
  rw [if_neg (by omega : ¬ (1 : Int) = 0), e5]
  simp only [Option.some_bind]
  obtain ⟨r6, b6, e6, p6⟩ := UnpinPage_poolEq b5 a1 (b5.node fr).page_id_ true
  rw [e6]
  simp only [Option.some_bind]
  have hv0 : (b4.node fr).ValueAt 0 = pL := by
    rw [h4n, hB2r]
    unfold PageData.ValueAt PageData.SetKeyAt
    simp only []
    rw [arrGet_arrSet _ _ _ _ (by omega) (by omega), if_neg (by omega)]
    exact hk0
  refine ⟨b6, ?_, p6.poolOK a1, p6.holds (a2 fL pL hLR ((h4H _ _).mpr hL)), ?_⟩
  · show some (true, { t with buffer_pool_manager_ := b6, root_page_id_ := (b4.node fr).ValueAt 0 })
      = _
    rw [hv0]
  · rw [p6.node_eq, a3]
    rw [(MoveAllTo_facts b4 fR fL hfLR ((h4H _ _).mpr hL).lt).1, h4n, h4n, hB2x fL hfLr,
      hB2x fR hfRr]

theorem pageData_of_holds {b : BufferPoolManager} {f : Nat} {p : Int} (h : b.Holds f p) :
    b.pageData p = some (b.node f) := by
  unfold BufferPoolManager.pageData
  unfold BufferPoolManager.Holds at h
  rw [h]
  rfl

/-- With the erase loop of `DeletePage` read as the removal of the entries it is written to
erase: take a tree in the pool (`TreeInv`) whose root is an internal page with exactly two
children, the left one a leaf (the right one is then a leaf too; its page id is not one of
the two reserved ids and its header carries `leaf_max_size_`). When `Remove` takes a key of
the right leaf and leaves that leaf below the leaf minimum while the sizes of the two leaves
sum to at most `leaf_max_size_`, `Remove` returns, `root_page_id_` then names the left
leaf, and that page is a leaf that holds its former entries followed by the remaining
entries of the right leaf, in ascending key order. -/
theorem root_collapses_onto_merged_leaf_as_written (t : BPlusTree) (G : Shape) (M : Int → Int → Prop)
    (fuel : Nat) (k : Int) (fr fL fR : Nat)
    (h : TreeInv t.buffer_pool_manager_ G t.root_page_id_ t.leaf_max_size_
      t.internal_max_size_ none M)
    (hfr : t.buffer_pool_manager_.Holds fr t.root_page_id_)
    (hrootI : (t.buffer_pool_manager_.node fr).IsLeafPage = false)
    (hsz : (t.buffer_pool_manager_.node fr).size_ = 2)
    (hfL : t.buffer_pool_manager_.Holds fL ((t.buffer_pool_manager_.node fr).ValueAt 0))
    (hfR : t.buffer_pool_manager_.Holds fR ((t.buffer_pool_manager_.node fr).ValueAt 1))
    (hLleaf : (t.buffer_pool_manager_.node fL).IsLeafPage = true)
    (hR2 : 2 ≤ (t.buffer_pool_manager_.node fr).ValueAt 1)
    (hmax : (t.buffer_pool_manager_.node fR).max_size_ = t.leaf_max_size_)
    (hk : k ∈ (t.buffer_pool_manager_.node fR).entries.map Prod.fst)
    (hunder : (t.buffer_pool_manager_.node fR).size_ - 1 <
      (t.buffer_pool_manager_.node fR).GetMinSize)
    (hsum : (t.buffer_pool_manager_.node fL).size_ +
      ((t.buffer_pool_manager_.node fR).size_ - 1) ≤ t.leaf_max_size_)
    (hfuel : 3 ≤ fuel) :
    ∃ t', t.Remove fuel k = some t' ∧
      t'.root_page_id_ = (t.buffer_pool_manager_.node fr).ValueAt 0 ∧
      ∃ d, t'.buffer_pool_manager_.pageData t'.root_page_id_ = some d ∧ d.IsLeafPage = true ∧
        d.entries = (t.buffer_pool_manager_.node fL).entries ++
          (t.buffer_pool_manager_.node fR).entries.filter (fun e => e.1 != k) ∧
        KeyOrdered d.entries := by
  obtain ⟨n, rfl⟩ : ∃ n, fuel = n + 3 := ⟨fuel - 3, by omega⟩
  -- the shape around the root
  have hnone : ∀ (q : Int) (po K pn : Int), (none : Option (Int × Int × Int)) = some (po, K, pn) →
      q ≠ G.par po := fun _ _ _ _ hc => by cases hc
  have hNr := h.node _ fr h.rootIn hfr (hnone _)
  have hht : G.ht t.root_page_id_ ≠ 0 := by
    intro hc
    have := hNr.leafT.mpr hc
    rw [hrootI] at this
    cases this
  have hK := (hNr.inner hht).2
  rw [hsz] at hK
  obtain ⟨sL, parL, htL, loL, hiL⟩ := hK.kid 0 (by omega) (by omega)
  obtain ⟨sR, parR, htR, loR, hiR⟩ := hK.kid 1 (by omega) (by omega)
  rw [if_pos rfl] at loL
  rw [if_neg (by omega)] at hiL loR
  have eL : (t.buffer_pool_manager_.node fr).ValueAt 0 =
      (arrGet (t.buffer_pool_manager_.node fr).array_ 0).2 := rfl
  have eR : (t.buffer_pool_manager_.node fr).ValueAt 1 =
      (arrGet (t.buffer_pool_manager_.node fr).array_ 1).2 := rfl
  rw [eL] at hfL
  rw [eR] at hfR hR2
  rw [eL]
  generalize hpL : (arrGet (t.buffer_pool_manager_.node fr).array_ 0).2 = pL at *
  generalize hpR : (arrGet (t.buffer_pool_manager_.node fr).array_ 1).2 = pR at *
  have hNL := h.node pL fL sL hfL (hnone _)
  have hNR := h.node pR fR sR hfR (hnone _)
  have htL0 : G.ht pL = 0 := hNL.leafT.mp hLleaf
  have htR0 : G.ht pR = 0 := by omega
  have hKL := (hNL.leaf htL0).keys
  have hKR := (hNR.leaf htR0).keys
  have hLR : pL ≠ pR := by
    intro hc
    have := hK.kid_inj 0 1 (by omega) (by omega) (by omega) (by omega) (by rw [hpL, hpR, hc])
    omega
  have hLr : pL ≠ t.root_page_id_ := by
    have := hK.kid_ne 0 (by omega) (by omega)
    rw [hpL] at this
    exact this
  have hRr : pR ≠ t.root_page_id_ := by
    have := hK.kid_ne 1 (by omega) (by omega)
    rw [hpR] at this
    exact this
  have hfLR : fL ≠ fR := hfL.frame_ne hfR hLR
  -- the key is in the right leaf
  obtain ⟨⟨k', v⟩, hmem, hk'⟩ := List.mem_map.mp hk
  simp only at hk'
  subst hk'
  have hE : Entry (t.buffer_pool_manager_.node fR) k' v := (mem_entries _ _ _).mp hmem
  obtain ⟨j0, j00, j01, je⟩ := hE
  have hin : G.inRange pR k' := hKR.entry_range k' v ⟨j0, j00, j01, je⟩
  obtain ⟨l, fl, b0, e0, p0, hl, h0, hf, hr⟩ := FindLeafPage_spec t h k' (n + 3) (by omega)
  have hlR : l = pR := h.leaf_unique k' l pR hl sR h0 htR0 hr hin
  rw [hlR] at hf
  have hflR : fl = fR := hf.unique hfR
  rw [hflR] at e0
  obtain ⟨d', ed, hd', hget⟩ := LeafPage.RemoveAndDeleteRecord_spec
    (t.buffer_pool_manager_.node fR) k' j0 j00 j01 (by rw [je]) hKR.sorted
  have hsz' : d'.size_ = (t.buffer_pool_manager_.node fR).size_ - 1 := by rw [hd']
  obtain ⟨hsd, hent⟩ := removed_entries (t.buffer_pool_manager_.node fR) d' k' j0 j00 j01
    (by rw [je]) hKR.sorted hsz' hget
  have hne : (t.root_page_id_ == INVALID_PAGE_ID) = false := by simpa using h.root_ne
  unfold BPlusTree.Remove BPlusTree.IsEmpty
  rw [hne]
  simp only [Bool.false_eq_true, if_false, Option.bind_eq_bind, e0, Option.some_bind,
    p0.node_eq, ed]
  rw [if_pos (by rw [hsz']; omega)]
  have hlt : fR < b0.pages_.length := (p0.holds hfR).lt
  have hH : ∀ (f : Nat) (q : Int), (b0.setNode fR (fun _ => d')).Holds f q ↔
      t.buffer_pool_manager_.Holds f q := by
    intro f q
    rw [setNode_holds_iff, p0.holds_iff]
  have hnR : (b0.setNode fR (fun _ => d')).node fR = d' := setNode_node_same _ _ _ hlt
  have hnx : ∀ f : Nat, f ≠ fR → (b0.setNode fR (fun _ => d')).node f =
      t.buffer_pool_manager_.node f := by
    intro f hfne
    rw [setNode_node_ne _ _ _ _ hfne, p0.node_eq]
  have hfrR : fr ≠ fR := hfr.frame_ne hfR (Ne.symm hRr)
  obtain ⟨froots, hfroots⟩ := h.rootsPage
  have hptrR := h.ptr pR fR sR hfR (fun _ _ hc => by cases hc)
  have hptrr := h.ptr _ fr h.rootIn hfr (fun _ _ hc => by cases hc)
  rw [parR] at hptrR
  rw [h.rootPar] at hptrr
  have hmin : d'.GetMinSize = (t.buffer_pool_manager_.node fR).GetMinSize := by
    unfold PageData.GetMinSize PageData.IsLeafPage
    rw [hd']
  obtain ⟨b', e', ok', hold', node'⟩ := CoalesceOrRedistribute_right_leaf
    { t with buffer_pool_manager_ := b0.setNode fR (fun _ => d') } n fL fR fr pL pR
    t.root_page_id_ (setNode_poolOK (p0.poolOK h.pool) fR (fun _ => d'))
    ⟨froots, (hH froots INDEX_ROOTS_PAGE_ID).mpr hfroots⟩
    ((hH fL pL).mpr hfL) ((hH fR pR).mpr hfR) ((hH fr t.root_page_id_).mpr hfr) hLR hLr hRr hR2
    (by show ((b0.setNode fR (fun _ => d')).node fR).page_id_ = pR
        rw [hnR, hd']; exact hNR.pid)
    (by show ((b0.setNode fR (fun _ => d')).node fR).parent_page_id_ = _
        rw [hnR, hd']; exact hptrR)
    (by show ((b0.setNode fR (fun _ => d')).node fR).IsLeafPage = true
        rw [hnR]
        have := hNR.leafT.mpr htR0
        unfold PageData.IsLeafPage at this ⊢
        rw [hd']
        exact this)
    (by show ((b0.setNode fR (fun _ => d')).node fR).size_ <
          ((b0.setNode fR (fun _ => d')).node fR).GetMinSize
        rw [hnR, hmin, hsz']; exact hunder)
    (by show ((b0.setNode fR (fun _ => d')).node fL).size_ +
          ((b0.setNode fR (fun _ => d')).node fR).size_ ≤
          ((b0.setNode fR (fun _ => d')).node fR).max_size_
        rw [hnR, hnx fL hfLR, hsz']
        have : d'.max_size_ = t.leaf_max_size_ := by rw [hd']; exact hmax
        rw [this]
        exact hsum)
    (by show ((b0.setNode fR (fun _ => d')).node fr).IsLeafPage = false
        rw [hnx fr hfrR]; exact hrootI)
    (by show ((b0.setNode fR (fun _ => d')).node fr).size_ = 2
        rw [hnx fr hfrR]; exact hsz)
    (by show ((b0.setNode fR (fun _ => d')).node fr).parent_page_id_ = INVALID_PAGE_ID
        rw [hnx fr hfrR]; exact hptrr)
    (by show (arrGet ((b0.setNode fR (fun _ => d')).node fr).array_ 0).2 = pL
        rw [hnx fr hfrR]; exact hpL)
    (by show (arrGet ((b0.setNode fR (fun _ => d')).node fr).array_ 1).2 = pR
        rw [hnx fr hfrR]; exact hpR)
  rw [e']
  simp only [Option.some_bind]
  have hD : b'.node fL =
      { LeafPage.CopyNFrom (t.buffer_pool_manager_.node fL) d'.array_ 0 d'.size_ with
        next_page_id_ := d'.next_page_id_ } := by
    rw [node']
    show ({ LeafPage.CopyNFrom ((b0.setNode fR (fun _ => d')).node fL)
        ((b0.setNode fR (fun _ => d')).node fR).array_ 0
        ((b0.setNode fR (fun _ => d')).node fR).size_ with
        next_page_id_ := ((b0.setNode fR (fun _ => d')).node fR).next_page_id_ } : PageData) = _
    rw [hnR, hnx fL hfLR]
  have hsL0 : 0 ≤ (t.buffer_pool_manager_.node fL).size_ := by
    have := hKL.size_pos
    omega
  have hsR0 : 0 ≤ d'.size_ := by
    have := hKR.size_pos
    omega
  obtain ⟨c1, c2, _, c4, c5⟩ := LeafPage.CopyNFrom_get (t.buffer_pool_manager_.node fL)
    d'.array_ d'.size_ hsL0 hsR0
  have hents : (b'.node fL).entries = (t.buffer_pool_manager_.node fL).entries ++
      (t.buffer_pool_manager_.node fR).entries.filter (fun e => e.1 != k') := by
    rw [← hent]
    apply entries_append _ _ _ hsL0 hsR0
    · rw [hD]
      exact c1
    · intro j hj0 hj1
      rw [hD]
      exact c4 j hj0 hj1
    · intro j hj0 hj1
      rw [hD]
      exact c5 j hj0 hj1
  refine ⟨_, rfl, rfl, b'.node fL, pageData_of_holds hold', ?_, hents, ?_⟩
  · rw [hD]
    unfold PageData.IsLeafPage at hLleaf ⊢
    show ((LeafPage.CopyNFrom (t.buffer_pool_manager_.node fL) d'.array_ 0 d'.size_).page_type_
      == IndexPageType.LEAF_PAGE) = true
    rw [c2]
    exact hLleaf
  · rw [hents]
    unfold KeyOrdered
    rw [List.pairwise_append]
    refine ⟨entries_ordered _ hKL.sorted,
      (entries_ordered _ hKR.sorted).sublist (List.filter_sublist _), ?_⟩
    rintro ⟨ka, va⟩ ha ⟨kb, vb⟩ hb
    have ha1 := (mem_entries _ _ _).mp ha
    have hb1 := (mem_entries _ _ _).mp (List.mem_filter.mp hb).1
    have r1 := (hKL.entry_range ka va ha1).2
    have r2 := (hKR.entry_range kb vb hb1).1
    rw [hiL, ltHi_some] at r1
    rw [loR, loLe_some] at r2
    show ka < kb
    have e01 : ((0 : Int) + 1) = 1 := by omega
    rw [e01] at r1
    omega

/-- C30 does not hold on the code, by a defect of the code: the merge of the claim ends in
`DeletePage` of the right leaf, which has no defined behaviour. At leaf_max_size 3 and keys
10, 20, 30, 40 the root (page 4) has the leaves [10, 20] (page 2) and [30, 40] (page 3), and
the page table is `(0,0), (1,1), (2,2), (3,3), (4,4)`. `Remove(30)` leaves the right leaf
with one entry, below the minimum 2, and 2 + 1 entries fit in a leaf, so `Coalesce` moves the
entry to page 2, unpins page 3 and calls `DeletePage(3)` (b_plus_tree.cpp:418-419), whose
loop over the page table erases the entry `(3,3)` and then increments the erased iterator
(buffer_pool_manager.cpp:156-160): the loop has no result on this table. Read as the removal
it is written to perform, `Remove(30)` returns with `root_page_id_ = 2`, page 2 a leaf with
the keys 10, 20, 40 and page 3 gone from the page table, and `Remove(40)` then leaves the
keys 10, 20. No call of the buffer pool with defined behaviour removes an entry of the page
table: `DeletePage`, `UnpinPage` and `FlushPage` leave the table as it is, `FetchPage` and
`NewPage` keep every entry. -/
theorem Remove_merge_deletes_leaf_inside_page_table_loop :
    (treeAfter 20 3 3 20 (insertOps pairs10to40)).map (fun t =>
      (t.root_page_id_, t.buffer_pool_manager_.page_table_)) =
      some (4, [(0, 0), (1, 1), (2, 2), (3, 3), (4, 4)]) ∧
    (treeAfter 20 3 3 20 (insertOps pairs10to40)).map (fun t =>
      ((t.buffer_pool_manager_.pageData 2).map (fun d => d.entries),
        (t.buffer_pool_manager_.pageData 3).map (fun d => d.entries))) =
      some (some [(10, 110), (20, 120)], some [(30, 130), (40, 140)]) ∧
    eraseLoop (fun e => e.2 == 3) [(0, 0), (1, 1), (2, 2), (3, 3), (4, 4)] = none ∧
    (treeAfter 20 3 3 20 (insertOps pairs10to40)).bind (fun t =>
      (t.buffer_pool_manager_.DeletePageStrict 3).map (fun r => r.1)) = none ∧
    (treeAfter 20 3 3 20 (insertOps pairs10to40 ++ [Op.remove 30])).map (fun t =>
      (t.root_page_id_, t.buffer_pool_manager_.page_table_,
        (t.buffer_pool_manager_.pageData t.root_page_id_).map
          (fun d => (d.IsLeafPage, d.entries)))) =
      some (2, [(0, 0), (1, 1), (2, 2), (4, 4)],
        some (true, [(10, 110), (20, 120), (40, 140)])) ∧
    (treeAfter 20 3 3 20 (insertOps pairs10to40 ++ [Op.remove 30, Op.remove 40])).map
      (fun t => (t.root_page_id_,
        (t.buffer_pool_manager_.pageData t.root_page_id_).map
          (fun d => (d.IsLeafPage, d.entries)))) =
      some (2, some (true, [(10, 110), (20, 120)])) ∧
    (∀ (b : BufferPoolManager) (p : Int) (r : Bool × BufferPoolManager),
      b.DeletePageStrict p = some r → r.2.page_table_ = b.page_table_) ∧
    (∀ (b : BufferPoolManager) (p : Int) (d : Bool) (r : Bool × BufferPoolManager),
      b.UnpinPage p d = some r → r.2.page_table_ = b.page_table_) ∧
    (∀ (b : BufferPoolManager) (p : Int) (r : Bool × BufferPoolManager),
      b.FlushPage p = some r → r.2.page_table_ = b.page_table_) ∧
    (∀ (b : BufferPoolManager) (p : Int) (r : Option Nat × BufferPoolManager),
      b.FetchPageStrict p = some r →
      ∀ e : Int × Int, e ∈ b.page_table_ → e ∈ r.2.page_table_) ∧
    (∀ (b : BufferPoolManager) (keep : Int) (r : (Option Nat × Int) × BufferPoolManager),
      b.NewPageStrict keep = some r →
      ∀ e : Int × Int, e ∈ b.page_table_ → e ∈ r.2.page_table_) := by
  refine ⟨by decide!, by decide!, by decide, by decide!, by decide!, by decide!,
    DeletePageStrict_table,
    UnpinPage_table, FlushPage_table, FetchPageStrict_table, NewPageStrict_table⟩

end MiniSql

namespace MiniSql

/-! ## Inserts into a tree that is one leaf -/

end MiniSql

namespace MiniSql

/-! ## One key more than a leaf holds (C29) -/

end MiniSql

namespace MiniSql

/-! ## The page operations on their own: leaf `Insert`, leaf `RemoveAndDeleteRecord`,
internal `Lookup` -/

/-- The entries of a page are in key order exactly when the keys of its array ascend. -/
theorem sortedKeys_of_entries (d : PageData) (h : KeyOrdered d.entries) :
    SortedKeys d.array_ 0 d.size_ := by
  unfold KeyOrdered at h
  rw [List.pairwise_iff_getElem] at h
  intro i j hi hij hj
  have hi1 : i.toNat < d.entries.length := by rw [entries_length]; omega
  have hj1 : j.toNat < d.entries.length := by rw [entries_length]; omega
  have hi2 := hi1
  have hj2 := hj1
  rw [entries_length] at hi2 hj2
  have ei : d.entries[i.toNat] = arrGet d.array_ i := by
    have := entries_at d i.toNat
    rw [if_pos hi2, List.getElem?_eq_getElem hi1, Int.toNat_of_nonneg hi] at this
    exact Option.some.inj this
  have ej : d.entries[j.toNat] = arrGet d.array_ j := by
    have := entries_at d j.toNat
    rw [if_pos hj2, List.getElem?_eq_getElem hj1, Int.toNat_of_nonneg (by omega)] at this
    exact Option.some.inj this
  have := h i.toNat j.toNat hi1 hj1 (by omega)
  rw [ei, ej] at this
  exact this

/-- A key is a key of the page exactly when the array holds it below `size_`. -/
theorem mem_entry_keys (d : PageData) (key : Int) :
    key ∈ d.entries.map Prod.fst ↔ ∃ j : Int, 0 ≤ j ∧ j < d.size_ ∧ (arrGet d.array_ j).1 = key := by
  rw [List.mem_map]
  constructor
  · rintro ⟨⟨k, v⟩, hm, he⟩
    obtain ⟨j, h0, h1, e⟩ := (mem_entries d k v).mp hm
    exact ⟨j, h0, h1, by rw [e]; exact he⟩
  · rintro ⟨j, h0, h1, e⟩
    refine ⟨arrGet d.array_ j, ?_, e⟩
    exact (mem_entries d _ _).mpr ⟨j, h0, h1, rfl⟩

theorem keyAbsent_of_entries (d : PageData) (key : Int) (h : key ∉ d.entries.map Prod.fst) :
    KeyAbsent d.array_ 0 d.size_ key := by
  intro j h0 h1 e
  exact h ((mem_entry_keys d key).mpr ⟨j, h0, h1, e⟩)

theorem keyOrdered_nodup (l : List (Int × Int)) (hl : KeyOrdered l) : l.Nodup :=
  hl.imp (fun {a b} hab => by
    intro hc
    rw [hc] at hab
    exact absurd hab (by omega))

/-- `RemoveAndDeleteRecord` of a key the leaf does not hold changes nothing. -/
theorem LeafPage.RemoveAndDeleteRecord_absent (p : PageData) (key : Int) (hsize : 0 ≤ p.size_)
    (hs : SortedKeys p.array_ 0 p.size_) (ha : KeyAbsent p.array_ 0 p.size_ key) :
    LeafPage.RemoveAndDeleteRecord p key = some p := by
  unfold LeafPage.RemoveAndDeleteRecord PageData.KeyAt
  by_cases hcond : p.size_ = 0 ∨ comparator key (arrGet p.array_ 0).1 < 0 ∨
      comparator key (arrGet p.array_ (p.size_ - 1)).1 > 0
  · rw [if_pos hcond]
  · rw [if_neg hcond]
    rcases leafSearchLoop_spec p.array_ key p.size_ hs (p.size_.toNat + 1) 0 (p.size_ - 1)
      (Int.le_refl _) (by omega) (by omega) (by omega) with ⟨mid, m1, m2, m3, _⟩ | ⟨_, e⟩
    · exact absurd m3 (ha mid m1 (by omega))
    · rw [e]

/-- C31: for every leaf page (of size at least 0) whose entries are in strictly ascending key
order and every key that is not one of its keys, `BPlusTreeLeafPage::Insert` returns (the
search loop ends without the `assert`), the size it returns is the old size plus 1, the
header is otherwise unchanged, the entries afterwards are the old entries and the pair
`(key, value)` (each once), and they are in strictly ascending key order. -/
theorem Insert_adds_the_pair_in_key_order (p : PageData) (key value : Int)
    (hsize : 0 ≤ p.size_) (hord : KeyOrdered p.entries)
    (habs : key ∉ p.entries.map Prod.fst) :
    ∃ d, LeafPage.Insert p key value = some d ∧
      d.size_ = p.size_ + 1 ∧
      d = { p with array_ := d.array_, size_ := p.size_ + 1 } ∧
      (∀ e, e ∈ d.entries ↔ e = (key, value) ∨ e ∈ p.entries) ∧
      d.entries.Perm ((key, value) :: p.entries) ∧
      KeyOrdered d.entries := by
  have hs := sortedKeys_of_entries p hord
  have ha := keyAbsent_of_entries p key habs
  obtain ⟨d, pos, e, p0, p1, hd, hlo, hhi, hget⟩ := LeafPage.Insert_spec p key value hsize hs ha
  have hsz : d.size_ = p.size_ + 1 := by rw [hd]
  have hsd : SortedKeys d.array_ 0 d.size_ := by
    intro i j hi hij hj
    rw [hsz] at hj
    rw [hget i hi (by omega), hget j (by omega) (by omega)]
    unfold insAt
    by_cases c1 : i < pos
    · rw [if_pos c1]
      by_cases c2 : j < pos
      · rw [if_pos c2]
        exact hs _ _ hi hij (by omega)
      · rw [if_neg c2]
        by_cases c3 : j = pos
        · rw [if_pos c3]
          exact hlo i hi c1
        · rw [if_neg c3]
          exact Int.lt_trans (hlo i hi c1) (hhi (j - 1) (by omega) (by omega))
    · rw [if_neg c1]
      by_cases c4 : i = pos
      · rw [if_pos c4, if_neg (by omega), if_neg (by omega)]
        exact hhi (j - 1) (by omega) (by omega)
      · rw [if_neg c4, if_neg (by omega), if_neg (by omega)]
        exact hs _ _ (by omega) (by omega) (by omega)
  have hmem : ∀ e, e ∈ d.entries ↔ e = (key, value) ∨ e ∈ p.entries := by
    rintro ⟨k, v⟩
    rw [mem_entries, mem_entries]
    constructor
    · rintro ⟨j, h0, h1, ej⟩
      rw [hsz] at h1
      rw [hget j h0 (by omega)] at ej
      unfold insAt at ej
      by_cases c1 : j < pos
      · rw [if_pos c1] at ej
        exact Or.inr ⟨j, h0, by omega, ej⟩
      · rw [if_neg c1] at ej
        by_cases c2 : j = pos
        · rw [if_pos c2] at ej
          exact Or.inl ej.symm
        · rw [if_neg c2] at ej
          exact Or.inr ⟨j - 1, by omega, by omega, ej⟩
    · rintro (h | ⟨j, h0, h1, ej⟩)
      · refine ⟨pos, p0, by omega, ?_⟩
        rw [hget pos p0 p1]
        unfold insAt
        rw [if_neg (by omega), if_pos rfl, h]
      · by_cases c1 : j < pos
        · refine ⟨j, h0, by omega, ?_⟩
          rw [hget j h0 (by omega)]
          unfold insAt
          rw [if_pos c1, ej]
        · refine ⟨j + 1, by omega, by omega, ?_⟩
          rw [hget (j + 1) (by omega) (by omega)]
          unfold insAt
          rw [if_neg (by omega), if_neg (by omega)]
          rw [show j + 1 - 1 = j by omega, ej]
  have hord2 := entries_ordered d hsd
  refine ⟨d, e, hsz, hd, hmem, ?_, hord2⟩
  have hnd : ((key, value) :: p.entries).Nodup := by
    rw [List.nodup_cons]
    refine ⟨?_, keyOrdered_nodup _ hord⟩
    intro hm
    exact habs (List.mem_map.mpr ⟨(key, value), hm, rfl⟩)
  refine (List.perm_ext_iff_of_nodup (keyOrdered_nodup _ hord2) hnd).mpr ?_
  intro x
  rw [hmem x, List.mem_cons]

/-- C31 on the leaf [10, 30] and the key 20: the leaf afterwards is [10, 20, 30]. -/
theorem Insert_adds_the_pair_in_key_order_witness :
    (∃ d, LeafPage.Insert leaf1030 20 2 = some d ∧
      d.size_ = leaf1030.size_ + 1 ∧
      d = { leaf1030 with array_ := d.array_, size_ := leaf1030.size_ + 1 } ∧
      (∀ e, e ∈ d.entries ↔ e = (20, 2) ∨ e ∈ leaf1030.entries) ∧
      d.entries.Perm ((20, 2) :: leaf1030.entries) ∧
      KeyOrdered d.entries) ∧
    (LeafPage.Insert leaf1030 20 2).map (fun d => (d.size_, d.entries)) =
      some (3, [(10, 1), (20, 2), (30, 3)]) :=
  ⟨Insert_adds_the_pair_in_key_order leaf1030 20 2 (by decide)
    (by unfold KeyOrdered; decide) (by decide), by decide⟩

/-- C32: for every leaf page (of size at least 0) whose entries are in strictly ascending key
order, `BPlusTreeLeafPage::RemoveAndDeleteRecord(key)` returns; when `key` is one of the
keys, the size it returns is the old size minus 1, the header is otherwise unchanged and the
entries are the entries of the other keys in their former order; when `key` is not one of the
keys, the page is unchanged (and the size returned is the old size). -/
theorem RemoveAndDeleteRecord_takes_out_the_key_only (p : PageData) (key : Int)
    (hsize : 0 ≤ p.size_) (hord : KeyOrdered p.entries) :
    ∃ d, LeafPage.RemoveAndDeleteRecord p key = some d ∧
      (key ∈ p.entries.map Prod.fst →
        d.size_ = p.size_ - 1 ∧ d = { p with array_ := d.array_, size_ := p.size_ - 1 } ∧
        d.entries = p.entries.filter (fun e => e.1 != key)) ∧
      (key ∉ p.entries.map Prod.fst → d = p ∧ d.size_ = p.size_) := by
  have hs := sortedKeys_of_entries p hord
  by_cases hk : key ∈ p.entries.map Prod.fst
  · obtain ⟨j0, h0, h1, e0⟩ := (mem_entry_keys p key).mp hk
    obtain ⟨d, e, hd, hget⟩ := LeafPage.RemoveAndDeleteRecord_spec p key j0 h0 h1 e0 hs
    have hsz : d.size_ = p.size_ - 1 := by rw [hd]
    refine ⟨d, e, fun _ => ⟨hsz, hd, (removed_entries p d key j0 h0 h1 e0 hs hsz hget).2⟩,
      fun hn => absurd hk hn⟩
  · exact ⟨p, LeafPage.RemoveAndDeleteRecord_absent p key hsize hs
      (keyAbsent_of_entries p key hk), fun h => absurd h hk, fun _ => ⟨rfl, rfl⟩⟩

/-- C32 on the leaf [10, 20, 30]: removing 20 leaves [10, 30], removing 25 changes nothing. -/
theorem RemoveAndDeleteRecord_takes_out_the_key_only_witness :
    (∃ d, LeafPage.RemoveAndDeleteRecord leaf102030 20 = some d ∧
      (20 ∈ leaf102030.entries.map Prod.fst →
        d.size_ = leaf102030.size_ - 1 ∧
        d = { leaf102030 with array_ := d.array_, size_ := leaf102030.size_ - 1 } ∧
        d.entries =
          leaf102030.entries.filter (fun e => e.1 != 20)) ∧
      (20 ∉ leaf102030.entries.map Prod.fst →
        d = leaf102030 ∧
        d.size_ = leaf102030.size_)) ∧
    ((LeafPage.RemoveAndDeleteRecord leaf102030 20).map
        (fun d => (d.size_, d.entries)) = some (2, [(10, 1), (30, 3)])) ∧
    LeafPage.RemoveAndDeleteRecord leaf102030 25 =
      some leaf102030 :=
  ⟨RemoveAndDeleteRecord_takes_out_the_key_only leaf102030 20
      (by decide) (by unfold KeyOrdered; decide), by decide, by decide⟩

/-- C33: for every internal page of size at least 2 whose keys at the indices 1 to
`size_ - 1` ascend strictly, `BPlusTreeInternalPage::Lookup(key)` returns (its search loop
ends): the child at index 0 when `key` is below the key at index 1, and otherwise the child
at the greatest index `i` from 1 up to `size_ - 1` whose key is at most `key`. -/
theorem Lookup_returns_child_of_greatest_key_at_most (p : PageData) (key : Int)
    (hsize : 2 ≤ p.size_) (hs : SortedKeys p.array_ 1 p.size_) :
    (key < p.KeyAt 1 → InternalPage.Lookup p key = some (p.ValueAt 0)) ∧
    (p.KeyAt 1 ≤ key → ∃ i : Int, 1 ≤ i ∧ i < p.size_ ∧ p.KeyAt i ≤ key ∧
      (∀ j : Int, 1 ≤ j → j < p.size_ → p.KeyAt j ≤ key → j ≤ i) ∧
      InternalPage.Lookup p key = some (p.ValueAt i)) := by
  unfold PageData.KeyAt PageData.ValueAt
  obtain ⟨r, e, r0, r1, h1, h2⟩ := InternalPage.Lookup_child_spec p key hsize hs
  constructor
  · intro hlt
    by_cases c : r = 0
    · rw [e, c]
    · exfalso
      rcases h1 with h1 | h1
      · exact c h1
      · have := hs.le 1 r (Int.le_refl _) (by omega) r1
        omega
  · intro hge
    have hr : 1 ≤ r := by
      by_contra c
      have hr0 : r = 0 := by omega
      rw [hr0] at h2
      rcases h2 with h2 | h2
      · omega
      · simp at h2
        omega
    have hk : (arrGet p.array_ r).1 ≤ key := by
      rcases h1 with h1 | h1
      · omega
      · exact h1
    refine ⟨r, hr, r1, hk, ?_, e⟩
    intro j j1 j2 hj
    by_contra c
    rcases h2 with h2 | h2
    · omega
    · have := hs.le (r + 1) j (by omega) (by omega) j2
      omega

/-- C33 on the internal page with the keys 20 and 40 (children 7, 8, 9) and the key 25; the
keys 25, 19 and 40 lead to the children 8, 7 and 9. -/
theorem Lookup_returns_child_of_greatest_key_at_most_witness :
    (((25 : Int) < internal2040.KeyAt 1 →
      InternalPage.Lookup internal2040 25 =
        some (internal2040.ValueAt 0)) ∧
    (internal2040.KeyAt 1 ≤ 25 → ∃ i : Int, 1 ≤ i ∧
      i < internal2040.size_ ∧
      internal2040.KeyAt i ≤ 25 ∧
      (∀ j : Int, 1 ≤ j → j < internal2040.size_ →
        internal2040.KeyAt j ≤ 25 → j ≤ i) ∧
      InternalPage.Lookup internal2040 25 =
        some (internal2040.ValueAt i))) ∧
    InternalPage.Lookup internal2040 25 = some 8 ∧
    InternalPage.Lookup internal2040 19 = some 7 ∧
    InternalPage.Lookup internal2040 40 = some 9 :=
  ⟨Lookup_returns_child_of_greatest_key_at_most internal2040 25
    (by decide) (by
      intro i j hi hij hj
      have hj2 : j < 3 := hj
      have hi1 : i = 1 := by omega
      have hj1 : j = 2 := by omega
      subst hi1
      subst hj1
      decide), by decide, by decide, by decide⟩

end MiniSql

namespace MiniSql

/-! ## `GetValue` on an empty tree -/

/-- C35 does not hold on the code, by a defect of the code: on an empty tree
(`root_page_id_ = INVALID_PAGE_ID`) `FindLeafPage` returns the null page without touching
the tree or its buffer pool, and `BPlusTree::GetValue` calls `leaf_page->GetData()` on that
null page (b_plus_tree.cpp:54) before the test `leaf == nullptr` of the next lines, so the
call has no defined result, for every key; on the empty tree over a pool of three frames and
key 5 as well. `Insert` and `Remove` test `IsEmpty()` first. -/
theorem GetValue_on_empty_tree_reads_null_page :
    emptyTree.root_page_id_ = INVALID_PAGE_ID ∧
    emptyTree.FindLeafPage 10 5 false = some (none, emptyTree) ∧
    emptyTree.GetValue 10 5 = none ∧
    (∀ (t : BPlusTree) (fuel : Nat) (key : Int), t.root_page_id_ = INVALID_PAGE_ID →
      t.FindLeafPage fuel key false = some (none, t) ∧ t.GetValue fuel key = none) := by
  have hgen : ∀ (t : BPlusTree) (fuel : Nat) (key : Int),
      t.root_page_id_ = INVALID_PAGE_ID →
      t.FindLeafPage fuel key false = some (none, t) ∧ t.GetValue fuel key = none := by
    intro t fuel key h
    have e : t.FindLeafPage fuel key false = some (none, t) := by
      unfold BPlusTree.FindLeafPage BPlusTree.IsEmpty
      rw [h]
      rfl
    refine ⟨e, ?_⟩
    unfold BPlusTree.GetValue
    rw [e]
    rfl
  exact ⟨rfl, (hgen emptyTree 10 5 rfl).1, (hgen emptyTree 10 5 rfl).2, hgen⟩

/-! ## `Begin(key)` for a key between two leaves -/

/-- C36 fails on the code: with leaf_max_size 3, after the inserts of 10, 20, 30, 40 and 15
the leaves are [10, 15, 20] (page 2) and [30, 40] (page 3). The key 25 is not stored and the
smallest stored key above it is 30, in page 3. `Begin(25)` descends to page 2, where
`KeyIndex` returns the size 3, and builds the iterator (page 2, index 3); `operator*` passes
its `assert` (page 2 has a next leaf) and returns `array_[3]` of page 2, an entry beyond the
size of the leaf (here never written: zero), not the entry (30, 130). One `++` from the
entry of 20 does reach (30, 130). -/
theorem Begin_between_leaves_reads_beyond_leaf_size :
    (treeAfter 10 3 3 20 (insertOps pairs10to40then15)).map (fun t =>
      (t.root_page_id_, (t.buffer_pool_manager_.pageData 4).map (fun d => d.entries)))
      = some (4, some [(0, 2), (30, 3)]) ∧
    (treeAfter 10 3 3 20 (insertOps pairs10to40then15)).map (fun t =>
      (t.buffer_pool_manager_.pageData 2).map (fun d => (d.entries, d.next_page_id_)))
      = some (some ([(10, 110), (15, 115), (20, 120)], 3)) ∧
    (treeAfter 10 3 3 20 (insertOps pairs10to40then15)).map (fun t =>
      (t.buffer_pool_manager_.pageData 3).map (fun d => (d.entries, d.next_page_id_)))
      = some (some ([(30, 130), (40, 140)], INVALID_PAGE_ID)) ∧
    (treeAfter 10 3 3 20 (insertOps pairs10to40then15)).bind (fun t =>
      (t.BeginAt 20 25).map (fun r => (r.1, r.1.deref r.2.buffer_pool_manager_)))
      = some ({ leaf := some 2, index := 3 }, some (0, 0)) ∧
    (treeAfter 10 3 3 20 (insertOps pairs10to40then15)).bind (fun t =>
      (t.BeginAt 20 20).bind (fun r =>
        (r.1.next r.2.buffer_pool_manager_).map (fun r1 => r1.1.deref r1.2)))
      = some (some (30, 130)) := by
  refine ⟨?_, ?_, ?_, ?_, ?_⟩
  · decide!
  · decide!
  · decide!
  · decide!
  · decide!

/-! ## The dirty flag of a new sibling leaf -/

/-- C37 fails on the code: with leaf_max_size 3 on a pool of 10 frames, the insert of 40
after 10, 20, 30 splits the leaf (page 2) and creates the sibling page 3 with the entries of
30 and 40. When `Insert` has returned, the frame of page 3 has pin count 0 and its dirty flag
is not set, while nothing of page 3 is in the file: `Split` unpins the new page with
`is_dirty = false`, and `UnpinPage(new_node->GetPageId(), true)` of `InsertIntoParent` then
finds pin count 0 and returns before it sets the flag. On a pool of 3 frames the same four
inserts leave page 3 neither resident nor written to the file, while the root (page 4) still
names it as the child for the keys from 30 on. -/
theorem split_sibling_not_dirty_after_Insert :
    (treeAfter 10 3 3 20 (insertOps pairs10to40)).map (fun t =>
      (t.buffer_pool_manager_.pageOf 3).map (fun pg => (pg.is_dirty_, pg.pin_count_)))
      = some (some (false, 0)) ∧
    (treeAfter 10 3 3 20 (insertOps pairs10to40)).map (fun t =>
      (t.buffer_pool_manager_.pageOf 3).map (fun pg => (pg.data_.IsLeafPage, pg.data_.entries)))
      = some (some (true, [(30, 130), (40, 140)])) ∧
    (treeAfter 10 3 3 20 (insertOps pairs10to40)).map (fun t =>
      (t.buffer_pool_manager_.disk_manager_.file.lookup 3).isSome) = some false ∧
    (treeAfter 3 3 3 20 (insertOps pairs10to40)).map (fun t =>
      (t.root_page_id_, (t.buffer_pool_manager_.pageData 4).map (fun d => d.entries)))
      = some (4, some [(0, 2), (30, 3)]) ∧
    (treeAfter 3 3 3 20 (insertOps pairs10to40)).map (fun t =>
      (t.buffer_pool_manager_.resident 3,
        (t.buffer_pool_manager_.disk_manager_.file.lookup 3).isSome))
      = some (false, false) := by
  refine ⟨?_, ?_, ?_, ?_, ?_⟩
  · decide!
  · decide!
  · decide!
  · decide!
  · decide!

/-! ## Physical page ids -/

/-- Where the physical page id of the bitmap page fits `int32_t`,
`getBitmapPhyIdFromExtIndex` is the formula of the source in exact arithmetic. -/
theorem getBitmapPhyIdFromExtIndex_eq (BS e : Int) (hBS : 0 < BS) (he : 0 ≤ e)
    (hfit : e * (BS + 1) + 1 < 2 ^ 31) :
    DiskManager.getBitmapPhyIdFromExtIndex BS e = e * (BS + 1) + 1 := by
  obtain ⟨n, rfl⟩ := Int.eq_ofNat_of_zero_le he
  obtain ⟨b, rfl⟩ := Int.eq_ofNat_of_zero_le (Int.le_of_lt hBS)
  have hfit1 : ((n * (b + 1) + 1 : Nat) : Int) < 2 ^ 31 := by
    push_cast
    exact hfit
  have hfitN : n * (b + 1) + 1 < 2 ^ 31 := by exact_mod_cast hfit1
  unfold DiskManager.getBitmapPhyIdFromExtIndex
  simp only [Int.toNat_ofNat]
  rw [Nat.mod_eq_of_lt (by omega), toInt32_of_lt _ hfitN]
  push_cast
  rfl

/-- C38, amended: for all logical page ids `L`, `L'` of at least 0 and every extent index
`e` of at least 0 (and every extent size `BITMAP_SIZE > 0`) whose physical page ids
`2 + (L / BITMAP_SIZE) * (BITMAP_SIZE + 1) + L mod BITMAP_SIZE` and
`e * (BITMAP_SIZE + 1) + 1` fit `int32_t`: `MapPageId(L)` is at least 2 (so it is neither
the meta page 0 nor the first bitmap page 1), it differs from
`getBitmapPhyIdFromExtIndex(e)`, and `MapPageId(L) = MapPageId(L')` only when `L = L'`. The
value is `L + 2 + L / BITMAP_SIZE`. -/
theorem MapPageId_apart_from_meta_and_bitmap_pages (BS L L' e : Int) (hBS : 0 < BS)
    (hL : 0 ≤ L) (hL' : 0 ≤ L') (he : 0 ≤ e)
    (hfit : 2 + (L / BS) * (BS + 1) + L % BS < 2 ^ 31)
    (hfit' : 2 + (L' / BS) * (BS + 1) + L' % BS < 2 ^ 31)
    (hfite : e * (BS + 1) + 1 < 2 ^ 31) :
    2 ≤ DiskManager.MapPageId BS L ∧
    DiskManager.MapPageId BS L ≠ DiskManager.getBitmapPhyIdFromExtIndex BS e ∧
    (L ≠ L' → DiskManager.MapPageId BS L ≠ DiskManager.MapPageId BS L') ∧
    DiskManager.MapPageId BS L = L + 2 + L / BS := by
  have h1 : 0 ≤ L % BS := Int.emod_nonneg _ (by omega)
  have h2 : L % BS < BS := Int.emod_lt_of_pos _ hBS
  have h3 : 0 ≤ L / BS := Int.ediv_nonneg hL (Int.le_of_lt hBS)
  have hform : DiskManager.MapPageId BS L = L + 2 + L / BS := by
    rw [MapPageId_eq BS L hBS hL hfit]
    have := Int.ediv_add_emod L BS
    have e1 : L / BS * (BS + 1) = BS * (L / BS) + L / BS := by ring
    omega
  refine ⟨by omega, ?_, ?_, hform⟩
  · intro hc
    rw [MapPageId_eq BS L hBS hL hfit, getBitmapPhyIdFromExtIndex_eq BS e hBS he hfite] at hc
    have e1 : (L % BS + 1 + (BS + 1) * (L / BS)) % (BS + 1) = L % BS + 1 := by
      rw [Int.add_mul_emod_self_left]
      exact Int.emod_eq_of_lt (by omega) (by omega)
    have e2 : (L % BS + 1 + (BS + 1) * (L / BS)) = e * (BS + 1) := by
      have : (BS + 1) * (L / BS) = L / BS * (BS + 1) := Int.mul_comm _ _
      omega
    rw [e2, Int.mul_emod_left] at e1
    omega
  · intro hne hc
    apply hne
    have hx := roundTrip_ext BS L hBS hL hfit
    have hx' := roundTrip_ext BS L' hBS hL' hfit'
    have ho := roundTrip_offset BS L hBS hL hfit
    have ho' := roundTrip_offset BS L' hBS hL' hfit'
    rw [hc] at hx ho
    have a1 := Int.ediv_add_emod L BS
    have a2 := Int.ediv_add_emod L' BS
    rw [← hx, ← ho] at a1
    rw [← hx', ← ho'] at a2
    omega

/-- C38 at `BITMAP_SIZE = 32704` (pages of 4096 bytes): the logical pages 32703 and 32704 map
to the physical pages 32705 and 32707, on either side of the bitmap page 32706 of extent
1. -/
theorem MapPageId_apart_from_meta_and_bitmap_pages_witness :
    (2 ≤ DiskManager.MapPageId 32704 32703 ∧
      DiskManager.MapPageId 32704 32703 ≠ DiskManager.getBitmapPhyIdFromExtIndex 32704 1 ∧
      ((32703 : Int) ≠ 32704 →
        DiskManager.MapPageId 32704 32703 ≠ DiskManager.MapPageId 32704 32704) ∧
      DiskManager.MapPageId 32704 32703 = 32703 + 2 + 32703 / 32704) ∧
    DiskManager.MapPageId 32704 32703 = 32705 ∧
    DiskManager.MapPageId 32704 32704 = 32707 ∧
    DiskManager.getBitmapPhyIdFromExtIndex 32704 1 = 32706 :=
  ⟨MapPageId_apart_from_meta_and_bitmap_pages 32704 32703 32704 1 (by decide) (by decide)
    (by decide) (by decide) (by decide) (by decide) (by decide), by decide, by decide,
    by decide⟩

/-- C38 as stated fails where a physical page id does not fit `int32_t`: with
`BITMAP_SIZE = 32704` (pages of 4096 bytes) the sum for `L = 2147483647` is 2147549313 and
`MapPageId(2147483647)` is -2147417983, below 2; and for the extent index 131328 the sum
4295082241 wraps to 114945, so that `getBitmapPhyIdFromExtIndex(131328)` is
`MapPageId(114940)`, the physical page of a data page. -/
theorem MapPageId_wraps_below_two_and_onto_bitmap_id :
    (2 + (2147483647 / 32704) * (32704 + 1) + 2147483647 % 32704 : Int) = 2147549313 ∧
    DiskManager.MapPageId 32704 2147483647 = -2147417983 ∧
    ¬ (2 ≤ DiskManager.MapPageId 32704 2147483647) ∧
    (131328 * (32704 + 1) + 1 : Int) = 4295082241 ∧
    DiskManager.getBitmapPhyIdFromExtIndex 32704 131328 = 114945 ∧
    DiskManager.MapPageId 32704 114940 = 114945 ∧
    ¬ (DiskManager.MapPageId 32704 114940 ≠
      DiskManager.getBitmapPhyIdFromExtIndex 32704 131328) := by
  decide

/-! ## Bitmap page: offsets beyond the extent -/

/-- C39 fails on the code: `IsPageFree` compares the byte index `page_offset / 8` with
`GetMaxSupportedSize()`, the number of bits. For every bitmap page (the array `bytes` has
`MAX_CHARS` bytes) and every `page_offset` from `GetMaxSupportedSize()` up to
`8 * GetMaxSupportedSize() - 1` the test does not fire and `IsPageFreeLow` reads
`bytes[page_offset / 8]`, a byte outside the array (no result in the embedding), and so does
`DeAllocatePage`, which calls `IsPageFree` first. The value false comes back without such a
read only from `8 * GetMaxSupportedSize()` on. On pages of 64 bytes (`MAX_CHARS = 56`,
`GetMaxSupportedSize() = 448`) `page_offset = 448` reads `bytes[56]`. -/
theorem IsPageFree_reads_outside_bit_array :
    (∀ (PageSize : Nat) (p : BitmapPage) (page_offset : Nat),
      p.bytes.length = MAX_CHARS PageSize →
      GetMaxSupportedSize PageSize ≤ page_offset →
      page_offset < 8 * GetMaxSupportedSize PageSize →
        p.IsPageFreeLow (page_offset / 8) (page_offset % 8) = none ∧
        p.IsPageFree PageSize page_offset = none ∧
        p.DeAllocatePage PageSize page_offset = none) ∧
    (∀ (PageSize : Nat) (p : BitmapPage) (page_offset : Nat),
      8 * GetMaxSupportedSize PageSize ≤ page_offset →
        p.IsPageFree PageSize page_offset = some false) ∧
    GetMaxSupportedSize 64 = 448 ∧ (BitmapPage.allFree 64).bytes.length = 56 ∧
    (BitmapPage.allFree 64).IsPageFree 64 448 = none ∧
    (BitmapPage.allFree 64).DeAllocatePage 64 448 = none := by
  have hgen : ∀ (PageSize : Nat) (p : BitmapPage) (page_offset : Nat),
      p.bytes.length = MAX_CHARS PageSize →
      GetMaxSupportedSize PageSize ≤ page_offset →
      page_offset < 8 * GetMaxSupportedSize PageSize →
        p.IsPageFreeLow (page_offset / 8) (page_offset % 8) = none ∧
        p.IsPageFree PageSize page_offset = none ∧
        p.DeAllocatePage PageSize page_offset = none := by
    intro PageSize p off hlen h1 h2
    unfold GetMaxSupportedSize at h1 h2
    have hb : p.bytes[off / 8]? = none := by
      apply List.getElem?_eq_none
      rw [hlen]
      omega
    have e1 : p.IsPageFreeLow (off / 8) (off % 8) = none := by
      unfold BitmapPage.IsPageFreeLow
      rw [hb]
    have e2 : p.IsPageFree PageSize off = none := by
      unfold BitmapPage.IsPageFree
      simp only
      rw [if_neg (by unfold GetMaxSupportedSize; omega)]
      exact e1
    refine ⟨e1, e2, ?_⟩
    unfold BitmapPage.DeAllocatePage
    rw [e2]
  refine ⟨hgen, ?_, by decide, by decide, ?_, ?_⟩
  · intro PageSize p off h
    unfold BitmapPage.IsPageFree
    simp only
    rw [if_pos (by omega)]
  · exact (hgen 64 (BitmapPage.allFree 64) 448 (by decide) (by decide) (by decide)).2.1
  · exact (hgen 64 (BitmapPage.allFree 64) 448 (by decide) (by decide) (by decide)).2.2

end MiniSql

namespace MiniSql

/-! ## `TableHeap::InsertTuple`: pins and unpins -/

theorem pinLedger_append (l1 l2 : List HeapCall) :
    ∀ held : List (Int × Bool),
      pinLedger held (l1 ++ l2) = (pinLedger held l1).bind (fun h => pinLedger h l2) := by
  induction l1 with
  | nil => intro held; rfl
  | cons e rest ih =>
    intro held
    cases e with
    | FetchPage p => exact ih _
    | NewPage p => exact ih _
    | InsertTuple p s => exact ih _
    | SetNextPageId p => exact ih _
    | UnpinPage p d =>
      show (if (p, d) ∈ held then pinLedger (held.erase (p, d)) (rest ++ l2) else none) =
        (if (p, d) ∈ held then pinLedger (held.erase (p, d)) rest else none).bind _
      by_cases hm : (p, d) ∈ held
      · rw [if_pos hm, if_pos hm]
        exact ih _
      · rw [if_neg hm, if_neg hm]
        rfl

theorem pageAt_setNode (b : BufferPoolManager) (f f' : Nat) (g : PageData → PageData) :
    ((b.setNode f g).pageAt f').page_id_ = (b.pageAt f').page_id_ ∧
    ((b.setNode f g).pageAt f').pin_count_ = (b.pageAt f').pin_count_ := by
  unfold BufferPoolManager.pageAt BufferPoolManager.setNode
  simp only [modifyPage_get]
  split
  · cases h : b.pages_[f']? <;> exact ⟨rfl, rfl⟩
  · exact ⟨rfl, rfl⟩

theorem pageAt_some (b : BufferPoolManager) (f : Nat)
    (h : (b.pageAt f).page_id_ ≠ INVALID_PAGE_ID) : b.pages_[f]? = some (b.pageAt f) := by
  unfold BufferPoolManager.pageAt at h ⊢
  cases hc : b.pages_[f]? with
  | none =>
    rw [hc] at h
    exact absurd rfl h
  | some pg => rfl

/-- `setNode` keeps the invariants of the pool: they do not read the contents of a page. -/
theorem PoolInv.setNode {b : BufferPoolManager} {g : PoolGhost} (h : PoolInv b g) (f : Nat)
    (gf : PageData → PageData) : PoolInv (b.setNode f gf) g := by
  have htag : b.pages_.map Page.tag = (b.setNode f gf).pages_.map Page.tag := by
    unfold BufferPoolManager.setNode
    exact modify_tags _ _ _ (fun pg _ => rfl)
  have hget : ∀ (i : Nat) (pg : Page), (b.setNode f gf).pages_[i]? = some pg →
      ∃ pg0, b.pages_[i]? = some pg0 ∧ pg.page_id_ = pg0.page_id_ ∧
        pg.pin_count_ = pg0.pin_count_ ∧ pg.is_dirty_ = pg0.is_dirty_ := by
    intro i pg hi
    unfold BufferPoolManager.setNode at hi
    simp only [modifyPage_get] at hi
    by_cases hif : i = f
    · rw [if_pos hif] at hi
      cases h0 : b.pages_[i]? with
      | none => rw [h0] at hi; cases hi
      | some pg0 =>
        rw [h0] at hi
        simp only [Option.map_some', Option.some.injEq] at hi
        exact ⟨pg0, rfl, by rw [← hi], by rw [← hi], by rw [← hi]⟩
    · rw [if_neg hif] at hi
      exact ⟨pg, hi, rfl, rfl, rfl⟩
  have hcore : PoolCore (b.setNode f gf) :=
    h.core.transfer_core _ rfl rfl htag rfl rfl (by
      intro i pg hi
      obtain ⟨pg0, h0, _, e2, _⟩ := hget i pg hi
      rw [e2]
      exact h.core.pins i pg0 h0)
  have hpo : ∀ (q : Int) (pg : Page), (b.setNode f gf).pageOf q = some pg →
      ∃ pg0, b.pageOf q = some pg0 ∧ pg.pin_count_ = pg0.pin_count_ ∧
        pg.is_dirty_ = pg0.is_dirty_ := by
    intro q pg hq
    unfold BufferPoolManager.pageOf at hq ⊢
    rw [setNode_frameOf] at hq
    cases hfo : b.frameOf q with
    | none => rw [hfo] at hq; cases hq
    | some i =>
      rw [hfo] at hq
      obtain ⟨pg0, h0, _, e2, e3⟩ := hget i pg hq
      exact ⟨pg0, h0, e2, e3⟩
  have hpo' : ∀ (q : Int) (pg0 : Page), b.pageOf q = some pg0 →
      ∃ pg, (b.setNode f gf).pageOf q = some pg ∧ pg.pin_count_ = pg0.pin_count_ ∧
        pg.is_dirty_ = pg0.is_dirty_ := by
    intro q pg0 hq
    unfold BufferPoolManager.pageOf at hq ⊢
    rw [setNode_frameOf]
    cases hfo : b.frameOf q with
    | none => rw [hfo] at hq; cases hq
    | some i =>
      rw [hfo] at hq
      have hq' : b.pages_[i]? = some pg0 := hq
      show ∃ pg, (b.setNode f gf).pages_[i]? = some pg ∧ _
      unfold BufferPoolManager.setNode
      simp only [modifyPage_get]
      by_cases hif : i = f
      · rw [if_pos hif, hq']
        exact ⟨_, rfl, rfl, rfl⟩
      · rw [if_neg hif]
        exact ⟨pg0, hq', rfl, rfl⟩
  have hz : ∀ q : Int, (b.setNode f gf).isZero q = b.isZero q := by
    intro q
    unfold BufferPoolManager.isZero
    cases h1 : (b.setNode f gf).pageOf q with
    | none =>
      cases h2 : b.pageOf q with
      | none => rfl
      | some pg0 =>
        obtain ⟨pg, e, _⟩ := hpo' q pg0 h2
        rw [h1] at e
        cases e
    | some pg =>
      obtain ⟨pg0, e, e2, _⟩ := hpo q pg h1
      rw [e]
      simp only [e2]
  refine ⟨hcore, h.maxPages, h.lru, h.unpinnedNodup, ?_, ?_, h.dirtiedRes⟩
  · intro q
    rw [hz]
    exact h.unpinnedMem q
  · intro q pg hq
    obtain ⟨pg0, e, _, e3⟩ := hpo q pg hq
    rw [e3]
    exact h.dirtiedMem q pg0 e

theorem PoolInv.after_UnpinPage {b : BufferPoolManager} {g : PoolGhost} (h : PoolInv b g)
    (p : Int) (d r : Bool) (b1 : BufferPoolManager) (e : b.UnpinPage p d = some (r, b1)) :
    ∃ g1, PoolInv b1 g1 := by
  obtain ⟨b1', g1, es, hin, _⟩ := h.step_UnpinPage p d
  cases r
  · simp only [BufferPoolManager.step, e, Option.some.injEq, Prod.mk.injEq] at es
    exact ⟨g1, es.1 ▸ hin⟩
  · simp only [BufferPoolManager.step, e, Option.some.injEq, Prod.mk.injEq] at es
    exact ⟨g1, es.1 ▸ hin⟩

theorem PoolInv.after_FetchPage {b : BufferPoolManager} {g : PoolGhost} (h : PoolInv b g)
    (p : Int) (hp0 : 0 ≤ p) (hpb : getBit b.disk_manager_.bits p.toNat = true)
    (f : Nat) (b1 : BufferPoolManager) (e : b.FetchPage p = some (some f, b1)) :
    ∃ g1, PoolInv b1 g1 := by
  obtain ⟨b1', g1, es, hin, _⟩ := h.step_FetchPage p hp0 hpb
  simp only [BufferPoolManager.step, e, Option.some.injEq, Prod.mk.injEq] at es
  exact ⟨g1, es.1 ▸ hin⟩

theorem PoolInv.after_NewPage {b : BufferPoolManager} {g : PoolGhost} (h : PoolInv b g)
    (f : Nat) (q : Int) (b1 : BufferPoolManager)
    (e : b.NewPage INVALID_PAGE_ID = some ((some f, q), b1)) :
    ∃ g1, PoolInv b1 g1 := by
  obtain ⟨b1', g1, es, hin, _⟩ := h.step_NewPage
  simp only [BufferPoolManager.step, e, Option.some.injEq, Prod.mk.injEq] at es
  exact ⟨g1, es.1 ▸ hin⟩

theorem installFetched_pageAt (b : BufferPoolManager) (p fid : Int) (res : Option Nat)
    (f : Nat) (b1 : BufferPoolManager)
    (e : b.installFetched p fid res = some (some f, b1)) :
    (b1.pageAt f).page_id_ = p ∧ (b1.pageAt f).pin_count_ = 1 ∧
    b1.disk_manager_.bits = b.disk_manager_.bits := by
  unfold BufferPoolManager.installFetched at e
  cases res with
  | none => cases e
  | some i =>
    simp only [Option.bind_eq_bind, Option.some_bind] at e
    cases hold : b.pages_[i]? with
    | none => rw [hold] at e; cases e
    | some old =>
      rw [hold] at e
      simp only [Option.some_bind] at e
      have key : ∀ disk : DiskManager, disk.bits = b.disk_manager_.bits →
          ((disk.ReadPage p).bind (fun data => some (some i,
            ({ b with
              pages_ := modifyPage b.pages_ i (fun _ =>
                { page_id_ := p, pin_count_ := 1, is_dirty_ := false, data_ := data }),
              page_table_ := tableEmplace b.page_table_ p fid,
              disk_manager_ := disk } : BufferPoolManager)))) = some (some f, b1) →
          (b1.pageAt f).page_id_ = p ∧ (b1.pageAt f).pin_count_ = 1 ∧
          b1.disk_manager_.bits = b.disk_manager_.bits := by
        intro disk hd e1
        unfold DiskManager.ReadPage at e1
        by_cases hp : p < 0
        · rw [if_pos hp] at e1
          cases e1
        · rw [if_neg hp] at e1
          simp only [Option.some_bind, Option.some.injEq, Prod.mk.injEq] at e1
          obtain ⟨e2, e3⟩ := e1
          subst e2
          subst e3
          unfold BufferPoolManager.pageAt
          simp only [modifyPage_get, hold, if_true, Option.map_some', Option.getD_some]
          exact ⟨trivial, trivial, hd⟩
      by_cases hdirty : old.is_dirty_ = true
      · rw [if_pos hdirty] at e
        unfold DiskManager.WritePage at e
        by_cases hneg : old.page_id_ < 0
        · rw [if_pos hneg] at e
          cases e
        · rw [if_neg hneg] at e
          exact key { b.disk_manager_ with
            file := (old.page_id_, old.data_) :: b.disk_manager_.file } rfl
            (by simpa only [Option.some_bind] using e)
      · rw [if_neg hdirty] at e
        exact key _ rfl (by simpa only [Option.some_bind] using e)

/-- The page `FetchPage` returns carries the page id asked for and is pinned. -/
theorem FetchPage_pageAt {b : BufferPoolManager} (h : PoolCore b) (p : Int) (f : Nat)
    (b1 : BufferPoolManager) (e : b.FetchPage p = some (some f, b1)) :
    (b1.pageAt f).page_id_ = p ∧ 0 < (b1.pageAt f).pin_count_ ∧
    b1.disk_manager_.bits = b.disk_manager_.bits := by
  unfold BufferPoolManager.FetchPage at e
  cases hl : b.page_table_.lookup p with
  | some fid =>
    rw [hl] at e
    simp only at e
    cases hfi : findPage b.pages_ p with
    | none => rw [hfi] at e; cases e
    | some i =>
      rw [hfi] at e
      simp only [Option.some.injEq, Prod.mk.injEq] at e
      obtain ⟨e2, e3⟩ := e
      subst e2
      subst e3
      obtain ⟨pg, hpg, hid⟩ := findPage_get _ _ _ hfi
      have := h.pins i pg hpg
      unfold BufferPoolManager.pageAt
      simp only [modifyPage_get, hpg, if_true, Option.map_some', Option.getD_some]
      exact ⟨hid, by omega, trivial⟩
  | none =>
    rw [hl] at e
    simp only at e
    cases hF : b.free_list_ with
    | cons fid rest =>
      rw [hF] at e
      simp only at e
      obtain ⟨e1, e2, e3⟩ := installFetched_pageAt _ _ _ _ _ _ e
      exact ⟨e1, by omega, e3⟩
    | nil =>
      rw [hF] at e
      simp only at e
      cases hV : b.replacer_.Victim with
      | mk v rep =>
        rw [hV] at e
        cases v with
        | none => simp only [Option.some.injEq, Prod.mk.injEq] at e; cases e.1
        | some fv =>
          simp only at e
          obtain ⟨e1, e2, e3⟩ := installFetched_pageAt _ _ _ _ _ _ e
          exact ⟨e1, by omega, e3⟩

/-- `UnpinPage` leaves the page ids of all frames and every frame of another page as they
are. -/
theorem UnpinPage_pageAt (b : BufferPoolManager) (p : Int) (d r : Bool)
    (b1 : BufferPoolManager) (e : b.UnpinPage p d = some (r, b1)) :
    b1.disk_manager_ = b.disk_manager_ ∧
    ∀ f : Nat, (b1.pageAt f).page_id_ = (b.pageAt f).page_id_ ∧
      ((b.pageAt f).page_id_ ≠ p → b1.pageAt f = b.pageAt f) := by
  unfold BufferPoolManager.UnpinPage at e
  cases hl : b.page_table_.lookup p with
  | none =>
    rw [hl] at e
    simp only [Option.some.injEq, Prod.mk.injEq] at e
    rw [← e.2]
    exact ⟨rfl, fun f => ⟨rfl, fun _ => rfl⟩⟩
  | some fid =>
    rw [hl] at e
    simp only at e
    cases hfi : findPage b.pages_ p with
    | none => rw [hfi] at e; cases e
    | some i =>
      rw [hfi] at e
      simp only at e
      cases hpg : b.pages_[i]? with
      | none => rw [hpg] at e; cases e
      | some pg =>
        rw [hpg] at e
        simp only at e
        obtain ⟨pg', hpg', hid⟩ := findPage_get _ _ _ hfi
        rw [hpg] at hpg'
        cases hpg'
        by_cases hpin : pg.pin_count_ > 0
        · rw [if_pos hpin] at e
          simp only [Option.some.injEq, Prod.mk.injEq] at e
          rw [← e.2]
          refine ⟨rfl, fun f => ?_⟩
          unfold BufferPoolManager.pageAt
          simp only [modifyPage_get]
          by_cases hfi' : f = i
          · subst hfi'
            rw [if_pos rfl, hpg]
            exact ⟨rfl, fun hne => absurd hid hne⟩
          · rw [if_neg hfi']
            exact ⟨rfl, fun _ => rfl⟩
        · rw [if_neg hpin] at e
          simp only [Option.some.injEq, Prod.mk.injEq] at e
          rw [← e.2]
          exact ⟨rfl, fun f => ⟨rfl, fun _ => rfl⟩⟩

theorem installNew_facts (b : BufferPoolManager) (fid : Int) (res page : Option Nat) (q : Int)
    (b1 : BufferPoolManager) (e : b.installNew fid res = some ((page, q), b1)) :
    ∃ (i : Nat) (old : Page), res = some i ∧ page = some i ∧ b.pages_[i]? = some old ∧
      q = b.disk_manager_.AllocatePage.1 ∧
      b1.pages_ = modifyPage b.pages_ i (fun _ =>
        { page_id_ := q, pin_count_ := 1, is_dirty_ := false, data_ := PageData.zero }) ∧
      ∀ n : Nat, getBit b.disk_manager_.bits n = true →
        getBit b1.disk_manager_.bits n = true := by
  unfold BufferPoolManager.installNew at e
  cases res with
  | none => cases e
  | some i =>
    simp only [Option.bind_eq_bind, Option.some_bind] at e
    cases hold : b.pages_[i]? with
    | none => rw [hold] at e; cases e
    | some old =>
      rw [hold] at e
      simp only [Option.some_bind] at e
      have hbits : ∀ n : Nat, getBit b.disk_manager_.bits n = true →
          getBit b.disk_manager_.AllocatePage.2.bits n = true := by
        intro n hn
        show getBit (setBit b.disk_manager_.bits _ true) n = true
        rw [getBit_setBit]
        split
        · rfl
        · exact hn
      have key : ∀ disk : DiskManager, disk.bits = b.disk_manager_.AllocatePage.2.bits →
          some ((some i, b.disk_manager_.AllocatePage.1),
            ({ b with
              pages_ := modifyPage b.pages_ i (fun _ =>
                { page_id_ := b.disk_manager_.AllocatePage.1, pin_count_ := 1,
                  is_dirty_ := false, data_ := PageData.zero }),
              page_table_ := tableEmplace b.page_table_ b.disk_manager_.AllocatePage.1 fid,
              disk_manager_ := disk } : BufferPoolManager)) = some ((page, q), b1) →
          ∃ (i' : Nat) (old' : Page), some i = some i' ∧ page = some i' ∧
            b.pages_[i']? = some old' ∧ q = b.disk_manager_.AllocatePage.1 ∧
            b1.pages_ = modifyPage b.pages_ i' (fun _ =>
              { page_id_ := q, pin_count_ := 1, is_dirty_ := false, data_ := PageData.zero }) ∧
            ∀ n : Nat, getBit b.disk_manager_.bits n = true →
              getBit b1.disk_manager_.bits n = true := by
        intro disk hd e1
        simp only [Option.some.injEq, Prod.mk.injEq] at e1
        obtain ⟨⟨e2, e3⟩, e4⟩ := e1
        subst e2
        subst e3
        subst e4
        exact ⟨i, old, rfl, rfl, hold, rfl, rfl, fun n hn => by
          show getBit disk.bits n = true
          rw [hd]
          exact hbits n hn⟩
      by_cases hdirty : old.is_dirty_ = true
      · rw [if_pos hdirty] at e
        unfold DiskManager.WritePage at e
        by_cases hneg : old.page_id_ < 0
        · rw [if_pos hneg] at e
          cases e
        · rw [if_neg hneg] at e
          exact key { b.disk_manager_.AllocatePage.2 with
            file := (old.page_id_, old.data_) :: b.disk_manager_.AllocatePage.2.file } rfl
            (by simpa only [Option.some_bind] using e)
      · rw [if_neg hdirty] at e
        exact key b.disk_manager_.AllocatePage.2 rfl
          (by simpa only [Option.some_bind] using e)

/-- `NewPage` that returns no page leaves the pool as it is. -/
theorem NewPage_null (b : BufferPoolManager) (keep q : Int) (b1 : BufferPoolManager)
    (e : b.NewPage keep = some ((none, q), b1)) : b1 = b := by
  unfold BufferPoolManager.NewPage at e
  cases hF : b.free_list_ with
  | cons fid rest =>
    rw [hF] at e
    simp only at e
    obtain ⟨i, _, _, hc, _⟩ := installNew_facts _ _ _ _ _ _ e
    cases hc
  | nil =>
    rw [hF] at e
    simp only at e
    cases hV : b.replacer_.Victim with
    | mk v rep =>
      rw [hV] at e
      cases v with
      | none =>
        simp only [Option.some.injEq, Prod.mk.injEq] at e
        exact e.2.symm
      | some fv =>
        simp only at e
        obtain ⟨i, _, _, hc, _⟩ := installNew_facts _ _ _ _ _ _ e
        cases hc

/-- `NewPage` on a consistent pool takes a frame other than that of a pinned page, gives the
new page an id that no resident page has, and leaves the other frames as they are. -/
theorem NewPage_keeps_pinned {b : BufferPoolManager} {g : PoolGhost} (h : PoolInv b g)
    (cur : Nat) (hpin : 0 < (b.pageAt cur).pin_count_)
    (hid : (b.pageAt cur).page_id_ ≠ INVALID_PAGE_ID) (keep : Int) (f : Nat) (q : Int)
    (b1 : BufferPoolManager) (e : b.NewPage keep = some ((some f, q), b1)) :
    f ≠ cur ∧ b1.pageAt cur = b.pageAt cur ∧ q ≠ (b.pageAt cur).page_id_ ∧ 0 ≤ q ∧
    (b1.pageAt f).page_id_ = q ∧ (b1.pageAt f).pin_count_ = 1 ∧
    ∀ n : Nat, getBit b.disk_manager_.bits n = true →
      getBit b1.disk_manager_.bits n = true := by
  obtain ⟨hfresh, hq0, _, _⟩ := h.core.alloc_fresh
  have hcur := pageAt_some b cur hid
  have hres := h.core.carried cur _ hcur hid
  have fin : ∀ (i : Nat) (old : Page), b.pages_[i]? = some old → i ≠ cur →
      q = b.disk_manager_.AllocatePage.1 →
      b1.pages_ = modifyPage b.pages_ i (fun _ =>
        { page_id_ := q, pin_count_ := 1, is_dirty_ := false, data_ := PageData.zero }) →
      b1.pageAt cur = b.pageAt cur ∧ q ≠ (b.pageAt cur).page_id_ ∧ 0 ≤ q ∧
      (b1.pageAt i).page_id_ = q ∧ (b1.pageAt i).pin_count_ = 1 := by
    intro i old hold hne hq hp
    refine ⟨?_, ?_, by rw [hq]; exact hq0, ?_, ?_⟩
    · unfold BufferPoolManager.pageAt
      rw [hp, modifyPage_get, if_neg (Ne.symm hne)]
    · intro hc
      rw [← hc, hq, hfresh] at hres
      cases hres
    · unfold BufferPoolManager.pageAt
      rw [hp, modifyPage_get, if_pos rfl, hold]
      rfl
    · unfold BufferPoolManager.pageAt
      rw [hp, modifyPage_get, if_pos rfl, hold]
      rfl
  unfold BufferPoolManager.NewPage at e
  cases hF : b.free_list_ with
  | cons fid rest =>
    rw [hF] at e
    simp only at e
    obtain ⟨i, old, h1, h2, h3, h4, h5, h6⟩ := installNew_facts _ _ _ _ _ _ e
    cases h2
    obtain ⟨pg, hpg, hpid⟩ := findPage_get _ _ _ h1
    have hne : f ≠ cur := by
      intro hc
      subst hc
      rw [hcur] at hpg
      cases hpg
      exact hid hpid
    obtain ⟨a1, a2, a3, a4, a5⟩ := fin f old h3 hne h4 h5
    exact ⟨hne, a1, a2, a3, a4, a5, h6⟩
  | nil =>
    rw [hF] at e
    simp only at e
    cases hR : b.replacer_.lru_list_ with
    | nil =>
      have hV : b.replacer_.Victim = (none, b.replacer_) := by
        unfold LRUReplacer.Victim
        rw [hR]
      rw [hV] at e
      simp only [Option.some.injEq, Prod.mk.injEq] at e
      cases e.1.1
    | cons fv rrest =>
      obtain ⟨q', zrest, i, pg, _, _, _, hpg, _, hpin0, _, _, hfind, _, hvic, _⟩ :=
        h.victim hF fv rrest hR
      rw [hvic] at e
      simp only at e
      obtain ⟨i', old, h1, h2, h3, h4, h5, h6⟩ := installNew_facts _ _ _ _ _ _ e
      cases h2
      rw [hfind] at h1
      cases h1
      have hne : f ≠ cur := by
        intro hc
        subst hc
        rw [hcur] at hpg
        cases hpg
        omega
      obtain ⟨a1, a2, a3, a4, a5⟩ := fin f old h3 hne h4 h5
      exact ⟨hne, a1, a2, a3, a4, a5, h6⟩

/-- One round of the loop of `InsertTuple`, by the way it goes on. -/
theorem insertTupleLoop_step (ops : TablePageWrites) (n cur : Nat) (b : BufferPoolManager)
    (log : List HeapCall) (res : Option Nat × List HeapCall × BufferPoolManager)
    (e : insertTupleLoop ops (n + 1) cur b log = some res) :
    ((ops.InsertTuple (b.node cur)).1 = true ∧
      res = (some cur, log ++ [HeapCall.InsertTuple (b.framePageId cur) true],
        b.setNode cur (fun _ => (ops.InsertTuple (b.node cur)).2))) ∨
    ((ops.InsertTuple (b.node cur)).1 = false ∧
      ops.GetNextPageId
        ((b.setNode cur (fun _ => (ops.InsertTuple (b.node cur)).2)).node cur) ≠
        INVALID_PAGE_ID ∧
      ∃ (x : Bool) (b1 : BufferPoolManager) (nf : Nat) (b2 : BufferPoolManager),
        (b.setNode cur (fun _ => (ops.InsertTuple (b.node cur)).2)).UnpinPage
          (ops.GetTablePageId
            ((b.setNode cur (fun _ => (ops.InsertTuple (b.node cur)).2)).pageAt cur)) false =
          some (x, b1) ∧
        b1.FetchPageStrict (ops.GetNextPageId
          ((b.setNode cur (fun _ => (ops.InsertTuple (b.node cur)).2)).node cur)) =
          some (some nf, b2) ∧
        insertTupleLoop ops n nf b2
          (log ++ [HeapCall.InsertTuple (b.framePageId cur) false] ++
            [HeapCall.UnpinPage (ops.GetTablePageId
              ((b.setNode cur (fun _ => (ops.InsertTuple (b.node cur)).2)).pageAt cur)) false,
             HeapCall.FetchPage (ops.GetNextPageId
              ((b.setNode cur (fun _ => (ops.InsertTuple (b.node cur)).2)).node cur))]) =
          some res) ∨
    ((ops.InsertTuple (b.node cur)).1 = false ∧
      ∃ (q : Int) (b1 : BufferPoolManager) (x : Bool) (b2 : BufferPoolManager),
        (b.setNode cur (fun _ => (ops.InsertTuple (b.node cur)).2)).NewPageStrict
          INVALID_PAGE_ID = some ((none, q), b1) ∧
        b1.UnpinPage (ops.GetTablePageId (b1.pageAt cur)) false = some (x, b2) ∧
        res = (none, log ++ [HeapCall.InsertTuple (b.framePageId cur) false] ++
          [HeapCall.UnpinPage (ops.GetTablePageId (b1.pageAt cur)) false], b2)) ∨
    ((ops.InsertTuple (b.node cur)).1 = false ∧
      ∃ (f : Nat) (q : Int) (b1 : BufferPoolManager) (x : Bool) (b4 : BufferPoolManager),
        (b.setNode cur (fun _ => (ops.InsertTuple (b.node cur)).2)).NewPageStrict
          INVALID_PAGE_ID = some ((some f, q), b1) ∧
        ((b1.setNode cur (fun d => ops.SetNextPageId d q)).setNode f (fun d =>
            ops.Init d q (ops.GetTablePageId
              ((b1.setNode cur (fun d => ops.SetNextPageId d q)).pageAt cur)))).UnpinPage
          (ops.GetTablePageId
            (((b1.setNode cur (fun d => ops.SetNextPageId d q)).setNode f (fun d =>
              ops.Init d q (ops.GetTablePageId
                ((b1.setNode cur (fun d => ops.SetNextPageId d q)).pageAt cur)))).pageAt cur))
          true = some (x, b4) ∧
        insertTupleLoop ops n f b4
          (log ++ [HeapCall.InsertTuple (b.framePageId cur) false] ++
            [HeapCall.NewPage q, HeapCall.SetNextPageId (b1.framePageId cur),
             HeapCall.UnpinPage (ops.GetTablePageId
              (((b1.setNode cur (fun d => ops.SetNextPageId d q)).setNode f (fun d =>
                ops.Init d q (ops.GetTablePageId
                  ((b1.setNode cur (fun d => ops.SetNextPageId d q)).pageAt cur)))).pageAt
                    cur)) true]) = some res) := by
  rw [insertTupleLoop] at e
  simp only [] at e
  cases hr : (ops.InsertTuple (b.node cur)).1 with
  | true =>
    rw [hr] at e
    simp only [if_true, Option.some.injEq] at e
    exact Or.inl ⟨rfl, e.symm⟩
  | false =>
    rw [hr] at e
    simp only [Bool.false_eq_true, if_false] at e
    by_cases hnx : ops.GetNextPageId
        ((b.setNode cur (fun _ => (ops.InsertTuple (b.node cur)).2)).node cur) ≠ INVALID_PAGE_ID
    · rw [if_pos hnx] at e
      simp only [Option.bind_eq_bind] at e
      cases hU : (b.setNode cur (fun _ => (ops.InsertTuple (b.node cur)).2)).UnpinPage
          (ops.GetTablePageId
            ((b.setNode cur (fun _ => (ops.InsertTuple (b.node cur)).2)).pageAt cur)) false with
      | none => rw [hU] at e; cases e
      | some xb =>
        obtain ⟨x, b1⟩ := xb
        rw [hU] at e
        simp only [Option.some_bind] at e
        cases hFe : b1.FetchPageStrict (ops.GetNextPageId
            ((b.setNode cur (fun _ => (ops.InsertTuple (b.node cur)).2)).node cur)) with
        | none => rw [hFe] at e; cases e
        | some pb =>
          obtain ⟨page, b2⟩ := pb
          rw [hFe] at e
          simp only [Option.some_bind] at e
          cases page with
          | none => cases e
          | some nf =>
            simp only [Option.some_bind] at e
            exact Or.inr (Or.inl ⟨rfl, hnx, x, b1, nf, b2, rfl, hFe, e⟩)
    · rw [if_neg hnx] at e
      have hnx' : ops.GetNextPageId
          ((b.setNode cur (fun _ => (ops.InsertTuple (b.node cur)).2)).node cur) =
          INVALID_PAGE_ID := by
        by_contra hc
        exact hnx hc
      rw [hnx'] at e
      simp only [Option.bind_eq_bind] at e
      cases hN : (b.setNode cur (fun _ => (ops.InsertTuple (b.node cur)).2)).NewPageStrict
          INVALID_PAGE_ID with
      | none => rw [hN] at e; cases e
      | some pb =>
        obtain ⟨⟨page, q⟩, b1⟩ := pb
        rw [hN] at e
        simp only [Option.some_bind] at e
        cases page with
        | none =>
          simp only at e
          cases hU : b1.UnpinPage (ops.GetTablePageId (b1.pageAt cur)) false with
          | none => rw [hU] at e; cases e
          | some xb =>
            obtain ⟨x, b2⟩ := xb
            rw [hU] at e
            simp only [Option.some_bind, Option.some.injEq] at e
            exact Or.inr (Or.inr (Or.inl ⟨rfl, q, b1, x, b2, rfl, hU, e.symm⟩))
        | some f =>
          simp only at e
          cases hU : ((b1.setNode cur (fun d => ops.SetNextPageId d q)).setNode f (fun d =>
              ops.Init d q (ops.GetTablePageId
                ((b1.setNode cur (fun d => ops.SetNextPageId d q)).pageAt cur)))).UnpinPage
            (ops.GetTablePageId
              (((b1.setNode cur (fun d => ops.SetNextPageId d q)).setNode f (fun d =>
                ops.Init d q (ops.GetTablePageId
                  ((b1.setNode cur (fun d => ops.SetNextPageId d q)).pageAt cur)))).pageAt
                    cur)) true with
          | none => rw [hU] at e; cases e
          | some xb =>
            obtain ⟨x, b4⟩ := xb
            rw [hU] at e
            simp only [Option.some_bind] at e
            exact Or.inr (Or.inr (Or.inr ⟨rfl, f, q, b1, x, b4, rfl, hU, e⟩))

theorem insertTupleLoop_log_extends (ops : TablePageWrites) :
    ∀ (n cur : Nat) (b : BufferPoolManager) (log : List HeapCall)
      (res : Option Nat × List HeapCall × BufferPoolManager),
      insertTupleLoop ops n cur b log = some res → ∃ l, res.2.1 = log ++ l := by
  intro n
  induction n with
  | zero =>
    intro cur b log res e
    rw [insertTupleLoop] at e
    cases e
  | succ n ih =>
    intro cur b log res e
    rcases insertTupleLoop_step ops n cur b log res e with
      ⟨_, hres⟩ | ⟨_, _, x, b1, nf, b2, _, _, e1⟩ | ⟨_, q, b1, x, b2, _, _, hres⟩ |
      ⟨_, f, q, b1, x, b4, _, _, e1⟩
    · rw [hres]
      exact ⟨_, rfl⟩
    · obtain ⟨l, hl⟩ := ih _ _ _ _ e1
      rw [hl, List.append_assoc, List.append_assoc]
      exact ⟨_, rfl⟩
    · rw [hres, List.append_assoc]
      exact ⟨_, rfl⟩
    · obtain ⟨l, hl⟩ := ih _ _ _ _ e1
      rw [hl, List.append_assoc, List.append_assoc]
      exact ⟨_, rfl⟩

theorem setNode_disk (b : BufferPoolManager) (f : Nat) (g : PageData → PageData) :
    (b.setNode f g).disk_manager_ = b.disk_manager_ := rfl

/-- The loop of `InsertTuple` on a consistent pool, entered with one page pinned and not
modified: when it is left, the pages pinned before are unpinned with the flags of the claim,
and the page that took the row, if any, is the one page still pinned. -/
theorem insertTupleLoop_ledger (ops : TablePageWrites)
    (hid : ∀ pg : Page, ops.GetTablePageId pg = pg.page_id_) (bits0 : List Bool) :
    ∀ (n cur : Nat) (b : BufferPoolManager) (log : List HeapCall) (c : Int)
      (res : Option Nat × List HeapCall × BufferPoolManager),
      (∃ g, PoolInv b g) → 0 < (b.pageAt cur).pin_count_ → (b.pageAt cur).page_id_ = c →
      c ≠ INVALID_PAGE_ID →
      (∀ m : Nat, getBit bits0 m = true → getBit b.disk_manager_.bits m = true) →
      pinLedger [] log = some [(c, false)] →
      insertTupleLoop ops n cur b log = some res →
      (∀ p : Int, HeapCall.FetchPage p ∈ res.2.1 → 0 ≤ p ∧ getBit bits0 p.toNat = true) →
      match res.1 with
      | none => pinLedger [] res.2.1 = some []
      | some f => pinLedger [] res.2.1 = some [((res.2.2.pageAt f).page_id_, true)] := by
  intro n
  induction n with
  | zero =>
    intro cur b log c res _ _ _ _ _ _ e
    rw [insertTupleLoop] at e
    cases e
  | succ n ih =>
    intro cur b log c res hinv hpin hpid hc hbits hled e halloc
    obtain ⟨g, hg⟩ := hinv
    have hfp : b.framePageId cur = c := hpid
    have hg0 := hg.setNode cur (fun _ => (ops.InsertTuple (b.node cur)).2)
    have hpid0 : ((b.setNode cur (fun _ => (ops.InsertTuple (b.node cur)).2)).pageAt
        cur).page_id_ = c := by rw [(pageAt_setNode _ _ _ _).1, hpid]
    have hpin0 : 0 < ((b.setNode cur (fun _ => (ops.InsertTuple (b.node cur)).2)).pageAt
        cur).pin_count_ := by rw [(pageAt_setNode _ _ _ _).2]; exact hpin
    rcases insertTupleLoop_step ops n cur b log res e with
      ⟨_, hres⟩ | ⟨_, hnx, x, b1, nf, b2, eU, eF, e1⟩ | ⟨_, q, b1, x, b2, eN, eU, hres⟩ |
      ⟨_, f, q, b1, x, b4, eN, eU, e1⟩
    · -- the page takes the row
      rw [hres]
      show pinLedger [] (log ++ _) = some [(_, true)]
      rw [pinLedger_append, hled, hfp, hpid0]
      simp [pinLedger, markModified]
    · -- on to the next page
      have eF := FetchPageStrict_agrees _ _ _ eF
      rw [hid, hpid0] at eU e1
      obtain ⟨l, hl⟩ := insertTupleLoop_log_extends ops _ _ _ _ _ e1
      have hval := halloc (ops.GetNextPageId
        ((b.setNode cur (fun _ => (ops.InsertTuple (b.node cur)).2)).node cur)) (by
          rw [hl]
          simp)
      obtain ⟨g1, hg1⟩ := hg0.after_UnpinPage _ _ _ _ eU
      have hd1 := (UnpinPage_pageAt _ _ _ _ _ eU).1
      obtain ⟨g2, hg2⟩ := hg1.after_FetchPage _ hval.1 (by
        rw [hd1, setNode_disk]
        exact hbits _ hval.2) _ _ eF
      obtain ⟨f1, f2, f3⟩ := FetchPage_pageAt hg1.core _ _ _ eF
      refine ih nf b2 _ _ res ⟨g2, hg2⟩ f2 f1 hnx ?_ ?_ e1 halloc
      · intro m hm
        rw [f3, hd1, setNode_disk]
        exact hbits m hm
      · rw [pinLedger_append, pinLedger_append, hled, hfp]
        simp [pinLedger]
    · -- no page for a new one
      have eN := NewPageStrict_agrees _ _ _ eN
      have hb1 := NewPage_null _ _ _ _ eN
      subst hb1
      rw [hid, hpid0] at eU hres
      rw [hres]
      show pinLedger [] (log ++ _ ++ _) = some []
      rw [pinLedger_append, pinLedger_append, hled, hfp]
      simp [pinLedger]
    · -- a new page is linked
      have eN := NewPageStrict_agrees _ _ _ eN
      obtain ⟨n1, n2, n3, n4, n5, n6, n7⟩ := NewPage_keeps_pinned hg0 cur hpin0
        (by rw [hpid0]; exact hc) _ _ _ _ eN
      rw [hpid0] at n3
      have hfp1 : b1.framePageId cur = c := by
        show (b1.pageAt cur).page_id_ = c
        rw [n2, hpid0]
      have hpid3 : ∀ g1 g2 : PageData → PageData,
          (((b1.setNode cur g1).setNode f g2).pageAt cur).page_id_ = c := by
        intro g1 g2
        rw [(pageAt_setNode _ _ _ _).1, (pageAt_setNode _ _ _ _).1, n2, hpid0]
      have hpid1 : ∀ g1 : PageData → PageData,
          ((b1.setNode cur g1).pageAt cur).page_id_ = c := by
        intro g1
        rw [(pageAt_setNode _ _ _ _).1, n2, hpid0]
      simp only [hid, hpid3, hpid1, hfp1] at eU e1
      obtain ⟨g1, hg1⟩ := hg0.after_NewPage _ _ _ eN
      obtain ⟨g4, hg4⟩ := PoolInv.after_UnpinPage ((hg1.setNode cur _).setNode f _) _ _ _ _ eU
      obtain ⟨u1, u2⟩ := UnpinPage_pageAt _ _ _ _ _ eU
      have hq3 : ∀ g1 g2 : PageData → PageData,
          (((b1.setNode cur g1).setNode f g2).pageAt f).page_id_ = q := by
        intro g1 g2
        rw [(pageAt_setNode _ _ _ _).1, (pageAt_setNode _ _ _ _).1, n5]
      have hp3 : ∀ g1 g2 : PageData → PageData,
          (((b1.setNode cur g1).setNode f g2).pageAt f).pin_count_ = 1 := by
        intro g1 g2
        rw [(pageAt_setNode _ _ _ _).2, (pageAt_setNode _ _ _ _).2, n6]
      have hsame := (u2 f).2 (by rw [hq3]; exact n3)
      refine ih f b4 _ q res ⟨g4, hg4⟩ (by rw [hsame, hp3]; decide) (by rw [hsame, hq3])
        (by unfold INVALID_PAGE_ID; omega) ?_ ?_ e1 halloc
      · intro m hm
        rw [u1, setNode_disk, setNode_disk]
        exact n7 m (by rw [setNode_disk]; exact hbits m hm)
      · rw [pinLedger_append, pinLedger_append, hled]
        have hqc : ¬ q = c := n3
        simp [pinLedger, markModified, hqc]

theorem pageAt_setNode_dirty (b : BufferPoolManager) (f f' : Nat) (g : PageData → PageData) :
    ((b.setNode f g).pageAt f').is_dirty_ = (b.pageAt f').is_dirty_ := by
  unfold BufferPoolManager.pageAt BufferPoolManager.setNode
  simp only [modifyPage_get]
  split
  · cases h : b.pages_[f']? <;> rfl
  · rfl

theorem pageAt_invalid_clean {b : BufferPoolManager} (h : PoolCore b) (f : Nat)
    (hp : (b.pageAt f).page_id_ = INVALID_PAGE_ID) : (b.pageAt f).is_dirty_ = false := by
  unfold BufferPoolManager.pageAt at hp ⊢
  cases hc : b.pages_[f]? with
  | none => rfl
  | some pg =>
    rw [hc] at hp
    exact h.cleanFree f pg hc hp

theorem pageAt_uniq {b : BufferPoolManager} (h : PoolCore b) (f f' : Nat)
    (hp : (b.pageAt f).page_id_ = (b.pageAt f').page_id_)
    (hv : (b.pageAt f).page_id_ ≠ INVALID_PAGE_ID) : f = f' :=
  h.uniq f f' _ _ (pageAt_some b f hv) (pageAt_some b f' (by rw [← hp]; exact hv)) hp hv

/-- `UnpinPage` of the page of a pinned frame: the pin count of that frame drops by one, its
dirty flag is set when `is_dirty` is true, and every other frame stays as it is. -/
theorem UnpinPage_pinned_frame {b : BufferPoolManager} (h : PoolCore b) (cur : Nat) (c : Int)
    (d r : Bool) (b1 : BufferPoolManager) (hpid : (b.pageAt cur).page_id_ = c)
    (hc : c ≠ INVALID_PAGE_ID) (hpin : 0 < (b.pageAt cur).pin_count_)
    (e : b.UnpinPage c d = some (r, b1)) :
    (b1.pageAt cur).pin_count_ = (b.pageAt cur).pin_count_ - 1 ∧
    (b1.pageAt cur).is_dirty_ = ((b.pageAt cur).is_dirty_ || d) ∧
    ∀ f : Nat, f ≠ cur → b1.pageAt f = b.pageAt f := by
  have hv : (b.pageAt cur).page_id_ ≠ INVALID_PAGE_ID := by rw [hpid]; exact hc
  have hcur := pageAt_some b cur hv
  have hres := h.carried cur _ hcur hv
  rw [hpid] at hres
  obtain ⟨fid, hl⟩ := Option.isSome_iff_exists.mp hres
  obtain ⟨i, hi⟩ := Option.isSome_iff_exists.mp (h.resident c hres)
  obtain ⟨pg, hpg, hpgid⟩ := findPage_get _ _ _ hi
  have hic : i = cur := h.uniq i cur pg _ hpg hcur (by rw [hpgid, hpid]) (by rw [hpgid]; exact hc)
  subst hic
  rw [hcur] at hpg
  have hpg' : pg = b.pageAt i := (Option.some.inj hpg).symm
  unfold BufferPoolManager.UnpinPage at e
  rw [hl] at e
  simp only [hi, hcur] at e
  rw [if_pos hpin] at e
  simp only [Option.some.injEq, Prod.mk.injEq] at e
  rw [← e.2]
  refine ⟨?_, ?_, ?_⟩
  · unfold BufferPoolManager.pageAt
    simp only [modifyPage_get, if_true, hcur, Option.map_some', Option.getD_some]
  · unfold BufferPoolManager.pageAt
    simp only [modifyPage_get, if_true, hcur, Option.map_some', Option.getD_some]
    cases d <;> cases (b.pageAt i).is_dirty_ <;> rfl
  · intro f hf
    unfold BufferPoolManager.pageAt
    simp only [modifyPage_get, if_neg hf]

theorem installPage_pageAt (b : BufferPoolManager) (i : Nat) (p fid : Int) (data : PageData)
    (disk : DiskManager) (old : Page) (hold : b.pages_[i]? = some old) :
    ((b.installPage i p fid data disk).pageAt i).page_id_ = p ∧
    ((b.installPage i p fid data disk).pageAt i).pin_count_ = 1 ∧
    ((b.installPage i p fid data disk).pageAt i).is_dirty_ = false ∧
    ∀ x : Nat, x ≠ i → (b.installPage i p fid data disk).pageAt x = b.pageAt x := by
  unfold BufferPoolManager.installPage BufferPoolManager.pageAt
  simp only [modifyPage_get, if_true, hold, Option.map_some', Option.getD_some]
  refine ⟨trivial, trivial, trivial, ?_⟩
  intro x hx
  rw [if_neg hx]

/-- `FetchPage` with defined behaviour that returns frame `f`: either the page was in `f`
and its pin count goes up by one, or `f` was a clean frame without a page and now holds the
page with pin count 1; every other frame stays as it is. -/
theorem PoolInv.FetchPageStrict_effect {b : BufferPoolManager} {g : PoolGhost}
    (h : PoolInv b g) (p : Int) (hp0 : 0 ≤ p) (f : Nat) (b1 : BufferPoolManager)
    (e : b.FetchPageStrict p = some (some f, b1)) :
    (b1.pageAt f).page_id_ = p ∧ (∀ x : Nat, x ≠ f → b1.pageAt x = b.pageAt x) ∧
    (((b.pageAt f).page_id_ = p ∧ (b1.pageAt f).pin_count_ = (b.pageAt f).pin_count_ + 1 ∧
        (b1.pageAt f).is_dirty_ = (b.pageAt f).is_dirty_) ∨
      ((b.pageAt f).page_id_ = INVALID_PAGE_ID ∧ (b.pageAt f).is_dirty_ = false ∧
        (b1.pageAt f).pin_count_ = 1 ∧ (b1.pageAt f).is_dirty_ = false)) := by
  cases hl : b.page_table_.lookup p with
  | some fid =>
    unfold BufferPoolManager.FetchPageStrict at e
    rw [hl] at e
    simp only at e
    cases hfi : findPage b.pages_ p with
    | none => rw [hfi] at e; cases e
    | some i =>
      rw [hfi] at e
      simp only [Option.some.injEq, Prod.mk.injEq] at e
      obtain ⟨e2, e3⟩ := e
      subst e2
      subst e3
      obtain ⟨pg, hpg, hid⟩ := findPage_get _ _ _ hfi
      refine ⟨?_, ?_, Or.inl ⟨?_, ?_, ?_⟩⟩
      · unfold BufferPoolManager.pageAt
        simp only [modifyPage_get, hpg, if_true, Option.map_some', Option.getD_some]
        exact hid
      · intro x hx
        unfold BufferPoolManager.pageAt
        simp only [modifyPage_get, if_neg hx]
      · unfold BufferPoolManager.pageAt
        rw [hpg]
        exact hid
      · unfold BufferPoolManager.pageAt
        simp only [modifyPage_get, hpg, if_true, Option.map_some', Option.getD_some]
      · unfold BufferPoolManager.pageAt
        simp only [modifyPage_get, hpg, if_true, Option.map_some', Option.getD_some]
  | none =>
    obtain ⟨hne, _⟩ := h.FetchPageStrict_frame p hp0 hl f b1 e
    cases hF : b.free_list_ with
    | nil => exact absurd hF hne
    | cons fid rest =>
      obtain ⟨i, hi, hj⟩ := FetchPage_free h.core p fid rest hl hF hp0
      rw [FetchPageStrict_agrees b p _ e] at hj
      simp only [Option.some.injEq, Prod.mk.injEq] at hj
      obtain ⟨e2, e3⟩ := hj
      subst e2
      subst e3
      obtain ⟨pg, hpg, hid⟩ := findPage_get _ _ _ hi
      obtain ⟨a1, a2, a3, a4⟩ := installPage_pageAt b f p fid
        ((b.disk_manager_.file.lookup p).getD PageData.zero) b.disk_manager_ pg hpg
      have hpid : (b.pageAt f).page_id_ = INVALID_PAGE_ID := by
        unfold BufferPoolManager.pageAt
        rw [hpg]
        exact hid
      exact ⟨a1, a4, Or.inr ⟨hpid, pageAt_invalid_clean h.core f hpid, a2, a3⟩⟩

/-- `NewPage` with defined behaviour that returns frame `f`: `f` was a clean frame without a
page and now holds the new page with pin count 1; every other frame stays as it is. -/
theorem PoolInv.NewPageStrict_effect {b : BufferPoolManager} {g : PoolGhost}
    (h : PoolInv b g) (keep : Int) (f : Nat) (q : Int) (b1 : BufferPoolManager)
    (e : b.NewPageStrict keep = some ((some f, q), b1)) :
    (b1.pageAt f).page_id_ = q ∧ 0 ≤ q ∧ (∀ x : Nat, x ≠ f → b1.pageAt x = b.pageAt x) ∧
    (b.pageAt f).page_id_ = INVALID_PAGE_ID ∧ (b.pageAt f).is_dirty_ = false ∧
    (b1.pageAt f).pin_count_ = 1 ∧ (b1.pageAt f).is_dirty_ = false := by
  obtain ⟨hne, _⟩ := h.NewPageStrict_frame keep f q b1 e
  obtain ⟨_, hq0, _, _⟩ := h.core.alloc_fresh
  cases hF : b.free_list_ with
  | nil => exact absurd hF hne
  | cons fid rest =>
    obtain ⟨i, hi, hj⟩ := NewPage_free h.core fid rest hF keep
    rw [NewPageStrict_agrees b keep _ e] at hj
    simp only [Option.some.injEq, Prod.mk.injEq] at hj
    obtain ⟨⟨e2, e4⟩, e3⟩ := hj
    subst e2
    subst e3
    subst e4
    obtain ⟨pg, hpg, hid⟩ := findPage_get _ _ _ hi
    obtain ⟨a1, a2, a3, a4⟩ := installPage_pageAt b f b.disk_manager_.AllocatePage.1 fid
      PageData.zero b.disk_manager_.AllocatePage.2 pg hpg
    have hpid : (b.pageAt f).page_id_ = INVALID_PAGE_ID := by
      unfold BufferPoolManager.pageAt
      rw [hpg]
      exact hid
    exact ⟨a1, hq0, a4, hpid, pageAt_invalid_clean h.core f hpid, a2, a3⟩

theorem installFetched_frame (b : BufferPoolManager) (p fid : Int) (res : Option Nat)
    (b1 : BufferPoolManager) (e : b.installFetched p fid res = some (none, b1)) : False := by
  unfold BufferPoolManager.installFetched at e
  cases res with
  | none => cases e
  | some i =>
    simp only [Option.bind_eq_bind, Option.some_bind] at e
    cases hold : b.pages_[i]? with
    | none => rw [hold] at e; cases e
    | some old =>
      rw [hold] at e
      simp only [Option.some_bind] at e
      split at e
      · simp only [Option.bind_eq_some] at e
        obtain ⟨disk, _, data, _, e1⟩ := e
        cases (Prod.mk.inj (Option.some.inj e1)).1
      · simp only [Option.some_bind, Option.bind_eq_some] at e
        obtain ⟨data, _, e1⟩ := e
        cases (Prod.mk.inj (Option.some.inj e1)).1

/-- `FetchPage` with defined behaviour that returns no frame leaves the pool as it is. -/
theorem FetchPageStrict_null (b : BufferPoolManager) (p : Int) (b1 : BufferPoolManager)
    (e : b.FetchPageStrict p = some (none, b1)) : b1 = b := by
  unfold BufferPoolManager.FetchPageStrict at e
  cases hl : b.page_table_.lookup p with
  | some fid =>
    rw [hl] at e
    simp only at e
    cases hfi : findPage b.pages_ p with
    | none => rw [hfi] at e; cases e
    | some i =>
      rw [hfi] at e
      simp only [Option.some.injEq, Prod.mk.injEq] at e
      cases e.1
  | none =>
    rw [hl] at e
    simp only at e
    cases hF : b.free_list_ with
    | cons fid rest =>
      rw [hF] at e
      exact (installFetched_frame _ _ _ _ _ e).elim
    | nil =>
      rw [hF] at e
      simp only at e
      cases hV : b.replacer_.Victim with
      | mk v rep =>
        rw [hV] at e
        cases v with
        | none =>
          simp only [Option.some.injEq, Prod.mk.injEq] at e
          exact e.2.symm
        | some fv =>
          simp only at e
          cases hE : eraseLoop
              (fun e => e.1 == (tableKeyOf b.page_table_ fv).getD INVALID_PAGE_ID)
              b.page_table_ with
          | none => rw [hE] at e; cases e
          | some table =>
            rw [hE] at e
            exact (installFetched_frame _ _ _ _ _ e).elim

theorem FramesSince.start (b : BufferPoolManager) : FramesSince b b [] (fun _ => 0) := by
  refine ⟨fun f _ => rfl, ?_, fun f hf => absurd rfl hf, fun f hf => hf, fun f hf => Or.inl hf,
    ?_⟩
  · intro f
    rw [if_neg (fun hc => hc.2 hc.1), add_zero]
  · intro p hp
    cases hp

theorem FramesSince.frames_eq {b0 b b1 : BufferPoolManager} {log : List HeapCall}
    {extra : Nat → Int} (h : FramesSince b0 b log extra)
    (hp : ∀ f : Nat, (b1.pageAt f).page_id_ = (b.pageAt f).page_id_)
    (hn : ∀ f : Nat, (b1.pageAt f).pin_count_ = (b.pageAt f).pin_count_)
    (hd : ∀ f : Nat, (b1.pageAt f).is_dirty_ = (b.pageAt f).is_dirty_) :
    FramesSince b0 b1 log extra := by
  refine ⟨?_, ?_, ?_, ?_, ?_, ?_⟩
  · intro f hf
    rw [hp]
    exact h.pid f hf
  · intro f
    rw [hn, hp]
    exact h.pin f
  · intro f hf
    rw [hp]
    exact h.held f hf
  · intro f hf
    rw [hd]
    exact h.keep f hf
  · intro f hf
    rw [hd] at hf
    rw [hp]
    exact h.set f hf
  · intro p hpl
    obtain ⟨f, e1, e2⟩ := h.marked p hpl
    exact ⟨f, by rw [hp]; exact e1, by rw [hd]; exact e2⟩

theorem FramesSince.writeNode {b0 b : BufferPoolManager} {log : List HeapCall}
    {extra : Nat → Int} (h : FramesSince b0 b log extra) (f : Nat) (g : PageData → PageData) :
    FramesSince b0 (b.setNode f g) log extra :=
  h.frames_eq (fun x => (pageAt_setNode b f x g).1) (fun x => (pageAt_setNode b f x g).2)
    (fun x => pageAt_setNode_dirty b f x g)

theorem FramesSince.log_append {b0 b : BufferPoolManager} {log : List HeapCall}
    {extra : Nat → Int} (h : FramesSince b0 b log extra) (l : List HeapCall)
    (hl : ∀ p : Int, HeapCall.UnpinPage p true ∉ l) : FramesSince b0 b (log ++ l) extra := by
  refine ⟨h.pid, h.pin, h.held, h.keep, ?_, ?_⟩
  · intro f hf
    rcases h.set f hf with h1 | h1
    · exact Or.inl h1
    · exact Or.inr (List.mem_append_left _ h1)
  · intro p hp
    rcases List.mem_append.mp hp with h1 | h1
    · exact h.marked p h1
    · exact absurd h1 (hl p)

theorem FramesSince.extra_eq {b0 b : BufferPoolManager} {log : List HeapCall}
    {extra : Nat → Int} (h : FramesSince b0 b log extra) (extra1 : Nat → Int)
    (he : ∀ f : Nat, extra1 f = extra f) : FramesSince b0 b log extra1 := by
  have : extra1 = extra := funext he
  rw [this]
  exact h

theorem FramesSince.release {b0 b : BufferPoolManager} {log : List HeapCall}
    {extra : Nat → Int} (h : FramesSince b0 b log extra) (cur : Nat) (c : Int) (d : Bool)
    (b1 : BufferPoolManager) (hpid : (b.pageAt cur).page_id_ = c) (hc : c ≠ INVALID_PAGE_ID)
    (hp : ∀ f : Nat, (b1.pageAt f).page_id_ = (b.pageAt f).page_id_)
    (hn : (b1.pageAt cur).pin_count_ = (b.pageAt cur).pin_count_ - 1)
    (hd : (b1.pageAt cur).is_dirty_ = ((b.pageAt cur).is_dirty_ || d))
    (ho : ∀ f : Nat, f ≠ cur → b1.pageAt f = b.pageAt f) :
    FramesSince b0 b1 (log ++ [HeapCall.UnpinPage c d])
      (fun x => extra x - if x = cur then 1 else 0) := by
  refine ⟨?_, ?_, ?_, ?_, ?_, ?_⟩
  · intro f hf
    rw [hp]
    exact h.pid f hf
  · intro f
    rw [hp]
    by_cases hfc : f = cur
    · subst hfc
      rw [hn, h.pin f, if_pos rfl]
      omega
    · rw [ho f hfc, h.pin f, if_neg hfc]
      omega
  · intro f hf
    rw [hp]
    by_cases hfc : f = cur
    · subst hfc
      rw [hpid]
      exact hc
    · simp only [if_neg hfc, sub_zero] at hf
      exact h.held f hf
  · intro f hf
    by_cases hfc : f = cur
    · subst hfc
      rw [hd, h.keep f hf]
      rfl
    · rw [ho f hfc]
      exact h.keep f hf
  · intro f hf
    rw [hp]
    by_cases hfc : f = cur
    · subst hfc
      rw [hd] at hf
      cases hcd : (b.pageAt f).is_dirty_ with
      | true =>
        rcases h.set f hcd with h1 | h1
        · exact Or.inl h1
        · exact Or.inr (List.mem_append_left _ h1)
      | false =>
        rw [hcd, Bool.false_or] at hf
        right
        rw [hpid, hf]
        exact List.mem_append_right _ (List.mem_singleton.mpr rfl)
    · rw [ho f hfc] at hf
      rcases h.set f hf with h1 | h1
      · exact Or.inl h1
      · exact Or.inr (List.mem_append_left _ h1)
  · intro p hpl
    rcases List.mem_append.mp hpl with h1 | h1
    · obtain ⟨f, e1, e2⟩ := h.marked p h1
      refine ⟨f, by rw [hp]; exact e1, ?_⟩
      by_cases hfc : f = cur
      · subst hfc
        rw [hd, e2]
        rfl
      · rw [ho f hfc]
        exact e2
    · have h2 := List.mem_singleton.mp h1
      simp only [HeapCall.UnpinPage.injEq] at h2
      obtain ⟨e1, e2⟩ := h2
      refine ⟨cur, by rw [hp, hpid, e1], ?_⟩
      rw [hd, ← e2]
      exact Bool.or_true _

theorem FramesSince.takeFrame {b0 b : BufferPoolManager} {log : List HeapCall}
    {extra : Nat → Int} (h : FramesSince b0 b log extra) (f : Nat) (p : Int)
    (b1 : BufferPoolManager) (hv : p ≠ INVALID_PAGE_ID) (h1 : (b1.pageAt f).page_id_ = p)
    (ho : ∀ x : Nat, x ≠ f → b1.pageAt x = b.pageAt x)
    (hcase : ((b.pageAt f).page_id_ = p ∧
        (b1.pageAt f).pin_count_ = (b.pageAt f).pin_count_ + 1 ∧
        (b1.pageAt f).is_dirty_ = (b.pageAt f).is_dirty_) ∨
      ((b.pageAt f).page_id_ = INVALID_PAGE_ID ∧ (b.pageAt f).is_dirty_ = false ∧
        (b1.pageAt f).pin_count_ = 1 ∧ (b1.pageAt f).is_dirty_ = false)) :
    FramesSince b0 b1 log (fun x => extra x + if x = f then 1 else 0) := by
  have hinv0 : (b.pageAt f).page_id_ = INVALID_PAGE_ID →
      (b0.pageAt f).page_id_ = INVALID_PAGE_ID := by
    intro hb
    by_contra hc
    have := h.pid f hc
    rw [hb] at this
    exact hc this.symm
  refine ⟨?_, ?_, ?_, ?_, ?_, ?_⟩
  · intro x hx
    by_cases hxf : x = f
    · subst hxf
      rcases hcase with ⟨c1, _, _⟩ | ⟨c1, _, _, _⟩
      · rw [h1, ← c1]
        exact h.pid x hx
      · exact absurd (hinv0 c1) hx
    · rw [ho x hxf]
      exact h.pid x hx
  · intro x
    by_cases hxf : x = f
    · subst hxf
      rcases hcase with ⟨c1, c2, _⟩ | ⟨c1, _, c3, _⟩
      · rw [c2, h.pin x, h1, c1, if_pos rfl]
        omega
      · have hx0 : extra x = 0 := by
          by_contra hc
          exact h.held x hc c1
        rw [c3, h1, if_pos ⟨hinv0 c1, hv⟩, if_pos rfl, hx0]
        rfl
    · rw [ho x hxf, h.pin x, if_neg hxf]
      omega
  · intro x hx
    by_cases hxf : x = f
    · subst hxf
      rw [h1]
      exact hv
    · rw [ho x hxf]
      simp only [if_neg hxf, add_zero] at hx
      exact h.held x hx
  · intro x hx
    by_cases hxf : x = f
    · subst hxf
      rcases hcase with ⟨_, _, c3⟩ | ⟨_, c2, _, _⟩
      · rw [c3]
        exact h.keep x hx
      · have := h.keep x hx
        rw [c2] at this
        cases this
    · rw [ho x hxf]
      exact h.keep x hx
  · intro x hx
    by_cases hxf : x = f
    · subst hxf
      rcases hcase with ⟨c1, _, c3⟩ | ⟨_, _, _, c4⟩
      · rw [c3] at hx
        rw [h1, ← c1]
        exact h.set x hx
      · rw [c4] at hx
        cases hx
    · rw [ho x hxf] at hx ⊢
      exact h.set x hx
  · intro q hq
    obtain ⟨x, e1, e2⟩ := h.marked q hq
    by_cases hxf : x = f
    · subst hxf
      rcases hcase with ⟨c1, _, c3⟩ | ⟨_, c2, _, _⟩
      · exact ⟨x, by rw [h1, ← c1]; exact e1, by rw [c3]; exact e2⟩
      · rw [c2] at e2
        cases e2
    · exact ⟨x, by rw [ho x hxf]; exact e1, by rw [ho x hxf]; exact e2⟩

/-- The loop of `InsertTuple` on a consistent pool, entered with one page pinned: when it is
left the pool is consistent, the frames are as `FramesSince` describes with no pin held but
the one on the page that took the row, if any. -/
theorem insertTupleLoop_frames (ops : TablePageWrites)
    (hid : ∀ pg : Page, ops.GetTablePageId pg = pg.page_id_) (bits0 : List Bool)
    (b0 : BufferPoolManager) :
    ∀ (n cur : Nat) (b : BufferPoolManager) (log : List HeapCall) (c : Int)
      (res : Option Nat × List HeapCall × BufferPoolManager),
      (∃ g, PoolInv b g) → 0 < (b.pageAt cur).pin_count_ → (b.pageAt cur).page_id_ = c →
      c ≠ INVALID_PAGE_ID →
      (∀ m : Nat, getBit bits0 m = true → getBit b.disk_manager_.bits m = true) →
      FramesSince b0 b log (fun x => if x = cur then 1 else 0) →
      insertTupleLoop ops n cur b log = some res →
      (∀ p : Int, HeapCall.FetchPage p ∈ res.2.1 → 0 ≤ p ∧ getBit bits0 p.toNat = true) →
      (∃ g, PoolInv res.2.2 g) ∧
      match res.1 with
      | none => FramesSince b0 res.2.2 res.2.1 (fun _ => 0)
      | some f => FramesSince b0 res.2.2 res.2.1 (fun x => if x = f then 1 else 0) ∧
          0 < (res.2.2.pageAt f).pin_count_ ∧
          (res.2.2.pageAt f).page_id_ ≠ INVALID_PAGE_ID := by
  intro n
  induction n with
  | zero =>
    intro cur b log c res _ _ _ _ _ _ e
    rw [insertTupleLoop] at e
    cases e
  | succ n ih =>
    intro cur b log c res hinv hpin hpid hc hbits hfs e halloc
    obtain ⟨g, hg⟩ := hinv
    have hg0 := hg.setNode cur (fun _ => (ops.InsertTuple (b.node cur)).2)
    have hpid0 : ((b.setNode cur (fun _ => (ops.InsertTuple (b.node cur)).2)).pageAt
        cur).page_id_ = c := by rw [(pageAt_setNode _ _ _ _).1, hpid]
    have hpin0 : 0 < ((b.setNode cur (fun _ => (ops.InsertTuple (b.node cur)).2)).pageAt
        cur).pin_count_ := by rw [(pageAt_setNode _ _ _ _).2]; exact hpin
    have hfs0 := hfs.writeNode cur (fun _ => (ops.InsertTuple (b.node cur)).2)
    rcases insertTupleLoop_step ops n cur b log res e with
      ⟨_, hres⟩ | ⟨_, hnx, x, b1, nf, b2, eU, eF, e1⟩ | ⟨_, q, b1, x, b2, eN, eU, hres⟩ |
      ⟨_, f, q, b1, x, b4, eN, eU, e1⟩
    · -- the page takes the row
      rw [hres]
      refine ⟨⟨g, hg0⟩, hfs0.log_append _ ?_, hpin0, by rw [hpid0]; exact hc⟩
      intro p hp
      simp at hp
    · -- on to the next page
      have eF1 := FetchPageStrict_agrees _ _ _ eF
      rw [hid, hpid0] at eU e1
      obtain ⟨l, hl⟩ := insertTupleLoop_log_extends ops _ _ _ _ _ e1
      have hval := halloc (ops.GetNextPageId
        ((b.setNode cur (fun _ => (ops.InsertTuple (b.node cur)).2)).node cur)) (by
          rw [hl]
          simp)
      obtain ⟨g1, hg1⟩ := hg0.after_UnpinPage _ _ _ _ eU
      obtain ⟨hd1, hp1⟩ := UnpinPage_pageAt _ _ _ _ _ eU
      obtain ⟨u1, u2, u3⟩ := UnpinPage_pinned_frame hg0.core cur c false x b1 hpid0 hc hpin0 eU
      obtain ⟨g2, hg2⟩ := hg1.after_FetchPage _ hval.1 (by
        rw [hd1, setNode_disk]
        exact hbits _ hval.2) _ _ eF1
      obtain ⟨f1, f2, f3⟩ := FetchPage_pageAt hg1.core _ _ _ eF1
      obtain ⟨k1, k2, k3⟩ := hg1.FetchPageStrict_effect _ hval.1 nf b2 eF
      have hfs1 := (hfs0.log_append [HeapCall.InsertTuple (b.framePageId cur) false] (by
        intro p hp
        simp at hp)).release cur c false b1 hpid0 hc (fun y => (hp1 y).1) u1 u2 u3
      have hfs2 := ((hfs1.takeFrame nf _ b2 hnx k1 k2 k3).log_append
        [HeapCall.FetchPage (ops.GetNextPageId
          ((b.setNode cur (fun _ => (ops.InsertTuple (b.node cur)).2)).node cur))] (by
        intro p hp
        simp at hp)).extra_eq (fun y => if y = nf then 1 else 0) (by
        intro y
        by_cases h1 : y = cur <;> by_cases h2 : y = nf <;> simp [h1, h2])
      refine ih nf b2 _ _ res ⟨g2, hg2⟩ f2 f1 hnx ?_ ?_ e1 halloc
      · intro m hm
        rw [f3, hd1, setNode_disk]
        exact hbits m hm
      · simpa only [List.append_assoc, List.singleton_append] using hfs2
    · -- no page for a new one
      have eN1 := NewPageStrict_agrees _ _ _ eN
      have hb1 := NewPage_null _ _ _ _ eN1
      subst hb1
      rw [hid, hpid0] at eU hres
      rw [hres]
      obtain ⟨g1, hg1⟩ := hg0.after_UnpinPage _ _ _ _ eU
      obtain ⟨hd1, hp1⟩ := UnpinPage_pageAt _ _ _ _ _ eU
      obtain ⟨u1, u2, u3⟩ := UnpinPage_pinned_frame hg0.core cur c false x b2 hpid0 hc hpin0 eU
      have hfs1 := ((hfs0.log_append [HeapCall.InsertTuple (b.framePageId cur) false] (by
        intro p hp
        simp at hp)).release cur c false b2 hpid0 hc (fun y => (hp1 y).1) u1 u2 u3).extra_eq
          (fun _ => 0) (by
            intro y
            by_cases h1 : y = cur <;> simp [h1])
      exact ⟨⟨g1, hg1⟩, hfs1⟩
    · -- a new page is linked
      have eN1 := NewPageStrict_agrees _ _ _ eN
      obtain ⟨n1, n2, n3, n4, n5, n6, n7⟩ := NewPage_keeps_pinned hg0 cur hpin0
        (by rw [hpid0]; exact hc) _ _ _ _ eN1
      rw [hpid0] at n3
      have hfp1 : b1.framePageId cur = c := by
        show (b1.pageAt cur).page_id_ = c
        rw [n2, hpid0]
      have hpid3 : ∀ g1 g2 : PageData → PageData,
          (((b1.setNode cur g1).setNode f g2).pageAt cur).page_id_ = c := by
        intro g1 g2
        rw [(pageAt_setNode _ _ _ _).1, (pageAt_setNode _ _ _ _).1, n2, hpid0]
      have hpin3 : ∀ g1 g2 : PageData → PageData,
          0 < (((b1.setNode cur g1).setNode f g2).pageAt cur).pin_count_ := by
        intro g1 g2
        rw [(pageAt_setNode _ _ _ _).2, (pageAt_setNode _ _ _ _).2, n2]
        exact hpin0
      have hpid1 : ∀ g1 : PageData → PageData,
          ((b1.setNode cur g1).pageAt cur).page_id_ = c := by
        intro g1
        rw [(pageAt_setNode _ _ _ _).1, n2, hpid0]
      simp only [hid, hpid3, hpid1, hfp1] at eU e1
      obtain ⟨g1, hg1⟩ := hg0.after_NewPage _ _ _ eN1
      have hg3 := (hg1.setNode cur (fun d => ops.SetNextPageId d q)).setNode f
        (fun d => ops.Init d q c)
      obtain ⟨g4, hg4⟩ := PoolInv.after_UnpinPage hg3 _ _ _ _ eU
      obtain ⟨u1, u2⟩ := UnpinPage_pageAt _ _ _ _ _ eU
      obtain ⟨v1, v2, v3⟩ := UnpinPage_pinned_frame hg3.core cur c true x b4 (hpid3 _ _) hc
        (hpin3 _ _) eU
      obtain ⟨k1, k0, k2, k3, k4, k5, k6⟩ := hg0.NewPageStrict_effect _ f q b1 eN
      have hq : q ≠ INVALID_PAGE_ID := by unfold INVALID_PAGE_ID; omega
      have hq3 : ∀ g1 g2 : PageData → PageData,
          (((b1.setNode cur g1).setNode f g2).pageAt f).page_id_ = q := by
        intro g1 g2
        rw [(pageAt_setNode _ _ _ _).1, (pageAt_setNode _ _ _ _).1, n5]
      have hp3 : ∀ g1 g2 : PageData → PageData,
          (((b1.setNode cur g1).setNode f g2).pageAt f).pin_count_ = 1 := by
        intro g1 g2
        rw [(pageAt_setNode _ _ _ _).2, (pageAt_setNode _ _ _ _).2, n6]
      have hsame := (u2 f).2 (by rw [hq3]; exact n3)
      have hfs1 := (hfs0.log_append [HeapCall.InsertTuple (b.framePageId cur) false] (by
        intro p hp
        simp at hp)).takeFrame f q b1 hq k1 k2 (Or.inr ⟨k3, k4, k5, k6⟩)
      have hfs3 := ((hfs1.log_append [HeapCall.NewPage q, HeapCall.SetNextPageId c] (by
        intro p hp
        simp at hp)).writeNode cur (fun d => ops.SetNextPageId d q)).writeNode f
          (fun d => ops.Init d q c)
      have hfs4 := (hfs3.release cur c true b4 (hpid3 _ _) hc (fun y => (u2 y).1) v1 v2
        v3).extra_eq (fun y => if y = f then 1 else 0) (by
          intro y
          by_cases h1 : y = cur <;> by_cases h2 : y = f <;> simp [h1, h2])
      refine ih f b4 _ q res ⟨g4, hg4⟩ (by rw [hsame, hp3]; decide) (by rw [hsame, hq3])
        hq ?_ ?_ e1 halloc
      · intro m hm
        rw [u1, setNode_disk, setNode_disk]
        exact n7 m (by rw [setNode_disk]; exact hbits m hm)
      · simpa only [List.append_assoc, List.singleton_append, List.cons_append,
          List.nil_append] using hfs4

theorem FramesSince.final {b0 b : BufferPoolManager} {log : List HeapCall}
    (h : FramesSince b0 b log (fun _ => 0)) (hc : PoolCore b) :
    (∀ f : Nat, (b.pageAt f).pin_count_ =
      if (b0.pageAt f).page_id_ = INVALID_PAGE_ID ∧ (b.pageAt f).page_id_ ≠ INVALID_PAGE_ID
      then 0 else (b0.pageAt f).pin_count_) ∧
    (∀ f : Nat, (b.pageAt f).is_dirty_ = true ↔
      ((b0.pageAt f).is_dirty_ = true ∨
        HeapCall.UnpinPage (b.pageAt f).page_id_ true ∈ log)) ∧
    (∀ p : Int, HeapCall.UnpinPage p true ∈ log →
      ∃ f : Nat, (b.pageAt f).page_id_ = p ∧ (b.pageAt f).is_dirty_ = true) := by
  refine ⟨?_, ?_, h.marked⟩
  · intro f
    rw [h.pin f, add_zero]
  · intro f
    constructor
    · exact h.set f
    · rintro (h1 | h1)
      · exact h.keep f h1
      · obtain ⟨x, e1, e2⟩ := h.marked _ h1
        by_cases hv : (b.pageAt x).page_id_ = INVALID_PAGE_ID
        · rw [pageAt_invalid_clean hc x hv] at e2
          cases e2
        · have := pageAt_uniq hc x f e1 hv
          subst this
          exact e2

/-- C34: take a run of `TableHeap::InsertTuple` that returns (the row stored, `NewPage`
failed, or one of the two early returns) on a consistent buffer pool, where `GetTablePageId`
of a page gives its page id and the pages the run fetches are allocated. Read with the list
of the pages that are pinned, each marked once the run has modified it (tuple inserted or
next-page pointer set), the record of the calls of the run goes through without an error and
ends with no page pinned: every `UnpinPage(p, d)` is for a page `p` that a `FetchPage` or
`NewPage` of the run returned and that was not unpinned since, `d` is true exactly when `p`
was modified, and every page fetched or created is unpinned. In the pool afterwards every
frame has the pin count it had before the call (0 for a frame that took a page in during
the call); the dirty flag of a frame is set exactly when it was set before the call or the
page of the frame was unpinned with `is_dirty = true` by the call; and every page that the
call unpinned with `is_dirty = true` is in a frame with the dirty flag set. -/
theorem InsertTuple_unpins_each_pinned_page_once (ops : TablePageWrites) (PAGE_SIZE : Nat)
    (h : TableHeap) (g : PoolGhost) (fuel serializedSize : Nat) (res : Bool)
    (log : List HeapCall) (h' : TableHeap)
    (hinv : PoolInv h.buffer_pool_manager_ g)
    (hid : ∀ pg : Page, ops.GetTablePageId pg = pg.page_id_)
    (hrun : h.InsertTuple ops PAGE_SIZE fuel serializedSize = some (res, log, h'))
    (halloc : ∀ p : Int, HeapCall.FetchPage p ∈ log →
      0 ≤ p ∧ getBit h.buffer_pool_manager_.disk_manager_.bits p.toNat = true) :
    pinLedger [] log = some [] ∧
    (∀ f : Nat, (h'.buffer_pool_manager_.pageAt f).pin_count_ =
      if (h.buffer_pool_manager_.pageAt f).page_id_ = INVALID_PAGE_ID ∧
        (h'.buffer_pool_manager_.pageAt f).page_id_ ≠ INVALID_PAGE_ID
      then 0 else (h.buffer_pool_manager_.pageAt f).pin_count_) ∧
    (∀ f : Nat, (h'.buffer_pool_manager_.pageAt f).is_dirty_ = true ↔
      ((h.buffer_pool_manager_.pageAt f).is_dirty_ = true ∨
        HeapCall.UnpinPage (h'.buffer_pool_manager_.pageAt f).page_id_ true ∈ log)) ∧
    (∀ p : Int, HeapCall.UnpinPage p true ∈ log →
      ∃ f : Nat, (h'.buffer_pool_manager_.pageAt f).page_id_ = p ∧
        (h'.buffer_pool_manager_.pageAt f).is_dirty_ = true) := by
  unfold TableHeap.InsertTuple at hrun
  by_cases hsz : serializedSize + 32 > PAGE_SIZE
  · rw [if_pos hsz] at hrun
    simp only [Option.some.injEq, Prod.mk.injEq] at hrun
    rw [← hrun.2.1, ← hrun.2.2]
    exact ⟨rfl, (FramesSince.start h.buffer_pool_manager_).final hinv.core⟩
  · rw [if_neg hsz] at hrun
    simp only [Option.bind_eq_bind] at hrun
    cases hF : h.buffer_pool_manager_.FetchPageStrict h.first_page_id_ with
    | none => rw [hF] at hrun; cases hrun
    | some pb =>
      obtain ⟨page, b1⟩ := pb
      rw [hF] at hrun
      simp only [Option.some_bind] at hrun
      cases page with
      | none =>
        simp only [Option.some.injEq, Prod.mk.injEq] at hrun
        have hb1 := FetchPageStrict_null _ _ _ hF
        subst hb1
        rw [← hrun.2.1, ← hrun.2.2]
        exact ⟨rfl, (FramesSince.start h.buffer_pool_manager_).final hinv.core⟩
      | some cur =>
        simp only at hrun
        have hF1 := FetchPageStrict_agrees _ _ _ hF
        cases hL : insertTupleLoop ops fuel cur b1 [HeapCall.FetchPage h.first_page_id_] with
        | none => rw [hL] at hrun; cases hrun
        | some r =>
          obtain ⟨cur', log1, b2⟩ := r
          rw [hL] at hrun
          simp only [Option.some_bind] at hrun
          obtain ⟨l, hl⟩ := insertTupleLoop_log_extends ops _ _ _ _ _ hL
          simp only at hl
          have hsub : ∀ p : Int, HeapCall.FetchPage p ∈ log1 → HeapCall.FetchPage p ∈ log := by
            intro p hp
            cases cur' with
            | none =>
              simp only [Option.some.injEq, Prod.mk.injEq] at hrun
              rw [← hrun.2.1]
              exact hp
            | some f =>
              simp only at hrun
              cases hU : b2.UnpinPage (ops.GetTablePageId (b2.pageAt f)) true with
              | none => rw [hU] at hrun; cases hrun
              | some xb =>
                rw [hU] at hrun
                simp only [Option.some_bind, Option.some.injEq, Prod.mk.injEq] at hrun
                rw [← hrun.2.1]
                exact List.mem_append_left _ hp
          have hfirst := halloc h.first_page_id_ (hsub _ (by rw [hl]; simp))
          have hfv : h.first_page_id_ ≠ INVALID_PAGE_ID := by
            unfold INVALID_PAGE_ID
            omega
          obtain ⟨f1, f2, f3⟩ := FetchPage_pageAt hinv.core _ _ _ hF1
          obtain ⟨g1, hg1⟩ := hinv.after_FetchPage _ hfirst.1 hfirst.2 _ _ hF1
          obtain ⟨k1, k2, k3⟩ := hinv.FetchPageStrict_effect _ hfirst.1 cur b1 hF
          have hfs1 : FramesSince h.buffer_pool_manager_ b1
              [HeapCall.FetchPage h.first_page_id_] (fun x => if x = cur then 1 else 0) :=
            (((FramesSince.start h.buffer_pool_manager_).takeFrame cur _ b1 hfv k1 k2
              k3).log_append [HeapCall.FetchPage h.first_page_id_] (by
                intro p hp
                simp at hp)).extra_eq _ (by
                  intro y
                  simp)
          have hled := insertTupleLoop_ledger ops hid
            h.buffer_pool_manager_.disk_manager_.bits fuel cur b1
            [HeapCall.FetchPage h.first_page_id_] h.first_page_id_ (cur', log1, b2)
            ⟨g1, hg1⟩ f2 f1 hfv
            (fun m hm => by rw [f3]; exact hm) rfl hL
            (fun p hp => halloc p (hsub p hp))
          obtain ⟨⟨g2, hg2⟩, hfr⟩ := insertTupleLoop_frames ops hid
            h.buffer_pool_manager_.disk_manager_.bits h.buffer_pool_manager_ fuel cur b1
            [HeapCall.FetchPage h.first_page_id_] h.first_page_id_ (cur', log1, b2)
            ⟨g1, hg1⟩ f2 f1 hfv
            (fun m hm => by rw [f3]; exact hm) hfs1 hL
            (fun p hp => halloc p (hsub p hp))
          cases cur' with
          | none =>
            simp only [Option.some.injEq, Prod.mk.injEq] at hrun
            rw [← hrun.2.1, ← hrun.2.2]
            exact ⟨hled, FramesSince.final hfr hg2.core⟩
          | some f =>
            simp only at hrun hled hfr
            obtain ⟨hfr1, hpinf, hpidf⟩ := hfr
            cases hU : b2.UnpinPage (ops.GetTablePageId (b2.pageAt f)) true with
            | none => rw [hU] at hrun; cases hrun
            | some xb =>
              obtain ⟨x, b3⟩ := xb
              rw [hU] at hrun
              simp only [Option.some_bind, Option.some.injEq, Prod.mk.injEq] at hrun
              rw [hid] at hU
              obtain ⟨g3, hg3⟩ := hg2.after_UnpinPage _ _ _ _ hU
              obtain ⟨_, u2⟩ := UnpinPage_pageAt _ _ _ _ _ hU
              obtain ⟨v1, v2, v3⟩ := UnpinPage_pinned_frame hg2.core f _ true x b3 rfl hpidf
                hpinf hU
              have hfs3 := (hfr1.release f _ true b3 rfl hpidf (fun y => (u2 y).1) v1 v2
                v3).extra_eq (fun _ => 0) (by
                  intro y
                  by_cases h1 : y = f <;> simp [h1])
              rw [← hrun.2.1, ← hrun.2.2]
              refine ⟨?_, ?_⟩
              · rw [pinLedger_append, hled, hid]
                simp [pinLedger]
              · rw [hid]
                exact FramesSince.final hfs3 hg3.core

/-- C34 on a heap whose first page (page 2) is full, on a pool of 10 frames: the call
creates page 3, links it and stores the row there; before the call the frames 0 to 2 hold the
pages 0 to 2 with pin count 0 and clean, afterwards the frames 0 to 3 hold the pages 0 to 3
with pin count 0, and the pages 2 and 3 are dirty. Evaluated further: the next call walks
from page 2 to page 3 and leaves pin counts and dirty flags as they are; the call after it
creates page 4 behind page 3; on a pool of 3 frames whose other two pages are pinned
`NewPage` fails, the call returns false and leaves the pin counts 1, 1, 0 and page 2 clean;
a row of 5000 bytes is rejected before any page is fetched. -/
theorem InsertTuple_unpins_each_pinned_page_once_witness :
    (∃ (h : TableHeap) (g : PoolGhost) (h' : TableHeap),
      exampleHeap 10 heapSetup 2 = some h ∧ PoolInv h.buffer_pool_manager_ g ∧
      h.InsertTuple twoRowPages 4096 10 100 =
        some (true, [HeapCall.FetchPage 2, HeapCall.InsertTuple 2 false, HeapCall.NewPage 3,
          HeapCall.SetNextPageId 2, HeapCall.UnpinPage 2 true, HeapCall.InsertTuple 3 true,
          HeapCall.UnpinPage 3 true], h') ∧
      pinLedger [] [HeapCall.FetchPage 2, HeapCall.InsertTuple 2 false, HeapCall.NewPage 3,
          HeapCall.SetNextPageId 2, HeapCall.UnpinPage 2 true, HeapCall.InsertTuple 3 true,
          HeapCall.UnpinPage 3 true] = some [] ∧
      (∀ f : Nat, (h'.buffer_pool_manager_.pageAt f).pin_count_ =
        if (h.buffer_pool_manager_.pageAt f).page_id_ = INVALID_PAGE_ID ∧
          (h'.buffer_pool_manager_.pageAt f).page_id_ ≠ INVALID_PAGE_ID
        then 0 else (h.buffer_pool_manager_.pageAt f).pin_count_) ∧
      (∀ f : Nat, (h'.buffer_pool_manager_.pageAt f).is_dirty_ = true ↔
        ((h.buffer_pool_manager_.pageAt f).is_dirty_ = true ∨
          HeapCall.UnpinPage (h'.buffer_pool_manager_.pageAt f).page_id_ true ∈
            [HeapCall.FetchPage 2, HeapCall.InsertTuple 2 false, HeapCall.NewPage 3,
              HeapCall.SetNextPageId 2, HeapCall.UnpinPage 2 true,
              HeapCall.InsertTuple 3 true, HeapCall.UnpinPage 3 true]))) ∧
    (exampleHeap 10 heapSetup 2).map (fun h => h.frames.take 5) =
      some [(0, 0, false), (1, 0, false), (2, 0, false), (-1, 0, false), (-1, 0, false)] ∧
    (exampleHeap 10 heapSetup 2).bind (fun h =>
      (h.InsertTuple twoRowPages 4096 10 100).map (fun r => r.2.2.frames.take 5)) =
      some [(0, 0, false), (1, 0, false), (2, 0, true), (3, 0, true), (-1, 0, false)] ∧
    (exampleHeap 10 heapSetup 2).bind (fun h => (insertRows h 1).map (fun r => (r.1, r.2.1))) =
      some (true, [HeapCall.FetchPage 2, HeapCall.InsertTuple 2 false,
        HeapCall.UnpinPage 2 false, HeapCall.FetchPage 3, HeapCall.InsertTuple 3 true,
        HeapCall.UnpinPage 3 true]) ∧
    (exampleHeap 10 heapSetup 2).bind (fun h =>
      (insertRows h 1).map (fun r => r.2.2.frames.take 5)) =
      some [(0, 0, false), (1, 0, false), (2, 0, true), (3, 0, true), (-1, 0, false)] ∧
    (exampleHeap 10 heapSetup 2).bind (fun h => (insertRows h 2).map (fun r => (r.1, r.2.1))) =
      some (true, [HeapCall.FetchPage 2, HeapCall.InsertTuple 2 false,
        HeapCall.UnpinPage 2 false, HeapCall.FetchPage 3, HeapCall.InsertTuple 3 false,
        HeapCall.NewPage 4, HeapCall.SetNextPageId 3, HeapCall.UnpinPage 3 true,
        HeapCall.InsertTuple 4 true, HeapCall.UnpinPage 4 true]) ∧
    (exampleHeap 3 heapSetupPinned 2).bind (fun h =>
      (h.InsertTuple twoRowPages 4096 10 100).map (fun r => (r.1, r.2.1))) =
      some (false, [HeapCall.FetchPage 2, HeapCall.InsertTuple 2 false,
        HeapCall.UnpinPage 2 false]) ∧
    (exampleHeap 3 heapSetupPinned 2).bind (fun h =>
      (h.InsertTuple twoRowPages 4096 10 100).map (fun r => r.2.2.frames)) =
      some [(0, 1, false), (1, 1, false), (2, 0, false)] ∧
    (exampleHeap 10 heapSetup 0).bind (fun h =>
      (h.InsertTuple twoRowPages 4096 10 5000).map (fun r => (r.1, r.2.1))) =
      some (false, []) := by
  refine ⟨?_, by decide!, by decide!, by decide!, by decide!, by decide!, by decide!,
    by decide!, by decide!⟩
  obtain ⟨⟨b, g⟩, hrun⟩ := Option.isSome_iff_exists.mp
    (by decide! : ((BufferPoolManager.create 10 DiskManager.blank).runStrict PoolGhost.empty
      heapSetup).isSome = true)
  have hinv := PoolInv.reachStrict 10 DiskManager.blank heapSetup b g (by decide!) hrun
  have hbit : ((BufferPoolManager.create 10 DiskManager.blank).runStrict PoolGhost.empty
      heapSetup).map (fun r => getBit r.1.disk_manager_.bits 2) = some true := by decide!
  rw [hrun] at hbit
  have hbit' : getBit b.disk_manager_.bits 2 = true := Option.some.inj hbit
  have hh : exampleHeap 10 heapSetup 2 = some
      { buffer_pool_manager_ := b.setNode 2 (fun d =>
          { twoRowPages.Init d 2 INVALID_PAGE_ID with size_ := 2 }),
        first_page_id_ := 2 } := by
    unfold exampleHeap
    rw [hrun]
    rfl
  have hev : (exampleHeap 10 heapSetup 2).bind (fun h =>
      (h.InsertTuple twoRowPages 4096 10 100).map (fun r => (r.1, r.2.1))) =
      some (true, [HeapCall.FetchPage 2, HeapCall.InsertTuple 2 false, HeapCall.NewPage 3,
          HeapCall.SetNextPageId 2, HeapCall.UnpinPage 2 true, HeapCall.InsertTuple 3 true,
          HeapCall.UnpinPage 3 true]) := by decide!
  rw [hh] at hev
  simp only [Option.some_bind] at hev
  cases hI : TableHeap.InsertTuple twoRowPages 4096
      { buffer_pool_manager_ := b.setNode 2 (fun d =>
          { twoRowPages.Init d 2 INVALID_PAGE_ID with size_ := 2 }),
        first_page_id_ := 2 } 10 100 with
  | none => rw [hI] at hev; cases hev
  | some r =>
    obtain ⟨res, log, h'⟩ := r
    rw [hI] at hev
    simp only [Option.map_some', Option.some.injEq, Prod.mk.injEq] at hev
    obtain ⟨e1, e2⟩ := hev
    subst e1
    subst e2
    have hinv2 : PoolInv (b.setNode 2 (fun d =>
        { twoRowPages.Init d 2 INVALID_PAGE_ID with size_ := 2 })) g := hinv.setNode 2 _
    obtain ⟨r1, r2, r3, _⟩ := InsertTuple_unpins_each_pinned_page_once twoRowPages 4096 _ g 10
      100 true _ h' hinv2 (fun _ => rfl) hI (by
        intro p hp
        simp only [List.mem_cons, HeapCall.FetchPage.injEq, List.mem_singleton, reduceCtorEq,
          false_or, or_false, List.not_mem_nil] at hp
        subst hp
        exact ⟨by decide, hbit'⟩)
    exact ⟨_, g, h', hh, hinv2, hI, r1, r2, r3⟩

end MiniSql

namespace MiniSql

/-! ## The full-parent branch of `InsertIntoParent`: the state after the split -/

end MiniSql

namespace MiniSql

/-- With a parent that is not the root and is full, `InsertIntoParent` is the statements of
`splitFullParent` followed by `UnpinPage(new_node)`, `UnpinPage(temp)`, `DeletePage(temp)`,
the call for the parent and its new sibling, and the unpin of the parent. -/
theorem InsertIntoParent_full_unfold (t : BPlusTree) (fuel : Nat) (old_node : Nat) (key : Int)
    (new_node : Nat)
    (hroot : (t.buffer_pool_manager_.node old_node).IsRootPage = false)
    (hfull : ∀ (father : Nat) (b1 : BufferPoolManager),
      t.buffer_pool_manager_.fetchNode
        (t.buffer_pool_manager_.node old_node).parent_page_id_ = some (father, b1) →
      ¬ t.internal_max_size_ > (b1.node father).size_) :
    t.InsertIntoParent (fuel + 1) old_node key new_node =
      (t.splitFullParent (fuel + 1) old_node key new_node).bind (fun x =>
        (x.2.2.2.buffer_pool_manager_.UnpinPage
          (x.2.2.2.buffer_pool_manager_.node new_node).page_id_ true).bind (fun r9 =>
          (r9.2.UnpinPage (r9.2.node x.2.1).page_id_ false).bind (fun r10 =>
            (r10.2.DeletePage (r10.2.node x.2.1).page_id_).bind (fun r11 =>
              (BPlusTree.InsertIntoParent { x.2.2.2 with buffer_pool_manager_ := r11.2 } fuel
                x.1 ((r11.2.node x.2.2.1).KeyAt 0) x.2.2.1).bind (fun t2 =>
                (t2.buffer_pool_manager_.UnpinPage
                  (t2.buffer_pool_manager_.node x.1).page_id_ true).bind (fun r =>
                  some { t2 with buffer_pool_manager_ := r.2 })))))) := by
  rw [BPlusTree.InsertIntoParent, BPlusTree.splitFullParent]
  simp only [hroot, Bool.false_eq_true, if_false, Option.bind_eq_bind]
  cases e1 : t.buffer_pool_manager_.fetchNode
      (t.buffer_pool_manager_.node old_node).parent_page_id_ with
  | none => rfl
  | some x1 =>
    obtain ⟨father, b1⟩ := x1
    simp only [Option.some_bind, hfull father b1 e1, if_false, Option.bind_eq_bind]
    cases e2 : newTreePage (fuel + 1) b1 0 with
    | none => rfl
    | some x2 =>
      obtain ⟨⟨temp, page_id⟩, b2⟩ := x2
      simp only [Option.some_bind]
      simp only [Option.bind_assoc, Option.some_bind]

end MiniSql

namespace MiniSql

/-! ## The split of a full leaf: the state `InsertIntoParent` is called in -/

end MiniSql

